import Mathlib

/-!
# The cross-thread XCB event pump

A shallow embedding of `XcbEventQueue` (src/xcbeventqueue.h, src/xcbeventqueue.cpp)
and of the consumer side of `XcbConnection` (src/xcbconnection.cpp).

* Nodes live in an explicit store `mem : Nat → XcbEventNode`.  Addresses below
  `PoolSize` are the slots of the static array `qMNodePool`; the address of the
  node created by the k-th `new XcbEventNode` is `PoolSize + k`, where the
  field `heapAllocated` of the state counts the nodes created so far.
* Pointers are addresses, nullable pointers are `Option Nat`.
* A result `none` of an operation means that the source has no defined result
  there: a null pointer is dereferenced, or a loop does not come to an end
  within the number of node addresses that exist.
* `delete node` leaves the store as it is: a heap address is never handed out
  twice, and reads of a deleted node are not tracked.
* The reader thread and the consumer are interleaved at the granularity of the
  operations below; mutexes, wake-ups and the output of the logging macros are
  left out.  An operand of `qCDebug` that changes the state, the increment of
  `m_nodesOnHeap`, runs only while debug output of the category is enabled,
  which the field `lcQpaEventReader_isDebugEnabled` of the state records.
-/

set_option autoImplicit false

namespace XcbPump

/-! ## Event records -/

/-- The bytes of an `xcb_generic_event_t` that the pump reads, named after the
members of the typed structs the source casts the record to. -/
structure xcb_generic_event_t where
  /-- Member `response_type` (uint8_t). -/
  response_type : Nat
  /-- Member `sequence`. -/
  sequence : Nat
  /-- Member `window` of expose, client message and property notify records. -/
  window : Nat
  /-- Member `event` of configure, map, unmap, destroy and focus records. -/
  event : Nat
  /-- Member `format` of a client message. -/
  format : Nat
  /-- Member `type` of a client message. -/
  type : Nat
  /-- Member `data.data32[0]` of a client message. -/
  data32_0 : Nat
  /-- Member `time` (or `timestamp`) of selection records. -/
  time : Nat
  /-- Member `width`. -/
  width : Nat
  /-- Member `height`. -/
  height : Nat
deriving DecidableEq, Repr

/-- The value of `event->response_type & ~0x80` for a uint8_t response type. -/
def responseType (e : xcb_generic_event_t) : Nat := e.response_type % 256 % 128

def XCB_MOTION_NOTIFY : Nat := 6
def XCB_FOCUS_IN : Nat := 9
def XCB_FOCUS_OUT : Nat := 10
def XCB_EXPOSE : Nat := 12
def XCB_DESTROY_NOTIFY : Nat := 17
def XCB_UNMAP_NOTIFY : Nat := 18
def XCB_MAP_NOTIFY : Nat := 19
def XCB_CONFIGURE_NOTIFY : Nat := 22
def XCB_PROPERTY_NOTIFY : Nat := 28
def XCB_SELECTION_CLEAR : Nat := 29
def XCB_SELECTION_REQUEST : Nat := 30
def XCB_SELECTION_NOTIFY : Nat := 31
def XCB_CLIENT_MESSAGE : Nat := 33
def XCB_MAPPING_NOTIFY : Nat := 34
def XCB_GE_GENERIC : Nat := 35
def XCB_XFIXES_SELECTION_NOTIFY : Nat := 0
def XCB_INPUT_BUTTON_PRESS : Nat := 4
def XCB_INPUT_BUTTON_RELEASE : Nat := 5
def XCB_INPUT_MOTION : Nat := 6
def XCB_INPUT_ENTER : Nat := 7
def XCB_INPUT_LEAVE : Nat := 8
def XCB_CURRENT_TIME : Nat := 0

/-- The atoms of `XcbAtom::Atom` that the pump looks up. -/
inductive Atom where
  | WM_PROTOCOLS
  | WM_DELETE_WINDOW
  | _QT_CLOSE_CONNECTION
deriving DecidableEq, Repr

/-! ## Nodes and the queue -/

/-- Struct `XcbEventNode`. -/
structure XcbEventNode where
  event : Option xcb_generic_event_t
  next : Option Nat
  fromHeap : Bool

/-- Enumerator `XcbEventQueue::PoolSize`. -/
def PoolSize : Nat := 100

/-- Enum `XcbEventQueue::PeekOption`. -/
inductive PeekOption where
  | PeekDefault
  | PeekFromCachedIndex
  | PeekRetainMatch
  | PeekRemoveMatch
  | PeekRemoveMatchContinue
deriving DecidableEq, Repr

/-- The integer value of a `PeekOption` enumerator. -/
def PeekOption.toNat : PeekOption → Nat
  | .PeekDefault => 0
  | .PeekFromCachedIndex => 1
  | .PeekRetainMatch => 2
  | .PeekRemoveMatch => 3
  | .PeekRemoveMatchContinue => 4

/-- The call `QFlags::testFlag` on the integer `i` of a `PeekOptions` value. -/
def testFlag (i : Nat) (flag : PeekOption) : Bool :=
  (i &&& flag.toNat == flag.toNat) && (flag.toNat != 0 || i == flag.toNat)

/-- The data members of `XcbEventQueue` together with the node store. -/
structure XcbEventQueue where
  /-- Node store: `qMNodePool` at the addresses below `PoolSize`, heap above. -/
  mem : Nat → XcbEventNode
  m_head : Nat
  m_flushedTail : Nat
  m_tail : Nat
  m_nodesRestored : Nat
  m_closeConnectionDetected : Bool
  m_freeNodes : Nat
  m_poolIndex : Nat
  m_peekerIdSource : Int
  m_queueModified : Bool
  m_peekerIndexCacheDirty : Bool
  /-- The hash `m_peekerToNode`, one entry per key. -/
  m_peekerToNode : List (Int × Option Nat)
  m_inputEvents : List xcb_generic_event_t
  /-- Not a member of the class: the number of nodes that `new XcbEventNode`
  has returned so far.  The next heap node gets the address
  `PoolSize + heapAllocated`. -/
  heapAllocated : Nat
  /-- The member `m_nodesOnHeap`, a `quint64`. -/
  m_nodesOnHeap : Nat
  /-- Whether debug output of the logging category `lcQpaEventReader` is
  enabled.  `qCDebug` evaluates the operands of its stream only then; the
  category is off unless the logging rules of the application enable it. -/
  lcQpaEventReader_isDebugEnabled : Bool

/-- The parts of `XcbConnection` that the pump reads.  The functions
`isXIEvent`, `isXIType`, `isXFixesType` and the atom table are defined outside
the files at hand and are taken as parameters, as are the virtual
`handleNativeEvent` of the listeners, the native event filter of the
dispatcher and the clipboard. -/
structure XcbConnection where
  atom : Atom → Nat
  isXIEvent : xcb_generic_event_t → Bool
  isXIType : xcb_generic_event_t → Nat → Bool
  isXFixesType : Nat → Nat → Bool
  /-- The value of `xcb_connection_has_error`. -/
  connection_error : Nat
  /-- The attribute `Qt::AA_CompressHighFrequencyEvents`. -/
  compressHighFrequencyEvents : Bool
  /-- The filter `filterNativeEvent` of `QAbstractEventDispatcher::instance()`,
  absent when there is no dispatcher. -/
  filterNativeEvent : Option (xcb_generic_event_t → Bool)
  /-- The virtual `handleNativeEvent` of the listener with the given address. -/
  handleNativeEvent : Nat → xcb_generic_event_t → Bool
  /-- The result of `m_clipboard->handlePropertyNotify`. -/
  clipboardHandlePropertyNotify : xcb_generic_event_t → Bool
  /-- The hash `m_mapper` from window ids to listener pointers. -/
  m_mapper : List (Nat × Option Nat)
  m_time : Nat
  m_netWmUserTime : Nat

namespace XcbConnection

/-- Method `XcbConnection::timeGreaterThan` on 32-bit timestamps:
`static_cast<int32_t>(a - b) > 0 || b == XCB_CURRENT_TIME`. -/
def timeGreaterThan (a b : Nat) : Bool :=
  let d := (a % 2 ^ 32 + 2 ^ 32 - b % 2 ^ 32) % 2 ^ 32
  (decide (0 < d) && decide (d < 2 ^ 31)) || b == XCB_CURRENT_TIME

/-- Method `XcbConnection::setTime`. -/
def setTime (c : XcbConnection) (t : Nat) : XcbConnection :=
  if timeGreaterThan t c.m_time then { c with m_time := t } else c

/-- Method `XcbConnection::setNetWmUserTime`. -/
def setNetWmUserTime (c : XcbConnection) (t : Nat) : XcbConnection :=
  if timeGreaterThan t c.m_netWmUserTime then { c with m_netWmUserTime := t } else c

/-- Method `XcbConnection::isUserInputEvent`. -/
def isUserInputEvent (c : XcbConnection) (event : xcb_generic_event_t) : Bool :=
  let eventType := responseType event
  let isInputEvent := c.isXIType event XCB_INPUT_BUTTON_PRESS ||
    c.isXIType event XCB_INPUT_BUTTON_RELEASE ||
    c.isXIType event XCB_INPUT_MOTION ||
    c.isXIType event XCB_INPUT_ENTER ||
    c.isXIType event XCB_INPUT_LEAVE
  if isInputEvent then true
  else if eventType = XCB_CLIENT_MESSAGE then
    if event.format = 32 ∧ event.type = c.atom Atom.WM_PROTOCOLS then
      if event.data32_0 = c.atom Atom.WM_DELETE_WINDOW then true else isInputEvent
    else isInputEvent
  else isInputEvent

/-- Method `XcbConnection::addWindowEventListener`: `QHash::insert` replaces
the value of a key that is present. -/
def addWindowEventListener (c : XcbConnection) (id : Nat) (eventListener : Option Nat) :
    XcbConnection :=
  { c with m_mapper := (id, eventListener) :: c.m_mapper.filter (fun p => p.1 != id) }

/-- Method `XcbConnection::removeWindowEventListener`. -/
def removeWindowEventListener (c : XcbConnection) (id : Nat) : XcbConnection :=
  { c with m_mapper := c.m_mapper.filter (fun p => p.1 != id) }

/-- Method `XcbConnection::windowEventListenerFromId`: `m_mapper.value(id, nullptr)`. -/
def windowEventListenerFromId (c : XcbConnection) (id : Nat) : Option Nat :=
  match c.m_mapper.lookup id with
  | some l => l
  | none => none

end XcbConnection

namespace XcbEventQueue

/-- Store `v` at address `a`. -/
def store (q : XcbEventQueue) (a : Nat) (v : XcbEventNode) : XcbEventQueue :=
  { q with mem := fun b => if b = a then v else q.mem b }

/-- The assignment `node->event = ev`. -/
def setEvent (q : XcbEventQueue) (a : Nat) (ev : Option xcb_generic_event_t) :
    XcbEventQueue :=
  q.store a { q.mem a with event := ev }

/-- The assignment `node->next = n`. -/
def setNext (q : XcbEventQueue) (a : Nat) (n : Option Nat) : XcbEventQueue :=
  q.store a { q.mem a with next := n }

/-- Bound on the length of a walk along `next`: the number of node addresses
handed out so far, plus one. -/
def fuel (q : XcbEventQueue) : Nat := PoolSize + q.heapAllocated + 1

/-- Method `XcbEventQueue::isEmpty`. -/
def isEmpty (q : XcbEventQueue) : Bool :=
  q.m_head == q.m_flushedTail && (q.mem q.m_head).event.isNone

/-- Method `XcbEventQueue::qMEventNodeFactory`: the address of the node and
the new state.  The increment of `m_nodesOnHeap` is an operand of
`qCDebug(lcQpaEventReader)` and runs only while debug output is enabled. -/
def qMEventNodeFactory (q : XcbEventQueue) (event : Option xcb_generic_event_t) :
    Nat × XcbEventQueue :=
  let q1 := if q.m_freeNodes = 0
    then { q with m_freeNodes := q.m_nodesRestored, m_nodesRestored := 0 }
    else q
  if q1.m_freeNodes ≠ 0 then
    let q2 := { q1 with m_freeNodes := q1.m_freeNodes - 1 }
    let q3 := if q2.m_poolIndex = PoolSize then { q2 with m_poolIndex := 0 } else q2
    let node := q3.m_poolIndex
    let q4 := { q3 with m_poolIndex := q3.m_poolIndex + 1 }
    (node, (q4.setEvent node event).setNext node none)
  else
    let node := PoolSize + q1.heapAllocated
    let q2 := q1.store node { event := event, next := none, fromHeap := false }
    let q3 := q2.store node { q2.mem node with fromHeap := true }
    let q4 := { q3 with heapAllocated := q3.heapAllocated + 1 }
    (node, if q4.lcQpaEventReader_isDebugEnabled
      then { q4 with m_nodesOnHeap := (q4.m_nodesOnHeap + 1) % 2 ^ 64 }
      else q4)

/-- The node store before the constructor runs: `qMNodePool` is
zero-initialised static storage. -/
def emptyNode : XcbEventNode := { event := none, next := none, fromHeap := false }

/-- The member initialisers of `XcbEventQueue`. -/
def initial : XcbEventQueue where
  mem := fun _ => emptyNode
  m_head := 0
  m_flushedTail := 0
  m_tail := 0
  m_nodesRestored := 0
  m_closeConnectionDetected := false
  m_freeNodes := PoolSize
  m_poolIndex := 0
  m_peekerIdSource := 0
  m_queueModified := false
  m_peekerIndexCacheDirty := false
  m_peekerToNode := []
  m_inputEvents := []
  heapAllocated := 0
  m_nodesOnHeap := 0
  lcQpaEventReader_isDebugEnabled := false

/-- The constructor `XcbEventQueue::XcbEventQueue`: the list starts with one
node without a record. -/
def new : XcbEventQueue :=
  let r := initial.qMEventNodeFactory none
  { r.2 with m_head := r.1, m_flushedTail := r.1, m_tail := r.1 }

/-- The constructor in an application whose logging rules enable, or do not
enable, debug output of `lcQpaEventReader`. -/
def newDebug (debug : Bool) : XcbEventQueue :=
  { new with lcQpaEventReader_isDebugEnabled := debug }

/-- Method `XcbEventQueue::flushBufferedEvents`. -/
def flushBufferedEvents (q : XcbEventQueue) : XcbEventQueue :=
  { q with m_flushedTail := q.m_tail }

/-- Method `XcbEventQueue::dequeueNode`.  With a null `next` the head pointer
becomes null and the source has no defined continuation. -/
def dequeueNode (q : XcbEventQueue) : Option XcbEventQueue :=
  let node := q.m_head
  match (q.mem node).next with
  | none => none
  | some n =>
    let q1 := { q with m_head := n }
    if (q1.mem node).fromHeap then some q1
    else some { q1 with m_nodesRestored := q1.m_nodesRestored + 1 }

/-- The do-while loop of `XcbEventQueue::takeFirst()`. -/
def takeFirstLoop : Nat → XcbEventQueue → Option (Option xcb_generic_event_t × XcbEventQueue)
  | 0, _ => none
  | fuel + 1, q =>
    let event := (q.mem q.m_head).event
    if q.m_head = q.m_flushedTail then
      let q1 := if event.isSome then q.setEvent q.m_head none else q
      if !q1.isEmpty && event.isNone then takeFirstLoop fuel q1 else some (event, q1)
    else
      match q.dequeueNode with
      | none => none
      | some q1 =>
        if !q1.isEmpty && event.isNone then takeFirstLoop fuel q1 else some (event, q1)

/-- Method `XcbEventQueue::takeFirst()`. -/
def takeFirst (q : XcbEventQueue) : Option (Option xcb_generic_event_t × XcbEventQueue) :=
  if q.isEmpty then some (none, q)
  else
    match takeFirstLoop q.fuel q with
    | none => none
    | some (event, q1) =>
      some (event, { q1 with m_queueModified := true, m_peekerIndexCacheDirty := true })

/-- Method `XcbEventQueue::isCloseConnectionEvent`, for a non-null record. -/
def isCloseConnectionEvent (c : XcbConnection) (q : XcbEventQueue)
    (event : xcb_generic_event_t) : Bool × XcbEventQueue :=
  let q1 := if responseType event = XCB_CLIENT_MESSAGE then
      if event.type = c.atom Atom._QT_CLOSE_CONNECTION
      then { q with m_closeConnectionDetected := true } else q
    else q
  (q1.m_closeConnectionDetected, q1)

/-- The lambda `enqueueEvent` of `XcbEventQueue::run`; the first component of
the state is the local variable `tail` that the lambda captures by reference. -/
def enqueueEvent (c : XcbConnection) (s : Nat × XcbEventQueue)
    (event : xcb_generic_event_t) : Nat × XcbEventQueue :=
  let r := isCloseConnectionEvent c s.2 event
  if !r.1 then
    let f := r.2.qMEventNodeFactory (some event)
    let q1 := f.2.setNext s.1 (some f.1)
    (f.1, { q1 with m_tail := f.1 })
  else
    (s.1, r.2)

/-- The inner loop of `XcbEventQueue::run` over the records that
`xcb_poll_for_queued_event` returns before it returns null. -/
def pollLoop (c : XcbConnection) :
    Nat × XcbEventQueue → List xcb_generic_event_t → Nat × XcbEventQueue
  | s, [] => s
  | s, event :: rest =>
    if s.2.m_closeConnectionDetected then s
    else pollLoop c (enqueueEvent c s event) rest

/-- The outer loop of `XcbEventQueue::run`.  Every element of the input is one
record returned by `xcb_wait_for_event` followed by the records polled after
it; when the input ends `xcb_wait_for_event` returns null. -/
def runLoop (c : XcbConnection) :
    Nat × XcbEventQueue → List (xcb_generic_event_t × List xcb_generic_event_t) →
      Nat × XcbEventQueue
  | s, [] => s
  | s, (event, polled) :: rest =>
    if s.2.m_closeConnectionDetected then s
    else runLoop c (pollLoop c (enqueueEvent c s event) polled) rest

/-- Method `XcbEventQueue::run`. -/
def run (c : XcbConnection) (q : XcbEventQueue)
    (input : List (xcb_generic_event_t × List xcb_generic_event_t)) : XcbEventQueue :=
  (runLoop c (q.m_head, q) input).2

/-- The while loop of `takeFirst(flags)` when user input is excluded. -/
def takeFirstExcludeLoop (c : XcbConnection) :
    Nat → XcbEventQueue → Option (Option xcb_generic_event_t × XcbEventQueue)
  | 0, _ => none
  | fuel + 1, q =>
    match q.takeFirst with
    | none => none
    | some (none, q1) => some (none, q1)
    | some (some event, q1) =>
      if c.isUserInputEvent event then
        takeFirstExcludeLoop c fuel { q1 with m_inputEvents := q1.m_inputEvents ++ [event] }
      else some (some event, q1)

/-- Method `XcbEventQueue::takeFirst(QEventLoop::ProcessEventsFlags)`; the
argument is `flags.testFlag(QEventLoop::ExcludeUserInputEvents)`. -/
def takeFirstFlags (c : XcbConnection) (excludeUserInputEvents : Bool)
    (q : XcbEventQueue) : Option (Option xcb_generic_event_t × XcbEventQueue) :=
  if excludeUserInputEvents then takeFirstExcludeLoop c q.fuel q
  else
    match q.m_inputEvents with
    | event :: rest => some (some event, { q with m_inputEvents := rest })
    | [] => q.takeFirst

/-- The loop of the destructor, `while (event = takeFirst(QEventLoop::AllEvents))
free(event)`; the result lists the records returned, in order. -/
def drainLoop (c : XcbConnection) :
    Nat → List xcb_generic_event_t → XcbEventQueue →
      Option (List xcb_generic_event_t × XcbEventQueue)
  | 0, _, _ => none
  | fuel + 1, taken, q =>
    match q.takeFirstFlags c false with
    | none => none
    | some (none, q1) => some (taken, q1)
    | some (some event, q1) => drainLoop c fuel (taken ++ [event]) q1

/-- The drain of `XcbEventQueue::~XcbEventQueue` once the reader has stopped:
`flushBufferedEvents()`, then `takeFirst` until it returns null.  The loop is
bounded by the number of records that the list and the side buffer can hold. -/
def drain (c : XcbConnection) (q : XcbEventQueue) :
    Option (List xcb_generic_event_t × XcbEventQueue) :=
  let q1 := q.flushBufferedEvents
  drainLoop c (q1.fuel + q1.m_inputEvents.length) [] q1

/-- The do-while loop of the template `XcbEventQueue::peek`. -/
def peekLoop (option : PeekOption) (peeker : xcb_generic_event_t → Nat → Bool) :
    Nat → Nat → XcbEventQueue → Option (Option xcb_generic_event_t × XcbEventQueue)
  | 0, _, _ => none
  | fuel + 1, node, q =>
    let next := fun (q1 : XcbEventQueue) =>
      if node = q1.m_flushedTail then some (none, q1)
      else
        match (q1.mem node).next with
        | none => none
        | some n => peekLoop option peeker fuel n q1
    match (q.mem node).event with
    | some event =>
      if peeker event (responseType event) then
        let q1 := if option = PeekOption.PeekRemoveMatch ∨
            option = PeekOption.PeekRemoveMatchContinue
          then q.setEvent node none else q
        if option ≠ PeekOption.PeekRemoveMatchContinue then some (some event, q1)
        else next q1
      else next q
    | none => next q

/-- The template `XcbEventQueue::peek(PeekOption, Peeker)`. -/
def peek (q : XcbEventQueue) (option : PeekOption)
    (peeker : xcb_generic_event_t → Nat → Bool) :
    Option (Option xcb_generic_event_t × XcbEventQueue) :=
  let q1 := q.flushBufferedEvents
  if q1.isEmpty then some (none, q1)
  else peekLoop option peeker q1.fuel q1.m_head q1

/-- The overload `XcbEventQueue::peek(Peeker)`, which forwards to
`peek(PeekRemoveMatch, peeker)`. -/
def peekDefault (q : XcbEventQueue) (peeker : xcb_generic_event_t → Nat → Bool) :
    Option (Option xcb_generic_event_t × XcbEventQueue) :=
  q.peek PeekOption.PeekRemoveMatch peeker

/-- Method `XcbEventQueue::generatePeekerId`.  The counter is a `qint32` in the
source and an unbounded integer here: the two agree as long as the counter is
below `2 ^ 31 - 1`, beyond which the increment in the source is undefined. -/
def generatePeekerId (q : XcbEventQueue) : Int × XcbEventQueue :=
  let peekerId := q.m_peekerIdSource
  (peekerId, { q with
    m_peekerIdSource := q.m_peekerIdSource + 1,
    m_peekerToNode := (peekerId, none) :: q.m_peekerToNode.filter (fun p => p.1 != peekerId) })

/-- Method `XcbEventQueue::removePeekerId`. -/
def removePeekerId (q : XcbEventQueue) (peekerId : Int) : Bool × XcbEventQueue :=
  match q.m_peekerToNode.lookup peekerId with
  | none => (false, q)
  | some _ =>
    let q1 := { q with m_peekerToNode := q.m_peekerToNode.filter (fun p => p.1 != peekerId) }
    if q1.m_peekerToNode.isEmpty
    then (true, { q1 with m_peekerIdSource := 0, m_peekerIndexCacheDirty := false })
    else (true, q1)

/-- The do-while loop of `XcbEventQueue::peekEventQueue`.  The callback may
re-enter the queue, so it maps the state to a new state.  The result holds the
value of `result`, the final value of `node` and the state. -/
def peekEventQueueLoop
    (peeker : xcb_generic_event_t → XcbEventQueue → Bool × XcbEventQueue) :
    Nat → Nat → XcbEventQueue → Option (Bool × Option Nat × XcbEventQueue)
  | 0, _, _ => none
  | fuel + 1, node, q =>
    let next := fun (q1 : XcbEventQueue) =>
      if node = q1.m_flushedTail then some (false, some node, q1)
      else
        match (q1.mem node).next with
        | none => if q1.m_queueModified then some (false, none, q1) else none
        | some n =>
          if !q1.m_queueModified then peekEventQueueLoop peeker fuel n q1
          else some (false, some n, q1)
    match (q.mem node).event with
    | some event =>
      let r := peeker event q
      if r.1 then some (true, some node, r.2) else next r.2
    | none => next q

/-- Method `XcbEventQueue::peekEventQueue`; `option` is the integer of the
`PeekOptions` flags and `peekerId` is -1 when no id is given. -/
def peekEventQueue (q : XcbEventQueue)
    (peeker : xcb_generic_event_t → XcbEventQueue → Bool × XcbEventQueue)
    (option : Nat) (peekerId : Int) : Option (Bool × XcbEventQueue) :=
  let peekerIdProvided := peekerId != -1
  if peekerIdProvided && (q.m_peekerToNode.lookup peekerId).isNone then some (false, q)
  else
    let useCache := testFlag option PeekOption.PeekFromCachedIndex
    if useCache && !peekerIdProvided then some (false, q)
    else
      let q1 := if peekerIdProvided && q.m_peekerIndexCacheDirty
        then { q with
          m_peekerToNode := q.m_peekerToNode.map (fun p => (p.1, none)),
          m_peekerIndexCacheDirty := false }
        else q
      let q2 := q1.flushBufferedEvents
      if q2.isEmpty then some (false, q2)
      else
        let startNode : Option Nat :=
          if useCache then
            match q2.m_peekerToNode.lookup peekerId with
            | some (some cachedNode) =>
              if cachedNode = q2.m_flushedTail then none else (q2.mem cachedNode).next
            | _ => some q2.m_head
          else some q2.m_head
        match startNode with
        | none => some (false, q2)
        | some start =>
          let q3 := { q2 with m_queueModified := false }
          match peekEventQueueLoop peeker q3.fuel start q3 with
          | none => none
          | some (result, node, q4) =>
            if peekerIdProvided && node != some start && !q4.m_queueModified then
              match q4.m_peekerToNode.lookup peekerId with
              | some _ =>
                some (result, { q4 with
                  m_peekerToNode := q4.m_peekerToNode.map
                    (fun p => if p.1 = peekerId then (p.1, node) else p) })
              | none => some (result, q4)
            else some (result, q4)

end XcbEventQueue

/-! ## The connection dispatcher -/

/-- The typed virtual handlers of `MWindowEventListener`. -/
inductive Handler where
  | handleExposeEvent
  | handleClientMessageEvent
  | handleConfigureNotifyEvent
  | handleMapNotifyEvent
  | handleUnmapNotifyEvent
  | handleDestroyNotifyEvent
  | handleFocusInEvent
  | handleFocusOutEvent
  | handlePropertyNotifyEvent
deriving DecidableEq, Repr

/-- The calls that a drain cycle makes on its collaborators, in the order in
which they are made. -/
inductive Call where
  /-- Call of `handleXcbError` in `processXcbEvents`. -/
  | handleXcbError (event : xcb_generic_event_t)
  /-- Call of `handleXcbEvent` in `processXcbEvents`. -/
  | handleXcbEvent (event : xcb_generic_event_t)
  /-- Call of `handleNativeEvent` on a listener. -/
  | handleNativeEvent (listener : Nat) (event : xcb_generic_event_t)
  /-- Call of a typed handler on a listener. -/
  | windowEvent (listener : Nat) (handler : Handler) (event : xcb_generic_event_t)
  | handleSelectionRequest (event : xcb_generic_event_t)
  | handleSelectionClearRequest (event : xcb_generic_event_t)
  | handleXFixesSelectionRequest (event : xcb_generic_event_t)
  | xi2HandleEvent (event : xcb_generic_event_t)
deriving DecidableEq, Repr

namespace XcbConnection

/-- The body of the preprocessor definition `HANDLE_PLATFORM_WINDOW_EVENT` for
the window id read from the member `windowMember`. -/
def handlePlatformWindowEvent (c : XcbConnection) (event : xcb_generic_event_t)
    (windowMember : Nat) (handler : Handler) : List Call :=
  match c.windowEventListenerFromId windowMember with
  | some eventListener =>
    if c.handleNativeEvent eventListener event
    then [Call.handleNativeEvent eventListener event]
    else [Call.handleNativeEvent eventListener event,
      Call.windowEvent eventListener handler event]
  | none => []

/-- Method `XcbConnection::handleXcbEvent`: the calls made and the connection
afterwards. -/
def handleXcbEvent (c : XcbConnection) (event : xcb_generic_event_t) :
    List Call × XcbConnection :=
  let filtered := match c.filterNativeEvent with
    | some f => f event
    | none => false
  if filtered then ([], c)
  else
    let response_type := responseType event
    if response_type = XCB_EXPOSE then
      (handlePlatformWindowEvent c event event.window Handler.handleExposeEvent, c)
    else if response_type = XCB_CONFIGURE_NOTIFY then
      (handlePlatformWindowEvent c event event.event Handler.handleConfigureNotifyEvent, c)
    else if response_type = XCB_MAP_NOTIFY then
      (handlePlatformWindowEvent c event event.event Handler.handleMapNotifyEvent, c)
    else if response_type = XCB_UNMAP_NOTIFY then
      (handlePlatformWindowEvent c event event.event Handler.handleUnmapNotifyEvent, c)
    else if response_type = XCB_DESTROY_NOTIFY then
      (handlePlatformWindowEvent c event event.event Handler.handleDestroyNotifyEvent, c)
    else if response_type = XCB_CLIENT_MESSAGE then
      if event.format ≠ 32 then ([], c)
      else (handlePlatformWindowEvent c event event.window Handler.handleClientMessageEvent, c)
    else if response_type = XCB_FOCUS_IN then
      (handlePlatformWindowEvent c event event.event Handler.handleFocusInEvent, c)
    else if response_type = XCB_FOCUS_OUT then
      (handlePlatformWindowEvent c event event.event Handler.handleFocusOutEvent, c)
    else if response_type = XCB_MAPPING_NOTIFY then ([], c)
    else if response_type = XCB_SELECTION_REQUEST then
      ([Call.handleSelectionRequest event], c)
    else if response_type = XCB_SELECTION_CLEAR then
      ([Call.handleSelectionClearRequest event], c.setTime event.time)
    else if response_type = XCB_SELECTION_NOTIFY then ([], c.setTime event.time)
    else if response_type = XCB_PROPERTY_NOTIFY then
      if c.clipboardHandlePropertyNotify event then ([], c)
      else (handlePlatformWindowEvent c event event.window Handler.handlePropertyNotifyEvent, c)
    else if response_type = XCB_GE_GENERIC then
      if c.isXIEvent event then ([Call.xi2HandleEvent event], c) else ([], c)
    else if c.isXFixesType response_type XCB_XFIXES_SELECTION_NOTIFY then
      ([Call.handleXFixesSelectionRequest event], c.setTime event.time)
    else ([], c)

/-- Method `XcbConnection::compressEvent`; the queue is part of the result
because `peek` flushes. -/
def compressEvent (c : XcbConnection) (q : XcbEventQueue) (event : xcb_generic_event_t) :
    Option (Bool × XcbEventQueue) :=
  if !c.compressHighFrequencyEvents then some (false, q)
  else
    let responseType := responseType event
    if responseType = XCB_MOTION_NOTIFY then
      (q.peek PeekOption.PeekRetainMatch
        (fun _ type => type == XCB_MOTION_NOTIFY)).map (fun r => (r.1.isSome, r.2))
    else if responseType = XCB_GE_GENERIC then
      if c.isXIType event XCB_INPUT_MOTION then
        (q.peek PeekOption.PeekRetainMatch
          (fun next _ => c.isXIType next XCB_INPUT_MOTION)).map (fun r => (r.1.isSome, r.2))
      else some (false, q)
    else if responseType = XCB_CONFIGURE_NOTIFY then
      (q.peek PeekOption.PeekRetainMatch
        (fun next type =>
          if type ≠ XCB_CONFIGURE_NOTIFY then false
          else event.event == next.event)).map (fun r => (r.1.isSome, r.2))
    else some (false, q)

/-- The while loop of `XcbConnection::processXcbEvents`; `calls` collects the
calls made so far. -/
def processLoop (excludeUserInputEvents : Bool) :
    Nat → List Call → XcbConnection → XcbEventQueue →
      Option (List Call × XcbConnection × XcbEventQueue)
  | 0, _, _, _ => none
  | fuel + 1, calls, c, q =>
    match q.takeFirstFlags c excludeUserInputEvents with
    | none => none
    | some (none, q1) => some (calls, c, q1)
    | some (some event, q1) =>
      if responseType event = 0 then
        processLoop excludeUserInputEvents fuel (calls ++ [Call.handleXcbError event]) c q1
      else
        match c.compressEvent q1 event with
        | none => none
        | some (true, q2) => processLoop excludeUserInputEvents fuel calls c q2
        | some (false, q2) =>
          let r := c.handleXcbEvent event
          processLoop excludeUserInputEvents fuel
            (calls ++ Call.handleXcbEvent event :: r.1) r.2 q2.flushBufferedEvents

/-- Method `XcbConnection::processXcbEvents`.  A broken connection ends the
process (`exit(1)`), which is a result `none` here.  The loop is bounded by
the number of records that the list and the side buffer can hold. -/
def processXcbEvents (c : XcbConnection) (q : XcbEventQueue)
    (excludeUserInputEvents : Bool) : Option (List Call × XcbConnection × XcbEventQueue) :=
  if c.connection_error ≠ 0 then none
  else
    let q1 := q.flushBufferedEvents
    processLoop excludeUserInputEvents (q1.fuel + q1.m_inputEvents.length) [] c q1

end XcbConnection

/-! ## Error reporting -/

/-- The members of an `xcb_generic_error_t` that `printXcbError` reads. -/
structure xcb_generic_error_t where
  /-- Member `error_code` (uint8_t). -/
  error_code : Nat
  /-- Member `sequence` (uint16_t). -/
  sequence : Nat
  /-- Member `resource_id` (uint32_t). -/
  resource_id : Nat
  /-- Member `minor_code` (uint16_t). -/
  minor_code : Nat
  /-- Member `major_code` (uint8_t). -/
  major_code : Nat
deriving DecidableEq, Repr

/-- The table `xcb_errors` of src/xcbconnection.cpp. -/
def xcb_errors : List String :=
  ["Success", "BadRequest", "BadValue", "BadWindow", "BadPixmap", "BadAtom", "BadCursor",
   "BadFont", "BadMatch", "BadDrawable", "BadAccess", "BadAlloc", "BadColor", "BadGC",
   "BadIDChoice", "BadName", "BadLength", "BadImplementation", "Unknown"]

/-- The table `xcb_protocol_request_codes` of src/xcbconnection.cpp. -/
def xcb_protocol_request_codes : List String :=
  ["Null", "CreateWindow", "ChangeWindowAttributes", "GetWindowAttributes", "DestroyWindow",
   "DestroySubwindows", "ChangeSaveSet", "ReparentWindow", "MapWindow", "MapSubwindows",
   "UnmapWindow", "UnmapSubwindows", "ConfigureWindow", "CirculateWindow", "GetGeometry",
   "QueryTree", "InternAtom", "GetAtomName", "ChangeProperty", "DeleteProperty", "GetProperty",
   "ListProperties", "SetSelectionOwner", "GetSelectionOwner", "ConvertSelection", "SendEvent",
   "GrabPointer", "UngrabPointer", "GrabButton", "UngrabButton", "ChangeActivePointerGrab",
   "GrabKeyboard", "UngrabKeyboard", "GrabKey", "UngrabKey", "AllowEvents", "GrabServer",
   "UngrabServer", "QueryPointer", "GetMotionEvents", "TranslateCoords", "WarpPointer",
   "SetInputFocus", "GetInputFocus", "QueryKeymap", "OpenFont", "CloseFont", "QueryFont",
   "QueryTextExtents", "ListFonts", "ListFontsWithInfo", "SetFontPath", "GetFontPath",
   "CreatePixmap", "FreePixmap", "CreateGC", "ChangeGC", "CopyGC", "SetDashes",
   "SetClipRectangles", "FreeGC", "ClearArea", "CopyArea", "CopyPlane", "PolyPoint",
   "PolyLine", "PolySegment", "PolyRectangle", "PolyArc", "FillPoly", "PolyFillRectangle",
   "PolyFillArc", "PutImage", "GetImage", "PolyText8", "PolyText16", "ImageText8",
   "ImageText16", "CreateColormap", "FreeColormap", "CopyColormapAndFree", "InstallColormap",
   "UninstallColormap", "ListInstalledColormaps", "AllocColor", "AllocNamedColor",
   "AllocColorCells", "AllocColorPlanes", "FreeColors", "StoreColors", "StoreNamedColor",
   "QueryColors", "LookupColor", "CreateCursor", "CreateGlyphCursor", "FreeCursor",
   "RecolorCursor", "QueryBestSize", "QueryExtension", "ListExtensions",
   "ChangeKeyboardMapping", "GetKeyboardMapping", "ChangeKeyboardControl",
   "GetKeyboardControl", "Bell", "ChangePointerControl", "GetPointerControl", "SetScreenSaver",
   "GetScreenSaver", "ChangeHosts", "ListHosts", "SetAccessControl", "SetCloseDownMode",
   "KillClient", "RotateProperties", "ForceScreenSaver", "SetPointerMapping",
   "GetPointerMapping", "SetModifierMapping", "GetModifierMapping", "Unknown"]

namespace XcbConnection

/-- Method `XcbConnection::printXcbError`: the arguments of the warning that is
logged, in the order of the format string after the message: error code,
error name, sequence, resource id, major code, request name, minor code.  The
two codes are bytes.  A result `none` stands for a read past the end of a
table. -/
def printXcbError (message : String) (error : xcb_generic_error_t) :
    Option (String × Nat × String × Nat × Nat × Nat × String × Nat) :=
  let clamped_error_code := min (error.error_code % 256) (xcb_errors.length - 1)
  let clamped_major_code :=
    min (error.major_code % 256) (xcb_protocol_request_codes.length - 1)
  match xcb_errors[clamped_error_code]?, xcb_protocol_request_codes[clamped_major_code]? with
  | some errorName, some requestName =>
    some (message, error.error_code % 256, errorName, error.sequence, error.resource_id,
      error.major_code % 256, requestName, error.minor_code)
  | _, _ => none

end XcbConnection

/-! ## Well-formed states -/

/-- The nodes `l` follow the node `a` along `next`, and `b` is the last node
of `a :: l`. -/
def Seg (mem : Nat → XcbEventNode) : Nat → List Nat → Nat → Prop
  | a, [], b => a = b
  | a, x :: l, b => (mem a).next = some x ∧ Seg mem x l b

/-- The records held by the nodes `l`, in list order. -/
def eventsOf (mem : Nat → XcbEventNode) (l : List Nat) : List xcb_generic_event_t :=
  l.filterMap (fun a => (mem a).event)

/-- The number of pool nodes among `l`. -/
def poolCount (mem : Nat → XcbEventNode) (l : List Nat) : Nat :=
  (l.filter (fun a => !(mem a).fromHeap)).length

/-- A well-formed queue: `l1` are the nodes after the head up to
`m_flushedTail`, `l2` the nodes after `m_flushedTail` up to `m_tail`, no node
occurs twice and every node has an address that was handed out. -/
structure WF (q : XcbEventQueue) (l1 l2 : List Nat) : Prop where
  vis : Seg q.mem q.m_head l1 q.m_flushedTail
  pend : Seg q.mem q.m_flushedTail l2 q.m_tail
  nodup : (q.m_head :: (l1 ++ l2)).Nodup
  bound : ∀ a ∈ q.m_head :: (l1 ++ l2), a < PoolSize + q.heapAllocated

/-- The state `q2` differs from `q1` at most in the head pointer, the records
of the nodes, the restored counter, the two modification flags and the side
buffer. -/
structure SameLinks (q1 q2 : XcbEventQueue) : Prop where
  flushedTail : q2.m_flushedTail = q1.m_flushedTail
  tail : q2.m_tail = q1.m_tail
  closeConnectionDetected : q2.m_closeConnectionDetected = q1.m_closeConnectionDetected
  freeNodes : q2.m_freeNodes = q1.m_freeNodes
  poolIndex : q2.m_poolIndex = q1.m_poolIndex
  peekerIdSource : q2.m_peekerIdSource = q1.m_peekerIdSource
  peekerToNode : q2.m_peekerToNode = q1.m_peekerToNode
  heapAllocated : q2.heapAllocated = q1.heapAllocated
  nodesOnHeap : q2.m_nodesOnHeap = q1.m_nodesOnHeap
  isDebugEnabled :
    q2.lcQpaEventReader_isDebugEnabled = q1.lcQpaEventReader_isDebugEnabled
  next : ∀ a, (q2.mem a).next = (q1.mem a).next
  fromHeap : ∀ a, (q2.mem a).fromHeap = (q1.mem a).fromHeap

/-- What the member `m_nodesOnHeap` of a queue holds that started with the
value 0: the number of heap nodes allocated so far, modulo `2 ^ 64`, while
debug output of `lcQpaEventReader` is enabled, and 0 while it is not. -/
def NodesOnHeapInv (q : XcbEventQueue) : Prop :=
  q.m_nodesOnHeap =
    if q.lcQpaEventReader_isDebugEnabled then q.heapAllocated % 2 ^ 64 else 0

/-- The condition under which `isCloseConnectionEvent` raises the stop flag:
the record is a client message whose type is the atom `_QT_CLOSE_CONNECTION`. -/
def isCloseSentinel (c : XcbConnection) (e : xcb_generic_event_t) : Bool :=
  responseType e == XCB_CLIENT_MESSAGE && e.type == c.atom Atom._QT_CLOSE_CONNECTION

/-- The records that `xcb_wait_for_event` and `xcb_poll_for_queued_event` hand
to the reader, in the order in which it reads them. -/
def incoming (input : List (xcb_generic_event_t × List xcb_generic_event_t)) :
    List xcb_generic_event_t :=
  (input.map (fun b => b.1 :: b.2)).flatten

/-- The state of a queue to which the reader has appended the records `es`
while the consumer has neither flushed nor taken anything since construction:
the i-th record sits in the node at address `i`, behind the initial node at
address 0. -/
structure Appended (q : XcbEventQueue) (es : List xcb_generic_event_t) : Prop where
  head : q.m_head = 0
  flushedTail : q.m_flushedTail = 0
  tail : q.m_tail = es.length
  next : ∀ i, i < es.length → (q.mem i).next = some (i + 1)
  headEvent : (q.mem 0).event = none
  events : ∀ i, i < es.length → (q.mem (i + 1)).event = es[i]?
  fromHeap : ∀ i, i ≤ es.length → (q.mem i).fromHeap = decide (PoolSize ≤ i)
  poolFromHeap : ∀ i, i < PoolSize → (q.mem i).fromHeap = false
  freeNodes : q.m_freeNodes = PoolSize - 1 - es.length
  poolIndex : q.m_poolIndex = min es.length (PoolSize - 1) + 1
  heapAllocated : q.heapAllocated = es.length - (PoolSize - 1)
  nodesRestored : q.m_nodesRestored = 0
  inputEvents : q.m_inputEvents = []

/-! ## What a drain cycle delivers -/

/-- The records that a drain cycle hands to `handleXcbError` or to
`handleXcbEvent`, in the order of the calls. -/
def delivered (calls : List Call) : List xcb_generic_event_t :=
  calls.filterMap fun
    | Call.handleXcbError e => some e
    | Call.handleXcbEvent e => some e
    | _ => none

/-- The typed handler calls on listeners among `calls`, in order. -/
def windowEvents (calls : List Call) : List (Nat × Handler × xcb_generic_event_t) :=
  calls.filterMap fun
    | Call.windowEvent l h e => some (l, h, e)
    | _ => none

/-- The answer of `compressEvent` for the record `event` when the records
still pending behind it are `pending`: the three peeker lambdas of
`compressEvent` applied to the pending records. -/
def compressedBy (c : XcbConnection) (event : xcb_generic_event_t)
    (pending : List xcb_generic_event_t) : Bool :=
  if !c.compressHighFrequencyEvents then false
  else if responseType event = XCB_MOTION_NOTIFY then
    pending.any (fun next => responseType next == XCB_MOTION_NOTIFY)
  else if responseType event = XCB_GE_GENERIC then
    if c.isXIType event XCB_INPUT_MOTION then
      pending.any (fun next => c.isXIType next XCB_INPUT_MOTION)
    else false
  else if responseType event = XCB_CONFIGURE_NOTIFY then
    pending.any (fun next =>
      if responseType next ≠ XCB_CONFIGURE_NOTIFY then false else event.event == next.event)
  else false

/-- The calls of a drain cycle over the pending records `es`, and the
connection afterwards. -/
def processCalls : XcbConnection → List xcb_generic_event_t → List Call × XcbConnection
  | c, [] => ([], c)
  | c, e :: rest =>
    if responseType e = 0 then
      (Call.handleXcbError e :: (processCalls c rest).1, (processCalls c rest).2)
    else if compressedBy c e rest then processCalls c rest
    else
      (Call.handleXcbEvent e :: (c.handleXcbEvent e).1 ++
          (processCalls (c.handleXcbEvent e).2 rest).1,
        (processCalls (c.handleXcbEvent e).2 rest).2)

/-- The classes of records that the coalescing policy of the specification
names. -/
inductive CoalesceClass where
  | pointerMotion
  | pointerMotionXI
  | configureNotify
deriving DecidableEq, Repr

/-- The coalescing class of a record, if it has one. -/
def coalesceClass (c : XcbConnection) (e : xcb_generic_event_t) : Option CoalesceClass :=
  if responseType e = XCB_MOTION_NOTIFY then some CoalesceClass.pointerMotion
  else if responseType e = XCB_GE_GENERIC ∧ c.isXIType e XCB_INPUT_MOTION = true then
    some CoalesceClass.pointerMotionXI
  else if responseType e = XCB_CONFIGURE_NOTIFY then some CoalesceClass.configureNotify
  else none

/-- The records that a drain cycle over the pending records `es` delivers
according to `compressEvent`: an error record always, any other record unless
`compressEvent` answers true for it. -/
def uncompressed (c : XcbConnection) : List xcb_generic_event_t → List xcb_generic_event_t
  | [] => []
  | e :: rest =>
    if responseType e ≠ 0 ∧ compressedBy c e rest = true then uncompressed c rest
    else e :: uncompressed c rest

/-- Repeated calls of `peek(PeekRetainMatch, p)`, one for every predicate of the
list. -/
def peekRetainMany (q : XcbEventQueue) :
    List (xcb_generic_event_t → Nat → Bool) → Option XcbEventQueue
  | [] => some q
  | p :: ps =>
    match q.peek PeekOption.PeekRetainMatch p with
    | none => none
    | some r => peekRetainMany r.2 ps

/-- A peeker callback of `peekEventQueue` that evaluates the predicate `p` and
does not touch the queue. -/
def purePeeker (p : xcb_generic_event_t → Bool) :
    xcb_generic_event_t → XcbEventQueue → Bool × XcbEventQueue :=
  fun e q => (p e, q)

/-- A peeker callback of `peekEventQueue` that re-enters the queue: it calls
`takeFirst()`, as a callback that pumps events does, and then answers
`accept`. -/
def reentrantPeeker (accept : xcb_generic_event_t → Bool) :
    xcb_generic_event_t → XcbEventQueue → Bool × XcbEventQueue :=
  fun e q =>
    match q.takeFirst with
    | some r => (accept e, r.2)
    | none => (accept e, q)

/-- A peeker callback of `peekEventQueue` that pumps events when it is handed
a record that satisfies `pump`: it calls `takeFirst()` and then, as a handler
of the record taken may do, `peekEventQueue` with the peeker id `nestedId` and
a predicate that accepts no record; it answers `accept`. -/
def nestedPeeker (pump accept : xcb_generic_event_t → Bool) (nestedId : Int) :
    xcb_generic_event_t → XcbEventQueue → Bool × XcbEventQueue :=
  fun e q =>
    if pump e then
      match q.takeFirst with
      | some r =>
        match r.2.peekEventQueue (purePeeker (fun _ => false))
            PeekOption.PeekDefault.toNat nestedId with
        | some r2 => (accept e, r2.2)
        | none => (accept e, r.2)
      | none => (accept e, q)
    else (accept e, q)

/-- The state of `peekEventQueue` after the reset of a dirty cursor cache. -/
def resetCursors (q : XcbEventQueue) (peekerId : Int) : XcbEventQueue :=
  if (peekerId != -1) && q.m_peekerIndexCacheDirty
  then { q with
    m_peekerToNode := q.m_peekerToNode.map (fun p => (p.1, none)),
    m_peekerIndexCacheDirty := false }
  else q

/-- The state of `peekEventQueue` when its loop starts: the cursor cache has
been reset if it was dirty, the list is flushed and `m_queueModified` is
cleared. -/
def scanState (q : XcbEventQueue) (peekerId : Int) : XcbEventQueue :=
  { (resetCursors q peekerId).flushBufferedEvents with m_queueModified := false }

/-- The lambda `startNode` of `peekEventQueue`, evaluated when the loop
starts. -/
def startNode (q : XcbEventQueue) (option : Nat) (peekerId : Int) : Option Nat :=
  let q2 := (resetCursors q peekerId).flushBufferedEvents
  if testFlag option PeekOption.PeekFromCachedIndex then
    match q2.m_peekerToNode.lookup peekerId with
    | some (some cachedNode) =>
      if cachedNode = q2.m_flushedTail then none else (q2.mem cachedNode).next
    | _ => some q2.m_head
  else some q2.m_head

/-- The nodes that a scan of `peekEventQueue` may visit, when `chain` are the
nodes of the list from `m_head` to `m_tail`: none when the call is rejected,
the nodes behind the cached cursor when the scan starts from a cursor, and all
nodes otherwise. -/
def scanRange (q : XcbEventQueue) (chain : List Nat) (option : Nat) (peekerId : Int) :
    List Nat :=
  if peekerId ≠ -1 ∧ q.m_peekerToNode.lookup peekerId = none then []
  else if testFlag option PeekOption.PeekFromCachedIndex = true ∧ peekerId = -1 then []
  else if testFlag option PeekOption.PeekFromCachedIndex = true then
    match (resetCursors q peekerId).m_peekerToNode.lookup peekerId with
    | some (some cachedNode) => (chain.dropWhile (fun a => a != cachedNode)).tail
    | _ => chain
  else chain

/-- `n` calls of `takeFirst()` in a row, without a flush in between: the
records returned, in order, and the state afterwards. -/
def takeFirstMany : Nat → XcbEventQueue → Option (List xcb_generic_event_t × XcbEventQueue)
  | 0, q => some ([], q)
  | n + 1, q =>
    match q.takeFirst with
    | none => none
    | some (event, q1) =>
      match takeFirstMany n q1 with
      | none => none
      | some (events, q2) => some (event.toList ++ events, q2)

/-- One enqueue/dequeue pair: the reader appends `e`, then the consumer calls
`flushBufferedEvents` and `takeFirst`.  The result holds the `fromHeap` flag
of the node the reader holds afterwards (the node that `qMEventNodeFactory`
returned), the record taken, and the state of reader and queue. -/
def enqueueDequeue (c : XcbConnection) (s : Nat × XcbEventQueue) (e : xcb_generic_event_t) :
    Option ((Bool × Option xcb_generic_event_t) × (Nat × XcbEventQueue)) :=
  let s1 := XcbEventQueue.enqueueEvent c s e
  match s1.2.flushBufferedEvents.takeFirst with
  | none => none
  | some r => some (((s1.2.mem s1.1).fromHeap, r.1), (s1.1, r.2))

/-- A sequence of enqueue/dequeue pairs, one for every record of the list. -/
def enqueueDequeuePairs (c : XcbConnection) :
    Nat × XcbEventQueue → List xcb_generic_event_t →
      Option (List (Bool × Option xcb_generic_event_t) × (Nat × XcbEventQueue))
  | s, [] => some ([], s)
  | s, e :: es =>
    match enqueueDequeue c s e with
    | none => none
    | some r =>
      match enqueueDequeuePairs c r.2 es with
      | none => none
      | some rs => some (r.1 :: rs.1, rs.2)

/-- The state between two enqueue/dequeue pairs: the list is the single pool
node `h`, whose record has been taken, and every pool slot but this one is
free or restored. -/
structure Paired (s : Nat × XcbEventQueue) (h : Nat) : Prop where
  readerTail : s.1 = h
  head : s.2.m_head = h
  flushedTail : s.2.m_flushedTail = h
  tail : s.2.m_tail = h
  slot : h < PoolSize
  poolIndex : s.2.m_poolIndex = h + 1
  event : (s.2.mem h).event = none
  free : s.2.m_freeNodes + s.2.m_nodesRestored = PoolSize - 1
  heapAllocated : s.2.heapAllocated = 0
  fromHeap : ∀ a, (s.2.mem a).fromHeap = false
  closeConnectionDetected : s.2.m_closeConnectionDetected = false

/-- The node at which a scan for `p` that starts at the node `a` and walks the
nodes `l` stops: the first node whose record satisfies `p`, or else the last
node. -/
def scanStop (mem : Nat → XcbEventNode) (p : xcb_generic_event_t → Bool) :
    Nat → List Nat → Nat
  | a, [] => a
  | a, x :: l =>
    match (mem a).event with
    | some e => if p e then a else scanStop mem p x l
    | none => scanStop mem p x l

/-- The record that a call carries. -/
def callEvent : Call → xcb_generic_event_t
  | Call.handleXcbError e => e
  | Call.handleXcbEvent e => e
  | Call.handleNativeEvent _ e => e
  | Call.windowEvent _ _ e => e
  | Call.handleSelectionRequest e => e
  | Call.handleSelectionClearRequest e => e
  | Call.handleXFixesSelectionRequest e => e
  | Call.xi2HandleEvent e => e

/-- Whether a call is a call of `handleXcbError`. -/
def isErrorCall : Call → Bool
  | Call.handleXcbError _ => true
  | _ => false

/-- The records handed to `handleXcbError` among `calls`, in order. -/
def errorCalls (calls : List Call) : List xcb_generic_event_t :=
  calls.filterMap fun
    | Call.handleXcbError e => some e
    | _ => none

/-- The calls of a drain cycle for the records `buffered` of the side buffer,
which `takeFirst` returns before any record of the list, while the records of
the list are `pending`; and the connection afterwards. -/
def processBuffered :
    XcbConnection → List xcb_generic_event_t → List xcb_generic_event_t →
      List Call × XcbConnection
  | c, [], _ => ([], c)
  | c, e :: rest, pending =>
    if responseType e = 0 then
      (Call.handleXcbError e :: (processBuffered c rest pending).1,
        (processBuffered c rest pending).2)
    else if compressedBy c e pending then processBuffered c rest pending
    else
      (Call.handleXcbEvent e :: (c.handleXcbEvent e).1 ++
          (processBuffered (c.handleXcbEvent e).2 rest pending).1,
        (processBuffered (c.handleXcbEvent e).2 rest pending).2)

/-- The calls of a drain cycle with the flag `ExcludeUserInputEvents` over the
pending records `es`, and the connection afterwards: the records that
`isUserInputEvent` classifies as user input are passed over. -/
def processCallsExcluding :
    XcbConnection → List xcb_generic_event_t → List Call × XcbConnection
  | c, [] => ([], c)
  | c, e :: rest =>
    if c.isUserInputEvent e then processCallsExcluding c rest
    else if responseType e = 0 then
      (Call.handleXcbError e :: (processCallsExcluding c rest).1,
        (processCallsExcluding c rest).2)
    else if compressedBy c e rest then processCallsExcluding c rest
    else
      (Call.handleXcbEvent e :: (c.handleXcbEvent e).1 ++
          (processCallsExcluding (c.handleXcbEvent e).2 rest).1,
        (processCallsExcluding (c.handleXcbEvent e).2 rest).2)

/-- A call of one of the two peeker registration methods. -/
inductive PeekerCall where
  | generatePeekerId
  | removePeekerId (peekerId : Int)
  deriving DecidableEq, Repr

/-- The state after one registration call. -/
def peekerCall (q : XcbEventQueue) : PeekerCall → XcbEventQueue
  | PeekerCall.generatePeekerId => q.generatePeekerId.2
  | PeekerCall.removePeekerId peekerId => (q.removePeekerId peekerId).2

/-- The state after a sequence of registration calls. -/
def peekerCalls (q : XcbEventQueue) (calls : List PeekerCall) : XcbEventQueue :=
  calls.foldl peekerCall q

/-- The ids currently registered: the keys of `m_peekerToNode`. -/
def registeredIds (q : XcbEventQueue) : List Int :=
  q.m_peekerToNode.map Prod.fst

/-! ## Reachable states -/

/-- An operation of the reader thread or of the consumer on the queue.  The
callback of `peekEventQueue` evaluates `predicate`; with `reenter` it first
re-enters the queue through `takeFirst()`. -/
inductive QueueOp where
  /-- The reader reads a record and calls the lambda `enqueueEvent`. -/
  | enqueueEvent (event : xcb_generic_event_t)
  | flushBufferedEvents
  | takeFirst
  | takeFirstFlags (excludeUserInputEvents : Bool)
  | peek (option : PeekOption) (peeker : xcb_generic_event_t → Nat → Bool)
  | peekEventQueue (predicate : xcb_generic_event_t → Bool) (reenter : Bool) (option : Nat)
      (peekerId : Int)
  | generatePeekerId
  | removePeekerId (peekerId : Int)

/-- The state after one operation; the first component of the state is the
local variable `tail` of the reader.  The reader appends nothing once
`m_closeConnectionDetected` is set, as in the loops of `run`. -/
def applyOp (c : XcbConnection) (s : Nat × XcbEventQueue) :
    QueueOp → Option (Nat × XcbEventQueue)
  | QueueOp.enqueueEvent event =>
    if s.2.m_closeConnectionDetected then some s
    else some (XcbEventQueue.enqueueEvent c s event)
  | QueueOp.flushBufferedEvents => some (s.1, s.2.flushBufferedEvents)
  | QueueOp.takeFirst => s.2.takeFirst.map (fun r => (s.1, r.2))
  | QueueOp.takeFirstFlags excludeUserInputEvents =>
    (s.2.takeFirstFlags c excludeUserInputEvents).map (fun r => (s.1, r.2))
  | QueueOp.peek option peeker => (s.2.peek option peeker).map (fun r => (s.1, r.2))
  | QueueOp.peekEventQueue predicate reenter option peekerId =>
    (s.2.peekEventQueue
      (if reenter then reentrantPeeker predicate else purePeeker predicate)
      option peekerId).map (fun r => (s.1, r.2))
  | QueueOp.generatePeekerId => some (s.1, s.2.generatePeekerId.2)
  | QueueOp.removePeekerId peekerId => some (s.1, (s.2.removePeekerId peekerId).2)

/-- The state after a sequence of operations. -/
def applyOps (c : XcbConnection) :
    Nat × XcbEventQueue → List QueueOp → Option (Nat × XcbEventQueue)
  | s, [] => some s
  | s, op :: ops =>
    match applyOp c s op with
    | none => none
    | some s1 => applyOps c s1 ops

/-- The nodes that `qMEventNodeFactory` hands out in the course of one
operation that leads from the state `s` to the state `s1`: the lambda
`enqueueEvent` calls it once for a record that is not the close request, and
stores the node it returns in `tail`. -/
def handedOut (c : XcbConnection) (s s1 : Nat × XcbEventQueue) : QueueOp → List Nat
  | QueueOp.enqueueEvent event =>
    if s.2.m_closeConnectionDetected || isCloseSentinel c event then [] else [s1.1]
  | _ => []

/-- The nodes that `qMEventNodeFactory` hands out in the course of a sequence
of operations, in order. -/
def nodesHandedOut (c : XcbConnection) :
    Nat × XcbEventQueue → List QueueOp → List Nat
  | _, [] => []
  | s, op :: ops =>
    match applyOp c s op with
    | none => []
    | some s1 => handedOut c s s1 op ++ nodesHandedOut c s1 ops

/-- The `k` pool slots handed out last, oldest first, when the slot to be
handed out next is `poolIndex % PoolSize`. -/
def ringSlots (poolIndex k : Nat) : List Nat :=
  (List.range k).map (fun i => (poolIndex + PoolSize - k + i) % PoolSize)

/-- The pool slots among the nodes `l`, in list order. -/
def poolSlots (l : List Nat) : List Nat := l.filter (fun a => decide (a < PoolSize))

/-- The accounting of the node pool in a state whose list has the nodes
`l1` up to `m_flushedTail` and `l2` behind it. -/
structure PoolInv (s : Nat × XcbEventQueue) (l1 l2 : List Nat) : Prop where
  wf : WF s.2 l1 l2
  readerTail : s.1 = s.2.m_tail
  poolFromHeap : ∀ a, a < PoolSize → (s.2.mem a).fromHeap = false
  heapFromHeap : ∀ a ∈ s.2.m_head :: (l1 ++ l2), PoolSize ≤ a → (s.2.mem a).fromHeap = true
  poolIndex : s.2.m_poolIndex ≤ PoolSize
  ring : poolSlots (s.2.m_head :: (l1 ++ l2)) =
    ringSlots s.2.m_poolIndex (poolSlots (s.2.m_head :: (l1 ++ l2))).length
  count : s.2.m_freeNodes + s.2.m_nodesRestored +
    (poolSlots (s.2.m_head :: (l1 ++ l2))).length = PoolSize

/-- Unless the cursor cache is marked dirty, every cursor that is set refers to
a node between `m_head` and `m_flushedTail`. -/
def CursorInv (q : XcbEventQueue) (l1 : List Nat) : Prop :=
  q.m_peekerIndexCacheDirty = false →
    ∀ pr ∈ q.m_peekerToNode, ∀ n, pr.2 = some n → n ∈ q.m_head :: l1

/-! ## Records and a connection for the scenarios -/

/-- A record with the given response type whose window members are `w`. -/
def record (response_type w width height : Nat) : xcb_generic_event_t :=
  { response_type := response_type, sequence := 0, window := w, event := w, format := 0,
    type := 0, data32_0 := 0, time := 0, width := width, height := height }

/-- A pointer-motion record for the window `w`. -/
def Motion (w : Nat) : xcb_generic_event_t := record XCB_MOTION_NOTIFY w 0 0

/-- A ConfigureNotify record for the window `w` with the given size. -/
def Configure (w width height : Nat) : xcb_generic_event_t :=
  record XCB_CONFIGURE_NOTIFY w width height

/-- An Expose record for the window `w`. -/
def Expose (w : Nat) : xcb_generic_event_t := record XCB_EXPOSE w 0 0

/-- A PropertyNotify record for the window `w`. -/
def PropertyNotify (w : Nat) : xcb_generic_event_t := record XCB_PROPERTY_NOTIFY w 0 0

/-- A WM_DELETE_WINDOW client message for the window `w`, with the atoms of
`sampleConnection`: a user-input record. -/
def DeleteWindow (w : Nat) : xcb_generic_event_t :=
  { response_type := XCB_CLIENT_MESSAGE, sequence := 0, window := w, event := w, format := 32,
    type := 301, data32_0 := 302, time := 0, width := 0, height := 0 }

/-- The result of the predicate that `MPlatformWindow::handleExposeEvent` hands
to `peek(PeekRemoveMatchContinue, ...)`: an Expose record for the window
`m_window`.  The accumulation of the exposed region is not modelled. -/
def exposePeeker (m_window : Nat) (event : xcb_generic_event_t) (type : Nat) : Bool :=
  if type ≠ XCB_EXPOSE then false
  else if event.window ≠ m_window then false
  else true

/-- A healthy connection with event compression enabled, no native event
filter, no extended-input records and the listener 70 registered for the
window 7. -/
def sampleConnection : XcbConnection where
  atom := fun a =>
    match a with
    | Atom.WM_PROTOCOLS => 301
    | Atom.WM_DELETE_WINDOW => 302
    | Atom._QT_CLOSE_CONNECTION => 303
  isXIEvent := fun _ => false
  isXIType := fun _ _ => false
  isXFixesType := fun _ _ => false
  connection_error := 0
  compressHighFrequencyEvents := true
  filterNativeEvent := none
  handleNativeEvent := fun _ _ => false
  clipboardHandlePropertyNotify := fun _ => false
  m_mapper := [(7, some 70)]
  m_time := 0
  m_netWmUserTime := 0

/-- A queue whose visible records are a window close request followed by an
Expose record, both for the window 7. -/
def sampleQueue : XcbEventQueue :=
  (XcbEventQueue.run sampleConnection XcbEventQueue.new
    [(DeleteWindow 7, [Expose 7])]).flushBufferedEvents

/-- The predicate of a peeker that scans for PropertyNotify records. -/
def isPropertyNotify (e : xcb_generic_event_t) : Bool :=
  responseType e == XCB_PROPERTY_NOTIFY

/-- A queue with one registered peeker, id 0, that holds an Expose record
followed by a PropertyNotify record, after the peeker has scanned it once for
PropertyNotify records with `PeekFromCachedIndex`. -/
def scannedQueue : XcbEventQueue :=
  let q := XcbEventQueue.run sampleConnection XcbEventQueue.new.generatePeekerId.2
    [(Expose 7, [PropertyNotify 7])]
  match q.peekEventQueue (purePeeker isPropertyNotify) PeekOption.PeekFromCachedIndex.toNat 0 with
  | some r => r.2
  | none => q

/-- A queue with two registered peekers, ids 0 and 1, that holds one
PropertyNotify record. -/
def twoPeekerQueue : XcbEventQueue :=
  XcbEventQueue.run sampleConnection XcbEventQueue.new.generatePeekerId.2.generatePeekerId.2
    [(PropertyNotify 7, [])]

/-- A queue that holds, unflushed, an Expose record for the window 7, a
pointer-motion record, an Expose record for the window 8 and a second Expose
record for the window 7. -/
def exposeQueue : XcbEventQueue :=
  XcbEventQueue.run sampleConnection XcbEventQueue.new
    [(Expose 7, [Motion 7, Expose 8, Expose 7])]

/-- A queue that holds, unflushed, an Expose record, an error record, a
pointer-motion record and an error record whose tag has the 0x80 bit set. -/
def errorQueue : XcbEventQueue :=
  XcbEventQueue.run sampleConnection XcbEventQueue.new
    [(Expose 7, [record 0 7 0 0, Motion 7, record 128 7 0 0])]

/-- A queue that holds, unflushed, a ConfigureNotify record for the window 8,
an Expose record and a ConfigureNotify record for the window 7. -/
def configureQueue : XcbEventQueue :=
  XcbEventQueue.run sampleConnection XcbEventQueue.new
    [(Configure 8 5 5, [Expose 7, Configure 7 20 20])]

/-- A queue that holds, unflushed, one pointer-motion record for the window 8. -/
def motionQueue : XcbEventQueue :=
  XcbEventQueue.run sampleConnection XcbEventQueue.new [(Motion 8, [])]

/-- A queue whose side buffer holds a window close request and whose list
holds a pointer-motion record and an Expose record: the state after
`takeFirst(ExcludeUserInputEvents)` has passed over the close request and
returned an Expose record. -/
def bufferedQueue : XcbEventQueue :=
  let q := (XcbEventQueue.run sampleConnection XcbEventQueue.new
    [(DeleteWindow 7, [Expose 7, Motion 7, Expose 8])]).flushBufferedEvents
  match q.takeFirstFlags sampleConnection true with
  | some r => r.2
  | none => q

/-- A queue, flushed, whose head node is also `m_flushedTail` and still holds
its record: two records were appended and the first one has been taken. -/
def deferredQueue : XcbEventQueue :=
  let q := (XcbEventQueue.run sampleConnection XcbEventQueue.new
    [(Expose 7, [Motion 7])]).flushBufferedEvents
  match q.takeFirst with
  | some r => r.2
  | none => q

/-- The queue `exposeQueue` after a removing peek that accepts every record:
a list of five nodes none of which holds a record. -/
def clearedQueue : XcbEventQueue :=
  match exposeQueue.peek PeekOption.PeekRemoveMatchContinue (fun _ _ => true) with
  | some r => r.2
  | none => exposeQueue

/-- A queue to which the reader appended an Expose record and a pointer-motion
record before the consumer flushed, and an Expose record for the window 8
after that flush. -/
def partlyFlushedQueue : XcbEventQueue :=
  let s := XcbEventQueue.runLoop sampleConnection
    (XcbEventQueue.new.m_head, XcbEventQueue.new) [(Expose 7, [Motion 7])]
  (XcbEventQueue.enqueueEvent sampleConnection (s.1, s.2.flushBufferedEvents) (Expose 8)).2

/-- The predicate of a peeker that scans for pointer-motion records. -/
def isMotion (e : xcb_generic_event_t) : Bool :=
  responseType e == XCB_MOTION_NOTIFY

/-- A queue with one registered peeker, id 0, to which the reader appended an
Expose record for the window 7, after the peeker has scanned it once for
pointer-motion records with `PeekFromCachedIndex`; the first component is the
local variable `tail` of the reader. -/
def firstScanQueue : Nat × XcbEventQueue :=
  let s := XcbEventQueue.runLoop sampleConnection
    (XcbEventQueue.new.m_head, XcbEventQueue.new.generatePeekerId.2) [(Expose 7, [])]
  match s.2.peekEventQueue (purePeeker isMotion) PeekOption.PeekFromCachedIndex.toNat 0 with
  | some r => (s.1, r.2)
  | none => s

/-- The queue `firstScanQueue` after the reader appended an Expose record for
the window 8 and the peeker 0 scanned a second time for pointer-motion
records with `PeekFromCachedIndex`. -/
def rescanQueue : XcbEventQueue :=
  let s := XcbEventQueue.enqueueEvent sampleConnection firstScanQueue (Expose 8)
  match s.2.peekEventQueue (purePeeker isMotion) PeekOption.PeekFromCachedIndex.toNat 0 with
  | some r => r.2
  | none => s.2

/-- A queue with two registered peekers, ids 0 and 1, to which the reader
appended an Expose record for the window 7, an Expose record for the window 8
and a pointer-motion record. -/
def nestedQueue : XcbEventQueue :=
  XcbEventQueue.run sampleConnection XcbEventQueue.new.generatePeekerId.2.generatePeekerId.2
    [(Expose 7, [Expose 8, Motion 7])]

/-- The queue `nestedQueue` after the peeker 0 scanned it with a callback that
accepts every record and that pumps events: it calls `takeFirst()` and a
nested `peekEventQueue` with the peeker id 1. -/
def nestedScanQueue : XcbEventQueue :=
  match nestedQueue.peekEventQueue (nestedPeeker (fun _ => true) (fun _ => true) 1)
      PeekOption.PeekDefault.toNat 0 with
  | some r => r.2
  | none => nestedQueue

end XcbPump

/-! ## Lemmas -/

namespace XcbPump

open XcbEventQueue XcbConnection

theorem Seg.congr {m1 m2 : Nat → XcbEventNode} (h : ∀ a, (m2 a).next = (m1 a).next) :
    ∀ {a l b}, Seg m1 a l b → Seg m2 a l b := by
  intro a l
  induction l generalizing a with
  | nil => intro b hs; exact hs
  | cons x l ih =>
    intro b hs
    exact ⟨by rw [h]; exact hs.1, ih hs.2⟩

theorem Seg.last_mem {m : Nat → XcbEventNode} :
    ∀ {a l b}, Seg m a l b → l ≠ [] → b ∈ l := by
  intro a l
  induction l generalizing a with
  | nil => intro b _ h; exact absurd rfl h
  | cons x l ih =>
    intro b hs _
    cases l with
    | nil => simp [Seg] at hs; simp [hs.2]
    | cons y l => exact List.mem_cons_of_mem _ (ih hs.2 (by simp))

theorem Seg.append {m : Nat → XcbEventNode} :
    ∀ {a l1 b l2 c}, Seg m a l1 b → Seg m b l2 c → Seg m a (l1 ++ l2) c := by
  intro a l1
  induction l1 generalizing a with
  | nil => intro b l2 c h1 h2; simp [Seg] at h1; subst h1; simpa using h2
  | cons x l ih => intro b l2 c h1 h2; exact ⟨h1.1, ih h1.2 h2⟩


theorem SameLinks.refl (q : XcbEventQueue) : SameLinks q q :=
  ⟨rfl, rfl, rfl, rfl, rfl, rfl, rfl, rfl, rfl, rfl, fun _ => rfl, fun _ => rfl⟩

theorem SameLinks.trans {q1 q2 q3 : XcbEventQueue} (h1 : SameLinks q1 q2)
    (h2 : SameLinks q2 q3) : SameLinks q1 q3 :=
  ⟨h2.1.trans h1.1, h2.2.trans h1.2, h2.3.trans h1.3, h2.4.trans h1.4, h2.5.trans h1.5,
    h2.6.trans h1.6, h2.7.trans h1.7, h2.8.trans h1.8, h2.nodesOnHeap.trans h1.nodesOnHeap,
    h2.isDebugEnabled.trans h1.isDebugEnabled,
    fun a => (h2.next a).trans (h1.next a), fun a => (h2.fromHeap a).trans (h1.fromHeap a)⟩

theorem sameLinks_setEvent (q : XcbEventQueue) (a : Nat) (ev : Option xcb_generic_event_t) :
    SameLinks q (q.setEvent a ev) := by
  refine ⟨rfl, rfl, rfl, rfl, rfl, rfl, rfl, rfl, rfl, rfl, ?_, ?_⟩ <;>
    intro b <;> by_cases h : b = a <;> simp [setEvent, store, h]

theorem eventsOf_setEvent_of_not_mem (q : XcbEventQueue) (a : Nat)
    (ev : Option xcb_generic_event_t) (l : List Nat) (h : a ∉ l) :
    eventsOf (q.setEvent a ev).mem l = eventsOf q.mem l := by
  unfold eventsOf
  apply List.filterMap_congr
  intro b hb
  have : b ≠ a := fun e => h (e ▸ hb)
  simp [setEvent, store, this]

theorem eventsOf_cons (m : Nat → XcbEventNode) (a : Nat) (l : List Nat) :
    eventsOf m (a :: l) = (m a).event.toList ++ eventsOf m l := by
  unfold eventsOf
  cases h : (m a).event <;> simp [List.filterMap_cons, h]


@[simp] theorem setEvent_m_head (q : XcbEventQueue) (a : Nat) (ev : Option xcb_generic_event_t) :
    (q.setEvent a ev).m_head = q.m_head := rfl

@[simp] theorem setEvent_m_flushedTail (q : XcbEventQueue) (a : Nat)
    (ev : Option xcb_generic_event_t) : (q.setEvent a ev).m_flushedTail = q.m_flushedTail := rfl

@[simp] theorem setEvent_m_nodesRestored (q : XcbEventQueue) (a : Nat)
    (ev : Option xcb_generic_event_t) : (q.setEvent a ev).m_nodesRestored = q.m_nodesRestored := rfl

@[simp] theorem setEvent_heapAllocated (q : XcbEventQueue) (a : Nat)
    (ev : Option xcb_generic_event_t) : (q.setEvent a ev).heapAllocated = q.heapAllocated := rfl

@[simp] theorem setEvent_m_inputEvents (q : XcbEventQueue) (a : Nat)
    (ev : Option xcb_generic_event_t) : (q.setEvent a ev).m_inputEvents = q.m_inputEvents := rfl

@[simp] theorem setEvent_m_queueModified (q : XcbEventQueue) (a : Nat)
    (ev : Option xcb_generic_event_t) : (q.setEvent a ev).m_queueModified = q.m_queueModified := rfl

@[simp] theorem setEvent_m_peekerIndexCacheDirty (q : XcbEventQueue) (a : Nat)
    (ev : Option xcb_generic_event_t) :
    (q.setEvent a ev).m_peekerIndexCacheDirty = q.m_peekerIndexCacheDirty := rfl

@[simp] theorem setEvent_event_self (q : XcbEventQueue) (a : Nat)
    (ev : Option xcb_generic_event_t) : ((q.setEvent a ev).mem a).event = ev := by
  simp [setEvent, store]

theorem setEvent_event_of_ne (q : XcbEventQueue) {a b : Nat}
    (ev : Option xcb_generic_event_t) (h : b ≠ a) :
    ((q.setEvent a ev).mem b).event = (q.mem b).event := by
  simp [setEvent, store, h]

theorem takeFirstLoop_spec (l2 : List Nat) :
    ∀ (l1 : List Nat) (q : XcbEventQueue) (fuel : Nat), WF q l1 l2 → l1.length < fuel →
      ∃ d l1r q', takeFirstLoop fuel q =
          some ((eventsOf q.mem (q.m_head :: l1)).head?, q') ∧
        q.m_head :: l1 = d ++ q'.m_head :: l1r ∧ WF q' l1r l2 ∧
        eventsOf q'.mem (q'.m_head :: l1r) = (eventsOf q.mem (q.m_head :: l1)).tail ∧
        eventsOf q'.mem l2 = eventsOf q.mem l2 ∧
        q'.m_nodesRestored = q.m_nodesRestored + poolCount q.mem d ∧
        SameLinks q q' ∧ q'.m_inputEvents = q.m_inputEvents ∧
        q'.m_queueModified = q.m_queueModified ∧
        q'.m_peekerIndexCacheDirty = q.m_peekerIndexCacheDirty := by
  intro l1
  induction l1 with
  | nil =>
    intro q fuel hwf hfuel
    obtain ⟨fuel, rfl⟩ : ∃ f, fuel = f + 1 := ⟨fuel - 1, by omega⟩
    have hht : q.m_flushedTail = q.m_head := hwf.vis.symm
    have hnot : q.m_head ∉ l2 := by
      have := hwf.nodup
      simp at this
      exact this.1
    cases hev : (q.mem q.m_head).event with
    | none =>
      refine ⟨[], [], q, ?_, rfl, hwf, ?_, rfl, by simp [poolCount], SameLinks.refl q, rfl, rfl, rfl⟩
      · simp [takeFirstLoop, hht, hev, isEmpty, eventsOf_cons, eventsOf]
      · simp [eventsOf_cons, hev, eventsOf]
    | some e =>
      refine ⟨[], [], q.setEvent q.m_head none, ?_, rfl, ?_, ?_, ?_, by simp [poolCount],
        sameLinks_setEvent _ _ _, rfl, rfl, rfl⟩
      · simp [takeFirstLoop, hht, hev, isEmpty, eventsOf_cons, eventsOf]
      · exact ⟨Seg.congr (sameLinks_setEvent _ _ _).next hwf.vis,
          Seg.congr (sameLinks_setEvent _ _ _).next hwf.pend, hwf.nodup, hwf.bound⟩
      · simp [eventsOf_cons, hev, eventsOf]
      · exact eventsOf_setEvent_of_not_mem _ _ _ _ hnot
  | cons x l ih =>
    intro q fuel hwf hfuel
    obtain ⟨fuel, rfl⟩ : ∃ f, fuel = f + 1 := ⟨fuel - 1, by omega⟩
    have hnext : (q.mem q.m_head).next = some x := hwf.vis.1
    have hseg : Seg q.mem x l q.m_flushedTail := hwf.vis.2
    have hnd := hwf.nodup
    have hne : q.m_head ≠ q.m_flushedTail := by
      intro h
      have hm : q.m_flushedTail ∈ x :: l := Seg.last_mem hwf.vis (by simp)
      rw [← h] at hm
      simp at hnd
      simp at hm
      tauto
    -- the state after `dequeueNode`
    obtain ⟨q1, hdq, hq1h, hq1r, hq1m, hsl, hq1i, hq1qm, hq1d⟩ : ∃ q1, q.dequeueNode = some q1 ∧
        q1.m_head = x ∧
        q1.m_nodesRestored = q.m_nodesRestored + poolCount q.mem [q.m_head] ∧
        q1.mem = q.mem ∧ SameLinks q q1 ∧ q1.m_inputEvents = q.m_inputEvents ∧
        q1.m_queueModified = q.m_queueModified ∧
        q1.m_peekerIndexCacheDirty = q.m_peekerIndexCacheDirty := by
      cases hfh : (q.mem q.m_head).fromHeap
      · exact ⟨{ q with m_head := x, m_nodesRestored := q.m_nodesRestored + 1 },
          by simp [dequeueNode, hnext, hfh], rfl, by simp [poolCount, hfh], rfl,
          ⟨rfl, rfl, rfl, rfl, rfl, rfl, rfl, rfl, rfl, rfl, fun _ => rfl, fun _ => rfl⟩, rfl, rfl, rfl⟩
      · exact ⟨{ q with m_head := x }, by simp [dequeueNode, hnext, hfh], rfl,
          by simp [poolCount, hfh], rfl,
          ⟨rfl, rfl, rfl, rfl, rfl, rfl, rfl, rfl, rfl, rfl, fun _ => rfl, fun _ => rfl⟩, rfl, rfl, rfl⟩
    have hwf1 : WF q1 l l2 := by
      refine ⟨?_, ?_, ?_, ?_⟩
      · rw [hq1h, hq1m, hsl.flushedTail]; exact hseg
      · rw [hq1m, hsl.flushedTail, hsl.tail]; exact hwf.pend
      · rw [hq1h]; simp at hnd ⊢; tauto
      · intro a ha
        rw [hsl.heapAllocated]
        apply hwf.bound
        rw [hq1h] at ha
        simp at ha ⊢
        tauto
    cases hev : (q.mem q.m_head).event with
    | some e =>
      refine ⟨[q.m_head], l, q1, ?_, by simp [hq1h], hwf1, ?_, by rw [hq1m], hq1r, hsl,
        hq1i, hq1qm, hq1d⟩
      · simp [takeFirstLoop, hne, hdq, hev, eventsOf_cons]
      · rw [hq1h, hq1m, eventsOf_cons q.mem q.m_head, hev]; simp
    | none =>
      have hevs : eventsOf q.mem (q.m_head :: x :: l) = eventsOf q1.mem (q1.m_head :: l) := by
        rw [hq1h, hq1m, eventsOf_cons q.mem q.m_head, hev]; simp
      by_cases hemp : q1.isEmpty = true
      · have hxl : l = [] := by
          by_contra hl
          have hm : q.m_flushedTail ∈ l := Seg.last_mem hseg hl
          have hx : x = q.m_flushedTail := by
            have := hemp
            simp [isEmpty, hq1h, hsl.flushedTail] at this
            exact this.1
          rw [← hx] at hm
          simp at hnd
          tauto
        subst hxl
        have hxe : (q.mem x).event = none := by
          have := hemp
          simp [isEmpty, hq1h, hsl.flushedTail, hq1m] at this
          exact this.2
        refine ⟨[q.m_head], [], q1, ?_, by simp [hq1h], hwf1, ?_, by rw [hq1m], hq1r, hsl,
          hq1i, hq1qm, hq1d⟩
        · simp [takeFirstLoop, hne, hdq, hev, hemp, eventsOf_cons, hxe, eventsOf]
        · rw [hq1h, hq1m]; simp [eventsOf_cons, hxe, hev, eventsOf]
      · obtain ⟨d, l1r, q', h1, h2, h3, h4, h5, h6, h7, h8, h9, h10⟩ :=
          ih q1 fuel hwf1 (by simp at hfuel; omega)
        refine ⟨q.m_head :: d, l1r, q', ?_, ?_, h3, ?_, ?_, ?_, hsl.trans h7, h8.trans hq1i,
          h9.trans hq1qm, h10.trans hq1d⟩
        · simp only [takeFirstLoop, hne, hdq, hev, hemp]
          simp [h1, hevs]
        · rw [hq1h] at h2; simp [h2]
        · rw [h4, hevs]
        · rw [h5, hq1m]
        · rw [h6, hq1r, hq1m]; simp [poolCount, List.filter_cons]
          split <;> simp
          omega

theorem length_le_of_nodup_of_lt {l : List Nat} {n : Nat} (hnd : l.Nodup)
    (hb : ∀ a ∈ l, a < n) : l.length ≤ n := by
  have h1 : l.toFinset.card = l.length := List.toFinset_card_of_nodup hnd
  have h2 : l.toFinset ⊆ Finset.range n := by
    intro a ha
    simp at ha
    simpa using hb a ha
  have := Finset.card_le_card h2
  simp at this
  omega

theorem WF.length_lt_fuel {q : XcbEventQueue} {l1 l2 : List Nat} (h : WF q l1 l2) :
    l1.length + l2.length + 1 < q.fuel := by
  have := length_le_of_nodup_of_lt h.nodup h.bound
  simp [fuel] at this ⊢
  omega

theorem WF.isEmpty_iff {q : XcbEventQueue} {l1 l2 : List Nat} (h : WF q l1 l2) :
    q.isEmpty = true ↔ l1 = [] ∧ (q.mem q.m_head).event = none := by
  constructor
  · intro he
    simp [isEmpty] at he
    refine ⟨?_, he.2⟩
    by_contra hl
    have hm := Seg.last_mem h.vis hl
    rw [← he.1] at hm
    have := h.nodup
    simp at this
    tauto
  · rintro ⟨rfl, he⟩
    have : q.m_flushedTail = q.m_head := h.vis.symm
    simp [isEmpty, this, he]

theorem takeFirst_spec {q : XcbEventQueue} {l1 l2 : List Nat} (hwf : WF q l1 l2) :
    ∃ d l1r q', q.takeFirst = some ((eventsOf q.mem (q.m_head :: l1)).head?, q') ∧
      q.m_head :: l1 = d ++ q'.m_head :: l1r ∧ WF q' l1r l2 ∧
      eventsOf q'.mem (q'.m_head :: l1r) = (eventsOf q.mem (q.m_head :: l1)).tail ∧
      eventsOf q'.mem l2 = eventsOf q.mem l2 ∧
      q'.m_nodesRestored = q.m_nodesRestored + poolCount q.mem d ∧
      SameLinks q q' ∧ q'.m_inputEvents = q.m_inputEvents ∧
      q'.m_queueModified = (q.m_queueModified || !q.isEmpty) ∧
      q'.m_peekerIndexCacheDirty = (q.m_peekerIndexCacheDirty || !q.isEmpty) := by
  by_cases he : q.isEmpty = true
  · obtain ⟨rfl, hev⟩ := hwf.isEmpty_iff.1 he
    refine ⟨[], [], q, ?_, rfl, hwf, ?_, rfl, by simp [poolCount], SameLinks.refl q, rfl,
      by simp [he], by simp [he]⟩
    · simp [takeFirst, he, eventsOf_cons, hev, eventsOf]
    · simp [eventsOf_cons, hev, eventsOf]
  · obtain ⟨d, l1r, q', h1, h2, h3, h4, h5, h6, h7, h8, h9, h10⟩ :=
      takeFirstLoop_spec l2 l1 q q.fuel hwf (by have := hwf.length_lt_fuel; omega)
    refine ⟨d, l1r, { q' with m_queueModified := true, m_peekerIndexCacheDirty := true },
      ?_, h2, ⟨h3.vis, h3.pend, h3.nodup, h3.bound⟩, h4, h5, h6,
      ⟨h7.1, h7.2, h7.3, h7.4, h7.5, h7.6, h7.7, h7.8, h7.9, h7.10, h7.11, h7.12⟩, h8, by simp [he],
      by simp [he]⟩
    simp [takeFirst, he, h1]

theorem WF.flush {q : XcbEventQueue} {l1 l2 : List Nat} (h : WF q l1 l2) :
    WF q.flushBufferedEvents (l1 ++ l2) [] := by
  refine ⟨?_, rfl, ?_, ?_⟩
  · exact Seg.append h.vis h.pend
  · simpa using h.nodup
  · simpa using h.bound

theorem flush_of_eq {q : XcbEventQueue} (h : q.m_flushedTail = q.m_tail) :
    q.flushBufferedEvents = q := by
  cases q
  simp [flushBufferedEvents] at h ⊢
  exact h.symm

theorem peekLoop_retain (peeker : xcb_generic_event_t → Nat → Bool) (q : XcbEventQueue) :
    ∀ (l : List Nat) (node fuel : Nat), Seg q.mem node l q.m_flushedTail →
      (node :: l).Nodup → l.length < fuel →
      peekLoop PeekOption.PeekRetainMatch peeker fuel node q =
        some ((eventsOf q.mem (node :: l)).find? (fun e => peeker e (responseType e)), q) := by
  intro l
  induction l with
  | nil =>
    intro node fuel hs _ hf
    obtain ⟨fuel, rfl⟩ : ∃ f, fuel = f + 1 := ⟨fuel - 1, by omega⟩
    have hn : node = q.m_flushedTail := hs
    cases hev : (q.mem node).event with
    | none => simp [peekLoop, hev, eventsOf_cons, eventsOf, ← hn]
    | some e =>
      by_cases hp : peeker e (responseType e) = true
      · simp [peekLoop, hev, hp, eventsOf_cons, eventsOf]
      · simp [peekLoop, hev, hp, eventsOf_cons, eventsOf, ← hn]
  | cons x l ih =>
    intro node fuel hs hnd hf
    obtain ⟨fuel, rfl⟩ : ∃ f, fuel = f + 1 := ⟨fuel - 1, by omega⟩
    have hne : node ≠ q.m_flushedTail := by
      intro h
      have hm : q.m_flushedTail ∈ x :: l := Seg.last_mem hs (by simp)
      rw [← h] at hm
      exact (List.nodup_cons.1 hnd).1 hm
    have hrec := ih x fuel hs.2 (List.nodup_cons.1 hnd).2 (by simp at hf; omega)
    cases hev : (q.mem node).event with
    | none =>
      simp only [peekLoop, hev, hne, hs.1, if_false]
      rw [hrec, eventsOf_cons q.mem node, hev]
      simp
    | some e =>
      by_cases hp : peeker e (responseType e) = true
      · simp [peekLoop, hev, hp, eventsOf_cons]
      · simp only [peekLoop, hev, hp, hne, hs.1, if_false]
        rw [hrec, eventsOf_cons q.mem node, hev]
        simp [hp]

theorem peek_retain_spec {q : XcbEventQueue} {l1 l2 : List Nat} (hwf : WF q l1 l2)
    (peeker : xcb_generic_event_t → Nat → Bool) :
    q.peek PeekOption.PeekRetainMatch peeker =
      some ((eventsOf q.mem (q.m_head :: (l1 ++ l2))).find?
        (fun e => peeker e (responseType e)), q.flushBufferedEvents) := by
  have hf := hwf.flush
  by_cases he : q.flushBufferedEvents.isEmpty = true
  · obtain ⟨hl, hev⟩ := hf.isEmpty_iff.1 he
    have hev2 : (q.mem q.m_head).event = none := hev
    simp [peek, he, hl, eventsOf_cons, hev2, eventsOf]
  · have := peekLoop_retain peeker q.flushBufferedEvents (l1 ++ l2) q.m_head
      q.flushBufferedEvents.fuel hf.vis (by simpa using hf.nodup)
      (by have := hf.length_lt_fuel; simp at this ⊢; omega)
    simp only [peek, he]
    exact this

theorem WF.inputEvents {q : XcbEventQueue} {l1 l2 : List Nat} (h : WF q l1 l2)
    (es : List xcb_generic_event_t) : WF { q with m_inputEvents := es } l1 l2 :=
  ⟨h.vis, h.pend, h.nodup, h.bound⟩

theorem eventsOf_length_le (m : Nat → XcbEventNode) (l : List Nat) :
    (eventsOf m l).length ≤ l.length := by
  unfold eventsOf
  exact List.length_filterMap_le _ _

/-- The take-until-null loop on a well-formed queue whose side buffer is empty. -/
theorem drainLoop_main (c : XcbConnection) (l2 : List Nat) :
    ∀ (es : List xcb_generic_event_t) (q : XcbEventQueue) (l1 : List Nat) (fuel : Nat)
      (taken : List xcb_generic_event_t),
      WF q l1 l2 → q.m_inputEvents = [] → eventsOf q.mem (q.m_head :: l1) = es →
      es.length < fuel →
      ∃ q' l1r, drainLoop c fuel taken q = some (taken ++ es, q') ∧ WF q' l1r l2 ∧
        eventsOf q'.mem (q'.m_head :: l1r) = [] ∧ eventsOf q'.mem l2 = eventsOf q.mem l2 ∧
        q'.m_inputEvents = [] ∧ SameLinks q q' := by
  intro es
  induction es with
  | nil =>
    intro q l1 fuel taken hwf hin hes hf
    obtain ⟨fuel, rfl⟩ : ∃ f, fuel = f + 1 := ⟨fuel - 1, by omega⟩
    obtain ⟨d, l1r, q', h1, h2, h3, h4, h5, h6, h7, h8, h9, h10⟩ := takeFirst_spec hwf
    rw [hes] at h1 h4
    exact ⟨q', l1r, by simp [drainLoop, takeFirstFlags, hin, h1], h3, by simpa using h4, h5,
      h8.trans hin, h7⟩
  | cons e es ih =>
    intro q l1 fuel taken hwf hin hes hf
    obtain ⟨fuel, rfl⟩ : ∃ f, fuel = f + 1 := ⟨fuel - 1, by omega⟩
    obtain ⟨d, l1r, q', h1, h2, h3, h4, h5, h6, h7, h8, h9, h10⟩ := takeFirst_spec hwf
    rw [hes] at h1 h4
    obtain ⟨q'', l1r', g1, g2, g3, g4, g5, g6⟩ :=
      ih q' l1r fuel (taken ++ [e]) h3 (h8.trans hin) (by simpa using h4)
        (by simp at hf; omega)
    refine ⟨q'', l1r', ?_, g2, g3, g4.trans h5, g5, h7.trans g6⟩
    simp [drainLoop, takeFirstFlags, hin, h1, g1]

theorem drainLoop_spec (c : XcbConnection) (l1 l2 : List Nat) :
    ∀ (ins : List xcb_generic_event_t) (q : XcbEventQueue) (fuel : Nat)
      (taken : List xcb_generic_event_t),
      WF q l1 l2 → q.m_inputEvents = ins → l1.length + 1 + ins.length < fuel →
      ∃ q' l1r, drainLoop c fuel taken q =
          some (taken ++ ins ++ eventsOf q.mem (q.m_head :: l1), q') ∧ WF q' l1r l2 ∧
        eventsOf q'.mem (q'.m_head :: l1r) = [] ∧ eventsOf q'.mem l2 = eventsOf q.mem l2 ∧
        q'.m_inputEvents = [] ∧ SameLinks q q' := by
  intro ins
  induction ins with
  | nil =>
    intro q fuel taken hwf hin hf
    have hlen := eventsOf_length_le q.mem (q.m_head :: l1)
    obtain ⟨q', l1r, h⟩ := drainLoop_main c l2 _ q l1 fuel taken hwf hin rfl
      (by simp at hlen hf; omega)
    exact ⟨q', l1r, by simpa using h⟩
  | cons e ins ih =>
    intro q fuel taken hwf hin hf
    obtain ⟨fuel, rfl⟩ : ∃ f, fuel = f + 1 := ⟨fuel - 1, by omega⟩
    obtain ⟨q', l1r, g1, g2, g3, g4, g5, g6⟩ :=
      ih { q with m_inputEvents := ins } fuel (taken ++ [e]) (hwf.inputEvents ins) rfl
        (by simp at hf; omega)
    refine ⟨q', l1r, ?_, g2, g3, g4, g5,
      ⟨g6.1, g6.2, g6.3, g6.4, g6.5, g6.6, g6.7, g6.8, g6.9, g6.10, g6.11, g6.12⟩⟩
    simp [drainLoop, takeFirstFlags, hin, g1]

theorem drain_spec (c : XcbConnection) {q : XcbEventQueue} {l1 l2 : List Nat}
    (hwf : WF q l1 l2) :
    ∃ q' l1r, drain c q =
        some (q.m_inputEvents ++ eventsOf q.mem (q.m_head :: (l1 ++ l2)), q') ∧
      WF q' l1r [] ∧ eventsOf q'.mem (q'.m_head :: l1r) = [] ∧ q'.m_inputEvents = [] ∧
      SameLinks q.flushBufferedEvents q' := by
  have hf := hwf.flush
  obtain ⟨q', l1r, g1, g2, g3, _, g5, g6⟩ :=
    drainLoop_spec c (l1 ++ l2) [] q.m_inputEvents q.flushBufferedEvents
      (q.flushBufferedEvents.fuel + q.m_inputEvents.length) [] hf rfl
      (by have := hf.length_lt_fuel; simp at this ⊢; omega)
  exact ⟨q', l1r, by simpa [drain] using g1, g2, g3, g5, g6⟩

theorem appended_new : Appended XcbEventQueue.new [] := by
  refine ⟨rfl, rfl, rfl, ?_, ?_, ?_, ?_, ?_, rfl, rfl, rfl, rfl, rfl⟩
  · intro i hi; simp at hi
  · simp [XcbEventQueue.new, qMEventNodeFactory, initial, setEvent, setNext, store, PoolSize,
      emptyNode]
  · intro i hi; simp at hi
  · intro i hi
    simp at hi
    subst hi
    simp [XcbEventQueue.new, qMEventNodeFactory, initial, setEvent, setNext, store, PoolSize,
      emptyNode]
  · intro i _
    simp [XcbEventQueue.new, qMEventNodeFactory, initial, setEvent, setNext, store, PoolSize,
      emptyNode]

theorem isCloseConnectionEvent_of_not_sentinel (c : XcbConnection) (q : XcbEventQueue)
    (e : xcb_generic_event_t) (hs : isCloseSentinel c e = false) :
    isCloseConnectionEvent c q e = (q.m_closeConnectionDetected, q) := by
  simp only [isCloseSentinel, Bool.and_eq_false_iff, beq_eq_false_iff_ne] at hs
  unfold isCloseConnectionEvent
  by_cases h1 : responseType e = XCB_CLIENT_MESSAGE
  · have h2 : e.type ≠ c.atom Atom._QT_CLOSE_CONNECTION := by tauto
    simp [h1, h2]
  · simp [h1]

theorem factory_pool (q : XcbEventQueue) (ev : Option xcb_generic_event_t)
    (hfree : q.m_freeNodes ≠ 0) (hidx : q.m_poolIndex ≠ PoolSize) :
    q.qMEventNodeFactory ev = (q.m_poolIndex,
      { q with
        mem := fun b => if b = q.m_poolIndex
          then { event := ev, next := none, fromHeap := (q.mem b).fromHeap } else q.mem b
        m_freeNodes := q.m_freeNodes - 1
        m_poolIndex := q.m_poolIndex + 1 }) := by
  unfold qMEventNodeFactory
  simp only [hfree, if_false, hidx, ne_eq, not_false_eq_true, if_true]
  simp only [setEvent, setNext, store, Prod.mk.injEq, true_and]
  congr 1
  funext b
  by_cases h : b = q.m_poolIndex <;> simp [h]

theorem factory_pool_wrap (q : XcbEventQueue) (ev : Option xcb_generic_event_t)
    (hfree : q.m_freeNodes ≠ 0) (hidx : q.m_poolIndex = PoolSize) :
    q.qMEventNodeFactory ev = (0,
      { q with
        mem := fun b => if b = 0
          then { event := ev, next := none, fromHeap := (q.mem b).fromHeap } else q.mem b
        m_freeNodes := q.m_freeNodes - 1
        m_poolIndex := 1 }) := by
  unfold qMEventNodeFactory
  simp only [hfree, if_false, hidx, ne_eq, not_false_eq_true, if_true]
  simp only [setEvent, setNext, store, Prod.mk.injEq, true_and]
  congr 1
  funext b
  by_cases h : b = 0 <;> simp [h]

theorem factory_heap (q : XcbEventQueue) (ev : Option xcb_generic_event_t)
    (hfree : q.m_freeNodes = 0) (hres : q.m_nodesRestored = 0) :
    q.qMEventNodeFactory ev = (PoolSize + q.heapAllocated,
      { q with
        mem := fun b => if b = PoolSize + q.heapAllocated
          then { event := ev, next := none, fromHeap := true } else q.mem b
        m_freeNodes := 0
        m_nodesRestored := 0
        heapAllocated := q.heapAllocated + 1
        m_nodesOnHeap := if q.lcQpaEventReader_isDebugEnabled
          then (q.m_nodesOnHeap + 1) % 2 ^ 64 else q.m_nodesOnHeap }) := by
  unfold qMEventNodeFactory
  simp only [hfree, if_true, hres, ne_eq, not_true_eq_false, if_false]
  simp only [store, Prod.mk.injEq, true_and]
  cases hd : q.lcQpaEventReader_isDebugEnabled <;>
    simp only [Bool.false_eq_true, if_false, if_true] <;>
    (congr 1; funext b; by_cases h : b = PoolSize + q.heapAllocated <;> simp [h])

theorem enqueueEvent_appended (c : XcbConnection) {q : XcbEventQueue}
    {es : List xcb_generic_event_t} (h : Appended q es) (e : xcb_generic_event_t)
    (hflag : q.m_closeConnectionDetected = false) (hs : isCloseSentinel c e = false) :
    (enqueueEvent c (es.length, q) e).1 = es.length + 1 ∧
      Appended (enqueueEvent c (es.length, q) e).2 (es ++ [e]) ∧
      (enqueueEvent c (es.length, q) e).2.m_closeConnectionDetected = false ∧
      (enqueueEvent c (es.length, q) e).2.m_peekerToNode = q.m_peekerToNode ∧
      (enqueueEvent c (es.length, q) e).2.m_peekerIdSource = q.m_peekerIdSource ∧
      (enqueueEvent c (es.length, q) e).2.m_peekerIndexCacheDirty = q.m_peekerIndexCacheDirty ∧
      (enqueueEvent c (es.length, q) e).2.m_queueModified = q.m_queueModified := by
  have hclose := isCloseConnectionEvent_of_not_sentinel c q e hs
  rw [hflag] at hclose
  have hP : PoolSize = 100 := rfl
  by_cases hn : es.length < 99
  · -- a pool slot is free
    have hfree : q.m_freeNodes ≠ 0 := by rw [h.freeNodes, hP]; omega
    have hidx : q.m_poolIndex = es.length + 1 := by
      rw [h.poolIndex, hP]; simp; omega
    have hidx2 : q.m_poolIndex ≠ PoolSize := by rw [hidx, hP]; omega
    simp only [enqueueEvent, hclose, factory_pool q (some e) hfree hidx2, hidx]
    refine ⟨rfl, ?_, hflag, rfl, rfl, rfl, rfl⟩
    refine ⟨h.head, h.flushedTail, by simp, ?_, ?_, ?_, ?_, ?_, ?_, ?_, ?_, h.nodesRestored,
      h.inputEvents⟩
    · intro i hi
      simp at hi
      by_cases h1 : i = es.length
      · simp [setNext, store, h1]
      · have h2 : i ≠ es.length + 1 := by omega
        simp [setNext, store, h1, h2]
        exact h.next i (by omega)
    · by_cases h1 : es.length = 0
      · simp [setNext, store, h1, h.headEvent]
      · have h2 : 0 ≠ es.length := fun h => h1 h.symm
        simp [setNext, store, h2, h.headEvent]
    · intro i hi
      simp at hi
      by_cases h1 : i = es.length
      · simp [setNext, store, h1]
      · have h2 : i + 1 ≠ es.length + 1 := by omega
        by_cases h3 : i + 1 = es.length
        · simp [setNext, store, h1, h3]
          rw [← h3, h.events i (by omega)]
          rw [List.getElem?_append_left (by omega)]
        · simp [setNext, store, h1, h3]
          rw [h.events i (by omega), List.getElem?_append_left (by omega)]
    · intro i hi
      simp at hi
      by_cases h1 : i = es.length
      · simp [setNext, store, h1]
        exact h.fromHeap _ (by omega)
      · by_cases h2 : i = es.length + 1
        · simp [setNext, store, h2]
          rw [h.poolFromHeap _ (by omega), hP]
          simp
          omega
        · simp [setNext, store, h1, h2]
          exact h.fromHeap _ (by omega)
    · intro i hi
      by_cases h1 : i = es.length
      · simp [setNext, store, h1]
        exact h.poolFromHeap _ (by omega)
      · by_cases h2 : i = es.length + 1
        · simp [setNext, store, h2]
          exact h.poolFromHeap _ (by omega)
        · simp [setNext, store, h1, h2]
          exact h.poolFromHeap _ hi
    · simp [setNext, store, h.freeNodes, hP]; omega
    · simp [setNext, store, hP]; omega
    · simp [setNext, store, h.heapAllocated, hP]; omega
  · -- the pool is used up and nothing was restored
    have hfree : q.m_freeNodes = 0 := by rw [h.freeNodes, hP]; omega
    have haddr : PoolSize + q.heapAllocated = es.length + 1 := by
      rw [h.heapAllocated, hP]; omega
    simp only [enqueueEvent, hclose, factory_heap q (some e) hfree h.nodesRestored, haddr]
    refine ⟨rfl, ?_, hflag, rfl, rfl, rfl, rfl⟩
    refine ⟨h.head, h.flushedTail, by simp, ?_, ?_, ?_, ?_, ?_, ?_, ?_, ?_, rfl,
      h.inputEvents⟩
    · intro i hi
      simp at hi
      by_cases h1 : i = es.length
      · simp [setNext, store, h1]
      · have h2 : i ≠ es.length + 1 := by omega
        simp [setNext, store, h1, h2]
        exact h.next i (by omega)
    · by_cases h1 : es.length = 0
      · simp [setNext, store, h1, h.headEvent]
      · have h2 : 0 ≠ es.length := fun h => h1 h.symm
        simp [setNext, store, h2, h.headEvent]
    · intro i hi
      simp at hi
      by_cases h1 : i = es.length
      · simp [setNext, store, h1]
      · have h2 : i + 1 ≠ es.length + 1 := by omega
        by_cases h3 : i + 1 = es.length
        · simp [setNext, store, h1, h3]
          rw [← h3, h.events i (by omega)]
          rw [List.getElem?_append_left (by omega)]
        · simp [setNext, store, h1, h3]
          rw [h.events i (by omega), List.getElem?_append_left (by omega)]
    · intro i hi
      simp at hi
      by_cases h1 : i = es.length
      · simp [setNext, store, h1]
        exact h.fromHeap _ (by omega)
      · by_cases h2 : i = es.length + 1
        · simp [setNext, store, h2, hP]
          omega
        · simp [setNext, store, h1, h2]
          exact h.fromHeap _ (by omega)
    · intro i hi
      rw [hP] at hi
      by_cases h1 : i = es.length
      · simp [setNext, store, h1]
        exact h.poolFromHeap _ (by omega)
      · have h2 : i ≠ es.length + 1 := by omega
        simp [setNext, store, h1, h2]
        exact h.poolFromHeap _ (by omega)
    · simp [setNext, store, hP]; omega
    · simp [setNext, store, h.poolIndex, hP]; omega
    · simp [setNext, store, h.heapAllocated, hP]; omega

theorem seg_range (m : Nat → XcbEventNode) :
    ∀ (k a : Nat), (∀ i, a ≤ i → i < a + k → (m i).next = some (i + 1)) →
      Seg m a (List.range' (a + 1) k) (a + k) := by
  intro k
  induction k with
  | zero => intro a _; simp [Seg]
  | succ k ih =>
    intro a h
    rw [List.range'_succ]
    refine ⟨h a (le_refl _) (by omega), ?_⟩
    have := ih (a + 1) (fun i h1 h2 => h i (by omega) (by omega))
    rw [show a + (k + 1) = a + 1 + k by omega]
    exact this

theorem eventsOf_append (m : Nat → XcbEventNode) (l1 l2 : List Nat) :
    eventsOf m (l1 ++ l2) = eventsOf m l1 ++ eventsOf m l2 := by
  simp [eventsOf]

theorem eventsOf_range (m : Nat → XcbEventNode) (es : List xcb_generic_event_t) :
    ∀ n, n ≤ es.length → (∀ i, i < n → (m (i + 1)).event = es[i]?) →
      eventsOf m (List.range' 1 n) = es.take n := by
  intro n
  induction n with
  | zero => intro _ _; simp [eventsOf]
  | succ n ih =>
    intro hn h
    rw [List.range'_concat, eventsOf_append, ih (by omega) (fun i hi => h i (by omega)),
      List.take_succ, eventsOf_cons, show 1 + 1 * n = n + 1 by omega, h n (by omega)]
    simp [eventsOf]

theorem Appended.wf {q : XcbEventQueue} {es : List xcb_generic_event_t} (h : Appended q es) :
    WF q [] (List.range' 1 es.length) := by
  refine ⟨?_, ?_, ?_, ?_⟩
  · rw [h.head, h.flushedTail]; rfl
  · rw [h.flushedTail, h.tail]
    have := seg_range q.mem es.length 0 (fun i _ hi => h.next i (by omega))
    simpa using this
  · rw [h.head]
    have : (0 :: ([] ++ List.range' 1 es.length)) = List.range' 0 (es.length + 1) := by
      simp [List.range'_succ]
    rw [this]
    exact List.nodup_range' _ _
  · intro a ha
    rw [h.head, h.heapAllocated] at *
    simp [PoolSize] at ha ⊢
    rcases ha with rfl | ha
    · omega
    · omega

theorem Appended.eventsOf_pend {q : XcbEventQueue} {es : List xcb_generic_event_t}
    (h : Appended q es) : eventsOf q.mem (List.range' 1 es.length) = es := by
  rw [eventsOf_range q.mem es es.length (le_refl _) h.events]
  simp

theorem Appended.eventsOf_all {q : XcbEventQueue} {es : List xcb_generic_event_t}
    (h : Appended q es) :
    eventsOf q.mem (q.m_head :: ([] ++ List.range' 1 es.length)) = es := by
  rw [h.head, eventsOf_cons, h.headEvent]
  simpa using h.eventsOf_pend

theorem pollLoop_of_closed (c : XcbConnection) (s : Nat × XcbEventQueue)
    (evs : List xcb_generic_event_t) (h : s.2.m_closeConnectionDetected = true) :
    pollLoop c s evs = s := by
  cases evs <;> simp [pollLoop, h]

theorem enqueueEvent_sentinel (c : XcbConnection) (s : Nat × XcbEventQueue)
    (e : xcb_generic_event_t) (hs : isCloseSentinel c e = true) :
    enqueueEvent c s e = (s.1, { s.2 with m_closeConnectionDetected := true }) := by
  simp only [isCloseSentinel, Bool.and_eq_true, beq_iff_eq] at hs
  simp [enqueueEvent, isCloseConnectionEvent, hs.1, hs.2]

theorem Appended.closed {q : XcbEventQueue} {es : List xcb_generic_event_t}
    (h : Appended q es) (b : Bool) : Appended { q with m_closeConnectionDetected := b } es :=
  ⟨h.head, h.flushedTail, h.tail, h.next, h.headEvent, h.events, h.fromHeap, h.poolFromHeap,
    h.freeNodes, h.poolIndex, h.heapAllocated, h.nodesRestored, h.inputEvents⟩

theorem pollLoop_appended (c : XcbConnection) :
    ∀ (evs : List xcb_generic_event_t) (q : XcbEventQueue) (es : List xcb_generic_event_t),
      Appended q es → q.m_closeConnectionDetected = false →
      (pollLoop c (es.length, q) evs).1 =
          (es ++ evs.takeWhile (fun e => !isCloseSentinel c e)).length ∧
        Appended (pollLoop c (es.length, q) evs).2
          (es ++ evs.takeWhile (fun e => !isCloseSentinel c e)) ∧
        (pollLoop c (es.length, q) evs).2.m_closeConnectionDetected =
          evs.any (isCloseSentinel c) ∧
        (pollLoop c (es.length, q) evs).2.m_peekerToNode = q.m_peekerToNode ∧
        (pollLoop c (es.length, q) evs).2.m_peekerIdSource = q.m_peekerIdSource ∧
        (pollLoop c (es.length, q) evs).2.m_peekerIndexCacheDirty =
          q.m_peekerIndexCacheDirty ∧
        (pollLoop c (es.length, q) evs).2.m_queueModified = q.m_queueModified := by
  intro evs
  induction evs with
  | nil => intro q es h hf; simpa [pollLoop] using ⟨h, hf⟩
  | cons e evs ih =>
    intro q es h hf
    by_cases hs : isCloseSentinel c e = true
    · simp only [pollLoop, hf, Bool.false_eq_true, if_false]
      rw [enqueueEvent_sentinel c _ e hs, pollLoop_of_closed c _ _ rfl]
      simpa [hs] using h.closed true
    · have hs2 : isCloseSentinel c e = false := by simpa using hs
      obtain ⟨g1, g2, g3, g4, g5, g6, g7⟩ := enqueueEvent_appended c h e hf hs2
      have hrw : enqueueEvent c (es.length, q) e =
          ((es ++ [e]).length, (enqueueEvent c (es.length, q) e).2) := by
        apply Prod.ext
        · simpa using g1
        · rfl
      simp only [pollLoop, hf, Bool.false_eq_true, if_false]
      rw [hrw]
      obtain ⟨k1, k2, k3, k4, k5, k6, k7⟩ := ih _ (es ++ [e]) g2 g3
      simp only [List.takeWhile_cons, hs2, Bool.not_false, if_true, List.any_cons,
        Bool.false_or]
      rw [show es ++ e :: List.takeWhile (fun e => !isCloseSentinel c e) evs =
        es ++ [e] ++ List.takeWhile (fun e => !isCloseSentinel c e) evs by simp]
      exact ⟨k1, k2, k3, k4.trans g4, k5.trans g5, k6.trans g6, k7.trans g7⟩

theorem pollLoop_append (c : XcbConnection) :
    ∀ (l1 l2 : List xcb_generic_event_t) (s : Nat × XcbEventQueue),
      pollLoop c s (l1 ++ l2) = pollLoop c (pollLoop c s l1) l2 := by
  intro l1
  induction l1 with
  | nil => intro l2 s; simp [pollLoop]
  | cons e l1 ih =>
    intro l2 s
    by_cases h : s.2.m_closeConnectionDetected = true
    · rw [pollLoop_of_closed c s _ h, pollLoop_of_closed c s _ h, pollLoop_of_closed c s _ h]
    · simp only [List.cons_append, pollLoop, h, if_false]
      exact ih l2 _

theorem runLoop_eq_pollLoop (c : XcbConnection) :
    ∀ (input : List (xcb_generic_event_t × List xcb_generic_event_t))
      (s : Nat × XcbEventQueue), runLoop c s input = pollLoop c s (incoming input) := by
  intro input
  induction input with
  | nil => intro s; simp [runLoop, incoming, pollLoop]
  | cons b input ih =>
    intro s
    obtain ⟨e, polled⟩ := b
    by_cases h : s.2.m_closeConnectionDetected = true
    · rw [pollLoop_of_closed c s _ h]
      simp [runLoop, h]
    · have : incoming ((e, polled) :: input) = (e :: polled) ++ incoming input := by
        simp [incoming]
      rw [this, pollLoop_append]
      simp only [runLoop, h, if_false, pollLoop]
      exact ih _

theorem run_appended (c : XcbConnection) {q : XcbEventQueue} (h : Appended q [])
    (hf : q.m_closeConnectionDetected = false)
    (input : List (xcb_generic_event_t × List xcb_generic_event_t)) :
    Appended (run c q input) ((incoming input).takeWhile (fun e => !isCloseSentinel c e)) ∧
      (run c q input).m_closeConnectionDetected = (incoming input).any (isCloseSentinel c) ∧
      (run c q input).m_peekerToNode = q.m_peekerToNode ∧
      (run c q input).m_peekerIdSource = q.m_peekerIdSource ∧
      (run c q input).m_peekerIndexCacheDirty = q.m_peekerIndexCacheDirty ∧
      (run c q input).m_queueModified = q.m_queueModified := by
  have := pollLoop_appended c (incoming input) q [] h hf
  simp only [List.length_nil, List.nil_append] at this
  unfold run
  rw [runLoop_eq_pollLoop, h.head]
  exact this.2

theorem find?_isSome_eq_any {α : Type} (p : α → Bool) (l : List α) :
    (l.find? p).isSome = l.any p := by
  induction l with
  | nil => rfl
  | cons a l ih =>
    by_cases h : p a = true
    · simp [List.find?_cons, h]
    · simp [List.find?_cons, h, ih]

theorem compressEvent_spec (c : XcbConnection) {q : XcbEventQueue} {l1 : List Nat}
    (hwf : WF q l1 []) (hft : q.m_flushedTail = q.m_tail) (e : xcb_generic_event_t) :
    c.compressEvent q e = some (compressedBy c e (eventsOf q.mem (q.m_head :: l1)), q) := by
  have hp := fun p => peek_retain_spec hwf p
  simp only [List.append_nil, flush_of_eq hft] at hp
  unfold compressEvent compressedBy
  by_cases h0 : c.compressHighFrequencyEvents = true
  · simp only [h0, Bool.not_true, Bool.false_eq_true, if_false]
    by_cases h1 : responseType e = XCB_MOTION_NOTIFY
    · simp only [h1, if_true, hp, Option.map_some']
      simp [find?_isSome_eq_any]
    · simp only [h1, if_false]
      by_cases h2 : responseType e = XCB_GE_GENERIC
      · simp only [h2, if_true]
        by_cases h3 : c.isXIType e XCB_INPUT_MOTION = true
        · simp only [h3, if_true, hp, Option.map_some']
          simp [find?_isSome_eq_any]
        · simp [h3]
      · simp only [h2, if_false]
        by_cases h3 : responseType e = XCB_CONFIGURE_NOTIFY
        · simp only [h3, if_true, hp, Option.map_some']
          simp [find?_isSome_eq_any]
        · simp [h3]
  · simp [h0]

theorem processLoop_spec :
    ∀ (es : List xcb_generic_event_t) (q : XcbEventQueue) (l1 : List Nat) (fuel : Nat)
      (calls : List Call) (c : XcbConnection),
      WF q l1 [] → q.m_flushedTail = q.m_tail → q.m_inputEvents = [] →
      eventsOf q.mem (q.m_head :: l1) = es → es.length < fuel →
      ∃ q' l1r, XcbConnection.processLoop false fuel calls c q =
          some (calls ++ (processCalls c es).1, (processCalls c es).2, q') ∧
        WF q' l1r [] ∧ eventsOf q'.mem (q'.m_head :: l1r) = [] ∧ q'.m_inputEvents = [] ∧
        SameLinks q q' := by
  intro es
  induction es with
  | nil =>
    intro q l1 fuel calls c hwf hft hin hes hf
    obtain ⟨fuel, rfl⟩ : ∃ f, fuel = f + 1 := ⟨fuel - 1, by omega⟩
    obtain ⟨d, l1r, q', h1, h2, h3, h4, h5, h6, h7, h8, h9, h10⟩ := takeFirst_spec hwf
    rw [hes] at h1 h4
    exact ⟨q', l1r, by simp [XcbConnection.processLoop, takeFirstFlags, hin, h1, processCalls],
      h3, by simpa using h4, h8.trans hin, h7⟩
  | cons e es ih =>
    intro q l1 fuel calls c hwf hft hin hes hf
    obtain ⟨fuel, rfl⟩ : ∃ f, fuel = f + 1 := ⟨fuel - 1, by omega⟩
    obtain ⟨d, l1r, q1, h1, h2, h3, h4, h5, h6, h7, h8, h9, h10⟩ := takeFirst_spec hwf
    rw [hes] at h1 h4
    have hft1 : q1.m_flushedTail = q1.m_tail := by rw [h7.flushedTail, h7.tail, hft]
    have hin1 : q1.m_inputEvents = [] := h8.trans hin
    have hes1 : eventsOf q1.mem (q1.m_head :: l1r) = es := by simpa using h4
    have hfuel : es.length < fuel := by simp at hf; omega
    have htake : q.takeFirstFlags c false = some (some e, q1) := by
      simp [takeFirstFlags, hin, h1]
    by_cases herr : responseType e = 0
    · obtain ⟨q', l1r', g1, g2, g3, g4, g5⟩ :=
        ih q1 l1r fuel (calls ++ [Call.handleXcbError e]) c h3 hft1 hin1 hes1 hfuel
      refine ⟨q', l1r', ?_, g2, g3, g4, h7.trans g5⟩
      simp [XcbConnection.processLoop, htake, herr, g1, processCalls]
    · have hcomp := compressEvent_spec c h3 hft1 e
      rw [hes1] at hcomp
      by_cases hc : compressedBy c e es = true
      · obtain ⟨q', l1r', g1, g2, g3, g4, g5⟩ := ih q1 l1r fuel calls c h3 hft1 hin1 hes1 hfuel
        refine ⟨q', l1r', ?_, g2, g3, g4, h7.trans g5⟩
        simp [XcbConnection.processLoop, htake, herr, hcomp, hc, g1, processCalls]
      · have hc2 : compressedBy c e es = false := by simpa using hc
        obtain ⟨q', l1r', g1, g2, g3, g4, g5⟩ :=
          ih q1 l1r fuel (calls ++ Call.handleXcbEvent e :: (c.handleXcbEvent e).1)
            (c.handleXcbEvent e).2 h3 hft1 hin1 hes1 hfuel
        refine ⟨q', l1r', ?_, g2, g3, g4, h7.trans g5⟩
        simp [XcbConnection.processLoop, htake, herr, hcomp, hc2, flush_of_eq hft1, g1,
          processCalls]

theorem processXcbEvents_spec (c : XcbConnection) {q : XcbEventQueue} {l1 l2 : List Nat}
    (hwf : WF q l1 l2) (hin : q.m_inputEvents = []) (herr : c.connection_error = 0) :
    ∃ q' l1r, c.processXcbEvents q false =
        some ((processCalls c (eventsOf q.mem (q.m_head :: (l1 ++ l2)))).1,
          (processCalls c (eventsOf q.mem (q.m_head :: (l1 ++ l2)))).2, q') ∧
      WF q' l1r [] ∧ eventsOf q'.mem (q'.m_head :: l1r) = [] ∧ q'.m_inputEvents = [] ∧
      SameLinks q.flushBufferedEvents q' := by
  have hf := hwf.flush
  have hlen := eventsOf_length_le q.flushBufferedEvents.mem
    (q.flushBufferedEvents.m_head :: (l1 ++ l2))
  obtain ⟨q', l1r, g1, g2, g3, g4, g5⟩ :=
    processLoop_spec _ q.flushBufferedEvents (l1 ++ l2)
      (q.flushBufferedEvents.fuel + q.flushBufferedEvents.m_inputEvents.length) [] c hf rfl hin
      rfl (by have := hf.length_lt_fuel; simp at this hlen ⊢; omega)
  refine ⟨q', l1r, ?_, g2, g3, g4, g5⟩
  simp only [XcbConnection.processXcbEvents, herr, ne_eq, not_true_eq_false, if_false]
  simpa using g1

theorem setTime_settings (c : XcbConnection) (t : Nat) :
    (c.setTime t).isXIType = c.isXIType ∧
      (c.setTime t).compressHighFrequencyEvents = c.compressHighFrequencyEvents := by
  unfold XcbConnection.setTime
  split <;> exact ⟨rfl, rfl⟩

theorem ite_pred {α : Type} (P : α → Prop) (p : Prop) [Decidable p] (a b : α)
    (ha : p → P a) (hb : ¬p → P b) : P (if p then a else b) := by
  by_cases h : p
  · rw [if_pos h]; exact ha h
  · rw [if_neg h]; exact hb h

/-- Case analysis on the result of `handleXcbEvent`. -/
theorem handleXcbEvent_cases (c : XcbConnection) (e : xcb_generic_event_t)
    (P : List Call × XcbConnection → Prop)
    (h1 : P ([], c))
    (h2 : ∀ w h, P (c.handlePlatformWindowEvent e w h, c))
    (h3 : P ([Call.handleSelectionRequest e], c))
    (h4 : P ([Call.handleSelectionClearRequest e], c.setTime e.time))
    (h5 : P ([], c.setTime e.time))
    (h6 : P ([Call.xi2HandleEvent e], c))
    (h7 : P ([Call.handleXFixesSelectionRequest e], c.setTime e.time)) :
    P (c.handleXcbEvent e) := by
  unfold XcbConnection.handleXcbEvent
  dsimp only
  repeat' (apply ite_pred P <;> intro _)
  all_goals first
    | exact h1 | exact h2 _ _ | exact h3 | exact h4 | exact h5 | exact h6 | exact h7

theorem handleXcbEvent_snd (c : XcbConnection) (e : xcb_generic_event_t) :
    (c.handleXcbEvent e).2 = c ∨ (c.handleXcbEvent e).2 = c.setTime e.time := by
  apply handleXcbEvent_cases c e (fun r => r.2 = c ∨ r.2 = c.setTime e.time)
  all_goals first | exact Or.inl rfl | exact Or.inr rfl | (intros; exact Or.inl rfl)

theorem handleXcbEvent_settings (c : XcbConnection) (e : xcb_generic_event_t) :
    (c.handleXcbEvent e).2.isXIType = c.isXIType ∧
      (c.handleXcbEvent e).2.compressHighFrequencyEvents = c.compressHighFrequencyEvents := by
  rcases handleXcbEvent_snd c e with h | h
  · rw [h]; exact ⟨rfl, rfl⟩
  · rw [h]; exact setTime_settings c e.time

theorem delivered_append (a b : List Call) : delivered (a ++ b) = delivered a ++ delivered b := by
  simp [delivered]

theorem delivered_handlePlatformWindowEvent (c : XcbConnection) (e : xcb_generic_event_t)
    (w : Nat) (h : Handler) : delivered (c.handlePlatformWindowEvent e w h) = [] := by
  unfold XcbConnection.handlePlatformWindowEvent
  split
  · split_ifs <;> rfl
  · rfl

theorem delivered_handleXcbEvent (c : XcbConnection) (e : xcb_generic_event_t) :
    delivered (c.handleXcbEvent e).1 = [] := by
  apply handleXcbEvent_cases c e (fun r => delivered r.1 = [])
  all_goals first
    | rfl
    | (intros; exact delivered_handlePlatformWindowEvent _ _ _ _)

theorem compressedBy_congr {c0 c : XcbConnection} (h1 : c0.isXIType = c.isXIType)
    (h2 : c0.compressHighFrequencyEvents = c.compressHighFrequencyEvents)
    (e : xcb_generic_event_t) (rest : List xcb_generic_event_t) :
    compressedBy c0 e rest = compressedBy c e rest := by
  unfold compressedBy
  rw [h1, h2]

theorem compressedBy_of_class_none (c : XcbConnection) (e : xcb_generic_event_t)
    (rest : List xcb_generic_event_t) (h : coalesceClass c e = none) :
    compressedBy c e rest = false := by
  unfold coalesceClass at h
  unfold compressedBy
  by_cases h1 : responseType e = XCB_MOTION_NOTIFY
  · rw [if_pos h1] at h; exact absurd h (by simp)
  · rw [if_neg h1] at h
    by_cases h2 : responseType e = XCB_GE_GENERIC
    · by_cases h3 : c.isXIType e XCB_INPUT_MOTION = true
      · rw [if_pos ⟨h2, h3⟩] at h; exact absurd h (by simp)
      · rw [if_neg h1, if_pos h2, if_neg h3]; simp
    · have h23 : ¬ (responseType e = XCB_GE_GENERIC ∧ c.isXIType e XCB_INPUT_MOTION = true) :=
        fun hh => h2 hh.1
      rw [if_neg h23] at h
      by_cases h3 : responseType e = XCB_CONFIGURE_NOTIFY
      · rw [if_pos h3] at h; exact absurd h (by simp)
      · rw [if_neg h1, if_neg h2, if_neg h3]; simp

theorem delivered_processCalls_of_class_none (c : XcbConnection) :
    ∀ (es : List xcb_generic_event_t) (c0 : XcbConnection),
      c0.isXIType = c.isXIType →
      c0.compressHighFrequencyEvents = c.compressHighFrequencyEvents →
      (∀ e ∈ es, coalesceClass c e = none) → delivered (processCalls c0 es).1 = es := by
  intro es
  induction es with
  | nil => intro c0 _ _ _; simp [processCalls, delivered]
  | cons e es ih =>
    intro c0 h1 h2 hall
    have hc : compressedBy c0 e es = false := by
      rw [compressedBy_congr h1 h2]
      exact compressedBy_of_class_none c e es (hall e (by simp))
    have hrest : ∀ e ∈ es, coalesceClass c e = none := fun x hx => hall x (by simp [hx])
    by_cases herr : responseType e = 0
    · simp only [processCalls, herr, if_true]
      have := ih c0 h1 h2 hrest
      simp [delivered] at this ⊢
      exact this
    · have hs := handleXcbEvent_settings c0 e
      have := ih (c0.handleXcbEvent e).2 (hs.1.trans h1) (hs.2.trans h2) hrest
      simp only [processCalls, herr, if_false, hc, Bool.false_eq_true]
      rw [show Call.handleXcbEvent e :: (c0.handleXcbEvent e).1 ++
          (processCalls (c0.handleXcbEvent e).2 es).1 =
        [Call.handleXcbEvent e] ++ (c0.handleXcbEvent e).1 ++
          (processCalls (c0.handleXcbEvent e).2 es).1 by simp]
      rw [delivered_append, delivered_append, delivered_handleXcbEvent, this]
      simp [delivered]

theorem delivered_processCalls_uncompressed (c : XcbConnection) :
    ∀ (es : List xcb_generic_event_t) (c0 : XcbConnection),
      c0.isXIType = c.isXIType →
      c0.compressHighFrequencyEvents = c.compressHighFrequencyEvents →
      delivered (processCalls c0 es).1 = uncompressed c es := by
  intro es
  induction es with
  | nil => intro c0 _ _; rfl
  | cons e es ih =>
    intro c0 h1 h2
    have hc := compressedBy_congr h1 h2 e es
    by_cases herr : responseType e = 0
    · have := ih c0 h1 h2
      simp only [processCalls, herr, if_true, uncompressed, ne_eq, not_true_eq_false, false_and,
        if_false]
      simp [delivered] at this ⊢
      exact this
    · by_cases hd : compressedBy c e es = true
      · simp only [processCalls, herr, if_false, hc, hd, if_true, uncompressed, ne_eq,
          not_false_eq_true, and_self]
        exact ih c0 h1 h2
      · have hs := handleXcbEvent_settings c0 e
        have hd2 : compressedBy c e es = false := by simpa using hd
        have := ih (c0.handleXcbEvent e).2 (hs.1.trans h1) (hs.2.trans h2)
        simp only [processCalls, herr, if_false, hc, hd2, uncompressed, ne_eq, and_false,
          Bool.false_eq_true]
        rw [show Call.handleXcbEvent e :: (c0.handleXcbEvent e).1 ++
            (processCalls (c0.handleXcbEvent e).2 es).1 =
          [Call.handleXcbEvent e] ++ (c0.handleXcbEvent e).1 ++
            (processCalls (c0.handleXcbEvent e).2 es).1 by simp]
        rw [delivered_append, delivered_append, delivered_handleXcbEvent, this]
        simp [delivered]

theorem takeFirstExcludeLoop_spec (c : XcbConnection) (l2 : List Nat) :
    ∀ (es : List xcb_generic_event_t) (q : XcbEventQueue) (l1 : List Nat) (fuel : Nat),
      WF q l1 l2 → eventsOf q.mem (q.m_head :: l1) = es → es.length < fuel →
      ∃ q' l1r, takeFirstExcludeLoop c fuel q =
          some ((es.dropWhile c.isUserInputEvent).head?, q') ∧
        WF q' l1r l2 ∧
        eventsOf q'.mem (q'.m_head :: l1r) = (es.dropWhile c.isUserInputEvent).tail ∧
        eventsOf q'.mem l2 = eventsOf q.mem l2 ∧
        q'.m_inputEvents = q.m_inputEvents ++ es.takeWhile c.isUserInputEvent ∧
        SameLinks q q' := by
  intro es
  induction es with
  | nil =>
    intro q l1 fuel hwf hes hf
    obtain ⟨fuel, rfl⟩ : ∃ f, fuel = f + 1 := ⟨fuel - 1, by omega⟩
    obtain ⟨d, l1r, q', h1, h2, h3, h4, h5, h6, h7, h8, h9, h10⟩ := takeFirst_spec hwf
    rw [hes] at h1 h4
    exact ⟨q', l1r, by simp [takeFirstExcludeLoop, h1], h3, by simpa using h4, h5,
      by simpa using h8, h7⟩
  | cons e es ih =>
    intro q l1 fuel hwf hes hf
    obtain ⟨fuel, rfl⟩ : ∃ f, fuel = f + 1 := ⟨fuel - 1, by omega⟩
    obtain ⟨d, l1r, q1, h1, h2, h3, h4, h5, h6, h7, h8, h9, h10⟩ := takeFirst_spec hwf
    rw [hes] at h1 h4
    by_cases hu : c.isUserInputEvent e = true
    · obtain ⟨q', l1r', g1, g2, g3, g4, g5, g6⟩ :=
        ih { q1 with m_inputEvents := q1.m_inputEvents ++ [e] } l1r fuel
          (h3.inputEvents _) (by simpa using h4) (by simp at hf; omega)
      have hsl : SameLinks q1 { q1 with m_inputEvents := q1.m_inputEvents ++ [e] } :=
        ⟨rfl, rfl, rfl, rfl, rfl, rfl, rfl, rfl, rfl, rfl, fun _ => rfl, fun _ => rfl⟩
      refine ⟨q', l1r', ?_, g2, by simpa [hu] using g3, g4.trans h5, ?_,
        h7.trans (hsl.trans g6)⟩
      · simp [takeFirstExcludeLoop, h1, hu, g1]
      · rw [g5]
        simp [hu, h8]
    · refine ⟨q1, l1r, ?_, h3, ?_, h5, ?_, h7⟩
      · simp [takeFirstExcludeLoop, h1, hu]
      · simpa [hu] using h4
      · simp [hu, h8]

theorem peekEventQueueLoop_pure (p : xcb_generic_event_t → Bool) (q : XcbEventQueue)
    (hmod : q.m_queueModified = false) :
    ∀ (l : List Nat) (node fuel : Nat), Seg q.mem node l q.m_flushedTail →
      (node :: l).Nodup → l.length < fuel →
      peekEventQueueLoop (purePeeker p) fuel node q =
        some ((eventsOf q.mem (node :: l)).any p, some (scanStop q.mem p node l), q) := by
  intro l
  induction l with
  | nil =>
    intro node fuel hs _ hf
    obtain ⟨fuel, rfl⟩ : ∃ f, fuel = f + 1 := ⟨fuel - 1, by omega⟩
    have hn : node = q.m_flushedTail := hs
    cases hev : (q.mem node).event with
    | none => simp [peekEventQueueLoop, hev, eventsOf_cons, eventsOf, ← hn, scanStop]
    | some e =>
      by_cases hp : p e = true
      · simp [peekEventQueueLoop, hev, hp, eventsOf_cons, eventsOf, purePeeker, scanStop]
      · simp [peekEventQueueLoop, hev, hp, eventsOf_cons, eventsOf, purePeeker, ← hn, scanStop]
  | cons x l ih =>
    intro node fuel hs hnd hf
    obtain ⟨fuel, rfl⟩ : ∃ f, fuel = f + 1 := ⟨fuel - 1, by omega⟩
    have hne : node ≠ q.m_flushedTail := by
      intro h
      have hm : q.m_flushedTail ∈ x :: l := Seg.last_mem hs (by simp)
      rw [← h] at hm
      exact (List.nodup_cons.1 hnd).1 hm
    have hrec := ih x fuel hs.2 (List.nodup_cons.1 hnd).2 (by simp at hf; omega)
    cases hev : (q.mem node).event with
    | none =>
      simp only [peekEventQueueLoop, hev, hne, hs.1, if_false, hmod, Bool.not_false, if_true]
      rw [hrec, eventsOf_cons q.mem node, hev]
      simp [scanStop, hev]
    | some e =>
      by_cases hp : p e = true
      · simp [peekEventQueueLoop, hev, hp, eventsOf_cons, purePeeker, scanStop]
      · simp only [peekEventQueueLoop, hev, purePeeker, hp, hne, hs.1, if_false, hmod,
          Bool.not_false, if_true]
        rw [hrec, eventsOf_cons q.mem node, hev]
        simp [hp, scanStop, hev]

theorem scanStop_mem (mem : Nat → XcbEventNode) (p : xcb_generic_event_t → Bool) :
    ∀ (l : List Nat) (a : Nat), scanStop mem p a l ∈ a :: l := by
  intro l
  induction l with
  | nil => intro a; simp [scanStop]
  | cons x l ih =>
    intro a
    have := ih x
    unfold scanStop
    split
    · split
      · simp
      · exact List.mem_cons_of_mem _ this
    · exact List.mem_cons_of_mem _ this

theorem lookup_map_reset (l : List (Int × Option Nat)) (j : Int) :
    (l.map (fun p => (p.1, (none : Option Nat)))).lookup j =
      (l.lookup j).map (fun _ => none) := by
  induction l with
  | nil => rfl
  | cons a l ih =>
    obtain ⟨k, v⟩ := a
    by_cases h : j = k
    · subst h; simp [List.lookup]
    · have : (j == k) = false := by simpa using h
      simp [List.lookup, this, ih]

theorem lookup_cons_self {β : Type} (k : Int) (v : β) (l : List (Int × β)) :
    ((k, v) :: l).lookup k = some v := by
  simp [List.lookup]

theorem lookup_cons_ne {β : Type} {j k : Int} (v : β) (l : List (Int × β)) (h : j ≠ k) :
    ((k, v) :: l).lookup j = l.lookup j := by
  have : (j == k) = false := by simpa using h
  simp [List.lookup, this]

theorem lookup_map_update_ne (l : List (Int × Option Nat)) (id j : Int) (n : Option Nat)
    (h : j ≠ id) :
    (l.map (fun p => if p.1 = id then (p.1, n) else p)).lookup j = l.lookup j := by
  induction l with
  | nil => rfl
  | cons a l ih =>
    obtain ⟨k, v⟩ := a
    rw [List.map_cons]
    by_cases hk : k = id
    · rw [if_pos hk]
      have hjk : j ≠ k := by rw [hk]; exact h
      rw [lookup_cons_ne _ _ hjk, lookup_cons_ne _ _ hjk, ih]
    · rw [if_neg hk]
      by_cases hj : j = k
      · subst hj; rw [lookup_cons_self, lookup_cons_self]
      · rw [lookup_cons_ne _ _ hj, lookup_cons_ne _ _ hj, ih]

theorem lookup_map_update_eq (l : List (Int × Option Nat)) (id : Int) (n : Option Nat)
    (h : (l.lookup id).isSome = true) :
    (l.map (fun p => if p.1 = id then (p.1, n) else p)).lookup id = some n := by
  induction l with
  | nil => simp [List.lookup] at h
  | cons a l ih =>
    obtain ⟨k, v⟩ := a
    rw [List.map_cons]
    by_cases hk : k = id
    · rw [if_pos hk]
      subst hk
      exact lookup_cons_self _ _ _
    · rw [if_neg hk]
      have hne : id ≠ k := fun h => hk h.symm
      rw [lookup_cons_ne _ _ hne] at h ⊢
      exact ih h

theorem peekEventQueue_noid {q : XcbEventQueue} {l1 l2 : List Nat} (hwf : WF q l1 l2)
    (p : xcb_generic_event_t → Bool) (option : Nat)
    (hopt : testFlag option PeekOption.PeekFromCachedIndex = false) :
    ∃ q', q.peekEventQueue (purePeeker p) option (-1) =
        some ((eventsOf q.mem (q.m_head :: (l1 ++ l2))).any p, q') ∧
      q'.mem = q.mem ∧ q'.m_head = q.m_head ∧ q'.m_flushedTail = q.m_tail ∧
      q'.m_tail = q.m_tail ∧ q'.heapAllocated = q.heapAllocated ∧
      q'.m_peekerToNode = q.m_peekerToNode ∧
      q'.m_peekerIndexCacheDirty = q.m_peekerIndexCacheDirty ∧
      q'.m_inputEvents = q.m_inputEvents := by
  have hf := hwf.flush
  unfold peekEventQueue
  simp only [bne_self_eq_false, Bool.false_and, Bool.false_eq_true, if_false, hopt]
  by_cases he : q.flushBufferedEvents.isEmpty = true
  · obtain ⟨hl, hev⟩ := hf.isEmpty_iff.1 he
    have hev2 : (q.mem q.m_head).event = none := hev
    refine ⟨q.flushBufferedEvents, ?_, rfl, rfl, rfl, rfl, rfl, rfl, rfl, rfl⟩
    simp [he, hl, eventsOf_cons, hev2, eventsOf]
  · have hloop := peekEventQueueLoop_pure p
      { q.flushBufferedEvents with m_queueModified := false } rfl (l1 ++ l2) q.m_head
      q.flushBufferedEvents.fuel hf.vis (by simpa using hf.nodup)
      (by have := hf.length_lt_fuel; simp at this ⊢; omega)
    refine ⟨{ q.flushBufferedEvents with m_queueModified := false }, ?_, rfl, rfl, rfl, rfl,
      rfl, rfl, rfl, rfl⟩
    simp only [he, Bool.false_eq_true, if_false]
    generalize hX : peekEventQueueLoop _ _ _ _ = X
    have hx := hX.symm.trans hloop
    rw [hx]
    rfl

theorem peekEventQueue_id_head {q : XcbEventQueue} {l1 l2 : List Nat} (hwf : WF q l1 l2)
    (p : xcb_generic_event_t → Bool) (option : Nat) (id : Int) (hid : id ≠ -1)
    (cur : Option Nat) (hreg : q.m_peekerToNode.lookup id = some cur)
    (hstart : testFlag option PeekOption.PeekFromCachedIndex = false ∨
      q.m_peekerIndexCacheDirty = true ∨ cur = none) :
    ∃ q', q.peekEventQueue (purePeeker p) option id =
        some ((eventsOf q.mem (q.m_head :: (l1 ++ l2))).any p, q') ∧
      q'.mem = q.mem ∧ q'.m_head = q.m_head ∧ q'.m_flushedTail = q.m_tail ∧
      q'.m_tail = q.m_tail ∧ q'.heapAllocated = q.heapAllocated ∧
      q'.m_inputEvents = q.m_inputEvents ∧ q'.m_peekerIndexCacheDirty = false ∧
      (∀ j, j ≠ id → q'.m_peekerToNode.lookup j =
        (q.m_peekerToNode.lookup j).map
          (fun v => if q.m_peekerIndexCacheDirty then none else v)) ∧
      (q'.m_peekerToNode.lookup id =
          some (if q.m_peekerIndexCacheDirty then none else cur) ∨
        q'.m_peekerToNode.lookup id =
          some (some (scanStop q.mem p q.m_head (l1 ++ l2)))) := by
  have hprov : (id != -1) = true := by simpa using hid
  -- the state after the reset of the cursors
  obtain ⟨q1, hq1, hmem, hhead, hft, htail, hheap, hin, hdirty, hlk, hlkid⟩ :
      ∃ q1, (if true && q.m_peekerIndexCacheDirty then
          { q with
            m_peekerToNode := q.m_peekerToNode.map (fun p => (p.1, none)),
            m_peekerIndexCacheDirty := false }
        else q) = q1 ∧ q1.mem = q.mem ∧ q1.m_head = q.m_head ∧
        q1.m_flushedTail = q.m_flushedTail ∧ q1.m_tail = q.m_tail ∧
        q1.heapAllocated = q.heapAllocated ∧ q1.m_inputEvents = q.m_inputEvents ∧
        q1.m_peekerIndexCacheDirty = false ∧
        (∀ j, q1.m_peekerToNode.lookup j = (q.m_peekerToNode.lookup j).map
          (fun v => if q.m_peekerIndexCacheDirty then none else v)) ∧
        q1.m_peekerToNode.lookup id =
          some (if q.m_peekerIndexCacheDirty then none else cur) := by
    cases hd : q.m_peekerIndexCacheDirty
    · refine ⟨q, by simp [hd], rfl, rfl, rfl, rfl, rfl, rfl, hd, ?_, by simp [hreg]⟩
      intro j
      cases q.m_peekerToNode.lookup j <;> simp
    · refine ⟨{ q with
          m_peekerToNode := q.m_peekerToNode.map (fun p => (p.1, none)),
          m_peekerIndexCacheDirty := false }, by simp, rfl, rfl, rfl, rfl, rfl, rfl, rfl,
        ?_, ?_⟩
      · intro j
        rw [lookup_map_reset]
        cases q.m_peekerToNode.lookup j <;> simp
      · show List.lookup id (q.m_peekerToNode.map (fun p => (p.1, none))) = _
        rw [lookup_map_reset, hreg]
        simp
  have hwf1 : WF q1 l1 l2 :=
    ⟨by rw [hmem, hhead, hft]; exact hwf.vis, by rw [hmem, hft, htail]; exact hwf.pend,
      by rw [hhead]; exact hwf.nodup, by rw [hhead, hheap]; exact hwf.bound⟩
  have hf := hwf1.flush
  unfold peekEventQueue
  simp only [hprov, hreg, Option.isNone_some, Bool.and_false, Bool.false_eq_true, if_false,
    Bool.not_true, hq1]
  by_cases he : q1.flushBufferedEvents.isEmpty = true
  · obtain ⟨hl, hev⟩ := hf.isEmpty_iff.1 he
    have hev2 : (q.mem q.m_head).event = none := by
      have : (q1.mem q1.m_head).event = none := hev
      rwa [hmem, hhead] at this
    refine ⟨q1.flushBufferedEvents, ?_, hmem, hhead, htail, htail, hheap, hin, hdirty,
      fun j _ => hlk j, Or.inl hlkid⟩
    simp [he, hl, eventsOf_cons, hev2, eventsOf]
  · have hloop := peekEventQueueLoop_pure p
      { q1.flushBufferedEvents with m_queueModified := false } rfl (l1 ++ l2) q1.m_head
      q1.flushBufferedEvents.fuel hf.vis (by simpa using hf.nodup)
      (by have := hf.length_lt_fuel; simp at this ⊢; omega)
    have hst : (if testFlag option PeekOption.PeekFromCachedIndex = true then
          match List.lookup id q1.flushBufferedEvents.m_peekerToNode with
          | some (some cachedNode) =>
            if cachedNode = q1.flushBufferedEvents.m_flushedTail then none
            else (q1.flushBufferedEvents.mem cachedNode).next
          | _ => some q1.flushBufferedEvents.m_head
        else some q1.flushBufferedEvents.m_head) = some q1.m_head := by
      have hlk2 : List.lookup id q1.flushBufferedEvents.m_peekerToNode =
          some (if q.m_peekerIndexCacheDirty then none else cur) := hlkid
      rcases hstart with h | h | h
      · simp [h]
        rfl
      · rw [hlk2]
        simp [h]
        rfl
      · rw [hlk2, h]
        simp
        rfl
    simp only [he, Bool.false_eq_true, if_false, hst]
    generalize hX : peekEventQueueLoop _ _ _ _ = X
    have hx := hX.symm.trans hloop
    rw [hx]
    have hany : (eventsOf q1.mem (q1.m_head :: (l1 ++ l2))).any p =
        (eventsOf q.mem (q.m_head :: (l1 ++ l2))).any p := by rw [hmem, hhead]
    have hstop : scanStop q1.mem p q1.m_head (l1 ++ l2) =
        scanStop q.mem p q.m_head (l1 ++ l2) := by rw [hmem, hhead]
    by_cases hs : scanStop q1.mem p q1.m_head (l1 ++ l2) = q1.m_head
    · refine ⟨{ q1.flushBufferedEvents with m_queueModified := false }, ?_, hmem, hhead, htail,
        htail, hheap, hin, hdirty, fun j _ => hlk j, Or.inl hlkid⟩
      have hs2 : scanStop q1.flushBufferedEvents.mem p q1.m_head (l1 ++ l2) = q1.m_head := hs
      simp [hs2]
      exact hany
    · have hs2 : scanStop q1.flushBufferedEvents.mem p q1.m_head (l1 ++ l2) ≠ q1.m_head := hs
      have hlk3 : List.lookup id q1.flushBufferedEvents.m_peekerToNode =
          some (if q.m_peekerIndexCacheDirty then none else cur) := hlkid
      refine ⟨{ q1.flushBufferedEvents with
          m_queueModified := false
          m_peekerToNode := q1.m_peekerToNode.map (fun x =>
            if x.1 = id then (x.1, some (scanStop q1.mem p q1.m_head (l1 ++ l2))) else x) },
        ?_, hmem, hhead, htail, htail, hheap, hin, hdirty, ?_, Or.inr ?_⟩
      · simp [hs2, hlk3]
        exact ⟨hany, rfl⟩
      · intro j hj
        show List.lookup j (q1.m_peekerToNode.map _) = _
        rw [lookup_map_update_ne _ _ _ _ hj, hlk j]
      · show List.lookup id (q1.m_peekerToNode.map _) = _
        rw [lookup_map_update_eq _ _ _ (by rw [hlkid]; rfl), hstop]

theorem peekLoop_remove (peeker : xcb_generic_event_t → Nat → Bool) :
    ∀ (l : List Nat) (node fuel : Nat) (q : XcbEventQueue),
      Seg q.mem node l q.m_flushedTail → (node :: l).Nodup → l.length < fuel →
      ∃ q', peekLoop PeekOption.PeekRemoveMatch peeker fuel node q =
          some ((eventsOf q.mem (node :: l)).find? (fun e => peeker e (responseType e)), q') ∧
        (q' = q ∨ ∃ n ∈ node :: l, q' = q.setEvent n none) ∧
        eventsOf q'.mem (node :: l) =
          (eventsOf q.mem (node :: l)).eraseP (fun e => peeker e (responseType e)) := by
  intro l
  induction l with
  | nil =>
    intro node fuel q hs _ hf
    obtain ⟨fuel, rfl⟩ : ∃ f, fuel = f + 1 := ⟨fuel - 1, by omega⟩
    have hn : node = q.m_flushedTail := hs
    cases hev : (q.mem node).event with
    | none =>
      exact ⟨q, by simp [peekLoop, hev, eventsOf_cons, eventsOf, ← hn], Or.inl rfl,
        by simp [eventsOf_cons, hev, eventsOf]⟩
    | some e =>
      by_cases hp : peeker e (responseType e) = true
      · refine ⟨q.setEvent node none, ?_, Or.inr ⟨node, by simp, rfl⟩, ?_⟩
        · simp [peekLoop, hev, hp, eventsOf_cons, eventsOf]
        · simp [eventsOf_cons, hev, eventsOf, hp]
      · exact ⟨q, by simp [peekLoop, hev, hp, eventsOf_cons, eventsOf, ← hn], Or.inl rfl,
          by simp [eventsOf_cons, hev, eventsOf, hp]⟩
  | cons x l ih =>
    intro node fuel q hs hnd hf
    obtain ⟨fuel, rfl⟩ : ∃ f, fuel = f + 1 := ⟨fuel - 1, by omega⟩
    have hnotin : node ∉ x :: l := (List.nodup_cons.1 hnd).1
    have hne : node ≠ q.m_flushedTail := by
      intro h
      have hm : q.m_flushedTail ∈ x :: l := Seg.last_mem hs (by simp)
      rw [← h] at hm
      exact hnotin hm
    obtain ⟨q', h1, h2, h3⟩ := ih x fuel q hs.2 (List.nodup_cons.1 hnd).2 (by simp at hf; omega)
    have hkeep : (q'.mem node).event = (q.mem node).event := by
      rcases h2 with rfl | ⟨n, hn, rfl⟩
      · rfl
      · exact setEvent_event_of_ne q none (fun h => hnotin (h ▸ hn))
    have hq' : q' = q ∨ ∃ n ∈ node :: x :: l, q' = q.setEvent n none := by
      rcases h2 with h | ⟨n, hn, h⟩
      · exact Or.inl h
      · exact Or.inr ⟨n, List.mem_cons_of_mem _ hn, h⟩
    cases hev : (q.mem node).event with
    | none =>
      refine ⟨q', ?_, hq', ?_⟩
      · simp only [peekLoop, hev, hne, hs.1, if_false]
        rw [h1, eventsOf_cons q.mem node, hev]
        simp
      · rw [eventsOf_cons q'.mem node, hkeep, eventsOf_cons q.mem node, hev, h3]
        simp
    | some e =>
      by_cases hp : peeker e (responseType e) = true
      · refine ⟨q.setEvent node none, ?_, Or.inr ⟨node, by simp, rfl⟩, ?_⟩
        · simp [peekLoop, hev, hp, eventsOf_cons]
        · rw [eventsOf_cons (q.setEvent node none).mem node, setEvent_event_self,
            eventsOf_setEvent_of_not_mem q node none (x :: l) hnotin, eventsOf_cons q.mem node,
            hev]
          simp [hp]
      · refine ⟨q', ?_, hq', ?_⟩
        · simp only [peekLoop, hev, hp, hne, hs.1, if_false]
          rw [h1, eventsOf_cons q.mem node, hev]
          simp [hp]
        · rw [eventsOf_cons q'.mem node, hkeep, eventsOf_cons q.mem node, hev, h3]
          simp [hp]

theorem peek_remove_spec {q : XcbEventQueue} {l1 l2 : List Nat} (hwf : WF q l1 l2)
    (peeker : xcb_generic_event_t → Nat → Bool) :
    ∃ q', q.peek PeekOption.PeekRemoveMatch peeker =
        some ((eventsOf q.mem (q.m_head :: (l1 ++ l2))).find?
          (fun e => peeker e (responseType e)), q') ∧
      (q' = q.flushBufferedEvents ∨
        ∃ n ∈ q.m_head :: (l1 ++ l2), q' = q.flushBufferedEvents.setEvent n none) ∧
      eventsOf q'.mem (q.m_head :: (l1 ++ l2)) =
        (eventsOf q.mem (q.m_head :: (l1 ++ l2))).eraseP
          (fun e => peeker e (responseType e)) := by
  have hf := hwf.flush
  by_cases he : q.flushBufferedEvents.isEmpty = true
  · obtain ⟨hl, hev⟩ := hf.isEmpty_iff.1 he
    have hev2 : (q.mem q.m_head).event = none := hev
    refine ⟨q.flushBufferedEvents, ?_, Or.inl rfl, ?_⟩
    · simp [peek, he, hl, eventsOf_cons, hev2, eventsOf]
    · have : q.flushBufferedEvents.mem = q.mem := rfl
      rw [this, hl]
      simp [eventsOf_cons, hev2, eventsOf]
  · obtain ⟨q', h1, h2, h3⟩ := peekLoop_remove peeker (l1 ++ l2) q.m_head
      q.flushBufferedEvents.fuel q.flushBufferedEvents hf.vis (by simpa using hf.nodup)
      (by have := hf.length_lt_fuel; simp at this ⊢; omega)
    refine ⟨q', ?_, h2, h3⟩
    simp only [peek, he]
    exact h1

theorem Seg.split {m : Nat → XcbEventNode} {n : Nat} :
    ∀ {l : List Nat} {a b : Nat}, Seg m a l b → n ∈ a :: l →
      ∃ la lb, a :: l = la ++ n :: lb ∧ Seg m n lb b := by
  intro l
  induction l with
  | nil =>
    intro a b hs hn
    simp at hn
    subst hn
    exact ⟨[], [], rfl, hs⟩
  | cons x l ih =>
    intro a b hs hn
    by_cases h : n = a
    · subst h
      exact ⟨[], x :: l, rfl, hs⟩
    · have hn2 : n ∈ x :: l := by
        simp at hn ⊢
        tauto
      obtain ⟨la, lb, h1, h2⟩ := ih hs.2 hn2
      exact ⟨a :: la, lb, by rw [h1]; rfl, h2⟩

theorem peekEventQueue_id_cached {q : XcbEventQueue} {l1 l2 : List Nat} (hwf : WF q l1 l2)
    (p : xcb_generic_event_t → Bool) (option : Nat) (id : Int) (hid : id ≠ -1)
    (hopt : testFlag option PeekOption.PeekFromCachedIndex = true)
    (n : Nat) (hreg : q.m_peekerToNode.lookup id = some (some n))
    (hd : q.m_peekerIndexCacheDirty = false) (la lb : List Nat)
    (hsplit : q.m_head :: (l1 ++ l2) = la ++ n :: lb) :
    ∃ q', q.peekEventQueue (purePeeker p) option id = some ((eventsOf q.mem lb).any p, q') ∧
      q'.mem = q.mem ∧ q'.m_head = q.m_head ∧ q'.m_flushedTail = q.m_tail ∧
      q'.m_tail = q.m_tail ∧ q'.heapAllocated = q.heapAllocated ∧
      q'.m_inputEvents = q.m_inputEvents ∧ q'.m_peekerIndexCacheDirty = false := by
  have hprov : (id != -1) = true := by simpa using hid
  have hf := hwf.flush
  have hnd : (la ++ n :: lb).Nodup := by rw [← hsplit]; exact hwf.nodup
  have hnd2 : (n :: lb).Nodup := (List.nodup_append.1 hnd).2.1
  have hseg : Seg q.mem n lb q.m_tail := by
    have hall : Seg q.mem q.m_head (l1 ++ l2) q.m_tail := Seg.append hwf.vis hwf.pend
    have hmem : n ∈ q.m_head :: (l1 ++ l2) := by rw [hsplit]; simp
    obtain ⟨la', lb', h1, h2⟩ := Seg.split hall hmem
    have : lb' = lb := by
      rw [hsplit] at h1
      have hnot : n ∉ la := fun h => (List.nodup_append.1 hnd).2.2 h (by simp)
      have hnot2 : n ∉ lb := (List.nodup_cons.1 hnd2).1
      exact ((List.append_cons_inj_of_not_mem hnot hnot2).1 h1).2.2.symm
    rw [← this]
    exact h2
  have hlen : lb.length ≤ l1.length + l2.length := by
    have := congrArg List.length hsplit
    simp at this
    omega
  unfold peekEventQueue
  simp only [hprov, hreg, Option.isNone_some, Bool.and_false, Bool.false_eq_true, if_false,
    Bool.not_true, hd, hopt, if_true]
  by_cases he : q.flushBufferedEvents.isEmpty = true
  · obtain ⟨hl, hev⟩ := hf.isEmpty_iff.1 he
    have hlb : lb = [] := by
      have h0 : l1.length + l2.length = 0 := by
        have := congrArg List.length hl
        simpa using this
      have : lb.length = 0 := by omega
      simpa using this
    refine ⟨q.flushBufferedEvents, ?_, rfl, rfl, rfl, rfl, rfl, rfl, hd⟩
    simp [he, hlb, eventsOf]
  · simp only [he, Bool.false_eq_true, if_false]
    have hlk : List.lookup id q.flushBufferedEvents.m_peekerToNode = some (some n) := hreg
    have hft : q.flushBufferedEvents.m_flushedTail = q.m_tail := rfl
    have hmem2 : q.flushBufferedEvents.mem = q.mem := rfl
    rw [hlk]
    simp only [hft, hmem2]
    cases lb with
    | nil =>
      have hn : n = q.m_tail := hseg
      refine ⟨q.flushBufferedEvents, ?_, rfl, rfl, rfl, rfl, rfl, rfl, hd⟩
      simp [hn, eventsOf]
    | cons x lb =>
      have hn : n ≠ q.m_tail := by
        intro h
        have hm : q.m_tail ∈ x :: lb := Seg.last_mem hseg (by simp)
        rw [← h] at hm
        exact (List.nodup_cons.1 hnd2).1 hm
      have hloop := peekEventQueueLoop_pure p
        { q.flushBufferedEvents with m_queueModified := false } rfl lb x
        q.flushBufferedEvents.fuel hseg.2 (List.nodup_cons.1 hnd2).2
        (by have := hf.length_lt_fuel; simp at this hlen ⊢; omega)
      simp only [hn, if_false, hseg.1]
      generalize hX : peekEventQueueLoop _ _ _ _ = X
      have hx := hX.symm.trans hloop
      rw [hx]
      by_cases hs : scanStop q.mem p x lb = x
      · refine ⟨{ q.flushBufferedEvents with m_queueModified := false }, ?_, rfl, rfl, rfl,
          rfl, rfl, rfl, hd⟩
        have hs2 : scanStop q.flushBufferedEvents.mem p x lb = x := hs
        simp [hs2]
        rfl
      · have hs2 : scanStop q.flushBufferedEvents.mem p x lb ≠ x := hs
        refine ⟨{ q.flushBufferedEvents with
            m_queueModified := false
            m_peekerToNode := q.m_peekerToNode.map (fun y =>
              if y.1 = id then (y.1, some (scanStop q.mem p x lb)) else y) },
          ?_, rfl, rfl, rfl, rfl, rfl, rfl, hd⟩
        simp [hs2, hlk]
        exact ⟨rfl, rfl⟩

theorem eventsOf_filter_of_nodes (m m' : Nat → XcbEventNode) (f : xcb_generic_event_t → Bool)
    (l : List Nat) (h : ∀ a ∈ l, (m' a).event = (m a).event.filter f) :
    eventsOf m' l = (eventsOf m l).filter f := by
  induction l with
  | nil => simp [eventsOf]
  | cons x l ih =>
    rw [eventsOf_cons m', eventsOf_cons m, h x (by simp),
      ih (fun a ha => h a (List.mem_cons_of_mem _ ha))]
    cases hx : (m x).event with
    | none => simp
    | some e => by_cases hf : f e = true <;> simp [Option.filter, hf]

theorem peekLoop_removeContinue (peeker : xcb_generic_event_t → Nat → Bool) :
    ∀ (l : List Nat) (node fuel : Nat) (q : XcbEventQueue),
      Seg q.mem node l q.m_flushedTail → (node :: l).Nodup → l.length < fuel →
      ∃ q', peekLoop PeekOption.PeekRemoveMatchContinue peeker fuel node q = some (none, q') ∧
        q' = { q with mem := q'.mem } ∧
        (∀ a, (q'.mem a).next = (q.mem a).next ∧ (q'.mem a).fromHeap = (q.mem a).fromHeap) ∧
        (∀ a, a ∉ node :: l → q'.mem a = q.mem a) ∧
        (∀ a ∈ node :: l, (q'.mem a).event =
          (q.mem a).event.filter (fun e => !peeker e (responseType e))) := by
  intro l
  induction l with
  | nil =>
    intro node fuel q hs _ hf
    obtain ⟨fuel, rfl⟩ : ∃ f, fuel = f + 1 := ⟨fuel - 1, by omega⟩
    have hn : node = q.m_flushedTail := hs
    cases hev : (q.mem node).event with
    | none =>
      refine ⟨q, by simp [peekLoop, hev, ← hn], rfl, fun _ => ⟨rfl, rfl⟩, fun _ _ => rfl, ?_⟩
      intro a ha
      simp only [List.mem_singleton] at ha
      subst ha
      simp [hev]
    | some e =>
      by_cases hp : peeker e (responseType e) = true
      · refine ⟨q.setEvent node none, ?_, rfl, ?_, ?_, ?_⟩
        · simp [peekLoop, hev, hp, ← hn]
        · intro a
          exact ⟨(sameLinks_setEvent q node none).next a,
            (sameLinks_setEvent q node none).fromHeap a⟩
        · intro a ha
          have : a ≠ node := fun h => ha (by simp [h])
          simp [setEvent, store, this]
        · intro a ha
          simp only [List.mem_singleton] at ha
          subst ha
          simp [hev, Option.filter, hp]
      · refine ⟨q, by simp [peekLoop, hev, hp, ← hn], rfl, fun _ => ⟨rfl, rfl⟩,
          fun _ _ => rfl, ?_⟩
        intro a ha
        simp only [List.mem_singleton] at ha
        subst ha
        simp [hev, Option.filter, hp]
  | cons x l ih =>
    intro node fuel q hs hnd hf
    obtain ⟨fuel, rfl⟩ : ∃ f, fuel = f + 1 := ⟨fuel - 1, by omega⟩
    have hnotin : node ∉ x :: l := (List.nodup_cons.1 hnd).1
    have hne : node ≠ q.m_flushedTail := by
      intro h
      have hm : q.m_flushedTail ∈ x :: l := Seg.last_mem hs (by simp)
      rw [← h] at hm
      exact hnotin hm
    have hlen : l.length < fuel := by simp at hf; omega
    cases hev : (q.mem node).event with
    | none =>
      obtain ⟨q', h1, h2, h3, h4, h5⟩ := ih x fuel q hs.2 (List.nodup_cons.1 hnd).2 hlen
      refine ⟨q', ?_, h2, h3, ?_, ?_⟩
      · simp only [peekLoop, hev, hne, hs.1, if_false]
        exact h1
      · intro a ha
        exact h4 a (fun h => ha (List.mem_cons_of_mem _ h))
      · intro a ha
        rcases List.mem_cons.1 ha with rfl | ha
        · rw [h4 a hnotin, hev]
          rfl
        · exact h5 a ha
    | some e =>
      by_cases hp : peeker e (responseType e) = true
      · have hs1 : Seg (q.setEvent node none).mem x l (q.setEvent node none).m_flushedTail :=
          Seg.congr (sameLinks_setEvent q node none).next hs.2
        obtain ⟨q', h1, h2, h3, h4, h5⟩ :=
          ih x fuel (q.setEvent node none) hs1 (List.nodup_cons.1 hnd).2 hlen
        have hnx : ((q.setEvent node none).mem node).next = some x := by
          rw [(sameLinks_setEvent q node none).next node]; exact hs.1
        refine ⟨q', ?_, ?_, ?_, ?_, ?_⟩
        · have hne1 : node ≠ (q.setEvent node none).m_flushedTail := hne
          simp only [peekLoop, hev, hp, if_true]
          simp only [PeekOption.noConfusion, or_true, if_true, ne_eq, not_true_eq_false,
            if_false, hne1, hnx]
          exact h1
        · rw [h2]
          rfl
        · intro a
          exact ⟨((h3 a).1).trans ((sameLinks_setEvent q node none).next a),
            ((h3 a).2).trans ((sameLinks_setEvent q node none).fromHeap a)⟩
        · intro a ha
          have hax : a ∉ x :: l := fun h => ha (List.mem_cons_of_mem _ h)
          have han : a ≠ node := fun h => ha (by simp [h])
          rw [h4 a hax]
          simp [setEvent, store, han]
        · intro a ha
          rcases List.mem_cons.1 ha with rfl | ha
          · rw [h4 a hnotin, setEvent_event_self, hev]
            simp [Option.filter, hp]
          · have han : a ≠ node := fun h => hnotin (h ▸ ha)
            rw [h5 a ha, setEvent_event_of_ne q none han]
      · obtain ⟨q', h1, h2, h3, h4, h5⟩ := ih x fuel q hs.2 (List.nodup_cons.1 hnd).2 hlen
        refine ⟨q', ?_, h2, h3, ?_, ?_⟩
        · simp only [peekLoop, hev, hp, hne, hs.1, if_false]
          exact h1
        · intro a ha
          exact h4 a (fun h => ha (List.mem_cons_of_mem _ h))
        · intro a ha
          rcases List.mem_cons.1 ha with rfl | ha
          · rw [h4 a hnotin, hev]
            simp [Option.filter, hp]
          · exact h5 a ha

theorem WF.of_mem {q q' : XcbEventQueue} {l1 l2 : List Nat} (h : WF q l1 l2)
    (hq : q' = { q with mem := q'.mem }) (hn : ∀ a, (q'.mem a).next = (q.mem a).next) :
    WF q' l1 l2 := by
  have h1 : q'.m_head = q.m_head := by rw [hq]
  have h2 : q'.m_flushedTail = q.m_flushedTail := by rw [hq]
  have h3 : q'.m_tail = q.m_tail := by rw [hq]
  have h4 : q'.heapAllocated = q.heapAllocated := by rw [hq]
  refine ⟨?_, ?_, ?_, ?_⟩
  · rw [h1, h2]; exact Seg.congr hn h.vis
  · rw [h2, h3]; exact Seg.congr hn h.pend
  · rw [h1]; exact h.nodup
  · rw [h1, h4]; exact h.bound

theorem peek_removeContinue_spec {q : XcbEventQueue} {l1 l2 : List Nat} (hwf : WF q l1 l2)
    (peeker : xcb_generic_event_t → Nat → Bool) :
    ∃ q', q.peek PeekOption.PeekRemoveMatchContinue peeker = some (none, q') ∧
      q' = { q.flushBufferedEvents with mem := q'.mem } ∧
      (∀ a, (q'.mem a).next = (q.mem a).next ∧ (q'.mem a).fromHeap = (q.mem a).fromHeap) ∧
      (∀ a, a ∉ q.m_head :: (l1 ++ l2) → q'.mem a = q.mem a) ∧
      (∀ a ∈ q.m_head :: (l1 ++ l2), (q'.mem a).event =
          (q.mem a).event.filter (fun e => !peeker e (responseType e))) ∧
      WF q' (l1 ++ l2) [] := by
  have hf := hwf.flush
  by_cases he : q.flushBufferedEvents.isEmpty = true
  · obtain ⟨hl, hev⟩ := hf.isEmpty_iff.1 he
    have hev2 : (q.mem q.m_head).event = none := hev
    refine ⟨q.flushBufferedEvents, ?_, rfl, fun _ => ⟨rfl, rfl⟩, fun _ _ => rfl, ?_, hf⟩
    · simp [peek, he]
    · intro a ha
      have : q.flushBufferedEvents.mem = q.mem := rfl
      rw [this]
      have hl2 : l1 ++ l2 = [] := by simpa using hl
      rw [hl2] at ha
      simp only [List.mem_singleton] at ha
      subst ha
      simp [hev2]
  · have hlen := hf.length_lt_fuel
    obtain ⟨q', h1, h2, h3, h4, h5⟩ := peekLoop_removeContinue peeker (l1 ++ l2)
      q.flushBufferedEvents.m_head q.flushBufferedEvents.fuel q.flushBufferedEvents hf.vis
      (by simpa using hf.nodup) (by simp at hlen ⊢; omega)
    refine ⟨q', ?_, h2, h3, h4, h5, hf.of_mem h2 (fun a => (h3 a).1)⟩
    simp only [peek, he]
    exact h1

theorem peekerCall_inv (q : XcbEventQueue) (call : PeekerCall) (n : Nat)
    (h0 : 0 ≤ q.m_peekerIdSource) (h1 : q.m_peekerIdSource ≤ n)
    (h2 : ∀ p ∈ q.m_peekerToNode, 0 ≤ p.1 ∧ p.1 < q.m_peekerIdSource) :
    0 ≤ (peekerCall q call).m_peekerIdSource ∧
      (peekerCall q call).m_peekerIdSource ≤ (n + 1 : Nat) ∧
      ∀ p ∈ (peekerCall q call).m_peekerToNode,
        0 ≤ p.1 ∧ p.1 < (peekerCall q call).m_peekerIdSource := by
  cases call with
  | generatePeekerId =>
    refine ⟨?_, ?_, ?_⟩
    · simp only [peekerCall, generatePeekerId]; omega
    · simp only [peekerCall, generatePeekerId]; push_cast; omega
    · intro p hp
      simp only [peekerCall, generatePeekerId, List.mem_cons, List.mem_filter] at hp ⊢
      rcases hp with rfl | ⟨hp, -⟩
      · exact ⟨h0, by omega⟩
      · have := h2 p hp
        omega
  | removePeekerId id =>
    simp only [peekerCall, removePeekerId]
    cases hl : q.m_peekerToNode.lookup id with
    | none => exact ⟨h0, by push_cast; omega, h2⟩
    | some v =>
      by_cases he : (q.m_peekerToNode.filter (fun p => p.1 != id)).isEmpty = true
      · simp only [he, if_true]
        refine ⟨le_refl _, by push_cast; omega, ?_⟩
        intro p hp
        have hnil : q.m_peekerToNode.filter (fun p => p.1 != id) = [] := by
          simpa [List.isEmpty_iff] using he
        have hp2 : p ∈ q.m_peekerToNode.filter (fun p => p.1 != id) := hp
        rw [hnil] at hp2
        exact absurd hp2 (List.not_mem_nil _)
      · simp only [he]
        refine ⟨h0, by push_cast; omega, ?_⟩
        intro p hp
        have hp2 : p ∈ q.m_peekerToNode.filter (fun p => p.1 != id) := hp
        exact h2 p (List.mem_filter.1 hp2).1

theorem peekerCalls_inv (calls : List PeekerCall) :
    ∀ (q : XcbEventQueue) (n : Nat), 0 ≤ q.m_peekerIdSource → q.m_peekerIdSource ≤ n →
      (∀ p ∈ q.m_peekerToNode, 0 ≤ p.1 ∧ p.1 < q.m_peekerIdSource) →
      0 ≤ (peekerCalls q calls).m_peekerIdSource ∧
        (peekerCalls q calls).m_peekerIdSource ≤ (n + calls.length : Nat) ∧
        ∀ p ∈ (peekerCalls q calls).m_peekerToNode,
          0 ≤ p.1 ∧ p.1 < (peekerCalls q calls).m_peekerIdSource := by
  induction calls with
  | nil => intro q n h0 h1 h2; exact ⟨h0, by simpa using h1, h2⟩
  | cons call calls ih =>
    intro q n h0 h1 h2
    obtain ⟨g0, g1, g2⟩ := peekerCall_inv q call n h0 h1 h2
    have := ih (peekerCall q call) (n + 1) g0 g1 g2
    simp only [peekerCalls, List.foldl_cons, List.length_cons] at this ⊢
    have e : n + 1 + calls.length = n + (calls.length + 1) := by omega
    rw [e] at this
    exact this

theorem processLoop_buffered :
    ∀ (ins : List xcb_generic_event_t) (q : XcbEventQueue) (l1 : List Nat) (fuel : Nat)
      (calls : List Call) (c : XcbConnection),
      WF q l1 [] → q.m_flushedTail = q.m_tail → q.m_inputEvents = ins →
      ins.length + (eventsOf q.mem (q.m_head :: l1)).length < fuel →
      ∃ q' l1r, XcbConnection.processLoop false fuel calls c q =
          some (calls ++ (processBuffered c ins (eventsOf q.mem (q.m_head :: l1))).1 ++
              (processCalls (processBuffered c ins (eventsOf q.mem (q.m_head :: l1))).2
                (eventsOf q.mem (q.m_head :: l1))).1,
            (processCalls (processBuffered c ins (eventsOf q.mem (q.m_head :: l1))).2
              (eventsOf q.mem (q.m_head :: l1))).2, q') ∧
        WF q' l1r [] ∧ eventsOf q'.mem (q'.m_head :: l1r) = [] ∧ q'.m_inputEvents = [] := by
  intro ins
  induction ins with
  | nil =>
    intro q l1 fuel calls c hwf hft hin hf
    obtain ⟨q', l1r, g1, g2, g3, g4, -⟩ :=
      processLoop_spec _ q l1 fuel calls c hwf hft hin rfl (by simpa using hf)
    exact ⟨q', l1r, by simpa [processBuffered] using g1, g2, g3, g4⟩
  | cons e rest ih =>
    intro q l1 fuel calls c hwf hft hin hf
    obtain ⟨fuel, rfl⟩ : ∃ f, fuel = f + 1 := ⟨fuel - 1, by omega⟩
    have hwf1 : WF { q with m_inputEvents := rest } l1 [] := hwf.inputEvents rest
    have hfuel : rest.length +
        (eventsOf ({ q with m_inputEvents := rest } : XcbEventQueue).mem
          (({ q with m_inputEvents := rest } : XcbEventQueue).m_head :: l1)).length < fuel := by
      simp only [List.length_cons] at hf
      have : ({ q with m_inputEvents := rest } : XcbEventQueue).mem = q.mem := rfl
      rw [this]
      have : ({ q with m_inputEvents := rest } : XcbEventQueue).m_head = q.m_head := rfl
      rw [this]
      omega
    have htake : q.takeFirstFlags c false = some (some e, { q with m_inputEvents := rest }) := by
      simp [takeFirstFlags, hin]
    by_cases herr : responseType e = 0
    · obtain ⟨q', l1r', g1, g2, g3, g4⟩ :=
        ih { q with m_inputEvents := rest } l1 fuel (calls ++ [Call.handleXcbError e]) c hwf1 hft
          rfl hfuel
      refine ⟨q', l1r', ?_, g2, g3, g4⟩
      simp only [XcbConnection.processLoop, htake, herr, if_true, g1, processBuffered]
      simp
    · have hcomp := compressEvent_spec c hwf1 hft e
      by_cases hc : compressedBy c e (eventsOf q.mem (q.m_head :: l1)) = true
      · obtain ⟨q', l1r', g1, g2, g3, g4⟩ :=
          ih { q with m_inputEvents := rest } l1 fuel calls c hwf1 hft rfl hfuel
        refine ⟨q', l1r', ?_, g2, g3, g4⟩
        have hc' : compressedBy c e
            (eventsOf ({ q with m_inputEvents := rest } : XcbEventQueue).mem
              (({ q with m_inputEvents := rest } : XcbEventQueue).m_head :: l1)) = true := hc
        simp only [XcbConnection.processLoop, htake, herr, if_false, hcomp, hc', g1,
          processBuffered, hc, if_true]
      · have hc2 : compressedBy c e (eventsOf q.mem (q.m_head :: l1)) = false := by
          simpa using hc
        have hc' : compressedBy c e
            (eventsOf ({ q with m_inputEvents := rest } : XcbEventQueue).mem
              (({ q with m_inputEvents := rest } : XcbEventQueue).m_head :: l1)) = false := hc2
        obtain ⟨q', l1r', g1, g2, g3, g4⟩ :=
          ih { q with m_inputEvents := rest } l1 fuel
            (calls ++ Call.handleXcbEvent e :: (c.handleXcbEvent e).1)
            (c.handleXcbEvent e).2 hwf1 hft rfl hfuel
        refine ⟨q', l1r', ?_, g2, g3, g4⟩
        have hfl : ({ q with m_inputEvents := rest } : XcbEventQueue).flushBufferedEvents =
            { q with m_inputEvents := rest } := flush_of_eq hft
        simp only [XcbConnection.processLoop, htake, herr, if_false, hcomp, hc', hfl, g1,
          processBuffered, hc2]
        simp

theorem errorCalls_append (a b : List Call) :
    errorCalls (a ++ b) = errorCalls a ++ errorCalls b := by
  simp [errorCalls]

theorem handlePlatformWindowEvent_calls (c : XcbConnection) (e : xcb_generic_event_t)
    (w : Nat) (h : Handler) :
    ∀ call ∈ c.handlePlatformWindowEvent e w h, isErrorCall call = false ∧ callEvent call = e := by
  intro call hc
  unfold XcbConnection.handlePlatformWindowEvent at hc
  split at hc
  · split_ifs at hc
    · simp only [List.mem_singleton] at hc
      subst hc
      exact ⟨rfl, rfl⟩
    · simp only [List.mem_cons, List.mem_singleton, List.not_mem_nil, or_false] at hc
      rcases hc with rfl | rfl <;> exact ⟨rfl, rfl⟩
  · exact absurd hc (List.not_mem_nil _)

theorem handleXcbEvent_calls (c : XcbConnection) (e : xcb_generic_event_t) :
    ∀ call ∈ (c.handleXcbEvent e).1, isErrorCall call = false ∧ callEvent call = e := by
  apply handleXcbEvent_cases c e
    (fun r => ∀ call ∈ r.1, isErrorCall call = false ∧ callEvent call = e)
  all_goals first
    | (intro w h; exact handlePlatformWindowEvent_calls c e w h)
    | (intro call hc; exact absurd hc (List.not_mem_nil _))
    | (intro call hc
       simp only [List.mem_singleton] at hc
       subst hc
       exact ⟨rfl, rfl⟩)

theorem errorCalls_of_no_error (calls : List Call)
    (h : ∀ call ∈ calls, isErrorCall call = false) : errorCalls calls = [] := by
  induction calls with
  | nil => rfl
  | cons a l ih =>
    have ha := h a (by simp)
    have := ih (fun call hc => h call (List.mem_cons_of_mem _ hc))
    cases a <;> simp_all [errorCalls, isErrorCall]

theorem errorCalls_handleXcbEvent (c : XcbConnection) (e : xcb_generic_event_t) :
    errorCalls (c.handleXcbEvent e).1 = [] :=
  errorCalls_of_no_error _ (fun call hc => (handleXcbEvent_calls c e call hc).1)

theorem errorCalls_processCalls (es : List xcb_generic_event_t) :
    ∀ c : XcbConnection, errorCalls (processCalls c es).1 =
      es.filter (fun e => responseType e == 0) := by
  induction es with
  | nil => intro c; rfl
  | cons e es ih =>
    intro c
    by_cases herr : responseType e = 0
    · simp only [processCalls, herr, if_true]
      rw [List.filter_cons_of_pos (by simpa using herr)]
      show e :: errorCalls (processCalls c es).1 = _
      rw [ih]
    · rw [List.filter_cons_of_neg (by simpa using herr)]
      by_cases hc : compressedBy c e es = true
      · simp only [processCalls, herr, if_false, hc, if_true]
        exact ih c
      · simp only [processCalls, herr, if_false, hc]
        show errorCalls ((c.handleXcbEvent e).1 ++ _) = _
        rw [errorCalls_append, errorCalls_handleXcbEvent, ih]
        rfl

theorem errorCalls_processBuffered (pending : List xcb_generic_event_t)
    (ins : List xcb_generic_event_t) :
    ∀ c : XcbConnection, errorCalls (processBuffered c ins pending).1 =
      ins.filter (fun e => responseType e == 0) := by
  induction ins with
  | nil => intro c; rfl
  | cons e es ih =>
    intro c
    by_cases herr : responseType e = 0
    · simp only [processBuffered, herr, if_true]
      rw [List.filter_cons_of_pos (by simpa using herr)]
      show e :: errorCalls (processBuffered c es pending).1 = _
      rw [ih]
    · rw [List.filter_cons_of_neg (by simpa using herr)]
      by_cases hc : compressedBy c e pending = true
      · simp only [processBuffered, herr, if_false, hc, if_true]
        exact ih c
      · simp only [processBuffered, herr, if_false, hc]
        show errorCalls ((c.handleXcbEvent e).1 ++ _) = _
        rw [errorCalls_append, errorCalls_handleXcbEvent, ih]
        rfl

theorem processLoop_routing (excl : Bool) :
    ∀ (fuel : Nat) (calls : List Call) (c : XcbConnection) (q : XcbEventQueue)
      (r : List Call × XcbConnection × XcbEventQueue),
      XcbConnection.processLoop excl fuel calls c q = some r →
      (∀ call ∈ calls, isErrorCall call = (responseType (callEvent call) == 0)) →
      ∀ call ∈ r.1, isErrorCall call = (responseType (callEvent call) == 0) := by
  intro fuel
  induction fuel with
  | zero => intro calls c q r h; simp [XcbConnection.processLoop] at h
  | succ fuel ih =>
    intro calls c q r h hg
    unfold XcbConnection.processLoop at h
    cases ht : q.takeFirstFlags c excl with
    | none => simp [ht] at h
    | some t =>
      obtain ⟨ev, q1⟩ := t
      cases ev with
      | none =>
        simp only [ht, Option.some.injEq] at h
        subst h
        exact hg
      | some e =>
        simp only [ht] at h
        by_cases herr : responseType e = 0
        · simp only [herr, if_true] at h
          refine ih _ c q1 r h ?_
          intro call hc
          rcases List.mem_append.1 hc with hc | hc
          · exact hg call hc
          · simp only [List.mem_singleton] at hc
            subst hc
            simp [isErrorCall, callEvent, herr]
        · simp only [herr, if_false] at h
          cases hcm : c.compressEvent q1 e with
          | none => simp [hcm] at h
          | some t2 =>
            obtain ⟨b, q2⟩ := t2
            cases b with
            | true =>
              simp only [hcm] at h
              exact ih _ c q2 r h hg
            | false =>
              simp only [hcm] at h
              refine ih _ _ _ r h ?_
              intro call hc
              rcases List.mem_append.1 hc with hc | hc
              · exact hg call hc
              · rcases List.mem_cons.1 hc with rfl | hc
                · simp [isErrorCall, callEvent, herr]
                · obtain ⟨h1, h2⟩ := handleXcbEvent_calls c e call hc
                  rw [h1, h2]
                  simp [herr]

theorem timeGreaterThan_iff (a b : Nat) :
    timeGreaterThan a b = true ↔
      (0 < (a % 4294967296 + 4294967296 - b % 4294967296) % 4294967296 ∧
        (a % 4294967296 + 4294967296 - b % 4294967296) % 4294967296 < 2147483648) ∨ b = 0 := by
  simp [timeGreaterThan, XCB_CURRENT_TIME]

theorem timeGreaterThan_of_ahead (a b d : Nat) (hb : b < 2 ^ 32) (hd0 : 0 < d)
    (hd : d < 2 ^ 31) (hab : a = (b + d) % 2 ^ 32) : timeGreaterThan a b = true := by
  rw [timeGreaterThan_iff]
  norm_num at hb hd hab
  left
  omega

theorem timeGreaterThan_of_behind (a b d : Nat) (hb : b < 2 ^ 32) (ha0 : a ≠ 0) (hd0 : 0 < d)
    (hd : d < 2 ^ 31) (hab : a = (b + d) % 2 ^ 32) : timeGreaterThan b a = false := by
  rw [← Bool.not_eq_true, timeGreaterThan_iff]
  norm_num at hb hd hab
  omega

theorem compressEvent_gen (c : XcbConnection) {q : XcbEventQueue} {l1 l2 : List Nat}
    (hwf : WF q l1 l2) (e : xcb_generic_event_t) :
    ∃ q', c.compressEvent q e =
        some (compressedBy c e (eventsOf q.mem (q.m_head :: (l1 ++ l2))), q') ∧
      (q' = q ∨ q' = q.flushBufferedEvents) := by
  have hp := fun p => peek_retain_spec hwf p
  unfold compressEvent compressedBy
  by_cases h0 : c.compressHighFrequencyEvents = true
  · simp only [h0, Bool.not_true, Bool.false_eq_true, if_false]
    by_cases h1 : responseType e = XCB_MOTION_NOTIFY
    · refine ⟨q.flushBufferedEvents, ?_, Or.inr rfl⟩
      simp only [h1, if_true, hp, Option.map_some']
      simp [find?_isSome_eq_any]
    · simp only [h1, if_false]
      by_cases h2 : responseType e = XCB_GE_GENERIC
      · simp only [h2, if_true]
        by_cases h3 : c.isXIType e XCB_INPUT_MOTION = true
        · refine ⟨q.flushBufferedEvents, ?_, Or.inr rfl⟩
          simp only [h3, if_true, hp, Option.map_some']
          simp [find?_isSome_eq_any]
        · exact ⟨q, by simp [h3], Or.inl rfl⟩
      · simp only [h2, if_false]
        by_cases h3 : responseType e = XCB_CONFIGURE_NOTIFY
        · refine ⟨q.flushBufferedEvents, ?_, Or.inr rfl⟩
          simp only [h3, if_true, hp, Option.map_some']
          simp [find?_isSome_eq_any]
        · exact ⟨q, by simp [h3], Or.inl rfl⟩
  · exact ⟨q, by simp [h0], Or.inl rfl⟩

theorem compressedBy_configure (c : XcbConnection) (e : xcb_generic_event_t)
    (es : List xcb_generic_event_t) (hconf : responseType e = XCB_CONFIGURE_NOTIFY) :
    compressedBy c e es = true ↔
      c.compressHighFrequencyEvents = true ∧
        ∃ n ∈ es, responseType n = XCB_CONFIGURE_NOTIFY ∧ n.event = e.event := by
  unfold compressedBy
  by_cases h0 : c.compressHighFrequencyEvents = true
  · simp only [h0, Bool.not_true, Bool.false_eq_true, if_false, hconf, true_and]
    simp only [XCB_CONFIGURE_NOTIFY, XCB_MOTION_NOTIFY, XCB_GE_GENERIC]
    norm_num
    constructor
    · rintro ⟨n, hn, h1, h2⟩
      exact ⟨n, hn, h1, h2.symm⟩
    · rintro ⟨n, hn, h1, h2⟩
      exact ⟨n, hn, h1, h2.symm⟩
  · simp [h0]

theorem compressedBy_motion (c : XcbConnection) (e : xcb_generic_event_t)
    (es : List xcb_generic_event_t) (hmot : responseType e = XCB_MOTION_NOTIFY) :
    compressedBy c e es = true ↔
      c.compressHighFrequencyEvents = true ∧ ∃ n ∈ es, responseType n = XCB_MOTION_NOTIFY := by
  unfold compressedBy
  by_cases h0 : c.compressHighFrequencyEvents = true
  · simp [h0, hmot]
  · simp [h0]

theorem takeFirstLoop_none_isEmpty :
    ∀ (fuel : Nat) (q q' : XcbEventQueue),
      takeFirstLoop fuel q = some (none, q') → q'.isEmpty = true := by
  intro fuel
  induction fuel with
  | zero => intro q q' h; simp [takeFirstLoop] at h
  | succ fuel ih =>
    intro q q' h
    unfold takeFirstLoop at h
    simp only at h
    have key : ∀ (ev : Option xcb_generic_event_t) (q1 : XcbEventQueue),
        (if (!q1.isEmpty && ev.isNone) = true then takeFirstLoop fuel q1 else some (ev, q1)) =
          some (none, q') → q'.isEmpty = true := by
      intro ev q1 hk
      by_cases hc : (!q1.isEmpty && ev.isNone) = true
      · rw [if_pos hc] at hk
        exact ih _ _ hk
      · rw [if_neg hc] at hk
        simp only [Option.some.injEq, Prod.mk.injEq] at hk
        obtain ⟨he, rfl⟩ := hk
        simpa [he] using hc
    by_cases hh : q.m_head = q.m_flushedTail
    · rw [if_pos hh] at h
      exact key _ _ h
    · rw [if_neg hh] at h
      cases hd : q.dequeueNode with
      | none => simp [hd] at h
      | some q1 =>
        simp only [hd] at h
        exact key _ _ h

theorem takeFirst_none_isEmpty (q q' : XcbEventQueue) (h : q.takeFirst = some (none, q')) :
    q'.isEmpty = true := by
  unfold takeFirst at h
  by_cases he : q.isEmpty = true
  · simp only [he, if_true, Option.some.injEq, Prod.mk.injEq, true_and] at h
    rw [← h]
    exact he
  · simp only [he] at h
    cases hl : takeFirstLoop q.fuel q with
    | none => simp [hl] at h
    | some r =>
      obtain ⟨ev, q1⟩ := r
      simp only [hl, Bool.false_eq_true, if_false, Option.some.injEq, Prod.mk.injEq] at h
      obtain ⟨rfl, rfl⟩ := h
      have := takeFirstLoop_none_isEmpty _ _ _ hl
      exact this

theorem drainLoop_isEmpty (c : XcbConnection) :
    ∀ (fuel : Nat) (taken : List xcb_generic_event_t) (q : XcbEventQueue)
      (r : List xcb_generic_event_t × XcbEventQueue),
      drainLoop c fuel taken q = some r → r.2.isEmpty = true := by
  intro fuel
  induction fuel with
  | zero => intro taken q r h; simp [drainLoop] at h
  | succ fuel ih =>
    intro taken q r h
    unfold drainLoop at h
    cases ht : q.takeFirstFlags c false with
    | none => simp [ht] at h
    | some t =>
      obtain ⟨ev, q1⟩ := t
      cases ev with
      | some e =>
        simp only [ht] at h
        exact ih _ _ _ h
      | none =>
        simp only [ht, Option.some.injEq] at h
        subst h
        simp only [takeFirstFlags, Bool.false_eq_true, if_false] at ht
        cases hin : q.m_inputEvents with
        | cons e rest => simp [hin] at ht
        | nil =>
          simp only [hin] at ht
          exact takeFirst_none_isEmpty q q1 ht

theorem dropWhile_eq_cons_false {α : Type} (p : α → Bool) :
    ∀ (l : List α) (a : α) (rest : List α), l.dropWhile p = a :: rest →
      p a = false ∧ rest.length < l.length := by
  intro l
  induction l with
  | nil => intro a rest h; simp at h
  | cons x l ih =>
    intro a rest h
    by_cases hx : p x = true
    · rw [List.dropWhile_cons_of_pos hx] at h
      obtain ⟨h1, h2⟩ := ih a rest h
      exact ⟨h1, by simp; omega⟩
    · rw [List.dropWhile_cons_of_neg hx] at h
      simp only [List.cons.injEq] at h
      obtain ⟨rfl, rfl⟩ := h
      exact ⟨by simpa using hx, by simp⟩

theorem processCallsExcluding_dropWhile (es : List xcb_generic_event_t) :
    ∀ c : XcbConnection, processCallsExcluding c es =
      processCallsExcluding c (es.dropWhile c.isUserInputEvent) := by
  induction es with
  | nil => intro c; rfl
  | cons e es ih =>
    intro c
    by_cases hu : c.isUserInputEvent e = true
    · rw [List.dropWhile_cons_of_pos hu, ← ih c]
      simp [processCallsExcluding, hu]
    · rw [List.dropWhile_cons_of_neg hu]

theorem processLoop_excluding :
    ∀ (n : Nat) (es : List xcb_generic_event_t) (q : XcbEventQueue) (l1 : List Nat)
      (fuel : Nat) (calls : List Call) (c : XcbConnection),
      es.length ≤ n → WF q l1 [] → q.m_flushedTail = q.m_tail →
      eventsOf q.mem (q.m_head :: l1) = es → es.length < fuel →
      ∃ q' l1r, XcbConnection.processLoop true fuel calls c q =
          some (calls ++ (processCallsExcluding c es).1, (processCallsExcluding c es).2, q') ∧
        WF q' l1r [] ∧ eventsOf q'.mem (q'.m_head :: l1r) = [] := by
  intro n
  induction n with
  | zero =>
    intro es q l1 fuel calls c hn hwf hft hes hf
    obtain ⟨fuel, rfl⟩ : ∃ f, fuel = f + 1 := ⟨fuel - 1, by omega⟩
    have hnil : es = [] := List.length_eq_zero.1 (by omega)
    obtain ⟨q1, l1r, h1, h2, h3, -, -, -⟩ :=
      takeFirstExcludeLoop_spec c [] es q l1 q.fuel hwf hes
        (by have := hwf.length_lt_fuel
            have := eventsOf_length_le q.mem (q.m_head :: l1)
            rw [hes] at this
            simp at this
            omega)
    subst hnil
    refine ⟨q1, l1r, ?_, h2, by simpa using h3⟩
    simp only [List.dropWhile_nil, List.head?_nil] at h1
    simp [XcbConnection.processLoop, takeFirstFlags, h1, processCallsExcluding]
  | succ n ih =>
    intro es q l1 fuel calls c hn hwf hft hes hf
    obtain ⟨fuel, rfl⟩ : ∃ f, fuel = f + 1 := ⟨fuel - 1, by omega⟩
    obtain ⟨q1, l1r, h1, h2, h3, -, -, h6⟩ :=
      takeFirstExcludeLoop_spec c [] es q l1 q.fuel hwf hes
        (by have := hwf.length_lt_fuel
            have := eventsOf_length_le q.mem (q.m_head :: l1)
            rw [hes] at this
            simp at this
            omega)
    have htake : q.takeFirstFlags c true =
        some ((es.dropWhile c.isUserInputEvent).head?, q1) := by
      simpa [takeFirstFlags] using h1
    rw [processCallsExcluding_dropWhile es c]
    cases hdw : es.dropWhile c.isUserInputEvent with
    | nil =>
      rw [hdw] at htake h3
      refine ⟨q1, l1r, ?_, h2, by simpa using h3⟩
      simp [XcbConnection.processLoop, htake, processCallsExcluding]
    | cons e rest =>
      obtain ⟨hu, hlt⟩ := dropWhile_eq_cons_false _ es e rest hdw
      rw [hdw] at htake h3
      simp only [List.head?_cons] at htake
      have hes1 : eventsOf q1.mem (q1.m_head :: l1r) = rest := by simpa using h3
      have hft1 : q1.m_flushedTail = q1.m_tail := by rw [h6.flushedTail, h6.tail, hft]
      have hn1 : rest.length ≤ n := by omega
      have hf1 : rest.length < fuel := by omega
      by_cases herr : responseType e = 0
      · obtain ⟨q', l1r', g1, g2, g3⟩ :=
          ih rest q1 l1r fuel (calls ++ [Call.handleXcbError e]) c hn1 h2 hft1 hes1 hf1
        refine ⟨q', l1r', ?_, g2, g3⟩
        simp [XcbConnection.processLoop, htake, herr, g1, processCallsExcluding, hu]
      · have hcomp := compressEvent_spec c h2 hft1 e
        rw [hes1] at hcomp
        by_cases hc : compressedBy c e rest = true
        · obtain ⟨q', l1r', g1, g2, g3⟩ := ih rest q1 l1r fuel calls c hn1 h2 hft1 hes1 hf1
          refine ⟨q', l1r', ?_, g2, g3⟩
          simp [XcbConnection.processLoop, htake, herr, hcomp, hc, g1, processCallsExcluding, hu]
        · have hc2 : compressedBy c e rest = false := by simpa using hc
          obtain ⟨q', l1r', g1, g2, g3⟩ :=
            ih rest q1 l1r fuel (calls ++ Call.handleXcbEvent e :: (c.handleXcbEvent e).1)
              (c.handleXcbEvent e).2 hn1 h2 hft1 hes1 hf1
          refine ⟨q', l1r', ?_, g2, g3⟩
          simp [XcbConnection.processLoop, htake, herr, hcomp, hc2, flush_of_eq hft1, g1,
            processCallsExcluding, hu]

theorem handleXcbEvent_isUserInputEvent (c : XcbConnection) (e : xcb_generic_event_t) :
    (c.handleXcbEvent e).2.isUserInputEvent = c.isUserInputEvent := by
  rcases handleXcbEvent_snd c e with h | h
  · rw [h]
  · rw [h]
    unfold XcbConnection.setTime
    split <;> rfl

theorem errorCalls_processCallsExcluding (es : List xcb_generic_event_t) :
    ∀ c : XcbConnection, errorCalls (processCallsExcluding c es).1 =
      es.filter (fun e => !c.isUserInputEvent e && responseType e == 0) := by
  induction es with
  | nil => intro c; rfl
  | cons e es ih =>
    intro c
    by_cases hu : c.isUserInputEvent e = true
    · rw [List.filter_cons_of_neg (by simp [hu])]
      simp only [processCallsExcluding, hu, if_true]
      exact ih c
    · have hu2 : c.isUserInputEvent e = false := by simpa using hu
      by_cases herr : responseType e = 0
      · simp only [processCallsExcluding, hu2, Bool.false_eq_true, if_false, herr, if_true]
        rw [List.filter_cons_of_pos (by simp [hu2, herr])]
        show e :: errorCalls (processCallsExcluding c es).1 = _
        rw [ih]
      · rw [List.filter_cons_of_neg (by simp [herr])]
        by_cases hc : compressedBy c e es = true
        · simp only [processCallsExcluding, hu2, Bool.false_eq_true, herr, if_false, hc, if_true]
          exact ih c
        · simp only [processCallsExcluding, hu2, Bool.false_eq_true, herr, if_false, hc]
          show errorCalls ((c.handleXcbEvent e).1 ++ _) = _
          rw [errorCalls_append, errorCalls_handleXcbEvent, ih,
            handleXcbEvent_isUserInputEvent]
          rfl

theorem takeFirst_deferred (q : XcbEventQueue) (e : xcb_generic_event_t)
    (hh : q.m_head = q.m_flushedTail) (hev : (q.mem q.m_head).event = some e) :
    q.takeFirst = some (some e,
      { q.setEvent q.m_head none with m_queueModified := true, m_peekerIndexCacheDirty := true })
    := by
  have hemp : q.isEmpty = false := by simp [isEmpty, hev]
  have hfuel : q.fuel = (PoolSize + q.heapAllocated) + 1 := rfl
  unfold takeFirst
  rw [hemp, hfuel]
  simp [takeFirstLoop, hh.symm, hev]

theorem flushedTail_not_mem_prefix {q q' : XcbEventQueue} {l1 l2 d l1r : List Nat}
    (hwf : WF q l1 l2) (hwf' : WF q' l1r l2) (hft : q'.m_flushedTail = q.m_flushedTail)
    (hd : q.m_head :: l1 = d ++ q'.m_head :: l1r) : q.m_flushedTail ∉ d := by
  intro hmem
  have hin : q'.m_flushedTail ∈ q'.m_head :: l1r := by
    by_cases hl : l1r = []
    · subst hl
      have : q'.m_head = q'.m_flushedTail := hwf'.vis
      simp [this]
    · exact List.mem_cons_of_mem _ (Seg.last_mem hwf'.vis hl)
  rw [hft] at hin
  have hnd : (q.m_head :: l1).Nodup := by
    have := hwf.nodup
    rw [← List.cons_append] at this
    exact (List.nodup_append.1 this).1
  rw [hd] at hnd
  exact (List.nodup_append.1 hnd).2.2 hmem hin

theorem peekEventQueue_unfold (q : XcbEventQueue)
    (peeker : xcb_generic_event_t → XcbEventQueue → Bool × XcbEventQueue)
    (option : Nat) (peekerId : Int)
    (hreg : peekerId = -1 ∨ (q.m_peekerToNode.lookup peekerId).isSome = true)
    (hopt : testFlag option PeekOption.PeekFromCachedIndex = false ∨ peekerId ≠ -1) :
    q.peekEventQueue peeker option peekerId =
      if (resetCursors q peekerId).flushBufferedEvents.isEmpty then
        some (false, (resetCursors q peekerId).flushBufferedEvents)
      else
        match startNode q option peekerId with
        | none => some (false, (resetCursors q peekerId).flushBufferedEvents)
        | some start =>
          match peekEventQueueLoop peeker (scanState q peekerId).fuel start
              (scanState q peekerId) with
          | none => none
          | some (result, node, q4) =>
            if (peekerId != -1) && node != some start && !q4.m_queueModified then
              match q4.m_peekerToNode.lookup peekerId with
              | some _ =>
                some (result, { q4 with
                  m_peekerToNode := q4.m_peekerToNode.map
                    (fun p => if p.1 = peekerId then (p.1, node) else p) })
              | none => some (result, q4)
            else some (result, q4) := by
  have h1 : ((peekerId != -1) && (q.m_peekerToNode.lookup peekerId).isNone) = false := by
    rcases hreg with h | h
    · simp [h]
    · cases hl : q.m_peekerToNode.lookup peekerId with
      | none => simp [hl] at h
      | some v => simp
  have h2 : (testFlag option PeekOption.PeekFromCachedIndex && !(peekerId != -1)) = false := by
    rcases hopt with h | h
    · simp [h]
    · simp [h]
  unfold peekEventQueue
  simp only [h1, h2, Bool.false_eq_true, if_false]
  rfl

theorem peekEventQueueLoop_skip
    (peeker : xcb_generic_event_t → XcbEventQueue → Bool × XcbEventQueue) (q : XcbEventQueue)
    (hmod : q.m_queueModified = false) :
    ∀ (pre : List Nat) (node n0 : Nat) (post l : List Nat) (fuel : Nat),
      node :: l = pre ++ n0 :: post → Seg q.mem node l q.m_flushedTail → (node :: l).Nodup →
      (∀ a ∈ pre, (q.mem a).event = none) →
      peekEventQueueLoop peeker (fuel + pre.length) node q =
        peekEventQueueLoop peeker fuel n0 q := by
  intro pre
  induction pre with
  | nil =>
    intro node n0 post l fuel hsplit _ _ _
    simp only [List.nil_append, List.cons.injEq] at hsplit
    rw [hsplit.1]
    rfl
  | cons x pre ih =>
    intro node n0 post l fuel hsplit hseg hnd hpre
    simp only [List.cons_append, List.cons.injEq] at hsplit
    obtain ⟨rfl, hl⟩ := hsplit
    have hev : (q.mem node).event = none := hpre node (by simp)
    cases l with
    | nil => cases pre <;> simp at hl
    | cons y l =>
      have hne : node ≠ q.m_flushedTail := by
        intro h
        have hm : q.m_flushedTail ∈ y :: l := Seg.last_mem hseg (by simp)
        rw [← h] at hm
        exact (List.nodup_cons.1 hnd).1 hm
      have hrec := ih y n0 post l fuel hl hseg.2 (List.nodup_cons.1 hnd).2
        (fun a ha => hpre a (List.mem_cons_of_mem _ ha))
      rw [← hrec]
      have hf : fuel + (node :: pre).length = (fuel + pre.length) + 1 := by simp; omega
      rw [hf]
      simp [peekEventQueueLoop, hev, hne, hseg.1, hmod]

theorem peekEventQueueLoop_none
    (peeker : xcb_generic_event_t → XcbEventQueue → Bool × XcbEventQueue) (q : XcbEventQueue)
    (hmod : q.m_queueModified = false) :
    ∀ (l : List Nat) (node fuel : Nat), Seg q.mem node l q.m_flushedTail →
      (node :: l).Nodup → l.length < fuel → (∀ a ∈ node :: l, (q.mem a).event = none) →
      peekEventQueueLoop peeker fuel node q = some (false, some q.m_flushedTail, q) := by
  intro l
  induction l with
  | nil =>
    intro node fuel hseg _ hf hnone
    obtain ⟨fuel, rfl⟩ : ∃ f, fuel = f + 1 := ⟨fuel - 1, by omega⟩
    have hn : node = q.m_flushedTail := hseg
    have hev : (q.mem node).event = none := hnone node (by simp)
    subst hn
    simp [peekEventQueueLoop, hev]
  | cons y l ih =>
    intro node fuel hseg hnd hf hnone
    obtain ⟨fuel, rfl⟩ : ∃ f, fuel = f + 1 := ⟨fuel - 1, by omega⟩
    have hev : (q.mem node).event = none := hnone node (by simp)
    have hne : node ≠ q.m_flushedTail := by
      intro h
      have hm : q.m_flushedTail ∈ y :: l := Seg.last_mem hseg (by simp)
      rw [← h] at hm
      exact (List.nodup_cons.1 hnd).1 hm
    have hrec := ih y fuel hseg.2 (List.nodup_cons.1 hnd).2 (by simp at hf; omega)
      (fun a ha => hnone a (List.mem_cons_of_mem _ ha))
    simp [peekEventQueueLoop, hev, hne, hseg.1, hmod, hrec]

theorem peekEventQueueLoop_modified
    (peeker : xcb_generic_event_t → XcbEventQueue → Bool × XcbEventQueue) (q : XcbEventQueue)
    (n0 fuel : Nat) (e0 : xcb_generic_event_t) (hev : (q.mem n0).event = some e0)
    (hmod : (peeker e0 q).2.m_queueModified = true) :
    ∃ node, peekEventQueueLoop peeker (fuel + 1) n0 q =
      some ((peeker e0 q).1, node, (peeker e0 q).2) := by
  simp only [peekEventQueueLoop, hev]
  by_cases hr : (peeker e0 q).1 = true
  · exact ⟨some n0, by simp [hr]⟩
  · have hr2 : (peeker e0 q).1 = false := by simpa using hr
    simp only [hr2, Bool.false_eq_true, if_false]
    by_cases hft : n0 = (peeker e0 q).2.m_flushedTail
    · exact ⟨some n0, by simp [hft]⟩
    · cases hn : ((peeker e0 q).2.mem n0).next with
      | none => exact ⟨none, by simp [hft, hn, hmod]⟩
      | some n => exact ⟨some n, by simp [hft, hn, hmod]⟩

theorem resetCursors_frame (q : XcbEventQueue) (peekerId : Int) :
    (resetCursors q peekerId).mem = q.mem ∧ (resetCursors q peekerId).m_head = q.m_head ∧
      (resetCursors q peekerId).m_flushedTail = q.m_flushedTail ∧
      (resetCursors q peekerId).m_tail = q.m_tail ∧
      (resetCursors q peekerId).heapAllocated = q.heapAllocated ∧
      (resetCursors q peekerId).m_inputEvents = q.m_inputEvents ∧
      (resetCursors q peekerId).m_nodesRestored = q.m_nodesRestored ∧
      (resetCursors q peekerId).m_freeNodes = q.m_freeNodes ∧
      (resetCursors q peekerId).m_poolIndex = q.m_poolIndex ∧
      (resetCursors q peekerId).m_peekerIdSource = q.m_peekerIdSource ∧
      (resetCursors q peekerId).m_closeConnectionDetected = q.m_closeConnectionDetected := by
  unfold resetCursors
  split <;> exact ⟨rfl, rfl, rfl, rfl, rfl, rfl, rfl, rfl, rfl, rfl, rfl⟩

theorem scanState_frame (q : XcbEventQueue) (peekerId : Int) :
    (scanState q peekerId).mem = q.mem ∧ (scanState q peekerId).m_head = q.m_head ∧
      (scanState q peekerId).m_flushedTail = q.m_tail ∧
      (scanState q peekerId).m_tail = q.m_tail ∧
      (scanState q peekerId).heapAllocated = q.heapAllocated ∧
      (scanState q peekerId).m_inputEvents = q.m_inputEvents ∧
      (scanState q peekerId).m_nodesRestored = q.m_nodesRestored ∧
      (scanState q peekerId).m_freeNodes = q.m_freeNodes ∧
      (scanState q peekerId).m_poolIndex = q.m_poolIndex ∧
      (scanState q peekerId).m_peekerIdSource = q.m_peekerIdSource ∧
      (scanState q peekerId).m_closeConnectionDetected = q.m_closeConnectionDetected ∧
      (scanState q peekerId).m_queueModified = false ∧
      (scanState q peekerId).m_peekerToNode = (resetCursors q peekerId).m_peekerToNode ∧
      (scanState q peekerId).m_peekerIndexCacheDirty =
        (resetCursors q peekerId).m_peekerIndexCacheDirty := by
  obtain ⟨h1, h2, _, h4, h5, h6, h7, h8, h9, h10, h11⟩ := resetCursors_frame q peekerId
  exact ⟨h1, h2, h4, h4, h5, h6, h7, h8, h9, h10, h11, rfl, rfl, rfl⟩

theorem WF.scanState {q : XcbEventQueue} {l1 l2 : List Nat} (h : WF q l1 l2) (peekerId : Int) :
    WF (scanState q peekerId) (l1 ++ l2) [] := by
  obtain ⟨h1, h2, h3, h4, h5, -⟩ := scanState_frame q peekerId
  have hf := h.flush
  refine ⟨?_, ?_, ?_, ?_⟩
  · rw [h1, h2, h3]; exact hf.vis
  · rw [h3, h4]; rfl
  · rw [h2]; exact hf.nodup
  · rw [h2, h5]; exact hf.bound

theorem flush_resetCursors_isEmpty (q : XcbEventQueue) (peekerId : Int) :
    (resetCursors q peekerId).flushBufferedEvents.isEmpty = (scanState q peekerId).isEmpty :=
  rfl

theorem peekEventQueue_reenter {q : XcbEventQueue} {l1 l2 : List Nat} (hwf : WF q l1 l2)
    (peeker : xcb_generic_event_t → XcbEventQueue → Bool × XcbEventQueue)
    (option : Nat) (peekerId : Int)
    (hreg : peekerId = -1 ∨ (q.m_peekerToNode.lookup peekerId).isSome = true)
    (hopt : testFlag option PeekOption.PeekFromCachedIndex = false ∨ peekerId ≠ -1)
    (start : Nat) (hstart : startNode q option peekerId = some start)
    (la pre post : List Nat) (n0 : Nat) (e0 : xcb_generic_event_t)
    (hsplit : q.m_head :: (l1 ++ l2) = la ++ pre ++ n0 :: post)
    (hfirst : (pre ++ [n0]).head? = some start)
    (hpre : ∀ a ∈ pre, (q.mem a).event = none) (hev : (q.mem n0).event = some e0)
    (hmod : (peeker e0 (scanState q peekerId)).2.m_queueModified = true) :
    q.peekEventQueue peeker option peekerId =
      some ((peeker e0 (scanState q peekerId)).1, (peeker e0 (scanState q peekerId)).2) := by
  obtain ⟨hmem, hhead, hft, -, hheap, -, -, -, -, -, -, hqm, -, -⟩ :=
    scanState_frame q peekerId
  have hws := hwf.scanState peekerId
  have hn0 : n0 ∈ q.m_head :: (l1 ++ l2) := by rw [hsplit]; simp
  -- the queue is not empty
  have hne : (scanState q peekerId).isEmpty = false := by
    cases he : (scanState q peekerId).isEmpty with
    | false => rfl
    | true =>
      exfalso
      obtain ⟨hl, hev0⟩ := hws.isEmpty_iff.1 he
      rw [hl] at hn0
      simp only [List.mem_singleton] at hn0
      rw [hmem, hhead, ← hn0, hev] at hev0
      exact Option.noConfusion hev0
  -- the walk from the start node
  have hnd : (la ++ (pre ++ n0 :: post)).Nodup := by
    rw [← List.append_assoc, ← hsplit]; exact hwf.nodup
  have hnd2 : (pre ++ n0 :: post).Nodup := (List.nodup_append.1 hnd).2.1
  obtain ⟨rest, hrest⟩ : ∃ rest, pre ++ n0 :: post = start :: rest := by
    cases pre with
    | nil =>
      simp only [List.nil_append, List.head?_cons, Option.some.injEq] at hfirst
      exact ⟨post, by simp [hfirst]⟩
    | cons x pre =>
      simp only [List.cons_append, List.head?_cons, Option.some.injEq] at hfirst
      exact ⟨pre ++ n0 :: post, by simp [hfirst]⟩
  have hseg : Seg q.mem start rest q.m_tail := by
    have hall : Seg q.mem q.m_head (l1 ++ l2) q.m_tail := Seg.append hwf.vis hwf.pend
    have hsm : start ∈ q.m_head :: (l1 ++ l2) := by
      rw [hsplit, List.append_assoc, hrest]; simp
    obtain ⟨la', lb', h1, h2⟩ := Seg.split hall hsm
    have : lb' = rest := by
      rw [hsplit, List.append_assoc, hrest] at h1
      rw [hrest] at hnd hnd2
      have hnot : start ∉ la := fun h => (List.nodup_append.1 hnd).2.2 h (by simp)
      have hnot2 : start ∉ rest := (List.nodup_cons.1 hnd2).1
      exact ((List.append_cons_inj_of_not_mem hnot hnot2).1 h1).2.2.symm
    rw [← this]
    exact h2
  have hlen : pre.length + post.length + 1 ≤ l1.length + l2.length + 1 := by
    have := congrArg List.length hsplit
    simp at this
    omega
  have hfuel : (scanState q peekerId).fuel = (PoolSize + q.heapAllocated - pre.length) + 1
      + pre.length := by
    have := hwf.flush.length_lt_fuel
    have e2 : q.flushBufferedEvents.heapAllocated = q.heapAllocated := rfl
    simp [fuel, hheap, e2] at this ⊢
    omega
  have hskip := peekEventQueueLoop_skip peeker (scanState q peekerId) hqm pre start n0 post rest
    ((PoolSize + q.heapAllocated - pre.length) + 1) hrest.symm
    (by rw [hmem, hft]; exact hseg) (by rw [← hrest]; exact hnd2)
    (fun a ha => by rw [hmem]; exact hpre a ha)
  obtain ⟨node, hloop⟩ := peekEventQueueLoop_modified peeker (scanState q peekerId) n0
    (PoolSize + q.heapAllocated - pre.length) e0 (by rw [hmem]; exact hev) hmod
  rw [peekEventQueue_unfold q peeker option peekerId hreg hopt, flush_resetCursors_isEmpty, hne,
    hstart]
  simp only [Bool.false_eq_true, if_false]
  rw [hfuel, hskip, hloop]
  simp [hmod]

theorem WF.of_frame {q q' : XcbEventQueue} {l1 l2 : List Nat} (h : WF q l1 l2)
    (hmem : q'.mem = q.mem) (hhead : q'.m_head = q.m_head)
    (hft : q'.m_flushedTail = q.m_tail) (htail : q'.m_tail = q.m_tail)
    (hheap : q'.heapAllocated = q.heapAllocated) : WF q' (l1 ++ l2) [] := by
  have hf := h.flush
  refine ⟨?_, ?_, ?_, ?_⟩
  · rw [hmem, hhead, hft]; exact hf.vis
  · rw [hft, htail]; rfl
  · rw [hhead]; exact hf.nodup
  · rw [hhead, hheap]; exact hf.bound

theorem dropWhile_ne_append (la lb : List Nat) (n : Nat) (h : n ∉ la) :
    (la ++ n :: lb).dropWhile (fun a => a != n) = n :: lb := by
  induction la with
  | nil => simp
  | cons x la ih =>
    have hx : x ≠ n := fun e => h (by simp [e])
    have hn : n ∉ la := fun e => h (List.mem_cons_of_mem _ e)
    simp [List.dropWhile_cons, hx, ih hn]

theorem resetCursors_lookup (q : XcbEventQueue) (peekerId j : Int) :
    (resetCursors q peekerId).m_peekerToNode.lookup j =
      (q.m_peekerToNode.lookup j).map
        (fun v => if (peekerId != -1) && q.m_peekerIndexCacheDirty then none else v) := by
  unfold resetCursors
  by_cases h : ((peekerId != -1) && q.m_peekerIndexCacheDirty) = true
  · simp only [h, if_true]
    rw [lookup_map_reset]
  · simp only [h, Bool.false_eq_true, if_false]
    cases q.m_peekerToNode.lookup j <;> rfl

theorem peekEventQueue_pure_spec {q : XcbEventQueue} {l1 l2 : List Nat} (hwf : WF q l1 l2)
    (p : xcb_generic_event_t → Bool) (option : Nat) (peekerId : Int)
    (hcur : ∀ n, (resetCursors q peekerId).m_peekerToNode.lookup peekerId = some (some n) →
      n ∈ q.m_head :: (l1 ++ l2)) :
    ∃ q', q.peekEventQueue (purePeeker p) option peekerId =
        some ((eventsOf q.mem (scanRange q (q.m_head :: (l1 ++ l2)) option peekerId)).any p,
          q') ∧
      q'.mem = q.mem ∧ q'.m_head = q.m_head ∧ q'.m_tail = q.m_tail ∧
      q'.heapAllocated = q.heapAllocated ∧ q'.m_inputEvents = q.m_inputEvents ∧
      (q' = q ∨ q'.m_flushedTail = q.m_tail) := by
  by_cases hE1 : peekerId ≠ -1 ∧ q.m_peekerToNode.lookup peekerId = none
  · have h1 : (peekerId != -1) = true := by simpa using hE1.1
    refine ⟨q, ?_, rfl, rfl, rfl, rfl, rfl, Or.inl rfl⟩
    simp [peekEventQueue, h1, hE1.2, scanRange, hE1.1, eventsOf]
  by_cases hE2 : testFlag option PeekOption.PeekFromCachedIndex = true ∧ peekerId = -1
  · refine ⟨q, ?_, rfl, rfl, rfl, rfl, rfl, Or.inl rfl⟩
    simp [peekEventQueue, hE2.1, hE2.2, scanRange, eventsOf]
  by_cases hid : peekerId = -1
  · subst hid
    have hopt : testFlag option PeekOption.PeekFromCachedIndex = false := by
      cases ht : testFlag option PeekOption.PeekFromCachedIndex with
      | false => rfl
      | true => exact absurd ⟨ht, rfl⟩ hE2
    obtain ⟨q', g1, g2, g3, g4, g5, g6, -, -, g9⟩ := peekEventQueue_noid hwf p option hopt
    refine ⟨q', ?_, g2, g3, g5, g6, g9, Or.inr g4⟩
    rw [g1]
    simp [scanRange, hopt]
  · obtain ⟨cur, hreg⟩ : ∃ cur, q.m_peekerToNode.lookup peekerId = some cur := by
      cases hl : q.m_peekerToNode.lookup peekerId with
      | none => exact absurd ⟨hid, hl⟩ hE1
      | some c => exact ⟨c, rfl⟩
    have hprov : (peekerId != -1) = true := by simpa using hid
    have hlk := resetCursors_lookup q peekerId peekerId
    rw [hreg] at hlk
    simp only [hprov, Bool.true_and, Option.map_some'] at hlk
    by_cases hhead : testFlag option PeekOption.PeekFromCachedIndex = false ∨
        q.m_peekerIndexCacheDirty = true ∨ cur = none
    · obtain ⟨q', g1, g2, g3, g4, g5, g6, g7, -⟩ :=
        peekEventQueue_id_head hwf p option peekerId hid cur hreg hhead
      refine ⟨q', ?_, g2, g3, g5, g6, g7, Or.inr g4⟩
      rw [g1]
      have hr : scanRange q (q.m_head :: (l1 ++ l2)) option peekerId =
          q.m_head :: (l1 ++ l2) := by
        unfold scanRange
        rw [if_neg hE1, if_neg hE2]
        rcases hhead with h | h | h
        · simp [h]
        · rw [hlk]
          simp [h]
        · rw [hlk, h]
          simp
      rw [hr]
    · have hopt : testFlag option PeekOption.PeekFromCachedIndex = true := by
        cases ht : testFlag option PeekOption.PeekFromCachedIndex with
        | true => rfl
        | false => exact absurd (Or.inl ht) hhead
      have hd : q.m_peekerIndexCacheDirty = false := by
        cases ht : q.m_peekerIndexCacheDirty with
        | false => rfl
        | true => exact absurd (Or.inr (Or.inl ht)) hhead
      obtain ⟨n, hn⟩ : ∃ n, cur = some n := by
        cases cur with
        | none => exact absurd (Or.inr (Or.inr rfl)) hhead
        | some n => exact ⟨n, rfl⟩
      subst hn
      rw [hd] at hlk
      simp only [Bool.false_eq_true, if_false] at hlk
      have hmem := hcur n hlk
      obtain ⟨la, lb, hsplit⟩ := List.append_of_mem hmem
      obtain ⟨q', g1, g2, g3, g4, g5, g6, g7, -⟩ :=
        peekEventQueue_id_cached hwf p option peekerId hid hopt n hreg hd la lb hsplit
      refine ⟨q', ?_, g2, g3, g5, g6, g7, Or.inr g4⟩
      rw [g1]
      have hnot : n ∉ la := by
        have hnd := hwf.nodup
        rw [hsplit] at hnd
        exact fun h => (List.nodup_append.1 hnd).2.2 h (by simp)
      have hr : scanRange q (q.m_head :: (l1 ++ l2)) option peekerId = lb := by
        unfold scanRange
        rw [if_neg hE1, if_neg hE2, if_pos hopt, hlk, hsplit]
        simp only
        rw [dropWhile_ne_append la lb n hnot]
        rfl
      rw [hr]

theorem peekLoop_option (option : PeekOption) (peeker : xcb_generic_event_t → Nat → Bool)
    (h1 : option ≠ PeekOption.PeekRemoveMatch)
    (h2 : option ≠ PeekOption.PeekRemoveMatchContinue) :
    ∀ (fuel node : Nat) (q : XcbEventQueue),
      peekLoop option peeker fuel node q =
        peekLoop PeekOption.PeekRetainMatch peeker fuel node q := by
  intro fuel
  induction fuel with
  | zero => intro node q; rfl
  | succ fuel ih =>
    intro node q
    simp [peekLoop, h1, h2, ih]

theorem peek_option (option : PeekOption) (peeker : xcb_generic_event_t → Nat → Bool)
    (h1 : option ≠ PeekOption.PeekRemoveMatch)
    (h2 : option ≠ PeekOption.PeekRemoveMatchContinue) (q : XcbEventQueue) :
    q.peek option peeker = q.peek PeekOption.PeekRetainMatch peeker := by
  unfold peek
  simp only [peekLoop_option option peeker h1 h2]

theorem peek_wf {q : XcbEventQueue} {l1 l2 : List Nat} (hwf : WF q l1 l2)
    (option : PeekOption) (peeker : xcb_generic_event_t → Nat → Bool) :
    ∃ r q', q.peek option peeker = some (r, q') ∧
      q' = { q.flushBufferedEvents with mem := q'.mem } ∧
      (∀ a, (q'.mem a).next = (q.mem a).next ∧ (q'.mem a).fromHeap = (q.mem a).fromHeap) ∧
      WF q' (l1 ++ l2) [] := by
  by_cases h1 : option = PeekOption.PeekRemoveMatch
  · subst h1
    obtain ⟨q', g1, g2, -⟩ := peek_remove_spec hwf peeker
    have hq : q' = { q.flushBufferedEvents with mem := q'.mem } ∧
        ∀ a, (q'.mem a).next = (q.mem a).next ∧ (q'.mem a).fromHeap = (q.mem a).fromHeap := by
      rcases g2 with rfl | ⟨n, -, rfl⟩
      · exact ⟨rfl, fun _ => ⟨rfl, rfl⟩⟩
      · exact ⟨rfl, fun a => ⟨(sameLinks_setEvent q.flushBufferedEvents n none).next a,
          (sameLinks_setEvent q.flushBufferedEvents n none).fromHeap a⟩⟩
    exact ⟨_, q', g1, hq.1, hq.2, hwf.flush.of_mem hq.1 (fun a => (hq.2 a).1)⟩
  · by_cases h2 : option = PeekOption.PeekRemoveMatchContinue
    · subst h2
      obtain ⟨q', g1, g2, g3, -, -, g6⟩ := peek_removeContinue_spec hwf peeker
      exact ⟨_, q', g1, g2, g3, g6⟩
    · rw [peek_option option peeker h1 h2]
      exact ⟨_, q.flushBufferedEvents, peek_retain_spec hwf peeker, rfl, fun _ => ⟨rfl, rfl⟩,
        hwf.flush⟩

theorem takeFirstMany_spec (l2 : List Nat) :
    ∀ (n : Nat) (q : XcbEventQueue) (l1 : List Nat), WF q l1 l2 →
      ∃ q' d l1r, takeFirstMany n q =
          some ((eventsOf q.mem (q.m_head :: l1)).take n, q') ∧
        q.m_head :: l1 = d ++ q'.m_head :: l1r ∧ WF q' l1r l2 ∧
        eventsOf q'.mem (q'.m_head :: l1r) = (eventsOf q.mem (q.m_head :: l1)).drop n ∧
        eventsOf q'.mem l2 = eventsOf q.mem l2 ∧ SameLinks q q' := by
  intro n
  induction n with
  | zero =>
    intro q l1 hwf
    exact ⟨q, [], l1, by simp [takeFirstMany], rfl, hwf, by simp, rfl, SameLinks.refl q⟩
  | succ n ih =>
    intro q l1 hwf
    obtain ⟨d, l1r, q1, h1, h2, h3, h4, h5, -, h7, -⟩ := takeFirst_spec hwf
    obtain ⟨q', d', l1r', g1, g2, g3, g4, g5, g6⟩ := ih q1 l1r h3
    refine ⟨q', d ++ d', l1r', ?_, ?_, g3, ?_, g5.trans h5, h7.trans g6⟩
    · simp only [takeFirstMany, h1, g1, h4]
      cases eventsOf q.mem (q.m_head :: l1) <;> simp
    · rw [h2, g2]; simp
    · rw [g4, h4]
      cases eventsOf q.mem (q.m_head :: l1) <;> simp

theorem poolCount_congr {m1 m2 : Nat → XcbEventNode}
    (h : ∀ a, (m2 a).fromHeap = (m1 a).fromHeap) (l : List Nat) :
    poolCount m2 l = poolCount m1 l := by
  unfold poolCount
  congr 1
  apply List.filter_congr
  intro a _
  rw [h]

theorem poolCount_append (m : Nat → XcbEventNode) (a b : List Nat) :
    poolCount m (a ++ b) = poolCount m a + poolCount m b := by
  simp [poolCount]

theorem takeFirst_frame {q : XcbEventQueue} {l1 l2 : List Nat} (hwf : WF q l1 l2) :
    ∃ r d l1r q', q.takeFirst = some (r, q') ∧
      q.m_head :: l1 = d ++ q'.m_head :: l1r ∧ WF q' l1r l2 ∧ SameLinks q q' ∧
      q'.m_nodesRestored = q.m_nodesRestored + poolCount q.mem d ∧
      (d = [] ∨ q'.m_peekerIndexCacheDirty = true) ∧
      (q.m_peekerIndexCacheDirty = true → q'.m_peekerIndexCacheDirty = true) := by
  obtain ⟨d, l1r, q', h1, h2, h3, -, -, h6, h7, -, -, h10⟩ := takeFirst_spec hwf
  refine ⟨_, d, l1r, q', h1, h2, h3, h7, h6, ?_, ?_⟩
  · cases he : q.isEmpty with
    | false => right; rw [h10, he]; simp
    | true =>
      left
      obtain ⟨hl, -⟩ := hwf.isEmpty_iff.1 he
      rw [hl] at h2
      cases d with
      | nil => rfl
      | cons x d =>
        have := congrArg List.length h2
        simp at this
  · intro hd
    rw [h10, hd]
    rfl

theorem takeFirstExcludeLoop_frame (c : XcbConnection) (l2 : List Nat) :
    ∀ (fuel : Nat) (q : XcbEventQueue) (l1 : List Nat)
      (r : Option xcb_generic_event_t) (q' : XcbEventQueue),
      WF q l1 l2 → takeFirstExcludeLoop c fuel q = some (r, q') →
      ∃ d l1r, q.m_head :: l1 = d ++ q'.m_head :: l1r ∧ WF q' l1r l2 ∧ SameLinks q q' ∧
        q'.m_nodesRestored = q.m_nodesRestored + poolCount q.mem d ∧
        (d = [] ∨ q'.m_peekerIndexCacheDirty = true) ∧
        (q.m_peekerIndexCacheDirty = true → q'.m_peekerIndexCacheDirty = true) := by
  intro fuel
  induction fuel with
  | zero => intro q l1 r q' _ h; simp [takeFirstExcludeLoop] at h
  | succ fuel ih =>
    intro q l1 r q' hwf h
    obtain ⟨r1, d, l1r, q1, h1, h2, h3, h4, h5, h6, h7⟩ := takeFirst_frame hwf
    unfold takeFirstExcludeLoop at h
    rw [h1] at h
    cases r1 with
    | none =>
      simp only [Option.some.injEq, Prod.mk.injEq] at h
      obtain ⟨-, rfl⟩ := h
      exact ⟨d, l1r, h2, h3, h4, h5, h6, h7⟩
    | some e =>
      simp only at h
      by_cases hu : c.isUserInputEvent e = true
      · simp only [hu, if_true] at h
        have hsl : SameLinks q1 { q1 with m_inputEvents := q1.m_inputEvents ++ [e] } :=
          ⟨rfl, rfl, rfl, rfl, rfl, rfl, rfl, rfl, rfl, rfl, fun _ => rfl, fun _ => rfl⟩
        obtain ⟨d', l1r', g2, g3, g4, g5, g6, g7⟩ :=
          ih { q1 with m_inputEvents := q1.m_inputEvents ++ [e] } l1r r q'
            (h3.inputEvents _) h
        refine ⟨d ++ d', l1r', ?_, g3, h4.trans (hsl.trans g4), ?_, ?_, ?_⟩
        · rw [h2]
          have : q1.m_head :: l1r = d' ++ q'.m_head :: l1r' := g2
          rw [this]; simp
        · rw [g5, poolCount_append]
          have e1 : poolCount q1.mem d' = poolCount q.mem d' :=
            poolCount_congr h4.fromHeap d'
          have e2 : ({ q1 with m_inputEvents := q1.m_inputEvents ++ [e] } : XcbEventQueue).mem
              = q1.mem := rfl
          have e3 : ({ q1 with m_inputEvents := q1.m_inputEvents ++ [e] } :
              XcbEventQueue).m_nodesRestored = q1.m_nodesRestored := rfl
          rw [e2, e3, e1, h5]
          omega
        · rcases h6 with rfl | h6
          · rcases g6 with rfl | g6
            · left; rfl
            · right; exact g6
          · right; exact g7 h6
        · intro hd; exact g7 (h7 hd)
      · simp only [hu, Bool.false_eq_true, if_false, Option.some.injEq, Prod.mk.injEq] at h
        obtain ⟨-, rfl⟩ := h
        exact ⟨d, l1r, h2, h3, h4, h5, h6, h7⟩

theorem takeFirstFlags_frame (c : XcbConnection) {q : XcbEventQueue} {l1 l2 : List Nat}
    (hwf : WF q l1 l2) (excl : Bool) :
    ∃ r q' d l1r, q.takeFirstFlags c excl = some (r, q') ∧
      q.m_head :: l1 = d ++ q'.m_head :: l1r ∧ WF q' l1r l2 ∧ SameLinks q q' ∧
      q'.m_nodesRestored = q.m_nodesRestored + poolCount q.mem d ∧
      (d = [] ∨ q'.m_peekerIndexCacheDirty = true) ∧
      (q.m_peekerIndexCacheDirty = true → q'.m_peekerIndexCacheDirty = true) := by
  cases excl with
  | true =>
    obtain ⟨q', l1r0, h1, -⟩ :=
      takeFirstExcludeLoop_spec c l2 _ q l1 q.fuel hwf rfl
        (by have := hwf.length_lt_fuel
            have := eventsOf_length_le q.mem (q.m_head :: l1)
            simp at this
            omega)
    obtain ⟨d, l1r, g⟩ := takeFirstExcludeLoop_frame c l2 q.fuel q l1 _ q' hwf h1
    exact ⟨_, q', d, l1r, by simpa [takeFirstFlags] using h1, g⟩
  | false =>
    cases hin : q.m_inputEvents with
    | cons e rest =>
      exact ⟨some e, { q with m_inputEvents := rest }, [], l1,
        by simp [takeFirstFlags, hin], rfl, hwf.inputEvents rest,
        ⟨rfl, rfl, rfl, rfl, rfl, rfl, rfl, rfl, rfl, rfl, fun _ => rfl, fun _ => rfl⟩,
        by simp [poolCount], Or.inl rfl, fun h => h⟩
    | nil =>
      obtain ⟨r, d, l1r, q', h1, g⟩ := takeFirst_frame hwf
      exact ⟨r, q', d, l1r, by simp [takeFirstFlags, hin, h1], g⟩

theorem NodesOnHeapInv.of_eq {q q' : XcbEventQueue} (h : NodesOnHeapInv q)
    (h1 : q'.m_nodesOnHeap = q.m_nodesOnHeap)
    (h2 : q'.lcQpaEventReader_isDebugEnabled = q.lcQpaEventReader_isDebugEnabled)
    (h3 : q'.heapAllocated = q.heapAllocated) : NodesOnHeapInv q' := by
  unfold NodesOnHeapInv at h ⊢
  rw [h1, h2, h3]
  exact h

theorem factory_debug (q : XcbEventQueue) (ev : Option xcb_generic_event_t) :
    (q.qMEventNodeFactory ev).2.lcQpaEventReader_isDebugEnabled =
      q.lcQpaEventReader_isDebugEnabled := by
  unfold qMEventNodeFactory
  simp only []
  split_ifs <;> rfl

theorem factory_pool_frame (q : XcbEventQueue) (ev : Option xcb_generic_event_t)
    (h : ¬(q.m_freeNodes = 0 ∧ q.m_nodesRestored = 0)) :
    (q.qMEventNodeFactory ev).2.m_nodesOnHeap = q.m_nodesOnHeap ∧
      (q.qMEventNodeFactory ev).2.heapAllocated = q.heapAllocated := by
  unfold qMEventNodeFactory
  by_cases hf : q.m_freeNodes = 0
  · have hr : q.m_nodesRestored ≠ 0 := fun hr => h ⟨hf, hr⟩
    simp only [hf, if_true, ne_eq, hr, not_false_eq_true]
    split_ifs <;> exact ⟨rfl, rfl⟩
  · simp only [hf, if_false, ne_eq, not_false_eq_true, if_true]
    split_ifs <;> exact ⟨rfl, rfl⟩

theorem factory_nodesOnHeap {q : XcbEventQueue} (h : NodesOnHeapInv q)
    (ev : Option xcb_generic_event_t) : NodesOnHeapInv (q.qMEventNodeFactory ev).2 := by
  by_cases hp : q.m_freeNodes = 0 ∧ q.m_nodesRestored = 0
  · rw [factory_heap q ev hp.1 hp.2]
    unfold NodesOnHeapInv at h ⊢
    simp only []
    cases hd : q.lcQpaEventReader_isDebugEnabled with
    | false =>
      rw [hd] at h
      simpa using h
    | true =>
      rw [hd] at h
      simp only [if_true] at h ⊢
      rw [h, Nat.add_mod, Nat.mod_mod, ← Nat.add_mod]
  · obtain ⟨h1, h2⟩ := factory_pool_frame q ev hp
    exact h.of_eq h1 (factory_debug q ev) h2

theorem enqueueEvent_nodesOnHeap (c : XcbConnection) (s : Nat × XcbEventQueue)
    (e : xcb_generic_event_t) (h : NodesOnHeapInv s.2) :
    NodesOnHeapInv (enqueueEvent c s e).2 := by
  cases hs : isCloseSentinel c e with
  | true =>
    rw [enqueueEvent_sentinel c s e hs]
    exact h.of_eq rfl rfl rfl
  | false =>
    unfold enqueueEvent
    rw [isCloseConnectionEvent_of_not_sentinel c s.2 e hs]
    simp only []
    split_ifs
    · exact (factory_nodesOnHeap h (some e)).of_eq rfl rfl rfl
    · exact h

theorem pollLoop_nodesOnHeap (c : XcbConnection) :
    ∀ (evs : List xcb_generic_event_t) (s : Nat × XcbEventQueue), NodesOnHeapInv s.2 →
      NodesOnHeapInv (pollLoop c s evs).2 := by
  intro evs
  induction evs with
  | nil => intro s h; exact h
  | cons e evs ih =>
    intro s h
    unfold pollLoop
    split_ifs
    · exact h
    · exact ih _ (enqueueEvent_nodesOnHeap c s e h)

theorem run_nodesOnHeap (c : XcbConnection) (q : XcbEventQueue)
    (input : List (xcb_generic_event_t × List xcb_generic_event_t)) (h : NodesOnHeapInv q) :
    NodesOnHeapInv (run c q input) := by
  unfold run
  rw [runLoop_eq_pollLoop]
  exact pollLoop_nodesOnHeap c _ _ h

theorem dequeueNode_debug_frame (q q' : XcbEventQueue) (h : q.dequeueNode = some q') :
    q'.m_nodesOnHeap = q.m_nodesOnHeap ∧
      q'.lcQpaEventReader_isDebugEnabled = q.lcQpaEventReader_isDebugEnabled ∧
      q'.heapAllocated = q.heapAllocated := by
  unfold dequeueNode at h
  simp only [] at h
  split at h
  · exact Option.noConfusion h
  · split_ifs at h <;> (cases h; exact ⟨rfl, rfl, rfl⟩)

theorem takeFirstLoop_debug_frame :
    ∀ (fuel : Nat) (q : XcbEventQueue) (r : Option xcb_generic_event_t) (q' : XcbEventQueue),
      takeFirstLoop fuel q = some (r, q') →
      q'.m_nodesOnHeap = q.m_nodesOnHeap ∧
        q'.lcQpaEventReader_isDebugEnabled = q.lcQpaEventReader_isDebugEnabled ∧
        q'.heapAllocated = q.heapAllocated := by
  intro fuel
  induction fuel with
  | zero => intro q r q' h; exact Option.noConfusion h
  | succ fuel ih =>
    intro q r q' h
    unfold takeFirstLoop at h
    simp only [] at h
    split_ifs at h with h1 h2 h3 h4
    · have g := ih _ _ _ h
      exact ⟨g.1, g.2.1, g.2.2⟩
    · cases h; exact ⟨rfl, rfl, rfl⟩
    · have g := ih _ _ _ h
      exact ⟨g.1, g.2.1, g.2.2⟩
    · cases h; exact ⟨rfl, rfl, rfl⟩
    · cases hd : q.dequeueNode with
      | none => rw [hd] at h; exact Option.noConfusion h
      | some q1 =>
        rw [hd] at h
        obtain ⟨d1, d2, d3⟩ := dequeueNode_debug_frame q q1 hd
        simp only [] at h
        split_ifs at h
        · obtain ⟨e1, e2, e3⟩ := ih _ _ _ h
          exact ⟨e1.trans d1, e2.trans d2, e3.trans d3⟩
        · cases h; exact ⟨d1, d2, d3⟩

theorem takeFirst_nodesOnHeap {q q' : XcbEventQueue} {r : Option xcb_generic_event_t}
    (h : q.takeFirst = some (r, q')) (hi : NodesOnHeapInv q) : NodesOnHeapInv q' := by
  unfold takeFirst at h
  split_ifs at h
  · cases h; exact hi
  · cases hl : takeFirstLoop q.fuel q with
    | none => rw [hl] at h; exact Option.noConfusion h
    | some v =>
      rw [hl] at h
      obtain ⟨e1, e2, e3⟩ := takeFirstLoop_debug_frame _ _ v.1 v.2 hl
      cases h
      exact hi.of_eq e1 e2 e3

theorem newDebug_nodesOnHeap (debug : Bool) : NodesOnHeapInv (XcbEventQueue.newDebug debug) := by
  cases debug <;> rfl

theorem newDebug_false : XcbEventQueue.newDebug false = XcbEventQueue.new := rfl

theorem enqueueDequeue_nodesOnHeap (c : XcbConnection) (s : Nat × XcbEventQueue)
    (e : xcb_generic_event_t) (r : (Bool × Option xcb_generic_event_t) × (Nat × XcbEventQueue))
    (h : enqueueDequeue c s e = some r) (hi : NodesOnHeapInv s.2) : NodesOnHeapInv r.2.2 := by
  unfold enqueueDequeue at h
  simp only [] at h
  cases ht : (enqueueEvent c s e).2.flushBufferedEvents.takeFirst with
  | none => rw [ht] at h; exact Option.noConfusion h
  | some v =>
    rw [ht] at h
    cases h
    exact takeFirst_nodesOnHeap ht ((enqueueEvent_nodesOnHeap c s e hi).of_eq rfl rfl rfl)

theorem enqueueDequeuePairs_nodesOnHeap (c : XcbConnection) :
    ∀ (es : List xcb_generic_event_t) (s : Nat × XcbEventQueue)
      (r : List (Bool × Option xcb_generic_event_t) × (Nat × XcbEventQueue)),
      enqueueDequeuePairs c s es = some r → NodesOnHeapInv s.2 → NodesOnHeapInv r.2.2 := by
  intro es
  induction es with
  | nil =>
    intro s r h hi
    cases h
    exact hi
  | cons e es ih =>
    intro s r h hi
    unfold enqueueDequeuePairs at h
    cases h1 : enqueueDequeue c s e with
    | none => rw [h1] at h; exact Option.noConfusion h
    | some r1 =>
      rw [h1] at h
      simp only [] at h
      cases h2 : enqueueDequeuePairs c r1.2 es with
      | none => rw [h2] at h; exact Option.noConfusion h
      | some rs =>
        rw [h2] at h
        cases h
        exact ih r1.2 rs h2 (enqueueDequeue_nodesOnHeap c s e r1 h1 hi)

theorem appended_debug {q : XcbEventQueue} {es : List xcb_generic_event_t}
    (h : Appended q es) (b : Bool) :
    Appended { q with lcQpaEventReader_isDebugEnabled := b } es :=
  ⟨h.head, h.flushedTail, h.tail, h.next, h.headEvent, h.events, h.fromHeap, h.poolFromHeap,
    h.freeNodes, h.poolIndex, h.heapAllocated, h.nodesRestored, h.inputEvents⟩

theorem filter_ge_range_length (k : Nat) :
    ∀ n, ((List.range n).filter (fun a => decide (k ≤ a))).length = n - k := by
  intro n
  induction n with
  | zero => simp
  | succ n ih =>
    rw [List.range_succ, List.filter_append, List.length_append, ih]
    by_cases h : k ≤ n
    · simp [h]; omega
    · simp [h]; omega

theorem enqueueEvent_debug (c : XcbConnection) (s : Nat × XcbEventQueue)
    (e : xcb_generic_event_t) :
    (enqueueEvent c s e).2.lcQpaEventReader_isDebugEnabled =
      s.2.lcQpaEventReader_isDebugEnabled := by
  cases hs : isCloseSentinel c e with
  | true => rw [enqueueEvent_sentinel c s e hs]
  | false =>
    unfold enqueueEvent
    rw [isCloseConnectionEvent_of_not_sentinel c s.2 e hs]
    simp only []
    split_ifs
    · exact factory_debug s.2 (some e)
    · rfl

theorem pollLoop_debug (c : XcbConnection) :
    ∀ (evs : List xcb_generic_event_t) (s : Nat × XcbEventQueue),
      (pollLoop c s evs).2.lcQpaEventReader_isDebugEnabled =
        s.2.lcQpaEventReader_isDebugEnabled := by
  intro evs
  induction evs with
  | nil => intro s; rfl
  | cons e evs ih =>
    intro s
    unfold pollLoop
    split_ifs
    · rfl
    · rw [ih, enqueueEvent_debug]

theorem run_debug (c : XcbConnection) (q : XcbEventQueue)
    (input : List (xcb_generic_event_t × List xcb_generic_event_t)) :
    (run c q input).lcQpaEventReader_isDebugEnabled = q.lcQpaEventReader_isDebugEnabled := by
  unfold run
  rw [runLoop_eq_pollLoop]
  exact pollLoop_debug c _ _

theorem appended_newDebug (debug : Bool) : Appended (XcbEventQueue.newDebug debug) [] :=
  appended_debug appended_new debug

theorem newDebug_closeConnectionDetected (debug : Bool) :
    (XcbEventQueue.newDebug debug).m_closeConnectionDetected = false := rfl

/-! ## The claims -/

theorem takeWhile_not_sentinel (c : XcbConnection) (es : List xcb_generic_event_t)
    (h : ∀ e ∈ es, isCloseSentinel c e = false) :
    es.takeWhile (fun e => !isCloseSentinel c e) = es := by
  rw [List.takeWhile_eq_self_iff]
  intro e he
  simp [h e he]

theorem new_closeConnectionDetected : XcbEventQueue.new.m_closeConnectionDetected = false := rfl

/-- C1 (FIFO): when the reader appends the incoming records (none of them the
close sentinel) to a freshly constructed queue, the drain `flushBufferedEvents`,
then `takeFirst` until null, returns exactly those records, each once, in the
order in which they were enqueued; and when none of them is coalescable a
drain cycle of the connection hands exactly those records, in that order, to
its handlers.  The tags need not be distinct. -/
theorem C1_fifo_order (c : XcbConnection)
    (input : List (xcb_generic_event_t × List xcb_generic_event_t))
    (hclose : ∀ e ∈ incoming input, isCloseSentinel c e = false)
    (hcoal : ∀ e ∈ incoming input, coalesceClass c e = none)
    (herr : c.connection_error = 0) :
    (∃ q', drain c (run c XcbEventQueue.new input) = some (incoming input, q')) ∧
      ∃ calls c' q', c.processXcbEvents (run c XcbEventQueue.new input) false =
        some (calls, c', q') ∧ delivered calls = incoming input := by
  obtain ⟨happ, -, -, -, -, -⟩ := run_appended c appended_new new_closeConnectionDetected input
  rw [takeWhile_not_sentinel c _ hclose] at happ
  constructor
  · obtain ⟨q', l1r, h1, -⟩ := drain_spec c happ.wf
    rw [happ.eventsOf_all, happ.inputEvents] at h1
    exact ⟨q', by simpa using h1⟩
  · obtain ⟨q', l1r, h1, -⟩ := processXcbEvents_spec c happ.wf happ.inputEvents herr
    rw [happ.eventsOf_all] at h1
    exact ⟨_, _, q', h1, delivered_processCalls_of_class_none c _ c rfl rfl hcoal⟩

/-- Witness of C1: an Expose record followed by a PropertyNotify record. -/
theorem C1_fifo_order_witness :
    (∃ q', drain sampleConnection
        (run sampleConnection XcbEventQueue.new [(Expose 7, [PropertyNotify 7])]) =
          some (incoming [(Expose 7, [PropertyNotify 7])], q')) ∧
      ∃ calls c' q', sampleConnection.processXcbEvents
          (run sampleConnection XcbEventQueue.new [(Expose 7, [PropertyNotify 7])]) false =
        some (calls, c', q') ∧ delivered calls = incoming [(Expose 7, [PropertyNotify 7])] :=
  C1_fifo_order sampleConnection [(Expose 7, [PropertyNotify 7])] (by decide) (by decide) rfl

theorem peekRetainMany_spec :
    ∀ (ps : List (xcb_generic_event_t → Nat → Bool)) (q : XcbEventQueue) (l1 l2 : List Nat),
      WF q l1 l2 →
      ∃ q', peekRetainMany q ps = some q' ∧
        q'.flushBufferedEvents = q.flushBufferedEvents := by
  intro ps
  induction ps with
  | nil => intro q l1 l2 _; exact ⟨q, rfl, rfl⟩
  | cons p ps ih =>
    intro q l1 l2 hwf
    obtain ⟨q', h1, h2⟩ := ih q.flushBufferedEvents (l1 ++ l2) [] hwf.flush
    refine ⟨q', ?_, h2⟩
    simp only [peekRetainMany, peek_retain_spec hwf p]
    exact h1

/-- C2 (non-destructive peek): on every well-formed queue state, any number of
calls of `peek(PeekRetainMatch, p)`, for any predicates, come to an end and
leave the result of a subsequent drain (`flushBufferedEvents`, then `takeFirst`
until null) unchanged: the same records in the same order, here the side
buffer followed by the pending records of the list.  A drain cycle of the
connection is unchanged as well. -/
theorem C2_peek_retain_keeps_drain (c : XcbConnection) (q : XcbEventQueue) (l1 l2 : List Nat)
    (hwf : WF q l1 l2) (ps : List (xcb_generic_event_t → Nat → Bool)) :
    ∃ q' qd, peekRetainMany q ps = some q' ∧
      drain c q = some (q.m_inputEvents ++ eventsOf q.mem (q.m_head :: (l1 ++ l2)), qd) ∧
      drain c q' = some (q.m_inputEvents ++ eventsOf q.mem (q.m_head :: (l1 ++ l2)), qd) ∧
      ∀ excludeUserInputEvents, c.processXcbEvents q' excludeUserInputEvents =
        c.processXcbEvents q excludeUserInputEvents := by
  obtain ⟨q', h1, h2⟩ := peekRetainMany_spec ps q l1 l2 hwf
  obtain ⟨qd, l1r, h3, -⟩ := drain_spec c hwf
  refine ⟨q', qd, h1, h3, ?_, ?_⟩
  · rw [← h3]
    simp only [drain, h2]
  · intro ex
    simp only [XcbConnection.processXcbEvents, h2]

/-- Witness of C2: three retaining peeks on a queue that holds two records. -/
theorem C2_peek_retain_keeps_drain_witness :
    ∃ q' qd,
      peekRetainMany (run sampleConnection XcbEventQueue.new [(Expose 7, [Motion 7])])
        [fun _ _ => true, fun _ t => t == XCB_EXPOSE, fun _ _ => false] = some q' ∧
      drain sampleConnection (run sampleConnection XcbEventQueue.new [(Expose 7, [Motion 7])]) =
        some ((run sampleConnection XcbEventQueue.new [(Expose 7, [Motion 7])]).m_inputEvents ++
          eventsOf (run sampleConnection XcbEventQueue.new [(Expose 7, [Motion 7])]).mem
            ((run sampleConnection XcbEventQueue.new [(Expose 7, [Motion 7])]).m_head ::
              ([] ++ [1, 2])), qd) ∧
      drain sampleConnection q' =
        some ((run sampleConnection XcbEventQueue.new [(Expose 7, [Motion 7])]).m_inputEvents ++
          eventsOf (run sampleConnection XcbEventQueue.new [(Expose 7, [Motion 7])]).mem
            ((run sampleConnection XcbEventQueue.new [(Expose 7, [Motion 7])]).m_head ::
              ([] ++ [1, 2])), qd) ∧
      ∀ excludeUserInputEvents, sampleConnection.processXcbEvents q' excludeUserInputEvents =
        sampleConnection.processXcbEvents
          (run sampleConnection XcbEventQueue.new [(Expose 7, [Motion 7])])
          excludeUserInputEvents :=
  C2_peek_retain_keeps_drain sampleConnection
    (run sampleConnection XcbEventQueue.new [(Expose 7, [Motion 7])]) [] [1, 2]
    ⟨rfl, ⟨rfl, rfl, rfl⟩, by decide, by decide⟩ _

theorem incoming_replicate (e : xcb_generic_event_t) :
    ∀ n, incoming (List.replicate n (e, [])) = List.replicate n e := by
  intro n
  induction n with
  | zero => rfl
  | succ n ih =>
    simp only [incoming, List.replicate_succ, List.map_cons, List.flatten_cons] at ih ⊢
    rw [ih]
    rfl

/-- C4, the claim as stated fails: after the reader has appended 100 records to a
fresh queue, with nothing released, one node has been allocated on the heap,
the node at the address 100, which is marked `fromHeap`, whereas
`max(0, N - PoolSize)` is 0; with debug output of `lcQpaEventReader` enabled
the member `m_nodesOnHeap` is 1.  With debug output disabled the member stays
0: after 150 records it is 0, whereas `max(0, N - PoolSize)` is 50. -/
theorem C4_counterexample :
    (run sampleConnection (XcbEventQueue.newDebug true)
        (List.replicate 100 (Expose 7, []))).m_nodesOnHeap = 1 ∧
      (run sampleConnection (XcbEventQueue.newDebug true)
        (List.replicate 100 (Expose 7, []))).heapAllocated = 1 ∧
      ((run sampleConnection (XcbEventQueue.newDebug true)
        (List.replicate 100 (Expose 7, []))).mem 100).fromHeap = true ∧
      (incoming (List.replicate 100 (Expose 7, []))).length = 100 ∧
      max 0 (100 - PoolSize) = 0 ∧
      (run sampleConnection (XcbEventQueue.newDebug false)
        (List.replicate 150 (Expose 7, []))).m_nodesOnHeap = 0 ∧
      (incoming (List.replicate 150 (Expose 7, []))).length = 150 ∧
      max 0 (150 - PoolSize) = 50 := by
  have hin : ∀ n, incoming (List.replicate n (Expose 7, [])) = List.replicate n (Expose 7) :=
    incoming_replicate _
  have hs : isCloseSentinel sampleConnection (Expose 7) = false := by decide
  obtain ⟨happ, -⟩ := run_appended sampleConnection (appended_newDebug true)
    (newDebug_closeConnectionDetected true) (List.replicate 100 (Expose 7, []))
  have hJd := run_nodesOnHeap sampleConnection _ (List.replicate 100 (Expose 7, []))
    (newDebug_nodesOnHeap true)
  have hJ := run_nodesOnHeap sampleConnection _ (List.replicate 150 (Expose 7, []))
    (newDebug_nodesOnHeap false)
  have hflagd : (run sampleConnection (XcbEventQueue.newDebug true)
      (List.replicate 100 (Expose 7, []))).lcQpaEventReader_isDebugEnabled = true :=
    run_debug sampleConnection _ _
  have hflag : (run sampleConnection (XcbEventQueue.newDebug false)
      (List.replicate 150 (Expose 7, []))).lcQpaEventReader_isDebugEnabled = false :=
    run_debug sampleConnection _ _
  have hheap : (run sampleConnection (XcbEventQueue.newDebug true)
      (List.replicate 100 (Expose 7, []))).heapAllocated = 1 := by
    rw [happ.heapAllocated, hin, List.takeWhile_replicate]
    simp [hs, PoolSize]
  refine ⟨?_, hheap, ?_, ?_, by decide, ?_, ?_, by decide⟩
  · unfold NodesOnHeapInv at hJd
    rw [hJd, hflagd, hheap]
    rfl
  · rw [happ.fromHeap 100 (by rw [hin, List.takeWhile_replicate]; simp [hs])]
    decide
  · rw [hin]; simp
  · unfold NodesOnHeapInv at hJ
    rw [hJ, hflag]
    rfl
  · rw [hin]; simp

/-- C4 as amended: the constructor takes the first pool slot for the initial
node, so after the reader has appended N records to a fresh queue while the
consumer releases nothing, the number of nodes allocated on the heap is
`max(0, N - (PoolSize - 1))`, and so is the number of nodes of the list that
are marked `fromHeap`; the member `m_nodesOnHeap` holds that number, modulo
`2 ^ 64`, if debug output of `lcQpaEventReader` is enabled, and is 0 if it is
not.  N counts the records appended, those read before the first close
sentinel. -/
theorem C4_nodes_on_heap (c : XcbConnection)
    (input : List (xcb_generic_event_t × List xcb_generic_event_t)) (debug : Bool) :
    (run c (XcbEventQueue.newDebug debug) input).heapAllocated =
      max 0 (((incoming input).takeWhile (fun e => !isCloseSentinel c e)).length -
        (PoolSize - 1)) ∧
    WF (run c (XcbEventQueue.newDebug debug) input) []
      (List.range' 1 ((incoming input).takeWhile (fun e => !isCloseSentinel c e)).length) ∧
    (((run c (XcbEventQueue.newDebug debug) input).m_head ::
      List.range' 1 ((incoming input).takeWhile (fun e => !isCloseSentinel c e)).length).filter
      (fun a => ((run c (XcbEventQueue.newDebug debug) input).mem a).fromHeap)).length =
      max 0 (((incoming input).takeWhile (fun e => !isCloseSentinel c e)).length -
        (PoolSize - 1)) ∧
    (run c (XcbEventQueue.newDebug debug) input).m_nodesOnHeap =
      if debug then
        max 0 (((incoming input).takeWhile (fun e => !isCloseSentinel c e)).length -
          (PoolSize - 1)) % 2 ^ 64
      else 0 := by
  obtain ⟨happ, -⟩ := run_appended c (appended_newDebug debug)
    (newDebug_closeConnectionDetected debug) input
  have hJ := run_nodesOnHeap c _ input (newDebug_nodesOnHeap debug)
  have hflag : (run c (XcbEventQueue.newDebug debug) input).lcQpaEventReader_isDebugEnabled =
      debug := run_debug c (XcbEventQueue.newDebug debug) input
  refine ⟨?_, happ.wf, ?_, ?_⟩
  · rw [happ.heapAllocated]
    simp
  · generalize hN : ((incoming input).takeWhile (fun e => !isCloseSentinel c e)).length = N
      at happ ⊢
    have hfh := happ.fromHeap
    rw [hN] at hfh
    have hchain : (run c (XcbEventQueue.newDebug debug) input).m_head :: List.range' 1 N =
        List.range (N + 1) := by
      rw [happ.head, List.range_eq_range', List.range'_succ]
    rw [hchain]
    have hcongr : (List.range (N + 1)).filter
        (fun a => ((run c (XcbEventQueue.newDebug debug) input).mem a).fromHeap) =
        (List.range (N + 1)).filter (fun a => decide (PoolSize ≤ a)) := by
      apply List.filter_congr
      intro a ha
      exact hfh a (by have := List.mem_range.1 ha; omega)
    rw [hcongr, filter_ge_range_length]
    simp only [PoolSize]
    omega
  · unfold NodesOnHeapInv at hJ
    rw [hJ, hflag, happ.heapAllocated]
    simp

theorem enqueueEvent_of_closed (c : XcbConnection) (tail : Nat) (q : XcbEventQueue)
    (e : xcb_generic_event_t) :
    enqueueEvent c (tail, { q with m_closeConnectionDetected := true }) e =
      (tail, { q with m_closeConnectionDetected := true }) := by
  unfold enqueueEvent isCloseConnectionEvent
  by_cases h1 : responseType e = XCB_CLIENT_MESSAGE
  · by_cases h2 : e.type = c.atom Atom._QT_CLOSE_CONNECTION <;> simp [h1, h2]
  · simp [h1]

theorem run_of_closed (c : XcbConnection) (q : XcbEventQueue)
    (input : List (xcb_generic_event_t × List xcb_generic_event_t)) :
    run c { q with m_closeConnectionDetected := true } input =
      { q with m_closeConnectionDetected := true } := by
  unfold run
  rw [runLoop_eq_pollLoop, pollLoop_of_closed c _ _ rfl]

theorem mem_of_mem_uncompressed (c : XcbConnection) :
    ∀ (es : List xcb_generic_event_t) (e : xcb_generic_event_t),
      e ∈ uncompressed c es → e ∈ es := by
  intro es
  induction es with
  | nil => intro e h; simp [uncompressed] at h
  | cons x es ih =>
    intro e h
    unfold uncompressed at h
    split_ifs at h
    · exact List.mem_cons_of_mem _ (ih e h)
    · rcases List.mem_cons.1 h with h | h
      · rw [h]; simp
      · exact List.mem_cons_of_mem _ (ih e h)

/-- C6 (shutdown): for every sequence of incoming records, the records that the
reader loop appends to a fresh queue are exactly those read before the first
close sentinel: a drain returns exactly that part of the sequence, so the
sentinel and every record read after it are never enqueued, and every record
that a drain cycle of the connection delivers is one of that part; the stop
flag is raised exactly when a sentinel was read, and once it is raised neither
`enqueueEvent` nor a run of the reader loop appends a record or lowers it. -/
theorem C6_close_sentinel_stops_reader (c : XcbConnection)
    (input : List (xcb_generic_event_t × List xcb_generic_event_t)) :
    (∃ q', drain c (run c XcbEventQueue.new input) =
        some ((incoming input).takeWhile (fun e => !isCloseSentinel c e), q')) ∧
      (∀ calls c' q', c.processXcbEvents (run c XcbEventQueue.new input) false =
          some (calls, c', q') →
        ∀ e ∈ delivered calls, e ∈ (incoming input).takeWhile (fun e => !isCloseSentinel c e)) ∧
      (run c XcbEventQueue.new input).m_closeConnectionDetected =
        (incoming input).any (isCloseSentinel c) ∧
      (∀ (tail : Nat) (q : XcbEventQueue) (e : xcb_generic_event_t),
        enqueueEvent c (tail, { q with m_closeConnectionDetected := true }) e =
          (tail, { q with m_closeConnectionDetected := true })) ∧
      ∀ (q : XcbEventQueue) (more : List (xcb_generic_event_t × List xcb_generic_event_t)),
        run c { q with m_closeConnectionDetected := true } more =
          { q with m_closeConnectionDetected := true } := by
  obtain ⟨happ, hflag, -⟩ := run_appended c appended_new new_closeConnectionDetected input
  refine ⟨?_, ?_, hflag, enqueueEvent_of_closed c, run_of_closed c⟩
  · obtain ⟨q', l1r, h1, -⟩ := drain_spec c happ.wf
    rw [happ.eventsOf_all, happ.inputEvents] at h1
    exact ⟨q', by simpa using h1⟩
  · intro calls c' q' hp e he
    by_cases herr : c.connection_error = 0
    · obtain ⟨q'', l1r, h1, -⟩ := processXcbEvents_spec c happ.wf happ.inputEvents herr
      rw [happ.eventsOf_all, hp] at h1
      have hc : calls = (processCalls c
          ((incoming input).takeWhile (fun e => !isCloseSentinel c e))).1 := by
        injection h1 with h1
        exact congrArg Prod.fst h1
      rw [hc, delivered_processCalls_uncompressed c _ c rfl rfl] at he
      exact mem_of_mem_uncompressed c _ e he
    · simp [XcbConnection.processXcbEvents, herr] at hp

theorem compressedBy_nil (c : XcbConnection) (e : xcb_generic_event_t) :
    compressedBy c e [] = false := by
  unfold compressedBy
  split_ifs <;> rfl

theorem windowEventListenerFromId_add (c : XcbConnection) (w : Nat) (l : Option Nat) :
    (c.addWindowEventListener w l).windowEventListenerFromId w = l := by
  simp [XcbConnection.windowEventListenerFromId, XcbConnection.addWindowEventListener,
    List.lookup]

/-- C8 (listener dispatch): with the listener `L` registered for the window id
`w` by `addWindowEventListener`, a drain cycle over a well-formed queue whose
only pending record is an Expose record `e` for the window `w` makes exactly
these calls: `handleXcbEvent(e)`, then `L.handleNativeEvent(e)`, then
`L.handleExposeEvent(e)`; so the expose handler of `L` runs exactly once, with
that record, and no handler of any other listener runs, provided neither the
native event filter nor `L.handleNativeEvent` consumes the record. -/
theorem C8_expose_reaches_listener (c : XcbConnection) (w L : Nat) (e : xcb_generic_event_t)
    (q : XcbEventQueue) (l1 l2 : List Nat) (hwf : WF q l1 l2) (hin : q.m_inputEvents = [])
    (hev : eventsOf q.mem (q.m_head :: (l1 ++ l2)) = [e])
    (hexp : responseType e = XCB_EXPOSE) (hw : e.window = w)
    (herr : c.connection_error = 0)
    (hfilter : ∀ f, c.filterNativeEvent = some f → f e = false)
    (hnative : c.handleNativeEvent L e = false) :
    ∃ calls c' q', (c.addWindowEventListener w (some L)).processXcbEvents q false =
        some (calls, c', q') ∧
      calls = [Call.handleXcbEvent e, Call.handleNativeEvent L e,
        Call.windowEvent L Handler.handleExposeEvent e] ∧
      windowEvents calls = [(L, Handler.handleExposeEvent, e)] := by
  obtain ⟨q', l1r, h1, -⟩ :=
    processXcbEvents_spec (c.addWindowEventListener w (some L)) hwf hin herr
  rw [hev] at h1
  have hne : responseType e ≠ 0 := by rw [hexp]; decide
  have hfilt : (match (c.addWindowEventListener w (some L)).filterNativeEvent with
      | some f => f e
      | none => false) = false := by
    show (match c.filterNativeEvent with
      | some f => f e
      | none => false) = false
    cases hf : c.filterNativeEvent with
    | none => rfl
    | some f => exact hfilter f hf
  have hcalls : (processCalls (c.addWindowEventListener w (some L)) [e]).1 =
      [Call.handleXcbEvent e, Call.handleNativeEvent L e,
        Call.windowEvent L Handler.handleExposeEvent e] := by
    have hh : ((c.addWindowEventListener w (some L)).handleXcbEvent e).1 =
        [Call.handleNativeEvent L e, Call.windowEvent L Handler.handleExposeEvent e] := by
      unfold XcbConnection.handleXcbEvent
      simp only [hfilt, Bool.false_eq_true, if_false, hexp, if_true,
        XcbConnection.handlePlatformWindowEvent, hw, windowEventListenerFromId_add]
      have : (c.addWindowEventListener w (some L)).handleNativeEvent L e = false := hnative
      simp [this]
    simp only [processCalls, hne, if_false, compressedBy_nil, Bool.false_eq_true, hh]
    rfl
  refine ⟨_, _, q', h1, hcalls, ?_⟩
  rw [hcalls]
  rfl

/-- Witness of C8: the listener 70 for the window 7 and one Expose record. -/
theorem C8_expose_reaches_listener_witness :
    ∃ calls c' q', (sampleConnection.addWindowEventListener 7 (some 70)).processXcbEvents
        (run sampleConnection XcbEventQueue.new [(Expose 7, [])]) false =
        some (calls, c', q') ∧
      calls = [Call.handleXcbEvent (Expose 7), Call.handleNativeEvent 70 (Expose 7),
        Call.windowEvent 70 Handler.handleExposeEvent (Expose 7)] ∧
      windowEvents calls = [(70, Handler.handleExposeEvent, Expose 7)] :=
  C8_expose_reaches_listener sampleConnection 7 70 (Expose 7)
    (run sampleConnection XcbEventQueue.new [(Expose 7, [])]) [] [1]
    ⟨rfl, ⟨rfl, rfl⟩, by decide, by decide⟩ rfl (by decide) rfl rfl rfl
    (fun f hf => by cases hf) rfl

theorem head?_dropWhile_false {α : Type} (p : α → Bool) :
    ∀ (l : List α) (a : α), (l.dropWhile p).head? = some a → p a = false := by
  intro l
  induction l with
  | nil => intro a h; simp at h
  | cons x l ih =>
    intro a h
    by_cases hx : p x = true
    · rw [List.dropWhile_cons_of_pos hx] at h
      exact ih a h
    · rw [List.dropWhile_cons_of_neg hx] at h
      simp at h
      rw [← h]
      simpa using hx

/-- C10 (user-input exclusion): on every well-formed queue state
`takeFirst(ExcludeUserInputEvents)` comes to an end and returns the first
visible record that `isUserInputEvent` does not classify as user input (null
if there is none), so never a user-input record; the user-input records it
passed over are appended to the side buffer in arrival order; and the
following `takeFirst` calls without the flag return the side-buffered records
first, in that order, before any record of the main list. -/
theorem C10_exclude_user_input (c : XcbConnection) (q : XcbEventQueue) (l1 l2 : List Nat)
    (hwf : WF q l1 l2) :
    ∃ q' l1r qd,
      q.takeFirstFlags c true =
        some (((eventsOf q.mem (q.m_head :: l1)).dropWhile c.isUserInputEvent).head?, q') ∧
      (∀ e, ((eventsOf q.mem (q.m_head :: l1)).dropWhile c.isUserInputEvent).head? = some e →
        c.isUserInputEvent e = false) ∧
      q'.m_inputEvents =
        q.m_inputEvents ++ (eventsOf q.mem (q.m_head :: l1)).takeWhile c.isUserInputEvent ∧
      WF q' l1r l2 ∧
      eventsOf q'.mem (q'.m_head :: l1r) =
        ((eventsOf q.mem (q.m_head :: l1)).dropWhile c.isUserInputEvent).tail ∧
      drain c q' = some (q'.m_inputEvents ++
        (((eventsOf q.mem (q.m_head :: l1)).dropWhile c.isUserInputEvent).tail ++
          eventsOf q.mem l2), qd) ∧
      ∀ (q0 : XcbEventQueue) (e : xcb_generic_event_t) (rest : List xcb_generic_event_t),
        XcbEventQueue.takeFirstFlags c false { q0 with m_inputEvents := e :: rest } =
          some (some e, { q0 with m_inputEvents := rest }) := by
  obtain ⟨q', l1r, h1, h2, h3, h4, h5, h6⟩ :=
    takeFirstExcludeLoop_spec c l2 _ q l1 q.fuel hwf rfl
      (by have := hwf.length_lt_fuel
          have := eventsOf_length_le q.mem (q.m_head :: l1)
          simp at this
          omega)
  obtain ⟨qd, l1d, g1, -⟩ := drain_spec c h2
  refine ⟨q', l1r, qd, by simpa [takeFirstFlags] using h1, head?_dropWhile_false _ _, h5, h2,
    h3, ?_, fun _ _ _ => rfl⟩
  rw [g1]
  have : eventsOf q'.mem (q'.m_head :: (l1r ++ l2)) =
      eventsOf q'.mem (q'.m_head :: l1r) ++ eventsOf q'.mem l2 := by
    rw [← List.cons_append, eventsOf_append]
  rw [this, h3, h4]

/-- Witness of C10: a queue that holds a window close request followed by an
Expose record. -/
theorem C10_exclude_user_input_witness :
    ∃ q' l1r qd,
      sampleQueue.takeFirstFlags sampleConnection true =
        some (((eventsOf sampleQueue.mem (sampleQueue.m_head :: [1, 2])).dropWhile
          sampleConnection.isUserInputEvent).head?, q') ∧
      (∀ e, ((eventsOf sampleQueue.mem (sampleQueue.m_head :: [1, 2])).dropWhile
          sampleConnection.isUserInputEvent).head? = some e →
        sampleConnection.isUserInputEvent e = false) ∧
      q'.m_inputEvents =
        sampleQueue.m_inputEvents ++
          (eventsOf sampleQueue.mem (sampleQueue.m_head :: [1, 2])).takeWhile
            sampleConnection.isUserInputEvent ∧
      WF q' l1r [] ∧
      eventsOf q'.mem (q'.m_head :: l1r) =
        ((eventsOf sampleQueue.mem (sampleQueue.m_head :: [1, 2])).dropWhile
          sampleConnection.isUserInputEvent).tail ∧
      drain sampleConnection q' = some (q'.m_inputEvents ++
        (((eventsOf sampleQueue.mem (sampleQueue.m_head :: [1, 2])).dropWhile
          sampleConnection.isUserInputEvent).tail ++ eventsOf sampleQueue.mem []), qd) ∧
      ∀ (q0 : XcbEventQueue) (e : xcb_generic_event_t) (rest : List xcb_generic_event_t),
        XcbEventQueue.takeFirstFlags sampleConnection false
            { q0 with m_inputEvents := e :: rest } =
          some (some e, { q0 with m_inputEvents := rest }) :=
  C10_exclude_user_input sampleConnection sampleQueue [1, 2] []
    ⟨⟨rfl, rfl, rfl⟩, rfl, by decide, by decide⟩

theorem factory_refill (q : XcbEventQueue) (ev : Option xcb_generic_event_t)
    (hfree : q.m_freeNodes = 0) :
    q.qMEventNodeFactory ev =
      ({ q with m_freeNodes := q.m_nodesRestored, m_nodesRestored := 0 } :
        XcbEventQueue).qMEventNodeFactory ev := by
  unfold qMEventNodeFactory
  simp only [hfree, if_true]
  by_cases h : q.m_nodesRestored = 0
  · simp [h]
  · simp [h]

theorem paired_new : Paired (XcbEventQueue.new.m_head, XcbEventQueue.new) 0 := by
  refine ⟨rfl, rfl, rfl, rfl, by decide, rfl, ?_, rfl, rfl, ?_, rfl⟩
  · simp [XcbEventQueue.new, qMEventNodeFactory, initial, setEvent, setNext, store, PoolSize,
      emptyNode]
  · intro a
    simp [XcbEventQueue.new, qMEventNodeFactory, initial, setEvent, setNext, store, PoolSize,
      emptyNode]

theorem takeFirst_two_nodes (q : XcbEventQueue) (t n : Nat) (e : xcb_generic_event_t)
    (hhead : q.m_head = t) (htail : q.m_tail = n) (hne : t ≠ n)
    (hev : (q.mem t).event = none) (hnext : (q.mem t).next = some n)
    (hfh : (q.mem t).fromHeap = false) (hen : (q.mem n).event = some e) :
    q.flushBufferedEvents.takeFirst = some (some e,
      { q with
        mem := fun b => if b = n then { q.mem n with event := none } else q.mem b
        m_head := n
        m_flushedTail := n
        m_nodesRestored := q.m_nodesRestored + 1
        m_queueModified := true
        m_peekerIndexCacheDirty := true }) := by
  have hfuel : q.flushBufferedEvents.fuel = (q.heapAllocated + 99) + 1 + 1 := by
    simp [fuel, flushBufferedEvents, PoolSize]
    omega
  have hemp : q.flushBufferedEvents.isEmpty = false := by
    simp [isEmpty, flushBufferedEvents, hhead, htail, hne]
  unfold takeFirst
  rw [hemp, hfuel]
  simp only [Bool.false_eq_true, if_false]
  have h1 : takeFirstLoop (q.heapAllocated + 99 + 1 + 1) q.flushBufferedEvents =
      takeFirstLoop (q.heapAllocated + 99 + 1)
        { q with m_head := n, m_flushedTail := n, m_nodesRestored := q.m_nodesRestored + 1 } := by
    rw [takeFirstLoop]
    simp [flushBufferedEvents, hhead, htail, hne, dequeueNode, hnext, hfh, hev, isEmpty, hen]
  rw [h1, takeFirstLoop]
  simp [hen, isEmpty, setEvent, store]

theorem enqueueEvent_paired (c : XcbConnection) {t : Nat} {q : XcbEventQueue}
    (hp : Paired (t, q) t) (e : xcb_generic_event_t) (hs : isCloseSentinel c e = false) :
    ∃ f r n, f ≠ 0 ∧ f + r = 99 ∧ n = (if t + 1 = PoolSize then 0 else t + 1) ∧
      enqueueEvent c (t, q) e = (n,
        { q with
          mem := fun b => if b = t then { q.mem t with next := some n }
            else if b = n then { event := some e, next := none, fromHeap := false }
            else q.mem b
          m_freeNodes := f - 1
          m_nodesRestored := r
          m_poolIndex := n + 1
          m_tail := n }) := by
  obtain ⟨-, hhead, hft, htail, hslot, hidx, hev, hfree, hheap, hfh, hflag⟩ := hp
  simp only at hhead hft htail hidx hev hfree hheap hfh hflag
  have hP : PoolSize = 100 := rfl
  have hclose := isCloseConnectionEvent_of_not_sentinel c q e hs
  rw [hflag] at hclose
  obtain ⟨f, r, hf0, hfr, hfac⟩ : ∃ f r, f ≠ 0 ∧ f + r = 99 ∧
      q.qMEventNodeFactory (some e) =
        ({ q with m_freeNodes := f, m_nodesRestored := r } :
          XcbEventQueue).qMEventNodeFactory (some e) := by
    by_cases h0 : q.m_freeNodes = 0
    · refine ⟨q.m_nodesRestored, 0, ?_, ?_, factory_refill q _ h0⟩
      · rw [hP] at hfree; omega
      · rw [hP] at hfree; omega
    · exact ⟨q.m_freeNodes, q.m_nodesRestored, h0, by rw [hP] at hfree; omega, rfl⟩
  refine ⟨f, r, _, hf0, hfr, rfl, ?_⟩
  by_cases hw : t + 1 = PoolSize
  · have hidx2 : ({ q with m_freeNodes := f, m_nodesRestored := r } :
        XcbEventQueue).m_poolIndex = PoolSize := by
      show q.m_poolIndex = PoolSize
      rw [hidx]; exact hw
    have ht0 : t ≠ 0 := by rw [hP] at hw; omega
    rw [factory_pool_wrap _ _ hf0 hidx2] at hfac
    simp only [enqueueEvent, hclose, hfac, Bool.not_false, if_true, if_pos hw]
    simp only [setNext, store, Prod.mk.injEq, true_and]
    congr 1
    funext b
    by_cases h1 : b = t
    · simp [h1, ht0]
    · by_cases h2 : b = 0
      · simp [h1, h2, hfh, Ne.symm ht0]
      · simp [h1, h2]
  · have hidx2 : ({ q with m_freeNodes := f, m_nodesRestored := r } :
        XcbEventQueue).m_poolIndex ≠ PoolSize := by
      show q.m_poolIndex ≠ PoolSize
      rw [hidx]; exact hw
    rw [factory_pool _ _ hf0 hidx2] at hfac
    simp only [enqueueEvent, hclose, hfac, Bool.not_false, if_true, if_neg hw]
    simp only [setNext, store, Prod.mk.injEq, hidx, true_and]
    congr 1
    funext b
    by_cases h1 : b = t
    · simp [h1]
    · by_cases h2 : b = t + 1
      · simp [h2, hfh]
      · simp [h1, h2]

theorem enqueueDequeue_paired (c : XcbConnection) {s : Nat × XcbEventQueue} {h : Nat}
    (hp : Paired s h) (e : xcb_generic_event_t) (hs : isCloseSentinel c e = false) :
    ∃ s', enqueueDequeue c s e = some ((false, some e), s') ∧
      Paired s' (if h + 1 = PoolSize then 0 else h + 1) := by
  obtain ⟨t, q⟩ := s
  have ht : t = h := hp.readerTail
  subst ht
  obtain ⟨f, r, n, hf0, hfr, hn, henq⟩ := enqueueEvent_paired c hp e hs
  obtain ⟨-, hhead, hft, htail, hslot, hidx, hev, hfree, hheap, hfh, hflag⟩ := hp
  simp only at hhead hft htail hidx hev hfree hheap hfh hflag
  have hP : PoolSize = 100 := rfl
  have hne : t ≠ n := by
    rw [hn]; split <;> omega
  have hnlt : n < PoolSize := by
    rw [hn]
    split_ifs with hw
    · decide
    · rw [hP] at hw hslot ⊢; omega
  rw [← hn]
  have htake := takeFirst_two_nodes (enqueueEvent c (t, q) e).2 t n e
    (by rw [henq]; exact hhead) (by rw [henq]) hne
    (by rw [henq]; simp [hev]) (by rw [henq]; simp) (by rw [henq]; simp [hfh])
    (by rw [henq]; simp [Ne.symm hne])
  refine ⟨(n, { q with
      mem := fun b => if b = n then { event := none, next := none, fromHeap := false }
        else if b = t then { q.mem t with next := some n }
        else q.mem b
      m_head := n
      m_flushedTail := n
      m_tail := n
      m_nodesRestored := r + 1
      m_freeNodes := f - 1
      m_poolIndex := n + 1
      m_queueModified := true
      m_peekerIndexCacheDirty := true }), ?_, ?_⟩
  · simp only [enqueueDequeue, htake]
    rw [henq]
    simp only [Option.some.injEq, Prod.mk.injEq, and_true, true_and]
    refine ⟨by simp [Ne.symm hne], ?_⟩
    congr 1
    funext b
    by_cases h1 : b = n
    · simp [h1, Ne.symm hne]
    · by_cases h2 : b = t
      · simp [h1, h2, hne]
      · simp [h1, h2]
  · refine ⟨rfl, rfl, rfl, rfl, hnlt, rfl, ?_, ?_, hheap, ?_, hflag⟩
    · simp
    · show f - 1 + (r + 1) = PoolSize - 1
      rw [hP]; omega
    · intro a
      by_cases h1 : a = n
      · simp [h1]
      · by_cases h2 : a = t
        · simp [h1, h2, hfh, hne]
        · simp [h1, h2, hfh]

theorem enqueueDequeuePairs_paired (c : XcbConnection) :
    ∀ (es : List xcb_generic_event_t) (s : Nat × XcbEventQueue) (h : Nat), Paired s h →
      (∀ e ∈ es, isCloseSentinel c e = false) →
      ∃ s' h', enqueueDequeuePairs c s es = some (es.map (fun e => (false, some e)), s') ∧
        Paired s' h' := by
  intro es
  induction es with
  | nil => intro s h hp _; exact ⟨s, h, rfl, hp⟩
  | cons e es ih =>
    intro s h hp hall
    obtain ⟨s1, h1, hp1⟩ := enqueueDequeue_paired c hp e (hall e (by simp))
    obtain ⟨s2, h2, g1, g2⟩ := ih s1 _ hp1 (fun x hx => hall x (by simp [hx]))
    exact ⟨s2, h2, by simp [enqueueDequeuePairs, h1, g1], g2⟩

theorem paired_debug {s : Nat × XcbEventQueue} {h : Nat} (hp : Paired s h) (b : Bool) :
    Paired (s.1, { s.2 with lcQpaEventReader_isDebugEnabled := b }) h :=
  ⟨hp.readerTail, hp.head, hp.flushedTail, hp.tail, hp.slot, hp.poolIndex, hp.event, hp.free,
    hp.heapAllocated, hp.fromHeap, hp.closeConnectionDetected⟩

/-- C3 (pool conservation): starting from a freshly constructed queue, with
debug output of `lcQpaEventReader` enabled or not, any number N of
enqueue/dequeue pairs, in particular every N up to PoolSize, in which the
reader appends one record and the consumer then flushes and takes it, causes
no heap allocation: every node that the node factory returns has
`fromHeap = false`, every take returns the record just appended, no node has
been allocated on the heap and `m_nodesOnHeap` is 0 afterwards. -/
theorem C3_pairs_stay_in_pool (c : XcbConnection) (es : List xcb_generic_event_t)
    (hclose : ∀ e ∈ es, isCloseSentinel c e = false) (debug : Bool) :
    ∃ s', enqueueDequeuePairs c
        ((XcbEventQueue.newDebug debug).m_head, XcbEventQueue.newDebug debug) es =
        some (es.map (fun e => (false, some e)), s') ∧
      s'.2.m_nodesOnHeap = 0 ∧ s'.2.heapAllocated = 0 ∧
      ∀ a, (s'.2.mem a).fromHeap = false := by
  obtain ⟨s', h', h1, h2⟩ :=
    enqueueDequeuePairs_paired c es
      ((XcbEventQueue.newDebug debug).m_head, XcbEventQueue.newDebug debug) 0
      (paired_debug paired_new debug) hclose
  have hJ := enqueueDequeuePairs_nodesOnHeap c es _ _ h1 (newDebug_nodesOnHeap debug)
  refine ⟨s', h1, ?_, h2.heapAllocated, h2.fromHeap⟩
  unfold NodesOnHeapInv at hJ
  have h0 : s'.2.heapAllocated = 0 := h2.heapAllocated
  rw [hJ, h0]
  simp

/-- Witness of C3: three pairs, with debug output enabled. -/
theorem C3_pairs_stay_in_pool_witness :
    ∃ s', enqueueDequeuePairs sampleConnection
        ((XcbEventQueue.newDebug true).m_head, XcbEventQueue.newDebug true)
        [Expose 7, Motion 7, DeleteWindow 7] =
        some ([Expose 7, Motion 7, DeleteWindow 7].map (fun e => (false, some e)), s') ∧
      s'.2.m_nodesOnHeap = 0 ∧ s'.2.heapAllocated = 0 ∧
      ∀ a, (s'.2.mem a).fromHeap = false :=
  C3_pairs_stay_in_pool sampleConnection [Expose 7, Motion 7, DeleteWindow 7] (by decide) true

theorem eventsOf_eq_nil_of_append {m : Nat → XcbEventNode} {l lb : List Nat} (la : List Nat)
    (h : eventsOf m l = []) (hl : l = la ++ lb) : eventsOf m lb = [] := by
  rw [hl, eventsOf_append] at h
  exact (List.append_eq_nil.1 h).2

/-- C9 (two peekers): on a well-formed queue whose only pending record is a
PropertyNotify record `e`, two distinct registered peekers A and B whose
cursors are unset and that scan for PropertyNotify records with
`peekEventQueue` both report a match, whatever option each passes; a
`peek(PeekRemoveMatch, ...)` for PropertyNotify then returns `e`; and a
subsequent `peekEventQueue` by B reports no match, with `PeekFromCachedIndex`
as well as without it. -/
theorem C9_removed_record_is_gone (q : XcbEventQueue) (l1 l2 : List Nat) (hwf : WF q l1 l2)
    (e : xcb_generic_event_t) (hev : eventsOf q.mem (q.m_head :: (l1 ++ l2)) = [e])
    (hprop : responseType e = XCB_PROPERTY_NOTIFY) (A B : Int) (hA : A ≠ -1) (hB : B ≠ -1)
    (hAB : A ≠ B) (hregA : q.m_peekerToNode.lookup A = some none)
    (hregB : q.m_peekerToNode.lookup B = some none) (optionA optionB option : Nat) :
    ∃ qa qb qc qd,
      q.peekEventQueue (purePeeker isPropertyNotify) optionA A = some (true, qa) ∧
      qa.peekEventQueue (purePeeker isPropertyNotify) optionB B = some (true, qb) ∧
      qb.peek PeekOption.PeekRemoveMatch (fun _ type => type == XCB_PROPERTY_NOTIFY) =
        some (some e, qc) ∧
      qc.peekEventQueue (purePeeker isPropertyNotify) option B = some (false, qd) := by
  have hpe : isPropertyNotify e = true := by simp [isPropertyNotify, hprop]
  -- the peek of A
  obtain ⟨qa, ha, am, ah, aft, at_, aheap, ain, adirty, alk, -⟩ :=
    peekEventQueue_id_head hwf isPropertyNotify optionA A hA none hregA (Or.inr (Or.inr rfl))
  rw [hev] at ha
  have hwfa : WF qa (l1 ++ l2) [] :=
    ⟨by rw [am, ah, aft]; exact Seg.append hwf.vis hwf.pend, by rw [aft, at_]; rfl,
      by rw [ah]; simpa using hwf.nodup, by rw [ah, aheap]; simpa using hwf.bound⟩
  have hregB' : qa.m_peekerToNode.lookup B = some none := by
    rw [alk B (fun h => hAB h.symm), hregB]
    simp
  have heva : eventsOf qa.mem (qa.m_head :: (l1 ++ l2 ++ [])) = [e] := by
    rw [am, ah]; simpa using hev
  -- the peek of B
  obtain ⟨qb, hb, bm, bh, bft, bt, bheap, bin, bdirty, blk, bcur⟩ :=
    peekEventQueue_id_head hwfa isPropertyNotify optionB B hB none hregB' (Or.inr (Or.inr rfl))
  rw [heva] at hb
  have hwfb : WF qb (l1 ++ l2) [] :=
    ⟨by rw [bm, bh, bft]; simpa using Seg.append hwfa.vis hwfa.pend, by rw [bft, bt]; rfl,
      by rw [bh]; simpa using hwfa.nodup, by rw [bh, bheap]; simpa using hwfa.bound⟩
  have hevb : eventsOf qb.mem (qb.m_head :: (l1 ++ l2 ++ [])) = [e] := by
    rw [bm, bh]; exact heva
  -- the removing peek
  obtain ⟨qc, hc, hqc, hevc⟩ :=
    peek_remove_spec hwfb (fun _ type => type == XCB_PROPERTY_NOTIFY)
  rw [hevb] at hc hevc
  have hfind : List.find? (fun e => (fun (_ : xcb_generic_event_t) type =>
      type == XCB_PROPERTY_NOTIFY) e (responseType e)) [e] = some e := by
    simp [hprop]
  have herase : List.eraseP (fun e => (fun (_ : xcb_generic_event_t) type =>
      type == XCB_PROPERTY_NOTIFY) e (responseType e)) [e] = [] := by
    simp [hprop]
  rw [hfind] at hc
  rw [herase] at hevc
  have hsl : SameLinks qb.flushBufferedEvents qc ∧ qc.m_head = qb.m_head ∧
      qc.m_peekerIndexCacheDirty = false := by
    rcases hqc with rfl | ⟨n, -, rfl⟩
    · exact ⟨SameLinks.refl _, rfl, bdirty⟩
    · exact ⟨sameLinks_setEvent _ _ _, rfl, bdirty⟩
  obtain ⟨hsl, ch, cdirty⟩ := hsl
  have hwfc : WF qc (l1 ++ l2) [] := by
    have hfb := hwfb.flush
    simp only [List.append_nil] at hfb
    exact ⟨by rw [ch, hsl.flushedTail]; exact Seg.congr hsl.next hfb.vis,
      by rw [hsl.flushedTail, hsl.tail]; rfl, by rw [ch]; exact hfb.nodup,
      by rw [ch, hsl.heapAllocated]; exact hfb.bound⟩
  have hevc' : eventsOf qc.mem (qc.m_head :: (l1 ++ l2 ++ [])) = [] := by
    rw [ch]; exact hevc
  have hlkc : qc.m_peekerToNode.lookup B = qb.m_peekerToNode.lookup B := by
    rw [hsl.peekerToNode]; rfl
  -- the last peek of B
  have hcurB : qb.m_peekerToNode.lookup B = some none ∨
      qb.m_peekerToNode.lookup B =
        some (some (scanStop qa.mem isPropertyNotify qa.m_head (l1 ++ l2 ++ []))) := by
    rcases bcur with h | h
    · left; rw [h]; simp
    · right; exact h
  have hlast : ∃ qd, qc.peekEventQueue (purePeeker isPropertyNotify) option B =
      some (false, qd) := by
    by_cases hopt : testFlag option PeekOption.PeekFromCachedIndex = true
    · rcases hcurB with h | h
      · obtain ⟨qd, hd, -⟩ := peekEventQueue_id_head hwfc isPropertyNotify option B hB none
          (hlkc.trans h) (Or.inr (Or.inr rfl))
        rw [hevc'] at hd
        exact ⟨qd, hd⟩
      · have hmem := scanStop_mem qa.mem isPropertyNotify (l1 ++ l2 ++ []) qa.m_head
        obtain ⟨la, lb, hsplit⟩ := List.append_of_mem hmem
        have hsplit' : qc.m_head :: (l1 ++ l2 ++ []) = la ++
            scanStop qa.mem isPropertyNotify qa.m_head (l1 ++ l2 ++ []) :: lb := by
          rw [ch, bh]; exact hsplit
        obtain ⟨qd, hd, -⟩ := peekEventQueue_id_cached hwfc isPropertyNotify option B hB hopt _
          (hlkc.trans h) cdirty la lb hsplit'
        have hnil : eventsOf qc.mem lb = [] :=
          eventsOf_eq_nil_of_append
            (la ++ [scanStop qa.mem isPropertyNotify qa.m_head (l1 ++ l2 ++ [])]) hevc'
            (by rw [hsplit']; simp)
        rw [hnil] at hd
        exact ⟨qd, hd⟩
    · have hopt' : testFlag option PeekOption.PeekFromCachedIndex = false := by
        simpa using hopt
      have hsome : ∃ cur, qc.m_peekerToNode.lookup B = some cur := by
        rcases hcurB with h | h
        · exact ⟨_, hlkc.trans h⟩
        · exact ⟨_, hlkc.trans h⟩
      obtain ⟨cur, hcur⟩ := hsome
      obtain ⟨qd, hd, -⟩ := peekEventQueue_id_head hwfc isPropertyNotify option B hB cur hcur
        (Or.inl hopt')
      rw [hevc'] at hd
      exact ⟨qd, hd⟩
  obtain ⟨qd, hd⟩ := hlast
  refine ⟨qa, qb, qc, qd, ?_, ?_, hc, hd⟩
  · simpa [hpe] using ha
  · simpa [hpe] using hb

/-- Witness of C9: the peekers 0 and 1 on a queue that holds one PropertyNotify
record; the first peeker scans without its cursor, the second with it. -/
theorem C9_removed_record_is_gone_witness :
    ∃ qa qb qc qd,
      twoPeekerQueue.peekEventQueue (purePeeker isPropertyNotify) 0 0 = some (true, qa) ∧
      qa.peekEventQueue (purePeeker isPropertyNotify) 1 1 = some (true, qb) ∧
      qb.peek PeekOption.PeekRemoveMatch (fun _ type => type == XCB_PROPERTY_NOTIFY) =
        some (some (PropertyNotify 7), qc) ∧
      qc.peekEventQueue (purePeeker isPropertyNotify) 1 1 = some (false, qd) :=
  C9_removed_record_is_gone twoPeekerQueue [] [1] ⟨rfl, ⟨rfl, rfl⟩, by decide, by decide⟩
    (PropertyNotify 7) (by decide) (by decide) 0 1 (by decide) (by decide) (by decide)
    (by decide) (by decide) 0 1 1

/-- C11 (remove and continue): on every well-formed queue state and for every
predicate `p`, `peek(PeekRemoveMatchContinue, p)` comes to an end and returns
null; every node of the list loses its record exactly when the record
satisfies `p`, every other node and every link is untouched, so the pending
records afterwards are the previous ones that do not satisfy `p`, in their
original order, and a subsequent drain returns exactly those after the side
buffer. -/
theorem C11_remove_continue (c : XcbConnection) (q : XcbEventQueue) (l1 l2 : List Nat)
    (hwf : WF q l1 l2) (p : xcb_generic_event_t → Nat → Bool) :
    ∃ q' qd, q.peek PeekOption.PeekRemoveMatchContinue p = some (none, q') ∧
      (∀ a ∈ q.m_head :: (l1 ++ l2),
        (q'.mem a).event = (q.mem a).event.filter (fun e => !p e (responseType e))) ∧
      (∀ a, a ∉ q.m_head :: (l1 ++ l2) → q'.mem a = q.mem a) ∧
      (∀ a, (q'.mem a).next = (q.mem a).next) ∧
      q'.m_head = q.m_head ∧
      eventsOf q'.mem (q'.m_head :: (l1 ++ l2)) =
        (eventsOf q.mem (q.m_head :: (l1 ++ l2))).filter (fun e => !p e (responseType e)) ∧
      drain c q' = some (q.m_inputEvents ++
        (eventsOf q.mem (q.m_head :: (l1 ++ l2))).filter (fun e => !p e (responseType e)),
        qd) := by
  obtain ⟨q', h1, h2, h3, h4, h5, h6⟩ := peek_removeContinue_spec hwf p
  have hh : q'.m_head = q.m_head := h2 ▸ rfl
  have hi : q'.m_inputEvents = q.m_inputEvents := h2 ▸ rfl
  have he : eventsOf q'.mem (q'.m_head :: (l1 ++ l2)) =
      (eventsOf q.mem (q.m_head :: (l1 ++ l2))).filter (fun e => !p e (responseType e)) := by
    rw [hh]
    exact eventsOf_filter_of_nodes q.mem q'.mem _ _ h5
  obtain ⟨qd, l1r, hd, -⟩ := drain_spec c h6
  refine ⟨q', qd, h1, h5, h4, fun a => (h3 a).1, hh, he, ?_⟩
  rw [hd, hi]
  simp only [List.append_nil]
  rw [he]

/-- Witness of C11: the predicate of `handleExposeEvent` for the window 7 on a
queue that holds two Expose records for that window among two other records. -/
theorem C11_remove_continue_witness :
    ∃ q' qd, exposeQueue.peek PeekOption.PeekRemoveMatchContinue (exposePeeker 7) =
        some (none, q') ∧
      (∀ a ∈ exposeQueue.m_head :: ([] ++ [1, 2, 3, 4]),
        (q'.mem a).event = (exposeQueue.mem a).event.filter
          (fun e => !exposePeeker 7 e (responseType e))) ∧
      (∀ a, a ∉ exposeQueue.m_head :: ([] ++ [1, 2, 3, 4]) → q'.mem a = exposeQueue.mem a) ∧
      (∀ a, (q'.mem a).next = (exposeQueue.mem a).next) ∧
      q'.m_head = exposeQueue.m_head ∧
      eventsOf q'.mem (q'.m_head :: ([] ++ [1, 2, 3, 4])) =
        (eventsOf exposeQueue.mem (exposeQueue.m_head :: ([] ++ [1, 2, 3, 4]))).filter
          (fun e => !exposePeeker 7 e (responseType e)) ∧
      drain sampleConnection q' = some (exposeQueue.m_inputEvents ++
        (eventsOf exposeQueue.mem (exposeQueue.m_head :: ([] ++ [1, 2, 3, 4]))).filter
          (fun e => !exposePeeker 7 e (responseType e)), qd) :=
  C11_remove_continue sampleConnection exposeQueue [] [1, 2, 3, 4]
    ⟨rfl, ⟨rfl, rfl, rfl, rfl, rfl⟩, by decide, by decide⟩ (exposePeeker 7)

/-- C12 (remove the first match): on every well-formed queue state and for every
predicate `p`, `peek(PeekRemoveMatch, p)`, which is what the overload
`peek(p)` calls, comes to an end and returns the oldest pending record that
satisfies `p`, or null when there is none; the links of the list are
untouched, and the pending records afterwards are the previous ones with the
first record that satisfies `p` erased, all others in their original order,
which is what a subsequent drain returns after the side buffer. -/
theorem C12_remove_first_match (c : XcbConnection) (q : XcbEventQueue) (l1 l2 : List Nat)
    (hwf : WF q l1 l2) (p : xcb_generic_event_t → Nat → Bool) :
    ∃ q' qd, q.peekDefault p = q.peek PeekOption.PeekRemoveMatch p ∧
      q.peek PeekOption.PeekRemoveMatch p =
        some ((eventsOf q.mem (q.m_head :: (l1 ++ l2))).find?
          (fun e => p e (responseType e)), q') ∧
      (∀ a, (q'.mem a).next = (q.mem a).next) ∧
      q'.m_head = q.m_head ∧
      eventsOf q'.mem (q'.m_head :: (l1 ++ l2)) =
        (eventsOf q.mem (q.m_head :: (l1 ++ l2))).eraseP (fun e => p e (responseType e)) ∧
      drain c q' = some (q.m_inputEvents ++
        (eventsOf q.mem (q.m_head :: (l1 ++ l2))).eraseP (fun e => p e (responseType e)),
        qd) := by
  obtain ⟨q', h1, h2, h3⟩ := peek_remove_spec hwf p
  have hq : q' = { q.flushBufferedEvents with mem := q'.mem } ∧
      ∀ a, (q'.mem a).next = (q.mem a).next := by
    rcases h2 with rfl | ⟨n, -, rfl⟩
    · exact ⟨rfl, fun _ => rfl⟩
    · exact ⟨rfl, (sameLinks_setEvent q.flushBufferedEvents n none).next⟩
  have hh : q'.m_head = q.m_head := hq.1 ▸ rfl
  have hi : q'.m_inputEvents = q.m_inputEvents := hq.1 ▸ rfl
  have hwf' : WF q' (l1 ++ l2) [] := hwf.flush.of_mem hq.1 hq.2
  obtain ⟨qd, l1r, hd, -⟩ := drain_spec c hwf'
  refine ⟨q', qd, rfl, h1, hq.2, hh, by rw [hh]; exact h3, ?_⟩
  rw [hd, hi]
  simp only [List.append_nil]
  rw [hh, h3]

/-- Witness of C12: the first Expose record for the window 7 is taken out of a
queue that holds two of them among two other records. -/
theorem C12_remove_first_match_witness :
    ∃ q' qd, exposeQueue.peekDefault (exposePeeker 7) =
        exposeQueue.peek PeekOption.PeekRemoveMatch (exposePeeker 7) ∧
      exposeQueue.peek PeekOption.PeekRemoveMatch (exposePeeker 7) =
        some ((eventsOf exposeQueue.mem (exposeQueue.m_head :: ([] ++ [1, 2, 3, 4]))).find?
          (fun e => exposePeeker 7 e (responseType e)), q') ∧
      (∀ a, (q'.mem a).next = (exposeQueue.mem a).next) ∧
      q'.m_head = exposeQueue.m_head ∧
      eventsOf q'.mem (q'.m_head :: ([] ++ [1, 2, 3, 4])) =
        (eventsOf exposeQueue.mem (exposeQueue.m_head :: ([] ++ [1, 2, 3, 4]))).eraseP
          (fun e => exposePeeker 7 e (responseType e)) ∧
      drain sampleConnection q' = some (exposeQueue.m_inputEvents ++
        (eventsOf exposeQueue.mem (exposeQueue.m_head :: ([] ++ [1, 2, 3, 4]))).eraseP
          (fun e => exposePeeker 7 e (responseType e)), qd) :=
  C12_remove_first_match sampleConnection exposeQueue [] [1, 2, 3, 4]
    ⟨rfl, ⟨rfl, rfl, rfl, rfl, rfl⟩, by decide, by decide⟩ (exposePeeker 7)

/-- C13 (peeker ids): after every sequence of `generatePeekerId` and
`removePeekerId` calls on a fresh queue, the id that `generatePeekerId`
returns next is not among the registered ids, is not negative and is at most
the number of calls made, and is registered afterwards; and whenever
`removePeekerId` succeeds and leaves no id registered, the next
`generatePeekerId` returns 0. -/
theorem C13_fresh_peeker_id (calls : List PeekerCall) :
    (peekerCalls XcbEventQueue.new calls).generatePeekerId.1 ∉
        registeredIds (peekerCalls XcbEventQueue.new calls) ∧
      0 ≤ (peekerCalls XcbEventQueue.new calls).generatePeekerId.1 ∧
      (peekerCalls XcbEventQueue.new calls).generatePeekerId.1 ≤ (calls.length : Int) ∧
      (peekerCalls XcbEventQueue.new calls).generatePeekerId.1 ∈
        registeredIds (peekerCalls XcbEventQueue.new calls).generatePeekerId.2 ∧
      ∀ peekerId,
        ((peekerCalls XcbEventQueue.new calls).removePeekerId peekerId).1 = true →
        registeredIds ((peekerCalls XcbEventQueue.new calls).removePeekerId peekerId).2 = [] →
        ((peekerCalls XcbEventQueue.new calls).removePeekerId peekerId).2.generatePeekerId.1
          = 0 := by
  obtain ⟨h0, h1, h2⟩ := peekerCalls_inv calls XcbEventQueue.new 0 (le_refl _) (le_refl _)
    (fun p hp => absurd hp (List.not_mem_nil _))
  refine ⟨?_, h0, by simpa using h1, ?_, ?_⟩
  · intro hmem
    obtain ⟨p, hp, he⟩ := List.mem_map.1 hmem
    have := (h2 p hp).2
    simp only [generatePeekerId] at he
    omega
  · simp [registeredIds, generatePeekerId]
  · intro id hr hnil
    generalize peekerCalls XcbEventQueue.new calls = q at hr hnil ⊢
    simp only [removePeekerId] at hr hnil ⊢
    cases hl : q.m_peekerToNode.lookup id with
    | none => simp [hl] at hr
    | some v =>
      simp only [hl] at hnil ⊢
      by_cases he : (q.m_peekerToNode.filter (fun p => p.1 != id)).isEmpty = true
      · simp [he, generatePeekerId]
      · exfalso
        simp only [he, registeredIds] at hnil
        apply he
        simpa [List.isEmpty_iff] using hnil

/-- Witness of C13: ids 0 and 1 are generated and then removed, and the next
id generated is 0 again. -/
theorem C13_fresh_peeker_id_witness :
    ((peekerCalls XcbEventQueue.new [PeekerCall.generatePeekerId, PeekerCall.generatePeekerId,
      PeekerCall.removePeekerId 0]).removePeekerId 1).2.generatePeekerId.1 = 0 :=
  (C13_fresh_peeker_id [PeekerCall.generatePeekerId, PeekerCall.generatePeekerId,
    PeekerCall.removePeekerId 0]).2.2.2.2 1 (by decide) (by decide)

/-- C14 (error routing): on every well-formed queue state and healthy
connection a drain cycle comes to an end, with or without the flag
`ExcludeUserInputEvents`.  Without the flag the records it hands to
`handleXcbError` are exactly the records of the side buffer and of the list
whose response type is zero once the 0x80 bit is masked off, each once and in
order; with the flag they are exactly such records of the list that
`isUserInputEvent` does not divert to the side buffer; so none of them is
coalesced away.  In either cycle a call carries a record with a zero response
type if and only if it is the call of `handleXcbError`, so such a record never
reaches `handleXcbEvent` or a listener and no other record reaches the error
handler. -/
theorem C14_errors_routed (c : XcbConnection) (q : XcbEventQueue) (l1 l2 : List Nat)
    (hwf : WF q l1 l2) (herr : c.connection_error = 0) :
    (∃ calls c' q', c.processXcbEvents q false = some (calls, c', q') ∧
      errorCalls calls =
        (q.m_inputEvents ++ eventsOf q.mem (q.m_head :: (l1 ++ l2))).filter
          (fun e => responseType e == 0)) ∧
      (∃ calls c' q', c.processXcbEvents q true = some (calls, c', q') ∧
        errorCalls calls =
          (eventsOf q.mem (q.m_head :: (l1 ++ l2))).filter
            (fun e => !c.isUserInputEvent e && responseType e == 0)) ∧
      ∀ excludeUserInputEvents r, c.processXcbEvents q excludeUserInputEvents = some r →
        ∀ call ∈ r.1, isErrorCall call = (responseType (callEvent call) == 0) := by
  have hf := hwf.flush
  have hlen := eventsOf_length_le q.flushBufferedEvents.mem
    (q.flushBufferedEvents.m_head :: (l1 ++ l2))
  refine ⟨?_, ?_, ?_⟩
  · obtain ⟨q', l1r, g1, -⟩ :=
      processLoop_buffered q.m_inputEvents q.flushBufferedEvents (l1 ++ l2)
        (q.flushBufferedEvents.fuel + q.flushBufferedEvents.m_inputEvents.length) [] c hf rfl rfl
        (by have := hf.length_lt_fuel
            have e : q.flushBufferedEvents.m_inputEvents = q.m_inputEvents := rfl
            rw [e]
            simp at this hlen ⊢
            omega)
    simp only [XcbConnection.processXcbEvents, herr, ne_eq, not_true_eq_false, if_false]
    rw [g1]
    refine ⟨_, _, _, rfl, ?_⟩
    rw [errorCalls_append, errorCalls_append, errorCalls_processBuffered,
      errorCalls_processCalls, List.filter_append]
    rfl
  · obtain ⟨q', l1r, g1, -⟩ :=
      processLoop_excluding _ _ q.flushBufferedEvents (l1 ++ l2)
        (q.flushBufferedEvents.fuel + q.flushBufferedEvents.m_inputEvents.length) [] c
        (le_refl _) hf rfl rfl
        (by have := hf.length_lt_fuel
            simp at this hlen ⊢
            omega)
    simp only [XcbConnection.processXcbEvents, herr, ne_eq, not_true_eq_false, if_false]
    rw [g1]
    refine ⟨_, _, _, rfl, ?_⟩
    rw [errorCalls_append, errorCalls_processCallsExcluding]
    rfl
  · intro excl r h
    simp only [XcbConnection.processXcbEvents, herr, ne_eq, not_true_eq_false, if_false] at h
    exact processLoop_routing excl _ [] c _ r h (fun call hc => absurd hc (List.not_mem_nil _))

/-- Witness of C14: a drain cycle over a queue that holds two error records
among two other records. -/
theorem C14_errors_routed_witness :
    (∃ calls c' q', sampleConnection.processXcbEvents errorQueue false = some (calls, c', q') ∧
      errorCalls calls =
        (errorQueue.m_inputEvents ++
          eventsOf errorQueue.mem (errorQueue.m_head :: ([] ++ [1, 2, 3, 4]))).filter
          (fun e => responseType e == 0)) ∧
      (∃ calls c' q', sampleConnection.processXcbEvents errorQueue true = some (calls, c', q') ∧
        errorCalls calls =
          (eventsOf errorQueue.mem (errorQueue.m_head :: ([] ++ [1, 2, 3, 4]))).filter
            (fun e => !sampleConnection.isUserInputEvent e && responseType e == 0)) ∧
      ∀ excludeUserInputEvents r,
        sampleConnection.processXcbEvents errorQueue excludeUserInputEvents = some r →
        ∀ call ∈ r.1, isErrorCall call = (responseType (callEvent call) == 0) :=
  C14_errors_routed sampleConnection errorQueue [] [1, 2, 3, 4]
    ⟨rfl, ⟨rfl, rfl, rfl, rfl, rfl⟩, by decide, by decide⟩ rfl

/-- C15 (wraparound comparison): for 32-bit timestamps `a` and `b` with
`a = b + d` modulo `2 ^ 32` and `0 < d < 2 ^ 31`, where `a` is different from
`XCB_CURRENT_TIME` (for `b` this is not needed), `timeGreaterThan a b` is true
and `timeGreaterThan b a` is false; so `setTime a` replaces a stored `b`,
`setTime b` leaves a stored `a` in place, and likewise for
`setNetWmUserTime`. -/
theorem C15_time_wraparound (c : XcbConnection) (a b d : Nat) (hb : b < 2 ^ 32)
    (ha0 : a ≠ XCB_CURRENT_TIME) (hd0 : 0 < d) (hd : d < 2 ^ 31)
    (hab : a = (b + d) % 2 ^ 32) :
    timeGreaterThan a b = true ∧ timeGreaterThan b a = false ∧
      (({ c with m_time := b } : XcbConnection).setTime a).m_time = a ∧
      (({ c with m_time := a } : XcbConnection).setTime b).m_time = a ∧
      (({ c with m_netWmUserTime := b } : XcbConnection).setNetWmUserTime a).m_netWmUserTime
        = a ∧
      (({ c with m_netWmUserTime := a } : XcbConnection).setNetWmUserTime b).m_netWmUserTime
        = a := by
  have h1 := timeGreaterThan_of_ahead a b d hb hd0 hd hab
  have h2 := timeGreaterThan_of_behind a b d hb ha0 hd0 hd hab
  refine ⟨h1, h2, ?_, ?_, ?_, ?_⟩
  · simp [setTime, h1]
  · simp [setTime, h2]
  · simp [setNetWmUserTime, h1]
  · simp [setNetWmUserTime, h2]

/-- Witness of C15: a timestamp shortly before the 32-bit wraparound and one
shortly after it. -/
theorem C15_time_wraparound_witness :
    timeGreaterThan 704 4294967000 = true ∧ timeGreaterThan 4294967000 704 = false ∧
      (({ sampleConnection with m_time := 4294967000 } : XcbConnection).setTime 704).m_time
        = 704 ∧
      (({ sampleConnection with m_time := 704 } : XcbConnection).setTime 4294967000).m_time
        = 704 ∧
      (({ sampleConnection with m_netWmUserTime := 4294967000 } :
        XcbConnection).setNetWmUserTime 704).m_netWmUserTime = 704 ∧
      (({ sampleConnection with m_netWmUserTime := 704 } :
        XcbConnection).setNetWmUserTime 4294967000).m_netWmUserTime = 704 :=
  C15_time_wraparound sampleConnection 704 4294967000 1000 (by decide) (by decide) (by decide)
    (by decide) (by decide)

/-- C16, the claim as stated fails: the stored time `2 ^ 31 + 1` is different
from `XCB_CURRENT_TIME`, yet `timeGreaterThan XCB_CURRENT_TIME (2 ^ 31 + 1)` is
true and `setTime XCB_CURRENT_TIME` replaces it. -/
theorem C16_counterexample :
    (2147483649 : Nat) ≠ XCB_CURRENT_TIME ∧
      timeGreaterThan XCB_CURRENT_TIME 2147483649 = true ∧
      (({ sampleConnection with m_time := 2147483649 } : XcbConnection).setTime
        XCB_CURRENT_TIME).m_time = XCB_CURRENT_TIME := by
  decide

/-- C16 as amended: `timeGreaterThan t XCB_CURRENT_TIME` is true for every
timestamp `t`; for a stored 32-bit time `m` different from `XCB_CURRENT_TIME`,
`timeGreaterThan XCB_CURRENT_TIME m` is false exactly when `m ≤ 2 ^ 31`, and
`setTime XCB_CURRENT_TIME` leaves `m` in place exactly when `m ≤ 2 ^ 31`. -/
theorem C16_current_time_inferior (c : XcbConnection) (m : Nat)
    (hm0 : m ≠ XCB_CURRENT_TIME) (hm : m < 2 ^ 32) :
    (∀ t, timeGreaterThan t XCB_CURRENT_TIME = true) ∧
      (timeGreaterThan XCB_CURRENT_TIME m = false ↔ m ≤ 2 ^ 31) ∧
      ((({ c with m_time := m } : XcbConnection).setTime XCB_CURRENT_TIME).m_time = m ↔
        m ≤ 2 ^ 31) := by
  have hiff : timeGreaterThan XCB_CURRENT_TIME m = false ↔ m ≤ 2 ^ 31 := by
    rw [← Bool.not_eq_true, timeGreaterThan_iff]
    simp only [XCB_CURRENT_TIME] at hm0 ⊢
    norm_num at hm ⊢
    omega
  refine ⟨fun t => by simp [timeGreaterThan], hiff, ?_⟩
  by_cases h : timeGreaterThan XCB_CURRENT_TIME m = true
  · have hn : ¬ m ≤ 2 ^ 31 := fun hle => by
      rw [hiff.2 hle] at h
      exact Bool.false_ne_true h
    simp only [setTime, h, if_true, hn, iff_false]
    exact fun e => hm0 e.symm
  · have hf : timeGreaterThan XCB_CURRENT_TIME m = false := by simpa using h
    simp only [setTime, hf]
    exact ⟨fun _ => hiff.1 hf, fun _ => rfl⟩

/-- Witness of C16 as amended: the stored time `2 ^ 31`. -/
theorem C16_current_time_inferior_witness :
    (∀ t, timeGreaterThan t XCB_CURRENT_TIME = true) ∧
      (timeGreaterThan XCB_CURRENT_TIME 2147483648 = false ↔ 2147483648 ≤ 2 ^ 31) ∧
      ((({ sampleConnection with m_time := 2147483648 } : XcbConnection).setTime
        XCB_CURRENT_TIME).m_time = 2147483648 ↔ 2147483648 ≤ 2 ^ 31) :=
  C16_current_time_inferior sampleConnection 2147483648 (by decide) (by decide)

/-- C17 (ConfigureNotify coalescing): on every well-formed queue state and for
every ConfigureNotify record `e`, `compressEvent(e)` comes to an end and
returns true exactly when event compression is enabled and some pending
record is a ConfigureNotify whose event window equals that of `e`, so pending
ConfigureNotify records for other windows never cause `e` to be dropped; the
pending records stay in the queue, the state changes by the flush of `peek`
at most. -/
theorem C17_configure_compression (c : XcbConnection) (q : XcbEventQueue) (l1 l2 : List Nat)
    (hwf : WF q l1 l2) (e : xcb_generic_event_t)
    (hconf : responseType e = XCB_CONFIGURE_NOTIFY) :
    ∃ b q', c.compressEvent q e = some (b, q') ∧
      (b = true ↔ c.compressHighFrequencyEvents = true ∧
        ∃ n ∈ eventsOf q.mem (q.m_head :: (l1 ++ l2)),
          responseType n = XCB_CONFIGURE_NOTIFY ∧ n.event = e.event) ∧
      (q' = q ∨ q' = q.flushBufferedEvents) ∧
      eventsOf q'.mem (q'.m_head :: (l1 ++ l2)) = eventsOf q.mem (q.m_head :: (l1 ++ l2)) := by
  obtain ⟨q', h1, h2⟩ := compressEvent_gen c hwf e
  refine ⟨_, q', h1, compressedBy_configure c e _ hconf, h2, ?_⟩
  rcases h2 with rfl | rfl <;> rfl

/-- Witness of C17: a ConfigureNotify record for the window 7 while a
ConfigureNotify record for the window 8 and one for the window 7 are
pending. -/
theorem C17_configure_compression_witness :
    ∃ b q', sampleConnection.compressEvent configureQueue (Configure 7 10 10) = some (b, q') ∧
      (b = true ↔ sampleConnection.compressHighFrequencyEvents = true ∧
        ∃ n ∈ eventsOf configureQueue.mem (configureQueue.m_head :: ([] ++ [1, 2, 3])),
          responseType n = XCB_CONFIGURE_NOTIFY ∧ n.event = (Configure 7 10 10).event) ∧
      (q' = configureQueue ∨ q' = configureQueue.flushBufferedEvents) ∧
      eventsOf q'.mem (q'.m_head :: ([] ++ [1, 2, 3])) =
        eventsOf configureQueue.mem (configureQueue.m_head :: ([] ++ [1, 2, 3])) :=
  C17_configure_compression sampleConnection configureQueue [] [1, 2, 3]
    ⟨rfl, ⟨rfl, rfl, rfl, rfl⟩, by decide, by decide⟩ (Configure 7 10 10) (by decide)

/-- C18, the claim as stated fails: with event compression enabled, a
pointer-motion record for the window 7 is dropped although the only pending
record is a pointer-motion record for the window 8; a drain cycle over the two
records delivers the second one only. -/
theorem C18_counterexample :
    eventsOf motionQueue.mem [0, 1] = [Motion 8] ∧
      (Motion 8).event ≠ (Motion 7).event ∧ (Motion 8).window ≠ (Motion 7).window ∧
      (sampleConnection.compressEvent motionQueue (Motion 7)).map (fun r => r.1) = some true ∧
      (sampleConnection.processXcbEvents
        (XcbEventQueue.run sampleConnection XcbEventQueue.new [(Motion 7, [Motion 8])])
        false).map (fun r => delivered r.1) = some [Motion 8] := by
  decide

/-- C18 as amended: on every well-formed queue state and for every
pointer-motion record `e`, `compressEvent(e)` comes to an end and returns
true exactly when event compression is enabled and some pending record is a
pointer-motion record, whatever its window; the pending records stay in the
queue. -/
theorem C18_motion_compression (c : XcbConnection) (q : XcbEventQueue) (l1 l2 : List Nat)
    (hwf : WF q l1 l2) (e : xcb_generic_event_t)
    (hmot : responseType e = XCB_MOTION_NOTIFY) :
    ∃ b q', c.compressEvent q e = some (b, q') ∧
      (b = true ↔ c.compressHighFrequencyEvents = true ∧
        ∃ n ∈ eventsOf q.mem (q.m_head :: (l1 ++ l2)), responseType n = XCB_MOTION_NOTIFY) ∧
      (q' = q ∨ q' = q.flushBufferedEvents) ∧
      eventsOf q'.mem (q'.m_head :: (l1 ++ l2)) = eventsOf q.mem (q.m_head :: (l1 ++ l2)) := by
  obtain ⟨q', h1, h2⟩ := compressEvent_gen c hwf e
  refine ⟨_, q', h1, compressedBy_motion c e _ hmot, h2, ?_⟩
  rcases h2 with rfl | rfl <;> rfl

/-- Witness of C18 as amended: a pointer-motion record for the window 7 while
a pointer-motion record for the window 8 is pending. -/
theorem C18_motion_compression_witness :
    ∃ b q', sampleConnection.compressEvent motionQueue (Motion 7) = some (b, q') ∧
      (b = true ↔ sampleConnection.compressHighFrequencyEvents = true ∧
        ∃ n ∈ eventsOf motionQueue.mem (motionQueue.m_head :: ([] ++ [1])),
          responseType n = XCB_MOTION_NOTIFY) ∧
      (q' = motionQueue ∨ q' = motionQueue.flushBufferedEvents) ∧
      eventsOf q'.mem (q'.m_head :: ([] ++ [1])) =
        eventsOf motionQueue.mem (motionQueue.m_head :: ([] ++ [1])) :=
  C18_motion_compression sampleConnection motionQueue [] [1]
    ⟨rfl, ⟨rfl, rfl⟩, by decide, by decide⟩ (Motion 7) (by decide)

/-- C20 (drain at destruction): on every well-formed queue state the drain of
the destructor, `flushBufferedEvents` and then `takeFirst(AllEvents)` until it
returns null, comes to an end and returns the records of the side buffer
followed by the records of the list, flushed or not, each once and in order,
without a call of a handler; afterwards `isEmpty()` holds, the side buffer is
empty and `takeFirst(AllEvents)` returns null again. -/
theorem C20_destructor_drain (c : XcbConnection) (q : XcbEventQueue) (l1 l2 : List Nat)
    (hwf : WF q l1 l2) :
    ∃ q', drain c q =
        some (q.m_inputEvents ++ eventsOf q.mem (q.m_head :: (l1 ++ l2)), q') ∧
      q'.isEmpty = true ∧ q'.m_inputEvents = [] ∧
      q'.takeFirstFlags c false = some (none, q') := by
  obtain ⟨q', l1r, h1, -, -, h4, -⟩ := drain_spec c hwf
  have he : q'.isEmpty = true := drainLoop_isEmpty c _ _ _ _ h1
  refine ⟨q', h1, he, h4, ?_⟩
  simp [takeFirstFlags, h4, takeFirst, he]

/-- Witness of C20: a queue with one record in the side buffer and two in the
list. -/
theorem C20_destructor_drain_witness :
    ∃ q', drain sampleConnection bufferedQueue =
        some (bufferedQueue.m_inputEvents ++
          eventsOf bufferedQueue.mem (bufferedQueue.m_head :: ([4] ++ [])), q') ∧
      q'.isEmpty = true ∧ q'.m_inputEvents = [] ∧
      q'.takeFirstFlags sampleConnection false = some (none, q') :=
  C20_destructor_drain sampleConnection bufferedQueue [4] []
    ⟨⟨rfl, rfl⟩, rfl, by decide, by decide⟩

/-- C21 (deferred removal): when `m_head == m_flushedTail` and the head node
holds a record, `takeFirst()` returns that record and clears the record field
of the node in place: `m_head`, `m_flushedTail`, `m_tail`, the restored-node
counter and the free-node counter are unchanged, no link and no other node
changes, and the list stays well formed with the same nodes.  In every
well-formed state the nodes that `takeFirst()` unlinks, and releases to the
pool or the heap, are a prefix of the visible nodes that does not contain
`m_flushedTail`. -/
theorem C21_deferred_removal (q : XcbEventQueue) (e : xcb_generic_event_t)
    (hh : q.m_head = q.m_flushedTail) (hev : (q.mem q.m_head).event = some e) :
    (∃ q', q.takeFirst = some (some e, q') ∧
      q'.m_head = q.m_head ∧ q'.m_flushedTail = q.m_flushedTail ∧ q'.m_tail = q.m_tail ∧
      q'.m_nodesRestored = q.m_nodesRestored ∧ q'.m_freeNodes = q.m_freeNodes ∧
      (q'.mem q.m_head).event = none ∧
      (∀ a, (q'.mem a).next = (q.mem a).next ∧ (q'.mem a).fromHeap = (q.mem a).fromHeap) ∧
      (∀ a, a ≠ q.m_head → q'.mem a = q.mem a) ∧
      ∀ l1 l2, WF q l1 l2 → WF q' l1 l2) ∧
    ∀ (q0 : XcbEventQueue) (l1 l2 : List Nat), WF q0 l1 l2 →
      ∃ r d l1r q1, q0.takeFirst = some (r, q1) ∧
        q0.m_head :: l1 = d ++ q1.m_head :: l1r ∧ q0.m_flushedTail ∉ d ∧
        q1.m_flushedTail = q0.m_flushedTail ∧
        q1.m_nodesRestored = q0.m_nodesRestored + poolCount q0.mem d := by
  constructor
  · refine ⟨_, takeFirst_deferred q e hh hev, rfl, rfl, rfl, rfl, rfl, ?_, ?_, ?_, ?_⟩
    · exact setEvent_event_self q q.m_head none
    · intro a
      exact ⟨(sameLinks_setEvent q q.m_head none).next a,
        (sameLinks_setEvent q q.m_head none).fromHeap a⟩
    · intro a ha
      simp [setEvent, store, ha]
    · intro l1 l2 hwf
      exact ⟨Seg.congr (sameLinks_setEvent q q.m_head none).next hwf.vis,
        Seg.congr (sameLinks_setEvent q q.m_head none).next hwf.pend, hwf.nodup, hwf.bound⟩
  · intro q0 l1 l2 hwf
    obtain ⟨d, l1r, q1, h1, h2, h3, -, -, h6, h7, -⟩ := takeFirst_spec hwf
    exact ⟨_, d, l1r, q1, h1, h2, flushedTail_not_mem_prefix hwf h3 h7.flushedTail h2,
      h7.flushedTail, h6⟩

/-- Witness of C21: a queue whose head node is `m_flushedTail` and holds a
pointer-motion record. -/
theorem C21_deferred_removal_witness :
    ∃ q', deferredQueue.takeFirst = some (some (Motion 7), q') ∧
      q'.m_head = deferredQueue.m_head ∧ q'.m_flushedTail = deferredQueue.m_flushedTail ∧
      q'.m_nodesRestored = deferredQueue.m_nodesRestored :=
  match (C21_deferred_removal deferredQueue (Motion 7) (by decide) (by decide)).1 with
  | ⟨q', h1, h2, h3, _, h5, _⟩ => ⟨q', h1, h2, h3, h5⟩

theorem head?_eventsOf (m : Nat → XcbEventNode) (l : List Nat) :
    (eventsOf m l).head? = l.findSome? (fun a => (m a).event) := by
  induction l with
  | nil => rfl
  | cons x l ih =>
    rw [eventsOf_cons]
    cases hx : (m x).event with
    | none => simpa [List.findSome?, hx] using ih
    | some e => simp [List.findSome?, hx]

theorem findSome?_event_eq_none (m : Nat → XcbEventNode) (l : List Nat) :
    l.findSome? (fun a => (m a).event) = none ↔ ∀ a ∈ l, (m a).event = none := by
  induction l with
  | nil => simp
  | cons x l ih =>
    cases hx : (m x).event with
    | none => simp [List.findSome?, hx, ih]
    | some e => simp [List.findSome?, hx]

/-- C22 (first present record): on every well-formed queue state `takeFirst()`
comes to an end and returns the record of the first node, in list order from
`m_head` to `m_flushedTail`, whose record field is set; it returns null
exactly when no node in that range holds a record.  In particular, after a
removing peek that accepts every record has cleared all nodes of the list,
`takeFirst()` returns null. -/
theorem C22_first_present_record (q : XcbEventQueue) (l1 l2 : List Nat) (hwf : WF q l1 l2) :
    (∃ q', q.takeFirst =
        some ((q.m_head :: l1).findSome? (fun a => (q.mem a).event), q')) ∧
      ((q.m_head :: l1).findSome? (fun a => (q.mem a).event) = none ↔
        ∀ a ∈ q.m_head :: l1, (q.mem a).event = none) ∧
      ∃ q1 q2, q.peek PeekOption.PeekRemoveMatchContinue (fun _ _ => true) = some (none, q1) ∧
        q1.takeFirst = some (none, q2) := by
  refine ⟨?_, findSome?_event_eq_none q.mem _, ?_⟩
  · obtain ⟨d, l1r, q', h1, -⟩ := takeFirst_spec hwf
    exact ⟨q', by rw [h1, head?_eventsOf]⟩
  · obtain ⟨q1, h1, h2, -, -, h5, h6⟩ := peek_removeContinue_spec hwf (fun _ _ => true)
    obtain ⟨d, l1r, q2, g1, -⟩ := takeFirst_spec h6
    have hh : q1.m_head = q.m_head := h2 ▸ rfl
    have hnil : eventsOf q1.mem (q1.m_head :: (l1 ++ l2)) = [] := by
      rw [hh, eventsOf_filter_of_nodes q.mem q1.mem _ _ h5]
      simp
    rw [hnil] at g1
    exact ⟨q1, q2, h1, g1⟩

/-- Witness of C22: a list of five nodes whose records were all cleared by a
removing peek. -/
theorem C22_first_present_record_witness :
    (∃ q', clearedQueue.takeFirst =
        some ((clearedQueue.m_head :: [1, 2, 3, 4]).findSome?
          (fun a => (clearedQueue.mem a).event), q')) ∧
      ((clearedQueue.m_head :: [1, 2, 3, 4]).findSome?
          (fun a => (clearedQueue.mem a).event) = none ↔
        ∀ a ∈ clearedQueue.m_head :: [1, 2, 3, 4], (clearedQueue.mem a).event = none) ∧
      ∃ q1 q2, clearedQueue.peek PeekOption.PeekRemoveMatchContinue (fun _ _ => true) =
          some (none, q1) ∧ q1.takeFirst = some (none, q2) :=
  C22_first_present_record clearedQueue [1, 2, 3, 4] []
    ⟨⟨rfl, rfl, rfl, rfl, rfl⟩, rfl, by decide, by decide⟩

theorem xcb_errors_length : xcb_errors.length = 19 := rfl

theorem xcb_protocol_request_codes_length : xcb_protocol_request_codes.length = 121 := rfl

/-- C27 (error tables): for every error record `printXcbError` reads both name
tables within bounds; an error code from 0 to 17 selects the entry of
`xcb_errors` at that index and every larger code the last entry, "Unknown";
a major code from 0 to 119 selects the entry of `xcb_protocol_request_codes`
at that index and every larger code the last entry, "Unknown". -/
theorem C27_error_tables_in_bounds (message : String) (error : xcb_generic_error_t) :
    ∃ errorName requestName,
      XcbConnection.printXcbError message error =
        some (message, error.error_code % 256, errorName, error.sequence, error.resource_id,
          error.major_code % 256, requestName, error.minor_code) ∧
      (error.error_code % 256 ≤ 17 →
        xcb_errors[error.error_code % 256]? = some errorName) ∧
      (17 < error.error_code % 256 → errorName = "Unknown") ∧
      (error.major_code % 256 ≤ 119 →
        xcb_protocol_request_codes[error.major_code % 256]? = some requestName) ∧
      (119 < error.major_code % 256 → requestName = "Unknown") := by
  have h1 : min (error.error_code % 256) (xcb_errors.length - 1) < xcb_errors.length := by
    rw [xcb_errors_length]; omega
  have h2 : min (error.major_code % 256) (xcb_protocol_request_codes.length - 1) <
      xcb_protocol_request_codes.length := by
    rw [xcb_protocol_request_codes_length]; omega
  refine ⟨xcb_errors[min (error.error_code % 256) (xcb_errors.length - 1)],
    xcb_protocol_request_codes[min (error.major_code % 256)
      (xcb_protocol_request_codes.length - 1)], ?_, ?_, ?_, ?_, ?_⟩
  · simp only [XcbConnection.printXcbError, List.getElem?_eq_getElem h1,
      List.getElem?_eq_getElem h2]
  · intro h
    have e : min (error.error_code % 256) (xcb_errors.length - 1) = error.error_code % 256 := by
      rw [xcb_errors_length]; omega
    simp only [e]
    exact List.getElem?_eq_getElem (by rw [xcb_errors_length]; omega)
  · intro h
    have e : min (error.error_code % 256) (xcb_errors.length - 1) = 18 := by
      rw [xcb_errors_length]; omega
    simp only [e]
    rfl
  · intro h
    have e : min (error.major_code % 256) (xcb_protocol_request_codes.length - 1) =
        error.major_code % 256 := by
      rw [xcb_protocol_request_codes_length]; omega
    simp only [e]
    exact List.getElem?_eq_getElem (by rw [xcb_protocol_request_codes_length]; omega)
  · intro h
    have e : min (error.major_code % 256) (xcb_protocol_request_codes.length - 1) = 120 := by
      rw [xcb_protocol_request_codes_length]; omega
    simp only [e]
    rfl

/-- Witness of C27: the error record of a BadWindow error of a MapWindow
request. -/
theorem C27_error_tables_in_bounds_witness :
    ∃ errorName requestName,
      XcbConnection.printXcbError "XcbConnection: XCB error"
          { error_code := 3, sequence := 10, resource_id := 7, minor_code := 0,
            major_code := 8 } =
        some ("XcbConnection: XCB error", 3 % 256, errorName, 10, 7, 8 % 256, requestName, 0) ∧
      (3 % 256 ≤ 17 → xcb_errors[3 % 256]? = some errorName) ∧
      (17 < 3 % 256 → errorName = "Unknown") ∧
      (8 % 256 ≤ 119 → xcb_protocol_request_codes[8 % 256]? = some requestName) ∧
      (119 < 8 % 256 → requestName = "Unknown") :=
  C27_error_tables_in_bounds "XcbConnection: XCB error"
    { error_code := 3, sequence := 10, resource_id := 7, minor_code := 0, major_code := 8 }

set_option maxRecDepth 4000 in
theorem printXcbError_samples :
    XcbConnection.printXcbError "XcbConnection: XCB error"
        { error_code := 3, sequence := 10, resource_id := 7, minor_code := 0, major_code := 8 } =
      some ("XcbConnection: XCB error", 3, "BadWindow", 10, 7, 8, "MapWindow", 0) ∧
    XcbConnection.printXcbError "XcbConnection: XCB error"
        { error_code := 200, sequence := 10, resource_id := 7, minor_code := 0,
          major_code := 131 } =
      some ("XcbConnection: XCB error", 200, "Unknown", 10, 7, 131, "Unknown", 0) :=
  ⟨rfl, rfl⟩

/-- C30 (rejected calls): `peekEventQueue` returns false and leaves the whole
state as it is, whatever the callback, so without invoking it and without
changing a cursor, when it is given a peeker id other than -1 that is not
registered, or an option with the flag `PeekFromCachedIndex` and no peeker id;
`removePeekerId` returns false and leaves the whole state as it is, the
registry and the id counter included, when the id is not registered. -/
theorem C30_rejected_calls (q : XcbEventQueue)
    (peeker : xcb_generic_event_t → XcbEventQueue → Bool × XcbEventQueue) (option : Nat) :
    (∀ peekerId : Int, peekerId ≠ -1 → q.m_peekerToNode.lookup peekerId = none →
      q.peekEventQueue peeker option peekerId = some (false, q)) ∧
    (testFlag option PeekOption.PeekFromCachedIndex = true →
      q.peekEventQueue peeker option (-1) = some (false, q)) ∧
    (∀ peekerId : Int, q.m_peekerToNode.lookup peekerId = none →
      q.removePeekerId peekerId = (false, q)) := by
  refine ⟨?_, ?_, ?_⟩
  · intro id hid hl
    have h1 : (id != -1) = true := by simpa using hid
    simp [peekEventQueue, h1, hl]
  · intro hopt
    simp [peekEventQueue, hopt]
  · intro id hl
    simp [removePeekerId, hl]

/-- Witness of C30: on a queue with the registered peeker ids 0 and 1, a peek
with the id 5, a peek from the cached index without an id, and the removal of
the id 5. -/
theorem C30_rejected_calls_witness :
    twoPeekerQueue.peekEventQueue (purePeeker isPropertyNotify) PeekOption.PeekDefault.toNat 5 =
        some (false, twoPeekerQueue) ∧
      twoPeekerQueue.peekEventQueue (purePeeker isPropertyNotify)
        PeekOption.PeekFromCachedIndex.toNat (-1) = some (false, twoPeekerQueue) ∧
      twoPeekerQueue.removePeekerId 5 = (false, twoPeekerQueue) :=
  ⟨(C30_rejected_calls twoPeekerQueue (purePeeker isPropertyNotify)
      PeekOption.PeekDefault.toNat).1 5 (by decide) (by decide),
    (C30_rejected_calls twoPeekerQueue (purePeeker isPropertyNotify)
      PeekOption.PeekFromCachedIndex.toNat).2.1 (by decide),
    (C30_rejected_calls twoPeekerQueue (purePeeker isPropertyNotify)
      PeekOption.PeekDefault.toNat).2.2 5 (by decide)⟩

/-- A scan interrupted by `takeFirst()` alone: on a well-formed queue, let a
scan of `peekEventQueue` with a registered peeker id reach the first record
`e0` of the nodes it walks.  If the callback returns with `m_queueModified` set, which
is what a `takeFirst()` inside the callback leaves behind, the call returns
the answer of that one invocation and the state the callback left: the
callback is invoked on no further node and no cursor is written.  For the
callback that calls `takeFirst()`: `takeFirst()` removes a record, the
cursors are those the scan started with, and the cache is marked dirty, so
that the next peek with a peeker id resets every cursor. -/
theorem reentrant_scan_aborts (q : XcbEventQueue) (l1 l2 : List Nat) (hwf : WF q l1 l2)
    (peeker : xcb_generic_event_t → XcbEventQueue → Bool × XcbEventQueue)
    (option : Nat) (peekerId : Int) (hid : peekerId ≠ -1)
    (hreg : (q.m_peekerToNode.lookup peekerId).isSome = true)
    (start : Nat) (hstart : startNode q option peekerId = some start)
    (la pre post : List Nat) (n0 : Nat) (e0 : xcb_generic_event_t)
    (hsplit : q.m_head :: (l1 ++ l2) = la ++ pre ++ n0 :: post)
    (hfirst : (pre ++ [n0]).head? = some start)
    (hpre : ∀ a ∈ pre, (q.mem a).event = none) (hev : (q.mem n0).event = some e0)
    (hmod : (peeker e0 (scanState q peekerId)).2.m_queueModified = true) :
    q.peekEventQueue peeker option peekerId =
        some ((peeker e0 (scanState q peekerId)).1, (peeker e0 (scanState q peekerId)).2) ∧
      ∃ r q1, (scanState q peekerId).takeFirst = some (some r, q1) ∧
        (∀ accept, q.peekEventQueue (reentrantPeeker accept) option peekerId =
          some (accept e0, q1)) ∧
        q1.m_peekerToNode = (resetCursors q peekerId).m_peekerToNode ∧
        q1.m_peekerIndexCacheDirty = true ∧
        ∀ nextId : Int, nextId ≠ -1 →
          (resetCursors q1 nextId).m_peekerToNode =
            q1.m_peekerToNode.map (fun p => (p.1, none)) := by
  have hws := hwf.scanState peekerId
  obtain ⟨hmem, hhead, -, -, -, -, -, -, -, -, -, hqm, hcur, -⟩ := scanState_frame q peekerId
  obtain ⟨d, l1r, q1, h1, -, -, -, -, -, h7, -, h9, h10⟩ := takeFirst_spec hws
  have hn0 : n0 ∈ q.m_head :: (l1 ++ l2) := by rw [hsplit]; simp
  have hne : (scanState q peekerId).isEmpty = false := by
    cases he : (scanState q peekerId).isEmpty with
    | false => rfl
    | true =>
      exfalso
      obtain ⟨hl, hev0⟩ := hws.isEmpty_iff.1 he
      rw [hl] at hn0
      simp only [List.mem_singleton] at hn0
      rw [hmem, hhead, ← hn0, hev] at hev0
      exact Option.noConfusion hev0
  obtain ⟨r, hr⟩ : ∃ r, (eventsOf (scanState q peekerId).mem
      ((scanState q peekerId).m_head :: (l1 ++ l2))).head? = some r := by
    rw [hmem, hhead, hsplit, eventsOf_append, eventsOf_cons, hev]
    cases eventsOf q.mem (la ++ pre) <;> simp
  rw [hr] at h1
  have hq1m : q1.m_queueModified = true := by rw [h9, hne]; simp
  have hq1d : q1.m_peekerIndexCacheDirty = true := by rw [h10, hne]; simp
  refine ⟨peekEventQueue_reenter hwf peeker option peekerId (Or.inr hreg) (Or.inr hid) start
    hstart la pre post n0 e0 hsplit hfirst hpre hev hmod, r, q1, h1, ?_, ?_, hq1d, ?_⟩
  · intro accept
    have hp : reentrantPeeker accept e0 (scanState q peekerId) = (accept e0, q1) := by
      simp [reentrantPeeker, h1]
    have := peekEventQueue_reenter hwf (reentrantPeeker accept) option peekerId (Or.inr hreg)
      (Or.inr hid) start hstart la pre post n0 e0 hsplit hfirst hpre hev (by rw [hp]; exact hq1m)
    rw [this, hp]
  · rw [h7.peekerToNode, hcur]
  · intro nextId hn
    have : (nextId != -1) = true := by simpa using hn
    simp [resetCursors, this, hq1d]

/-- An instance of `reentrant_scan_aborts`: the peeker 0 scans a queue that
holds one PropertyNotify record, and its callback calls `takeFirst()`. -/
theorem reentrant_scan_aborts_sample :
    twoPeekerQueue.peekEventQueue (reentrantPeeker isPropertyNotify)
        PeekOption.PeekDefault.toNat 0 =
      some ((reentrantPeeker isPropertyNotify (PropertyNotify 7) (scanState twoPeekerQueue 0)).1,
        (reentrantPeeker isPropertyNotify (PropertyNotify 7) (scanState twoPeekerQueue 0)).2) ∧
    ∃ r q1, (scanState twoPeekerQueue 0).takeFirst = some (some r, q1) ∧
      (∀ accept, twoPeekerQueue.peekEventQueue (reentrantPeeker accept)
          PeekOption.PeekDefault.toNat 0 = some (accept (PropertyNotify 7), q1)) ∧
      q1.m_peekerToNode = (resetCursors twoPeekerQueue 0).m_peekerToNode ∧
      q1.m_peekerIndexCacheDirty = true ∧
      ∀ nextId : Int, nextId ≠ -1 →
        (resetCursors q1 nextId).m_peekerToNode =
          q1.m_peekerToNode.map (fun p => (p.1, none)) :=
  reentrant_scan_aborts twoPeekerQueue [] [1] ⟨rfl, ⟨rfl, rfl⟩, by decide, by decide⟩
    (reentrantPeeker isPropertyNotify) PeekOption.PeekDefault.toNat 0 (by decide) (by decide)
    0 (by decide) [] [0] [] 1 (PropertyNotify 7) (by decide) (by decide) (by decide) (by decide)
    (by decide)

theorem scanRange_suffix (q : XcbEventQueue) (chain : List Nat) (option : Nat)
    (peekerId : Int) : List.IsSuffix (scanRange q chain option peekerId) chain := by
  unfold scanRange
  split
  · exact List.nil_suffix
  · split
    · exact List.nil_suffix
    · split
      · split
        · exact List.IsSuffix.trans (List.tail_suffix _) (List.dropWhile_suffix _)
        · exact List.suffix_refl _
      · exact List.suffix_refl _

/-- C29 (peekEventQueue is read-only): on every well-formed queue state whose
cursor for the given id, if set and not about to be reset, lies in the list,
for every predicate that does not touch the queue, every option value and
every peeker id, `peekEventQueue` comes to an end and leaves every node, the
head, the tail and the side buffer as they are, so that the pending records
and what a subsequent drain returns are the same as before; the result is true
exactly when the predicate accepts the record of one of the nodes the scan may
visit, which are a suffix of the list. -/
theorem C29_peekEventQueue_read_only (c : XcbConnection) (q : XcbEventQueue)
    (l1 l2 : List Nat) (hwf : WF q l1 l2) (p : xcb_generic_event_t → Bool) (option : Nat)
    (peekerId : Int)
    (hcur : ∀ n, (resetCursors q peekerId).m_peekerToNode.lookup peekerId = some (some n) →
      n ∈ q.m_head :: (l1 ++ l2)) :
    ∃ result q', q.peekEventQueue (purePeeker p) option peekerId = some (result, q') ∧
      q'.mem = q.mem ∧ q'.m_head = q.m_head ∧ q'.m_tail = q.m_tail ∧
      q'.m_inputEvents = q.m_inputEvents ∧
      eventsOf q'.mem (q'.m_head :: (l1 ++ l2)) = eventsOf q.mem (q.m_head :: (l1 ++ l2)) ∧
      (drain c q').map Prod.fst = (drain c q).map Prod.fst ∧
      (result = true ↔
        ∃ e ∈ eventsOf q.mem (scanRange q (q.m_head :: (l1 ++ l2)) option peekerId),
          p e = true) ∧
      List.IsSuffix (scanRange q (q.m_head :: (l1 ++ l2)) option peekerId)
        (q.m_head :: (l1 ++ l2)) := by
  obtain ⟨q', h1, h2, h3, h4, h5, h6, h7⟩ := peekEventQueue_pure_spec hwf p option peekerId hcur
  refine ⟨_, q', h1, h2, h3, h4, h6, by rw [h2, h3], ?_, by simp, scanRange_suffix _ _ _ _⟩
  obtain ⟨qd, -, hd, -⟩ := drain_spec c hwf
  rcases h7 with rfl | hft
  · rfl
  · have hwf' : WF q' (l1 ++ l2) [] := hwf.of_frame h2 h3 hft h4 h5
    obtain ⟨qd', -, hd', -⟩ := drain_spec c hwf'
    rw [hd, hd', h2, h3, h6]
    simp

/-- Witness of C29: the peeker 0, whose cursor is on the last node, peeks with
the option `PeekRemoveMatchContinue`. -/
theorem C29_peekEventQueue_read_only_witness :
    ∃ result q', scannedQueue.peekEventQueue (purePeeker isPropertyNotify)
        PeekOption.PeekRemoveMatchContinue.toNat 0 = some (result, q') ∧
      q'.mem = scannedQueue.mem ∧ q'.m_head = scannedQueue.m_head ∧
      q'.m_tail = scannedQueue.m_tail ∧ q'.m_inputEvents = scannedQueue.m_inputEvents ∧
      eventsOf q'.mem (q'.m_head :: ([1, 2] ++ [])) =
        eventsOf scannedQueue.mem (scannedQueue.m_head :: ([1, 2] ++ [])) ∧
      (drain sampleConnection q').map Prod.fst =
        (drain sampleConnection scannedQueue).map Prod.fst ∧
      (result = true ↔
        ∃ e ∈ eventsOf scannedQueue.mem (scanRange scannedQueue
            (scannedQueue.m_head :: ([1, 2] ++ [])) PeekOption.PeekRemoveMatchContinue.toNat 0),
          isPropertyNotify e = true) ∧
      List.IsSuffix (scanRange scannedQueue (scannedQueue.m_head :: ([1, 2] ++ []))
          PeekOption.PeekRemoveMatchContinue.toNat 0)
        (scannedQueue.m_head :: ([1, 2] ++ [])) :=
  C29_peekEventQueue_read_only sampleConnection scannedQueue [1, 2] []
    ⟨⟨rfl, rfl, rfl⟩, rfl, by decide, by decide⟩ isPropertyNotify
    PeekOption.PeekRemoveMatchContinue.toNat 0
    (fun n h => by
      have h2 : (resetCursors scannedQueue 0).m_peekerToNode.lookup 0 = some (some 2) := by
        decide
      rw [h2] at h
      simp only [Option.some.injEq] at h
      subst h
      decide)

/-- C23 (the consumer stays behind `m_flushedTail`): on every well-formed
queue state, where the nodes from `m_head` to `m_flushedTail` are `l1` and
those behind `m_flushedTail` up to `m_tail` are `l2`, every consumer operation
comes to an end and keeps the list well formed: `flushBufferedEvents` and
`peek`, with any option, make all nodes visible and leave `m_head` alone;
`takeFirst`, with or without flags, moves `m_head` within the visible nodes
and leaves `l2`, `m_flushedTail` and `m_tail` alone.  Any number of
`takeFirst()` calls in a row return the visible records only, in order: the
records of `l2`, appended after the last flush, stay in their nodes, and once
the visible records are taken the first of them is what `takeFirst()` returns
after the next `flushBufferedEvents`. -/
theorem C23_consumer_behind_flushedTail (c : XcbConnection) (q : XcbEventQueue)
    (l1 l2 : List Nat) (hwf : WF q l1 l2) :
    WF q.flushBufferedEvents (l1 ++ l2) [] ∧
    (∀ option p, ∃ r q', q.peek option p = some (r, q') ∧ WF q' (l1 ++ l2) [] ∧
      q'.m_head = q.m_head ∧ q'.m_tail = q.m_tail) ∧
    (∀ excludeUserInputEvents, ∃ r q' d l1r,
      q.takeFirstFlags c excludeUserInputEvents = some (r, q') ∧
      q.m_head :: l1 = d ++ q'.m_head :: l1r ∧ WF q' l1r l2 ∧
      q'.m_flushedTail = q.m_flushedTail ∧ q'.m_tail = q.m_tail) ∧
    ∀ n, ∃ q' d l1r,
      takeFirstMany n q = some ((eventsOf q.mem (q.m_head :: l1)).take n, q') ∧
      q.m_head :: l1 = d ++ q'.m_head :: l1r ∧ WF q' l1r l2 ∧
      q'.m_flushedTail = q.m_flushedTail ∧ q'.m_tail = q.m_tail ∧
      eventsOf q'.mem l2 = eventsOf q.mem l2 ∧
      ((eventsOf q.mem (q.m_head :: l1)).length ≤ n →
        ∃ q'', q'.flushBufferedEvents.takeFirst = some ((eventsOf q.mem l2).head?, q'')) := by
  refine ⟨hwf.flush, ?_, ?_, ?_⟩
  · intro option p
    obtain ⟨r, q', h1, h2, -, h4⟩ := peek_wf hwf option p
    exact ⟨r, q', h1, h4, h2 ▸ rfl, h2 ▸ rfl⟩
  · intro excl
    obtain ⟨r, q', d, l1r, h1, h2, h3, h4, -⟩ := takeFirstFlags_frame c hwf excl
    exact ⟨r, q', d, l1r, h1, h2, h3, h4.flushedTail, h4.tail⟩
  · intro n
    obtain ⟨q', d, l1r, h1, h2, h3, h4, h5, h6⟩ := takeFirstMany_spec l2 n q l1 hwf
    refine ⟨q', d, l1r, h1, h2, h3, h6.flushedTail, h6.tail, h5, ?_⟩
    intro hn
    obtain ⟨d2, l1r2, q'', g1, -⟩ := takeFirst_spec h3.flush
    refine ⟨q'', ?_⟩
    rw [g1]
    have e1 : eventsOf q'.flushBufferedEvents.mem (q'.flushBufferedEvents.m_head :: (l1r ++ l2))
        = eventsOf q'.mem (q'.m_head :: l1r) ++ eventsOf q'.mem l2 := by
      rw [← List.cons_append, eventsOf_append]
      rfl
    rw [e1, h4, h5, List.drop_of_length_le hn]
    rfl

/-- Witness of C23: a queue with two visible records and one record appended
after the last flush. -/
theorem C23_consumer_behind_flushedTail_witness :
    ∃ q' d l1r,
      takeFirstMany 5 partlyFlushedQueue =
        some ((eventsOf partlyFlushedQueue.mem (partlyFlushedQueue.m_head :: [1, 2])).take 5,
          q') ∧
      partlyFlushedQueue.m_head :: [1, 2] = d ++ q'.m_head :: l1r ∧ WF q' l1r [3] ∧
      q'.m_flushedTail = partlyFlushedQueue.m_flushedTail ∧
      q'.m_tail = partlyFlushedQueue.m_tail ∧
      eventsOf q'.mem [3] = eventsOf partlyFlushedQueue.mem [3] ∧
      ((eventsOf partlyFlushedQueue.mem (partlyFlushedQueue.m_head :: [1, 2])).length ≤ 5 →
        ∃ q'', q'.flushBufferedEvents.takeFirst =
          some ((eventsOf partlyFlushedQueue.mem [3]).head?, q'')) :=
  (C23_consumer_behind_flushedTail sampleConnection partlyFlushedQueue [1, 2] [3]
    ⟨⟨rfl, rfl, rfl⟩, ⟨rfl, rfl⟩, by decide, by decide⟩).2.2.2 5

theorem ringSlots_length (p k : Nat) : (ringSlots p k).length = k := by
  simp [ringSlots]

theorem ringSlots_not_mem (p k : Nat) (hp : p ≤ PoolSize) (hk : k < PoolSize) :
    (if p = PoolSize then 0 else p) ∉ ringSlots p k := by
  intro h
  simp only [ringSlots, List.mem_map, List.mem_range, PoolSize] at h hp hk
  obtain ⟨i, hi, he⟩ := h
  split at he <;> omega

theorem ringSlots_succ (p k : Nat) (hp : p ≤ PoolSize) (hk : k ≤ PoolSize) :
    ringSlots ((if p = PoolSize then 0 else p) + 1) (k + 1) =
      ringSlots p k ++ [if p = PoolSize then 0 else p] := by
  simp only [ringSlots, List.range_succ, List.map_append, List.map_cons, List.map_nil]
  congr 1
  · apply List.map_congr_left
    intro i hi
    simp only [List.mem_range, PoolSize] at hi hp hk ⊢
    split <;> omega
  · simp only [PoolSize] at hp hk ⊢
    congr 1
    split <;> omega

theorem ringSlots_drop (p k : Nat) (hk : k ≤ PoolSize) (A B : List Nat)
    (h : ringSlots p k = A ++ B) : B = ringSlots p (k - A.length) := by
  have hlen : A.length + B.length = k := by
    have := congrArg List.length h
    simpa [ringSlots_length] using this.symm
  have hk2 : k = A.length + (k - A.length) := by omega
  have hr : ringSlots p k =
      (List.range A.length).map (fun i => (p + PoolSize - k + i) % PoolSize) ++
        ringSlots p (k - A.length) := by
    unfold ringSlots
    conv_lhs => rw [hk2, List.range_add, List.map_append, List.map_map]
    congr 1
    · congr 1
      funext i
      rw [← hk2]
    · apply List.map_congr_left
      intro i hi
      simp only [List.mem_range, PoolSize, Function.comp] at hi hk ⊢
      congr 1
      omega
  rw [hr] at h
  exact ((List.append_inj h (by simp)).2).symm

theorem PoolInv.frame {s : Nat × XcbEventQueue} {l1 l2 : List Nat} (h : PoolInv s l1 l2)
    {q' : XcbEventQueue} {l1' l2' : List Nat} (hwf : WF q' l1' l2')
    (hl : l1' ++ l2' = l1 ++ l2) (hhead : q'.m_head = s.2.m_head)
    (htail : q'.m_tail = s.2.m_tail)
    (hfh : ∀ a, (q'.mem a).fromHeap = (s.2.mem a).fromHeap)
    (hfree : q'.m_freeNodes = s.2.m_freeNodes)
    (hres : q'.m_nodesRestored = s.2.m_nodesRestored)
    (hidx : q'.m_poolIndex = s.2.m_poolIndex) : PoolInv (s.1, q') l1' l2' := by
  refine ⟨hwf, ?_, ?_, ?_, ?_, ?_, ?_⟩
  · show s.1 = q'.m_tail
    rw [htail]; exact h.readerTail
  · intro a ha
    show (q'.mem a).fromHeap = false
    rw [hfh]; exact h.poolFromHeap a ha
  · intro a ha hp
    show (q'.mem a).fromHeap = true
    have ha2 : a ∈ s.2.m_head :: (l1 ++ l2) := by
      have : a ∈ q'.m_head :: (l1' ++ l2') := ha
      rwa [hhead, hl] at this
    rw [hfh]; exact h.heapFromHeap a ha2 hp
  · show q'.m_poolIndex ≤ PoolSize
    rw [hidx]; exact h.poolIndex
  · show poolSlots (q'.m_head :: (l1' ++ l2')) =
      ringSlots q'.m_poolIndex (poolSlots (q'.m_head :: (l1' ++ l2'))).length
    rw [hhead, hl, hidx]; exact h.ring
  · show q'.m_freeNodes + q'.m_nodesRestored +
      (poolSlots (q'.m_head :: (l1' ++ l2'))).length = PoolSize
    rw [hhead, hl, hfree, hres]; exact h.count

theorem poolCount_eq_poolSlots {s : Nat × XcbEventQueue} {l1 l2 : List Nat}
    (h : PoolInv s l1 l2) (d : List Nat) (hd : ∀ a ∈ d, a ∈ s.2.m_head :: (l1 ++ l2)) :
    poolCount s.2.mem d = (poolSlots d).length := by
  unfold poolCount poolSlots
  congr 1
  apply List.filter_congr
  intro a ha
  by_cases hp : a < PoolSize
  · simp [h.poolFromHeap a hp, hp]
  · have := h.heapFromHeap a (hd a ha) (by omega)
    simp [this, hp]

theorem poolSlots_append (a b : List Nat) : poolSlots (a ++ b) = poolSlots a ++ poolSlots b := by
  simp [poolSlots]

theorem PoolInv.dequeue {s : Nat × XcbEventQueue} {l1 l2 : List Nat} (h : PoolInv s l1 l2)
    {q' : XcbEventQueue} {d l1r : List Nat} (hwf : WF q' l1r l2)
    (hd : s.2.m_head :: l1 = d ++ q'.m_head :: l1r) (hsl : SameLinks s.2 q')
    (hres : q'.m_nodesRestored = s.2.m_nodesRestored + poolCount s.2.mem d) :
    PoolInv (s.1, q') l1r l2 := by
  have hchain : s.2.m_head :: (l1 ++ l2) = d ++ q'.m_head :: (l1r ++ l2) := by
    rw [← List.cons_append, hd]; simp
  have hdm : ∀ a ∈ d, a ∈ s.2.m_head :: (l1 ++ l2) := by
    intro a ha; rw [hchain]; simp [ha]
  have hpc := poolCount_eq_poolSlots h d hdm
  have hps : poolSlots (s.2.m_head :: (l1 ++ l2)) =
      poolSlots d ++ poolSlots (q'.m_head :: (l1r ++ l2)) := by
    rw [hchain, poolSlots_append]
  have hcount := h.count
  have hring := h.ring
  rw [hps] at hcount hring
  have hk : (poolSlots d ++ poolSlots (q'.m_head :: (l1r ++ l2))).length ≤ PoolSize := by omega
  have hB := ringSlots_drop _ _ hk _ _ hring.symm
  refine ⟨hwf, ?_, ?_, ?_, ?_, ?_, ?_⟩
  · show s.1 = q'.m_tail
    rw [hsl.tail]; exact h.readerTail
  · intro a ha
    show (q'.mem a).fromHeap = false
    rw [hsl.fromHeap]; exact h.poolFromHeap a ha
  · intro a ha hp
    show (q'.mem a).fromHeap = true
    have ha2 : a ∈ s.2.m_head :: (l1 ++ l2) := by
      have : a ∈ q'.m_head :: (l1r ++ l2) := ha
      rw [hchain]
      exact List.mem_append_right _ this
    rw [hsl.fromHeap]; exact h.heapFromHeap a ha2 hp
  · show q'.m_poolIndex ≤ PoolSize
    rw [hsl.poolIndex]; exact h.poolIndex
  · show poolSlots (q'.m_head :: (l1r ++ l2)) =
      ringSlots q'.m_poolIndex (poolSlots (q'.m_head :: (l1r ++ l2))).length
    rw [hsl.poolIndex]
    have e : (poolSlots d ++ poolSlots (q'.m_head :: (l1r ++ l2))).length -
        (poolSlots d).length = (poolSlots (q'.m_head :: (l1r ++ l2))).length := by
      simp
    rw [e] at hB
    exact hB
  · show q'.m_freeNodes + q'.m_nodesRestored +
      (poolSlots (q'.m_head :: (l1r ++ l2))).length = PoolSize
    rw [hsl.freeNodes, hres, hpc]
    simp only [List.length_append] at hcount
    omega

theorem Seg.congr_on {m m' : Nat → XcbEventNode} :
    ∀ {l : List Nat} {a b : Nat}, Seg m a l b → (a :: l).Nodup →
      (∀ x ∈ a :: l, x ≠ b → (m' x).next = (m x).next) → Seg m' a l b := by
  intro l
  induction l with
  | nil => intro a b hs _ _; exact hs
  | cons y l ih =>
    intro a b hs hnd hx
    have hb : b ∈ y :: l := Seg.last_mem hs (by simp)
    have hab : a ≠ b := fun e => (List.nodup_cons.1 hnd).1 (e ▸ hb)
    refine ⟨by rw [hx a (by simp) hab]; exact hs.1, ?_⟩
    exact ih hs.2 (List.nodup_cons.1 hnd).2 (fun x hxm hxb => hx x (List.mem_cons_of_mem _ hxm) hxb)

theorem WF.flushedTail_mem {q : XcbEventQueue} {l1 l2 : List Nat} (h : WF q l1 l2) :
    q.m_flushedTail ∈ q.m_head :: l1 := by
  by_cases hl : l1 = []
  · subst hl
    have : q.m_head = q.m_flushedTail := h.vis
    simp [this]
  · exact List.mem_cons_of_mem _ (Seg.last_mem h.vis hl)

theorem WF.tail_mem {q : XcbEventQueue} {l1 l2 : List Nat} (h : WF q l1 l2) :
    q.m_tail ∈ q.m_flushedTail :: l2 := by
  by_cases hl : l2 = []
  · subst hl
    have : q.m_flushedTail = q.m_tail := h.pend
    simp [this]
  · exact List.mem_cons_of_mem _ (Seg.last_mem h.pend hl)

theorem WF.nodup_vis {q : XcbEventQueue} {l1 l2 : List Nat} (h : WF q l1 l2) :
    (q.m_head :: l1).Nodup := by
  have := h.nodup
  rw [← List.cons_append] at this
  exact (List.nodup_append.1 this).1

theorem WF.nodup_pend {q : XcbEventQueue} {l1 l2 : List Nat} (h : WF q l1 l2) :
    (q.m_flushedTail :: l2).Nodup := by
  have hnd := h.nodup
  rw [← List.cons_append] at hnd
  obtain ⟨-, h2, h3⟩ := List.nodup_append.1 hnd
  exact List.nodup_cons.2 ⟨fun hm => h3 h.flushedTail_mem hm, h2⟩

theorem WF.ne_tail_of_vis {q : XcbEventQueue} {l1 l2 : List Nat} (h : WF q l1 l2)
    {x : Nat} (hx : x ∈ q.m_head :: l1) (hne : x ≠ q.m_flushedTail) : x ≠ q.m_tail := by
  intro e
  have ht := h.tail_mem
  rcases List.mem_cons.1 ht with ht | ht
  · exact hne (e.trans ht)
  · have hnd := h.nodup
    rw [← List.cons_append] at hnd
    exact (List.nodup_append.1 hnd).2.2 hx (e ▸ ht)

theorem WF.append_node {q q' : XcbEventQueue} {l1 l2 : List Nat} (h : WF q l1 l2)
    (node : Nat) (hnode : node ∉ q.m_head :: (l1 ++ l2))
    (hmem : ∀ b, b ≠ node → b ≠ q.m_tail → q'.mem b = q.mem b)
    (htn : (q'.mem q.m_tail).next = some node)
    (hhead : q'.m_head = q.m_head) (hft : q'.m_flushedTail = q.m_flushedTail)
    (htail : q'.m_tail = node)
    (hbound : node < PoolSize + q'.heapAllocated)
    (hheap : q.heapAllocated ≤ q'.heapAllocated) : WF q' l1 (l2 ++ [node]) := by
  have hvis : ∀ x ∈ q.m_head :: l1, x ≠ q.m_flushedTail → (q'.mem x).next = (q.mem x).next := by
    intro x hx hne
    have h1 : x ≠ node := fun e => hnode (by
      rw [← e, ← List.cons_append]; exact List.mem_append_left _ hx)
    rw [hmem x h1 (h.ne_tail_of_vis hx hne)]
  have hpend : ∀ x ∈ q.m_flushedTail :: l2, x ≠ q.m_tail → (q'.mem x).next = (q.mem x).next := by
    intro x hx hne
    have hxc : x ∈ q.m_head :: (l1 ++ l2) := by
      rcases List.mem_cons.1 hx with rfl | hx
      · rw [← List.cons_append]; exact List.mem_append_left _ h.flushedTail_mem
      · exact List.mem_cons_of_mem _ (List.mem_append_right _ hx)
    have h1 : x ≠ node := fun e => hnode (e ▸ hxc)
    rw [hmem x h1 hne]
  refine ⟨?_, ?_, ?_, ?_⟩
  · rw [hhead, hft]
    exact Seg.congr_on h.vis h.nodup_vis hvis
  · rw [hft, htail]
    exact Seg.append (Seg.congr_on h.pend h.nodup_pend hpend) ⟨htn, rfl⟩
  · rw [hhead, ← List.append_assoc, ← List.cons_append]
    refine List.nodup_append.2 ⟨h.nodup, by simp, ?_⟩
    intro a ha hb
    simp only [List.mem_singleton] at hb
    exact hnode (hb ▸ ha)
  · intro a ha
    rw [hhead, ← List.append_assoc, ← List.cons_append] at ha
    rcases List.mem_append.1 ha with ha | ha
    · have := h.bound a ha
      omega
    · simp only [List.mem_singleton] at ha
      rw [ha]; exact hbound

theorem factory_pool_gen (q : XcbEventQueue) (ev : Option xcb_generic_event_t)
    (h : ¬(q.m_freeNodes = 0 ∧ q.m_nodesRestored = 0)) :
    q.qMEventNodeFactory ev =
      ((if q.m_poolIndex = PoolSize then 0 else q.m_poolIndex),
        { q with
          mem := fun b => if b = (if q.m_poolIndex = PoolSize then 0 else q.m_poolIndex)
            then { event := ev, next := none, fromHeap := (q.mem b).fromHeap } else q.mem b
          m_freeNodes := (if q.m_freeNodes = 0 then q.m_nodesRestored else q.m_freeNodes) - 1
          m_nodesRestored := if q.m_freeNodes = 0 then 0 else q.m_nodesRestored
          m_poolIndex := (if q.m_poolIndex = PoolSize then 0 else q.m_poolIndex) + 1 }) := by
  by_cases hf : q.m_freeNodes = 0
  · have hr : q.m_nodesRestored ≠ 0 := fun e => h ⟨hf, e⟩
    rw [factory_refill q ev hf]
    by_cases hi : q.m_poolIndex = PoolSize
    · rw [factory_pool_wrap
        ({ q with m_freeNodes := q.m_nodesRestored, m_nodesRestored := 0 } : XcbEventQueue)
        ev hr hi]
      simp [hf, hi]
    · rw [factory_pool
        ({ q with m_freeNodes := q.m_nodesRestored, m_nodesRestored := 0 } : XcbEventQueue)
        ev hr hi]
      simp [hf, hi]
  · by_cases hi : q.m_poolIndex = PoolSize
    · rw [factory_pool_wrap q ev hf hi]
      simp [hf, hi]
    · rw [factory_pool q ev hf hi]
      simp [hf, hi]

theorem enqueueEvent_eq (c : XcbConnection) (s : Nat × XcbEventQueue)
    (e : xcb_generic_event_t) (hs : isCloseSentinel c e = false)
    (hclosed : s.2.m_closeConnectionDetected = false) :
    enqueueEvent c s e = ((s.2.qMEventNodeFactory (some e)).1,
      { (s.2.qMEventNodeFactory (some e)).2.setNext s.1
          (some (s.2.qMEventNodeFactory (some e)).1) with
        m_tail := (s.2.qMEventNodeFactory (some e)).1 }) := by
  simp [enqueueEvent, isCloseConnectionEvent_of_not_sentinel c s.2 e hs, hclosed]

theorem mem_poolSlots {a : Nat} {l : List Nat} : a ∈ poolSlots l ↔ a ∈ l ∧ a < PoolSize := by
  simp [poolSlots]

theorem factory_facts {s : Nat × XcbEventQueue} {l1 l2 : List Nat} (h : PoolInv s l1 l2)
    (ev : Option xcb_generic_event_t) :
    (s.2.qMEventNodeFactory ev).1 ∉ s.2.m_head :: (l1 ++ l2) ∧
    (∀ b, b ≠ (s.2.qMEventNodeFactory ev).1 →
      (s.2.qMEventNodeFactory ev).2.mem b = s.2.mem b) ∧
    ((s.2.qMEventNodeFactory ev).2.mem (s.2.qMEventNodeFactory ev).1).fromHeap =
      decide (PoolSize ≤ (s.2.qMEventNodeFactory ev).1) ∧
    ((s.2.qMEventNodeFactory ev).2.mem (s.2.qMEventNodeFactory ev).1).next = none ∧
    ((s.2.qMEventNodeFactory ev).2.mem (s.2.qMEventNodeFactory ev).1).event = ev ∧
    (s.2.qMEventNodeFactory ev).2 = { (s.2.qMEventNodeFactory ev).2 with
      m_head := s.2.m_head, m_flushedTail := s.2.m_flushedTail, m_tail := s.2.m_tail,
      m_closeConnectionDetected := s.2.m_closeConnectionDetected,
      m_peekerIdSource := s.2.m_peekerIdSource, m_queueModified := s.2.m_queueModified,
      m_peekerIndexCacheDirty := s.2.m_peekerIndexCacheDirty,
      m_peekerToNode := s.2.m_peekerToNode, m_inputEvents := s.2.m_inputEvents } ∧
    (s.2.qMEventNodeFactory ev).1 < PoolSize + (s.2.qMEventNodeFactory ev).2.heapAllocated ∧
    s.2.heapAllocated ≤ (s.2.qMEventNodeFactory ev).2.heapAllocated ∧
    (s.2.qMEventNodeFactory ev).2.m_poolIndex ≤ PoolSize ∧
    poolSlots (s.2.m_head :: (l1 ++ l2) ++ [(s.2.qMEventNodeFactory ev).1]) =
      ringSlots (s.2.qMEventNodeFactory ev).2.m_poolIndex
        (poolSlots (s.2.m_head :: (l1 ++ l2) ++ [(s.2.qMEventNodeFactory ev).1])).length ∧
    (s.2.qMEventNodeFactory ev).2.m_freeNodes + (s.2.qMEventNodeFactory ev).2.m_nodesRestored +
      (poolSlots (s.2.m_head :: (l1 ++ l2) ++ [(s.2.qMEventNodeFactory ev).1])).length =
        PoolSize ∧
    (PoolSize ≤ (s.2.qMEventNodeFactory ev).1 ↔
      s.2.m_freeNodes = 0 ∧ s.2.m_nodesRestored = 0) ∧
    ((s.2.qMEventNodeFactory ev).1 < PoolSize →
      (s.2.qMEventNodeFactory ev).1 = s.2.m_poolIndex % PoolSize ∧
      (s.2.qMEventNodeFactory ev).2.m_poolIndex = (s.2.qMEventNodeFactory ev).1 + 1) ∧
    (PoolSize ≤ (s.2.qMEventNodeFactory ev).1 →
      (s.2.qMEventNodeFactory ev).2.m_poolIndex = s.2.m_poolIndex) := by
  have hcount := h.count
  have hring := h.ring
  have hidx := h.poolIndex
  by_cases hheap : s.2.m_freeNodes = 0 ∧ s.2.m_nodesRestored = 0
  · rw [factory_heap s.2 ev hheap.1 hheap.2]
    have hnode : PoolSize + s.2.heapAllocated ∉ s.2.m_head :: (l1 ++ l2) := by
      intro hm
      have := h.wf.bound _ hm
      omega
    have hps : poolSlots (s.2.m_head :: (l1 ++ l2) ++ [PoolSize + s.2.heapAllocated]) =
        poolSlots (s.2.m_head :: (l1 ++ l2)) := by
      rw [poolSlots_append]
      simp [poolSlots]
    refine ⟨hnode, ?_, ?_, ?_, ?_, rfl, ?_, ?_, hidx, ?_, ?_, ?_, ?_, ?_⟩
    · intro b hb
      simp [hb]
    · simp
    · simp
    · simp
    · show PoolSize + s.2.heapAllocated < PoolSize + (s.2.heapAllocated + 1)
      omega
    · show s.2.heapAllocated ≤ s.2.heapAllocated + 1
      omega
    · rw [hps]; exact hring
    · rw [hps]
      show 0 + 0 + _ = PoolSize
      rw [hheap.1, hheap.2] at hcount
      exact hcount
    · simp [hheap]
    · intro hlt
      exact absurd hlt (by simp)
    · intro _; rfl
  · rw [factory_pool_gen s.2 ev hheap]
    have hk : (poolSlots (s.2.m_head :: (l1 ++ l2))).length < PoolSize := by
      have : s.2.m_freeNodes ≠ 0 ∨ s.2.m_nodesRestored ≠ 0 := by
        by_contra hc
        push_neg at hc
        exact hheap hc
      omega
    have hlt : (if s.2.m_poolIndex = PoolSize then 0 else s.2.m_poolIndex) < PoolSize := by
      split
      · simp [PoolSize]
      · omega
    have hnot := ringSlots_not_mem s.2.m_poolIndex _ hidx hk
    rw [← hring] at hnot
    have hnode : (if s.2.m_poolIndex = PoolSize then 0 else s.2.m_poolIndex) ∉
        s.2.m_head :: (l1 ++ l2) := fun hm => hnot (mem_poolSlots.2 ⟨hm, hlt⟩)
    have hps : poolSlots (s.2.m_head :: (l1 ++ l2) ++
        [if s.2.m_poolIndex = PoolSize then 0 else s.2.m_poolIndex]) =
        poolSlots (s.2.m_head :: (l1 ++ l2)) ++
          [if s.2.m_poolIndex = PoolSize then 0 else s.2.m_poolIndex] := by
      rw [poolSlots_append]
      simp [poolSlots, hlt]
    refine ⟨hnode, ?_, ?_, ?_, ?_, rfl, ?_, le_refl _, ?_, ?_, ?_, ?_, ?_, ?_⟩
    · intro b hb
      simp [hb]
    · simp only [if_true]
      rw [h.poolFromHeap _ hlt]
      simp
      omega
    · simp
    · simp
    · show (if s.2.m_poolIndex = PoolSize then 0 else s.2.m_poolIndex) <
        PoolSize + s.2.heapAllocated
      omega
    · show (if s.2.m_poolIndex = PoolSize then 0 else s.2.m_poolIndex) + 1 ≤ PoolSize
      omega
    · rw [hps, List.length_append, List.length_singleton]
      show _ = ringSlots ((if s.2.m_poolIndex = PoolSize then 0 else s.2.m_poolIndex) + 1) _
      rw [ringSlots_succ _ _ hidx (by omega), ← hring]
    · rw [hps, List.length_append, List.length_singleton]
      show (if s.2.m_freeNodes = 0 then s.2.m_nodesRestored else s.2.m_freeNodes) - 1 +
        (if s.2.m_freeNodes = 0 then 0 else s.2.m_nodesRestored) + _ = PoolSize
      split <;> omega
    · constructor
      · intro hge
        show s.2.m_freeNodes = 0 ∧ s.2.m_nodesRestored = 0
        have : (if s.2.m_poolIndex = PoolSize then 0 else s.2.m_poolIndex) < PoolSize := hlt
        have hge2 : PoolSize ≤ (if s.2.m_poolIndex = PoolSize then 0 else s.2.m_poolIndex) := hge
        omega
      · intro hc
        exact absurd hc hheap
    · intro _
      refine ⟨?_, rfl⟩
      show (if s.2.m_poolIndex = PoolSize then 0 else s.2.m_poolIndex) =
        s.2.m_poolIndex % PoolSize
      simp only [PoolSize] at hidx ⊢
      split <;> omega
    · intro hge
      have hge2 : PoolSize ≤ (if s.2.m_poolIndex = PoolSize then 0 else s.2.m_poolIndex) := hge
      omega

theorem PoolInv.enqueue (c : XcbConnection) {s : Nat × XcbEventQueue} {l1 l2 : List Nat}
    (h : PoolInv s l1 l2) (e : xcb_generic_event_t) (hs : isCloseSentinel c e = false)
    (hclosed : s.2.m_closeConnectionDetected = false) :
    PoolInv (enqueueEvent c s e) l1 (l2 ++ [(s.2.qMEventNodeFactory (some e)).1]) ∧
      (enqueueEvent c s e).1 = (s.2.qMEventNodeFactory (some e)).1 ∧
      (enqueueEvent c s e).2.m_head = s.2.m_head ∧
      (enqueueEvent c s e).2.m_peekerToNode = s.2.m_peekerToNode ∧
      (enqueueEvent c s e).2.m_peekerIndexCacheDirty = s.2.m_peekerIndexCacheDirty ∧
      (enqueueEvent c s e).2.m_poolIndex = (s.2.qMEventNodeFactory (some e)).2.m_poolIndex := by
  obtain ⟨F1, F2, F3, -, -, F6, F7, F8, F9, F10, F11, -, -, -⟩ := factory_facts h (some e)
  rw [enqueueEvent_eq c s e hs hclosed]
  generalize s.2.qMEventNodeFactory (some e) = f at F1 F2 F3 F6 F7 F8 F9 F10 F11 ⊢
  have hH : f.2.m_head = s.2.m_head := F6 ▸ rfl
  have hFT : f.2.m_flushedTail = s.2.m_flushedTail := F6 ▸ rfl
  have hC : f.2.m_peekerToNode = s.2.m_peekerToNode := F6 ▸ rfl
  have hD : f.2.m_peekerIndexCacheDirty = s.2.m_peekerIndexCacheDirty := F6 ▸ rfl
  have hrt := h.readerTail
  have htc : s.2.m_tail ∈ s.2.m_head :: (l1 ++ l2) := by
    rcases List.mem_cons.1 h.wf.tail_mem with ht | ht
    · rw [ht, ← List.cons_append]; exact List.mem_append_left _ h.wf.flushedTail_mem
    · exact List.mem_cons_of_mem _ (List.mem_append_right _ ht)
  have hnt : f.1 ≠ s.2.m_tail := fun e => F1 (e ▸ htc)
  have hfh : ∀ b, ((f.2.setNext s.1 (some f.1)).mem b).fromHeap = (f.2.mem b).fromHeap := by
    intro b
    by_cases hb : b = s.1 <;> simp [setNext, store, hb]
  have hwf : WF ({ f.2.setNext s.1 (some f.1) with m_tail := f.1 } : XcbEventQueue) l1
      (l2 ++ [f.1]) := by
    refine h.wf.append_node f.1 F1 ?_ ?_ hH hFT rfl F7 F8
    · intro b hb1 hb2
      have hb3 : b ≠ s.1 := by rw [hrt]; exact hb2
      show (f.2.setNext s.1 (some f.1)).mem b = s.2.mem b
      simp only [setNext, store, hb3, if_false]
      exact F2 b hb1
    · show ((f.2.setNext s.1 (some f.1)).mem s.2.m_tail).next = some f.1
      simp [setNext, store, hrt]
  have hchain : s.2.m_head :: (l1 ++ (l2 ++ [f.1])) = s.2.m_head :: (l1 ++ l2) ++ [f.1] := by
    simp
  refine ⟨⟨hwf, rfl, ?_, ?_, F9, ?_, ?_⟩, rfl, hH, hC, hD, rfl⟩
  · intro a ha
    show ((f.2.setNext s.1 (some f.1)).mem a).fromHeap = false
    rw [hfh]
    by_cases hn : a = f.1
    · rw [hn, F3]
      simp
      omega
    · rw [F2 a hn]; exact h.poolFromHeap a ha
  · intro a ha hp
    show ((f.2.setNext s.1 (some f.1)).mem a).fromHeap = true
    rw [hfh]
    by_cases hn : a = f.1
    · rw [hn, F3]
      simp
      omega
    · rw [F2 a hn]
      have ha2 : a ∈ s.2.m_head :: (l1 ++ (l2 ++ [f.1])) := by
        have : a ∈ f.2.m_head :: (l1 ++ (l2 ++ [f.1])) := ha
        rwa [hH] at this
      rw [hchain] at ha2
      rcases List.mem_append.1 ha2 with ha3 | ha3
      · exact h.heapFromHeap a ha3 hp
      · simp only [List.mem_singleton] at ha3
        exact absurd ha3 hn
  · show poolSlots (f.2.m_head :: (l1 ++ (l2 ++ [f.1]))) =
      ringSlots f.2.m_poolIndex (poolSlots (f.2.m_head :: (l1 ++ (l2 ++ [f.1])))).length
    rw [hH, hchain]; exact F10
  · show f.2.m_freeNodes + f.2.m_nodesRestored +
      (poolSlots (f.2.m_head :: (l1 ++ (l2 ++ [f.1])))).length = PoolSize
    rw [hH, hchain]; exact F11

/-- C25, the code diverges: the peeker 0 scans with `PeekFromCachedIndex` after
the reader appended one record, which leaves its cursor on that node, and a
second time after the reader appended a second record.  The second scan visits
the new node only, so it ends on its start node and the cursor is not moved to
it, although that node is `m_flushedTail`.  A third scan, with nothing
appended and no `takeFirst` in between, therefore starts on the node that the
second scan visited and invokes its predicate on the record there: a
predicate that accepts every record makes it return true. -/
theorem C25_rescans_visited_record :
    firstScanQueue.2.m_peekerToNode.lookup 0 = some (some 1) ∧
      (firstScanQueue.2.m_flushedTail = 1 ∧ firstScanQueue.2.m_tail = 1) ∧
      ((XcbEventQueue.enqueueEvent sampleConnection firstScanQueue (Expose 8)).2.peekEventQueue
        (purePeeker isMotion) PeekOption.PeekFromCachedIndex.toNat 0).map (fun r => r.1) =
          some false ∧
      rescanQueue.m_peekerToNode.lookup 0 = some (some 1) ∧
      (rescanQueue.m_flushedTail = 2 ∧ rescanQueue.m_tail = 2) ∧
      rescanQueue.m_peekerIndexCacheDirty = false ∧
      eventsOf rescanQueue.mem
        (scanRange rescanQueue [0, 1, 2] PeekOption.PeekFromCachedIndex.toNat 0) = [Expose 8] ∧
      (rescanQueue.peekEventQueue (purePeeker (fun _ => true))
        PeekOption.PeekFromCachedIndex.toNat 0).map (fun r => r.1) = some true := by
  decide

theorem CursorInv.resetCursors {q : XcbEventQueue} {l1 : List Nat} (h : CursorInv q l1)
    (peekerId : Int) :
    ∀ pr ∈ (resetCursors q peekerId).m_peekerToNode, ∀ n, pr.2 = some n →
      (resetCursors q peekerId).m_peekerIndexCacheDirty = false →
      n ∈ q.m_head :: l1 ∧ q.m_peekerIndexCacheDirty = false ∧ pr ∈ q.m_peekerToNode := by
  intro pr hpr n hn hd
  unfold XcbPump.resetCursors at hpr hd
  by_cases hr : ((peekerId != -1) && q.m_peekerIndexCacheDirty) = true
  · simp only [hr, if_true] at hpr
    obtain ⟨p0, -, rfl⟩ := List.mem_map.1 hpr
    exact absurd hn (by simp)
  · simp only [hr, Bool.false_eq_true, if_false] at hpr hd
    exact ⟨h hd pr hpr n hn, hd, hpr⟩

theorem inv_scanState {s : Nat × XcbEventQueue} {l1 l2 : List Nat} (hp : PoolInv s l1 l2)
    (hc : CursorInv s.2 l1) (peekerId : Int) :
    PoolInv (s.1, scanState s.2 peekerId) (l1 ++ l2) [] ∧
      CursorInv (scanState s.2 peekerId) (l1 ++ l2) ∧
      PoolInv (s.1, (resetCursors s.2 peekerId).flushBufferedEvents) (l1 ++ l2) [] ∧
      CursorInv (resetCursors s.2 peekerId).flushBufferedEvents (l1 ++ l2) := by
  obtain ⟨h1, h2, h3, h4, h5, -, h7, h8, h9, -, -, -, h13, h14⟩ := scanState_frame s.2 peekerId
  have hcur : CursorInv (scanState s.2 peekerId) (l1 ++ l2) := by
    intro hd pr hpr n hn
    rw [h13] at hpr
    rw [h14] at hd
    obtain ⟨g1, -, -⟩ := hc.resetCursors peekerId pr hpr n hn hd
    rw [h2, ← List.cons_append]
    exact List.mem_append_left _ g1
  have hwf2 : WF (resetCursors s.2 peekerId).flushBufferedEvents (l1 ++ l2) [] :=
    WF.of_frame hp.wf h1 h2 h3 h4 h5
  refine ⟨?_, hcur, ?_, hcur⟩
  · exact hp.frame (hp.wf.scanState peekerId) (by simp) h2 h4 (fun a => by rw [h1]) h8 h7 h9
  · exact hp.frame hwf2 (by simp) h2 h4
      (fun a => by
        show ((scanState s.2 peekerId).mem a).fromHeap = _
        rw [h1]) h8 h7 h9

theorem mem_of_lookup {l : List (Int × Option Nat)} {k : Int} {v : Option Nat}
    (h : l.lookup k = some v) : (k, v) ∈ l := by
  induction l with
  | nil => simp [List.lookup] at h
  | cons a l ih =>
    obtain ⟨j, w⟩ := a
    by_cases hj : k = j
    · subst hj
      rw [lookup_cons_self] at h
      simp only [Option.some.injEq] at h
      simp [h]
    · rw [lookup_cons_ne _ _ hj] at h
      exact List.mem_cons_of_mem _ (ih h)

theorem startNode_seg {q : XcbEventQueue} {l1 l2 : List Nat} (hwf : WF q l1 l2)
    (hc : CursorInv q l1) (option : Nat) (peekerId : Int)
    (hflag : testFlag option PeekOption.PeekFromCachedIndex = false ∨ peekerId ≠ -1) (start : Nat)
    (hstart : startNode q option peekerId = some start) :
    ∃ la rest, q.m_head :: (l1 ++ l2) = la ++ start :: rest ∧ Seg q.mem start rest q.m_tail := by
  obtain ⟨h1, h2, -, h4, -⟩ := resetCursors_frame q peekerId
  have hall : Seg q.mem q.m_head (l1 ++ l2) q.m_tail := Seg.append hwf.vis hwf.pend
  have hhead : ∀ st, some q.m_head = some st →
      ∃ la rest, q.m_head :: (l1 ++ l2) = la ++ st :: rest ∧ Seg q.mem st rest q.m_tail := by
    intro st hst
    simp only [Option.some.injEq] at hst
    subst hst
    exact ⟨[], l1 ++ l2, rfl, hall⟩
  unfold startNode at hstart
  simp only at hstart
  have e1 : (resetCursors q peekerId).flushBufferedEvents.m_head = q.m_head := h2
  have e2 : (resetCursors q peekerId).flushBufferedEvents.m_flushedTail = q.m_tail := h4
  have e3 : (resetCursors q peekerId).flushBufferedEvents.mem = q.mem := h1
  have e4 : (resetCursors q peekerId).flushBufferedEvents.m_peekerToNode =
      (resetCursors q peekerId).m_peekerToNode := rfl
  rw [e1, e2, e3, e4] at hstart
  by_cases hopt : testFlag option PeekOption.PeekFromCachedIndex = true
  · simp only [hopt, if_true] at hstart
    cases hl : (resetCursors q peekerId).m_peekerToNode.lookup peekerId with
    | none =>
      rw [hl] at hstart
      exact hhead start hstart
    | some v =>
      cases v with
      | none =>
        rw [hl] at hstart
        exact hhead start hstart
      | some cached =>
        rw [hl] at hstart
        simp only at hstart
        by_cases hct : cached = q.m_tail
        · simp [hct] at hstart
        · simp only [hct, if_false] at hstart
          have hmem := mem_of_lookup hl
          have hd : (resetCursors q peekerId).m_peekerIndexCacheDirty = false := by
            unfold XcbPump.resetCursors at hmem ⊢
            by_cases hr : ((peekerId != -1) && q.m_peekerIndexCacheDirty) = true
            · simp only [hr, if_true]
            · simp only [hr, Bool.false_eq_true, if_false] at hmem ⊢
              have hid : peekerId ≠ -1 := hflag.resolve_left (by rw [hopt]; simp)
              have hid2 : (peekerId != -1) = true := by simpa using hid
              rw [hid2] at hr
              simpa using hr
          obtain ⟨g1, -, -⟩ := hc.resetCursors peekerId _ hmem cached rfl hd
          have hcm : cached ∈ q.m_head :: (l1 ++ l2) := by
            rw [← List.cons_append]; exact List.mem_append_left _ g1
          obtain ⟨la, lb, hs1, hs2⟩ := Seg.split hall hcm
          cases lb with
          | nil => exact absurd hs2 hct
          | cons x lb =>
            have hx : x = start := by
              have := hs2.1
              rw [this] at hstart
              exact Option.some.inj hstart
            subst hx
            exact ⟨la ++ [cached], lb, by rw [hs1]; simp, hs2.2⟩
  · simp only [hopt, Bool.false_eq_true, if_false] at hstart
    exact hhead start hstart

theorem first_record_split (mem : Nat → XcbEventNode) (l : List Nat) :
    (∀ a ∈ l, (mem a).event = none) ∨
      ∃ pre n0 post e0, l = pre ++ n0 :: post ∧ (∀ a ∈ pre, (mem a).event = none) ∧
        (mem n0).event = some e0 := by
  induction l with
  | nil => left; intro a ha; exact absurd ha (List.not_mem_nil _)
  | cons x l ih =>
    cases hx : (mem x).event with
    | some e => right; exact ⟨[], x, l, e, rfl, fun a ha => absurd ha (List.not_mem_nil _), hx⟩
    | none =>
      rcases ih with h | ⟨pre, n0, post, e0, h1, h2, h3⟩
      · left
        intro a ha
        rcases List.mem_cons.1 ha with rfl | ha
        · exact hx
        · exact h a ha
      · right
        refine ⟨x :: pre, n0, post, e0, by rw [h1]; rfl, ?_, h3⟩
        intro a ha
        rcases List.mem_cons.1 ha with rfl | ha
        · exact hx
        · exact h2 a ha

theorem finish_inv {t : Nat} {q4 : XcbEventQueue} {L : List Nat} (hp : PoolInv (t, q4) L [])
    (hc : CursorInv q4 L) (result : Bool) (node : Option Nat)
    (hn : ∀ n, node = some n → n ∈ q4.m_head :: L) (cond : Bool) (peekerId : Int) :
    ∃ q', (if cond then
          match q4.m_peekerToNode.lookup peekerId with
          | some _ =>
            some (result, { q4 with
              m_peekerToNode := q4.m_peekerToNode.map
                (fun p => if p.1 = peekerId then (p.1, node) else p) })
          | none => some (result, q4)
        else some (result, q4)) = some (result, q') ∧
      PoolInv (t, q') L [] ∧ CursorInv q' L ∧ q'.m_poolIndex = q4.m_poolIndex := by
  cases cond with
  | false => exact ⟨q4, by simp, hp, hc, rfl⟩
  | true =>
    cases hl : q4.m_peekerToNode.lookup peekerId with
    | none => exact ⟨q4, by simp, hp, hc, rfl⟩
    | some v =>
      refine ⟨{ q4 with
        m_peekerToNode := q4.m_peekerToNode.map
          (fun p => if p.1 = peekerId then (p.1, node) else p) }, by simp, ?_, ?_, rfl⟩
      · exact hp.frame ⟨hp.wf.vis, hp.wf.pend, hp.wf.nodup, hp.wf.bound⟩ rfl rfl rfl
          (fun _ => rfl) rfl rfl rfl
      · intro hd pr hpr n hpn
        obtain ⟨p0, hp0, hp1⟩ := List.mem_map.1 hpr
        by_cases hk : p0.1 = peekerId
        · rw [if_pos hk] at hp1
          rw [← hp1] at hpn
          exact hn n hpn
        · rw [if_neg hk] at hp1
          rw [← hp1] at hpn
          exact hc hd p0 hp0 n hpn

theorem peekEventQueue_inv {s : Nat × XcbEventQueue} {l1 l2 : List Nat} (hp : PoolInv s l1 l2)
    (hc : CursorInv s.2 l1) (predicate : xcb_generic_event_t → Bool) (reenter : Bool)
    (option : Nat) (peekerId : Int) :
    ∃ r q' l1' l2', s.2.peekEventQueue
        (if reenter then reentrantPeeker predicate else purePeeker predicate) option peekerId =
          some (r, q') ∧
      PoolInv (s.1, q') l1' l2' ∧ CursorInv q' l1' ∧ q'.m_poolIndex = s.2.m_poolIndex := by
  have hwf := hp.wf
  by_cases hE1 : peekerId ≠ -1 ∧ s.2.m_peekerToNode.lookup peekerId = none
  · have h1 : (peekerId != -1) = true := by simpa using hE1.1
    exact ⟨false, s.2, l1, l2, by simp [peekEventQueue, h1, hE1.2], hp, hc, rfl⟩
  by_cases hE2 : testFlag option PeekOption.PeekFromCachedIndex = true ∧ peekerId = -1
  · exact ⟨false, s.2, l1, l2, by simp [peekEventQueue, hE2.1, hE2.2], hp, hc, rfl⟩
  have hreg : peekerId = -1 ∨ (s.2.m_peekerToNode.lookup peekerId).isSome = true := by
    by_cases hid : peekerId = -1
    · exact Or.inl hid
    · right
      cases hl : s.2.m_peekerToNode.lookup peekerId with
      | none => exact absurd ⟨hid, hl⟩ hE1
      | some v => rfl
  have hopt : testFlag option PeekOption.PeekFromCachedIndex = false ∨ peekerId ≠ -1 := by
    cases ht : testFlag option PeekOption.PeekFromCachedIndex with
    | false => exact Or.inl rfl
    | true => exact Or.inr (fun hid => hE2 ⟨ht, hid⟩)
  obtain ⟨hpS, hcS, hpF, hcF⟩ := inv_scanState hp hc peekerId
  obtain ⟨e1, e2, e3, e4, e5, -, e7, e8, e9, -, -, e12, e13, e14⟩ :=
    scanState_frame s.2 peekerId
  have hpiF : (resetCursors s.2 peekerId).flushBufferedEvents.m_poolIndex = s.2.m_poolIndex := e9
  -- the cases in which the loop does not run
  by_cases hemp : (resetCursors s.2 peekerId).flushBufferedEvents.isEmpty = true
  · refine ⟨false, _, l1 ++ l2, [], ?_, hpF, hcF, hpiF⟩
    rw [peekEventQueue_unfold s.2 _ option peekerId hreg hopt, if_pos hemp]
  cases hst : startNode s.2 option peekerId with
  | none =>
    refine ⟨false, _, l1 ++ l2, [], ?_, hpF, hcF, hpiF⟩
    rw [peekEventQueue_unfold s.2 _ option peekerId hreg hopt, if_neg hemp, hst]
  | some start =>
    obtain ⟨la, rest, hchain, hseg⟩ := startNode_seg hwf hc option peekerId hopt start hst
    have hsegS : Seg (scanState s.2 peekerId).mem start rest (scanState s.2 peekerId).m_flushedTail := by
      rw [e1, e3]; exact hseg
    have hnd : (start :: rest).Nodup := by
      have := hwf.nodup
      rw [hchain] at this
      exact (List.nodup_append.1 this).2.1
    have hlen : rest.length < (scanState s.2 peekerId).fuel := by
      have h1 := (hwf.scanState peekerId).length_lt_fuel
      have h2 := congrArg List.length hchain
      simp only [List.length_cons, List.length_append, List.length_nil] at h1 h2
      omega
    have hsub : ∀ n, n ∈ start :: rest → n ∈ (scanState s.2 peekerId).m_head :: (l1 ++ l2) := by
      intro n hn
      rw [e2, hchain]
      exact List.mem_append_right _ hn
    -- the scan with a loop result that leaves the state alone
    have hquiet : ∀ (peeker : xcb_generic_event_t → XcbEventQueue → Bool × XcbEventQueue)
        (result : Bool) (n : Nat), n ∈ start :: rest →
        peekEventQueueLoop peeker (scanState s.2 peekerId).fuel start (scanState s.2 peekerId) =
          some (result, some n, scanState s.2 peekerId) →
        ∃ r q' l1' l2', s.2.peekEventQueue peeker option peekerId = some (r, q') ∧
          PoolInv (s.1, q') l1' l2' ∧ CursorInv q' l1' ∧ q'.m_poolIndex = s.2.m_poolIndex := by
      intro peeker result n hn hloop
      obtain ⟨q', g1, g2, g3, g4⟩ := finish_inv hpS hcS result (some n)
        (fun m hm => hsub m (by rw [← Option.some.inj hm]; exact hn))
        ((peekerId != -1) && (some n != some start) &&
          !(scanState s.2 peekerId).m_queueModified) peekerId
      refine ⟨result, q', l1 ++ l2, [], ?_, g2, g3, g4.trans e9⟩
      rw [peekEventQueue_unfold s.2 _ option peekerId hreg hopt, if_neg hemp, hst]
      simp only [hloop]
      exact g1
    cases reenter with
    | false =>
      simp only [Bool.false_eq_true, if_false]
      exact hquiet _ _ _ (scanStop_mem _ predicate rest start)
        (peekEventQueueLoop_pure predicate (scanState s.2 peekerId) e12 rest start _ hsegS hnd hlen)
    | true =>
      simp only [if_true]
      rcases first_record_split s.2.mem (start :: rest) with hnone | ⟨pre, n0, post, e0, h1, h2, h3⟩
      · refine hquiet _ false (scanState s.2 peekerId).m_flushedTail ?_
          (peekEventQueueLoop_none _ (scanState s.2 peekerId) e12 rest start _ hsegS hnd hlen
            (by rw [e1]; exact hnone))
        by_cases hr : rest = []
        · subst hr
          have : start = (scanState s.2 peekerId).m_flushedTail := hsegS
          rw [← this]
          exact List.mem_cons_self _ _
        · exact List.mem_cons_of_mem _ (Seg.last_mem hsegS hr)
      · have hsplit : s.2.m_head :: (l1 ++ l2) = la ++ pre ++ n0 :: post := by
          rw [hchain, h1, List.append_assoc]
        have hfirst : (pre ++ [n0]).head? = some start := by
          cases pre with
          | nil =>
            simp only [List.nil_append, List.cons.injEq] at h1
            simp [h1.1]
          | cons x pre =>
            simp only [List.cons_append, List.cons.injEq] at h1
            simp [h1.1]
        have hwS := hwf.scanState peekerId
        obtain ⟨d, l1r, q1, t1, t2, t3, -, -, t6, t7, -, t9, t10⟩ := takeFirst_spec hwS
        have hn0 : n0 ∈ s.2.m_head :: (l1 ++ l2) := by rw [hsplit]; simp
        have hne : (scanState s.2 peekerId).isEmpty = false := by
          cases he : (scanState s.2 peekerId).isEmpty with
          | false => rfl
          | true =>
            exfalso
            obtain ⟨hl, hev0⟩ := hwS.isEmpty_iff.1 he
            rw [hl] at hn0
            simp only [List.mem_singleton] at hn0
            rw [e1, e2, ← hn0, h3] at hev0
            exact Option.noConfusion hev0
        have hq1m : q1.m_queueModified = true := by rw [t9, hne]; simp
        have hq1d : q1.m_peekerIndexCacheDirty = true := by rw [t10, hne]; simp
        have hpk : reentrantPeeker predicate e0 (scanState s.2 peekerId) = (predicate e0, q1) := by
          simp [reentrantPeeker, t1]
        have hres := peekEventQueue_reenter hwf (reentrantPeeker predicate) option peekerId hreg
          hopt start hst la pre post n0 e0 hsplit hfirst h2 h3 (by rw [hpk]; exact hq1m)
        rw [hpk] at hres
        refine ⟨predicate e0, q1, l1r, [], hres, ?_, ?_, ?_⟩
        · exact hpS.dequeue t3 t2 t7 t6
        · intro hd
          rw [hq1d] at hd
          exact Bool.noConfusion hd
        · exact t7.poolIndex.trans e9

theorem CursorInv.of_subset {q q' : XcbEventQueue} {l1 l1' : List Nat} (hc : CursorInv q l1)
    (hd : q'.m_peekerIndexCacheDirty = false → q.m_peekerIndexCacheDirty = false)
    (hsub : ∀ pr ∈ q'.m_peekerToNode, ∀ n, pr.2 = some n → pr ∈ q.m_peekerToNode)
    (hl : q'.m_peekerIndexCacheDirty = false → ∀ n, n ∈ q.m_head :: l1 → n ∈ q'.m_head :: l1') :
    CursorInv q' l1' := by
  intro hd' pr hpr n hn
  exact hl hd' n (hc (hd hd') pr (hsub pr hpr n hn) n hn)

theorem dequeue_inv {s : Nat × XcbEventQueue} {l1 l2 : List Nat} (hp : PoolInv s l1 l2)
    (hc : CursorInv s.2 l1) {q' : XcbEventQueue} {d l1r : List Nat}
    (h2 : s.2.m_head :: l1 = d ++ q'.m_head :: l1r) (h3 : WF q' l1r l2) (h4 : SameLinks s.2 q')
    (h5 : q'.m_nodesRestored = s.2.m_nodesRestored + poolCount s.2.mem d)
    (h6 : d = [] ∨ q'.m_peekerIndexCacheDirty = true)
    (h7 : s.2.m_peekerIndexCacheDirty = true → q'.m_peekerIndexCacheDirty = true) :
    PoolInv (s.1, q') l1r l2 ∧ CursorInv q' l1r ∧ q'.m_poolIndex = s.2.m_poolIndex := by
  refine ⟨hp.dequeue h3 h2 h4 h5, ?_, h4.poolIndex⟩
  refine hc.of_subset ?_ ?_ ?_
  · intro hd'
    cases hq : s.2.m_peekerIndexCacheDirty with
    | false => rfl
    | true => rw [h7 hq] at hd'; exact Bool.noConfusion hd'
  · intro pr hpr n _
    rw [h4.peekerToNode] at hpr
    exact hpr
  · intro hd' n hn
    rcases h6 with h6 | h6
    · subst h6
      rw [h2] at hn
      exact hn
    · rw [h6] at hd'; exact Bool.noConfusion hd'

theorem applyOp_inv (c : XcbConnection) {s : Nat × XcbEventQueue} {l1 l2 : List Nat}
    (hp : PoolInv s l1 l2) (hc : CursorInv s.2 l1) (op : QueueOp) :
    ∃ s' l1' l2', applyOp c s op = some s' ∧ PoolInv s' l1' l2' ∧ CursorInv s'.2 l1' ∧
      ((poolSlots (handedOut c s s' op) = [] ∧ s'.2.m_poolIndex = s.2.m_poolIndex) ∨
        (poolSlots (handedOut c s s' op) = [s.2.m_poolIndex % PoolSize] ∧
          s'.2.m_poolIndex = s.2.m_poolIndex % PoolSize + 1)) := by
  have hwf := hp.wf
  cases op with
  | enqueueEvent event =>
    cases hcl : s.2.m_closeConnectionDetected with
    | true =>
      refine ⟨s, l1, l2, by simp [applyOp, hcl], hp, hc, Or.inl ⟨?_, rfl⟩⟩
      simp [handedOut, hcl, poolSlots]
    | false =>
      cases hs : isCloseSentinel c event with
      | true =>
        refine ⟨(s.1, { s.2 with m_closeConnectionDetected := true }), l1, l2, ?_, ?_, hc,
          Or.inl ⟨?_, rfl⟩⟩
        · simp [applyOp, hcl, enqueueEvent_sentinel c s event hs]
        · exact hp.frame ⟨hwf.vis, hwf.pend, hwf.nodup, hwf.bound⟩ rfl rfl rfl (fun _ => rfl)
            rfl rfl rfl
        · simp [handedOut, hcl, hs, poolSlots]
      | false =>
        obtain ⟨g1, g2, g3, g4, g5, g6⟩ := hp.enqueue c event hs hcl
        obtain ⟨-, -, -, -, -, -, -, -, -, -, -, -, f13, f14⟩ := factory_facts hp (some event)
        refine ⟨enqueueEvent c s event, l1, l2 ++ [(s.2.qMEventNodeFactory (some event)).1],
          by simp [applyOp, hcl], g1, ?_, ?_⟩
        · exact hc.of_subset (fun h => by rw [← g5]; exact h)
            (fun pr hpr _ _ => by rw [← g4]; exact hpr)
            (fun _ n hn => by rw [g3]; exact hn)
        · have hH : handedOut c s (enqueueEvent c s event) (QueueOp.enqueueEvent event) =
              [(s.2.qMEventNodeFactory (some event)).1] := by
            simp [handedOut, hcl, hs, g2]
          rw [hH, g6]
          by_cases hlt : (s.2.qMEventNodeFactory (some event)).1 < PoolSize
          · right
            obtain ⟨k1, k2⟩ := f13 hlt
            refine ⟨?_, ?_⟩
            · simp only [poolSlots, List.filter_cons, hlt, decide_True, if_true, List.filter_nil]
              rw [← k1]
            · rw [k2, k1]
          · left
            refine ⟨?_, f14 (Nat.le_of_not_lt hlt)⟩
            simp [poolSlots, hlt]
  | flushBufferedEvents =>
    refine ⟨(s.1, s.2.flushBufferedEvents), l1 ++ l2, [], rfl, ?_, ?_, Or.inl ⟨rfl, rfl⟩⟩
    · exact hp.frame hwf.flush (by simp) rfl rfl (fun _ => rfl) rfl rfl rfl
    · exact hc.of_subset (fun h => h) (fun pr hpr _ _ => hpr)
        (fun _ n hn => by
          have : s.2.flushBufferedEvents.m_head = s.2.m_head := rfl
          rw [this, ← List.cons_append]
          exact List.mem_append_left _ hn)
  | takeFirst =>
    obtain ⟨r, d, l1r, q', h1, h2, h3, h4, h5, h6, h7⟩ := takeFirst_frame hwf
    obtain ⟨k1, k2, k3⟩ := dequeue_inv hp hc h2 h3 h4 h5 h6 h7
    exact ⟨(s.1, q'), l1r, l2, by simp [applyOp, h1], k1, k2, Or.inl ⟨rfl, k3⟩⟩
  | takeFirstFlags excl =>
    obtain ⟨r, q', d, l1r, h1, h2, h3, h4, h5, h6, h7⟩ := takeFirstFlags_frame c hwf excl
    obtain ⟨k1, k2, k3⟩ := dequeue_inv hp hc h2 h3 h4 h5 h6 h7
    exact ⟨(s.1, q'), l1r, l2, by simp [applyOp, h1], k1, k2, Or.inl ⟨rfl, k3⟩⟩
  | peek option peeker =>
    obtain ⟨r, q', h1, h2, h3, h4⟩ := peek_wf hwf option peeker
    have e1 : q'.m_head = s.2.m_head := h2 ▸ rfl
    have e2 : q'.m_tail = s.2.m_tail := h2 ▸ rfl
    have e3 : q'.m_freeNodes = s.2.m_freeNodes := h2 ▸ rfl
    have e4 : q'.m_nodesRestored = s.2.m_nodesRestored := h2 ▸ rfl
    have e5 : q'.m_poolIndex = s.2.m_poolIndex := h2 ▸ rfl
    have e6 : q'.m_peekerToNode = s.2.m_peekerToNode := h2 ▸ rfl
    have e7 : q'.m_peekerIndexCacheDirty = s.2.m_peekerIndexCacheDirty := h2 ▸ rfl
    refine ⟨(s.1, q'), l1 ++ l2, [], by simp [applyOp, h1], ?_, ?_, Or.inl ⟨rfl, e5⟩⟩
    · exact hp.frame h4 (by simp) e1 e2 (fun a => (h3 a).2) e3 e4 e5
    · exact hc.of_subset (fun h => by rw [← e7]; exact h)
        (fun pr hpr _ _ => by rw [← e6]; exact hpr)
        (fun _ n hn => by
          rw [e1, ← List.cons_append]
          exact List.mem_append_left _ hn)
  | peekEventQueue predicate reenter option peekerId =>
    obtain ⟨r, q', l1', l2', h1, h2, h3, h4⟩ :=
      peekEventQueue_inv hp hc predicate reenter option peekerId
    exact ⟨(s.1, q'), l1', l2', by simp [applyOp, h1], h2, h3, Or.inl ⟨rfl, h4⟩⟩
  | generatePeekerId =>
    refine ⟨(s.1, s.2.generatePeekerId.2), l1, l2, rfl, ?_, ?_, Or.inl ⟨rfl, rfl⟩⟩
    · exact hp.frame ⟨hwf.vis, hwf.pend, hwf.nodup, hwf.bound⟩ rfl rfl rfl (fun _ => rfl)
        rfl rfl rfl
    · intro hd pr hpr n hn
      have hpr2 : pr ∈ (s.2.m_peekerIdSource, none) ::
          s.2.m_peekerToNode.filter (fun p => p.1 != s.2.m_peekerIdSource) := hpr
      rcases List.mem_cons.1 hpr2 with h | h
      · rw [h] at hn
        exact Option.noConfusion hn
      · exact hc hd pr (List.mem_filter.1 h).1 n hn
  | removePeekerId peekerId =>
    cases hl : s.2.m_peekerToNode.lookup peekerId with
    | none =>
      refine ⟨s, l1, l2, by simp [applyOp, removePeekerId, hl], hp, hc, Or.inl ⟨rfl, rfl⟩⟩
    | some v =>
      by_cases hem : (s.2.m_peekerToNode.filter (fun p => p.1 != peekerId)).isEmpty = true
      · refine ⟨(s.1, { s.2 with
            m_peekerToNode := s.2.m_peekerToNode.filter (fun p => p.1 != peekerId),
            m_peekerIdSource := 0, m_peekerIndexCacheDirty := false }), l1, l2, ?_, ?_, ?_,
          Or.inl ⟨rfl, rfl⟩⟩
        · simp [applyOp, removePeekerId, hl, hem]
        · exact hp.frame ⟨hwf.vis, hwf.pend, hwf.nodup, hwf.bound⟩ rfl rfl rfl (fun _ => rfl)
            rfl rfl rfl
        · intro _ pr hpr n _
          have hpr2 : pr ∈ s.2.m_peekerToNode.filter (fun p => p.1 != peekerId) := hpr
          rw [List.isEmpty_iff.1 hem] at hpr2
          exact absurd hpr2 (List.not_mem_nil _)
      · refine ⟨(s.1, { s.2 with
            m_peekerToNode := s.2.m_peekerToNode.filter (fun p => p.1 != peekerId) }), l1, l2,
          ?_, ?_, ?_, Or.inl ⟨rfl, rfl⟩⟩
        · simp [applyOp, removePeekerId, hl, hem]
        · exact hp.frame ⟨hwf.vis, hwf.pend, hwf.nodup, hwf.bound⟩ rfl rfl rfl (fun _ => rfl)
            rfl rfl rfl
        · intro hd pr hpr n hn
          have hpr2 : pr ∈ s.2.m_peekerToNode.filter (fun p => p.1 != peekerId) := hpr
          exact hc hd pr (List.mem_filter.1 hpr2).1 n hn

theorem new_inv : PoolInv (XcbEventQueue.new.m_head, XcbEventQueue.new) [] [] ∧
    CursorInv XcbEventQueue.new [] := by
  refine ⟨⟨⟨rfl, rfl, by decide, by decide⟩, rfl, appended_new.poolFromHeap, by decide,
    by decide, by decide, by decide⟩, ?_⟩
  intro _ pr hpr
  exact absurd hpr (List.not_mem_nil _)

theorem applyOps_inv (c : XcbConnection) :
    ∀ (ops : List QueueOp) (s : Nat × XcbEventQueue) (l1 l2 : List Nat),
      PoolInv s l1 l2 → CursorInv s.2 l1 →
      ∃ s' l1' l2', applyOps c s ops = some s' ∧ PoolInv s' l1' l2' ∧ CursorInv s'.2 l1' ∧
        poolSlots (nodesHandedOut c s ops) =
          (List.range (poolSlots (nodesHandedOut c s ops)).length).map
            (fun i => (s.2.m_poolIndex + i) % PoolSize) := by
  intro ops
  induction ops with
  | nil =>
    intro s l1 l2 hp hc
    exact ⟨s, l1, l2, rfl, hp, hc, rfl⟩
  | cons op ops ih =>
    intro s l1 l2 hp hc
    obtain ⟨s1, l1a, l2a, h1, h2, h3, h4⟩ := applyOp_inv c hp hc op
    obtain ⟨s', l1', l2', g1, g2, g3, g4⟩ := ih s1 l1a l2a h2 h3
    refine ⟨s', l1', l2', by simp [applyOps, h1, g1], g2, g3, ?_⟩
    have hN : nodesHandedOut c s (op :: ops) =
        handedOut c s s1 op ++ nodesHandedOut c s1 ops := by
      simp [nodesHandedOut, h1]
    rw [hN, poolSlots_append]
    rcases h4 with ⟨k1, k2⟩ | ⟨k1, k2⟩
    · rw [k1, List.nil_append, ← k2]
      exact g4
    · rw [k1, g4, k2]
      simp only [List.singleton_append, List.length_cons, List.length_map, List.length_range]
      rw [List.range_succ_eq_map, List.map_cons, List.map_map]
      congr 1
      apply List.map_congr_left
      intro i _
      simp only [Function.comp, PoolSize]
      omega

/-- C26 (pool accounting): the constructor takes the pool slot 0, and over any
sequence of reader and consumer operations on a freshly constructed queue the
pool slots that `qMEventNodeFactory` hands out are, in order, the slots 1, 2,
..., `PoolSize - 1`, 0, 1, ...  Every such sequence comes to an end in a
well-formed state in which the free slots, the restored slots that the reader
has not claimed yet and the pool nodes linked between `m_head` and `m_tail`
add up to `PoolSize`, and in which the pool nodes are the nodes without the
`fromHeap` mark.  In that state the node that `qMEventNodeFactory` returns
next is not linked in the list, it is a heap node exactly when no slot is free
and none is restored, and otherwise it is the slot `m_poolIndex % PoolSize`,
after which `m_poolIndex` is that index plus one. -/
theorem C26_pool_ring_accounting (c : XcbConnection) (ops : List QueueOp) :
    XcbEventQueue.new.m_head = 0 ∧
      poolSlots (nodesHandedOut c (XcbEventQueue.new.m_head, XcbEventQueue.new) ops) =
        (List.range (poolSlots
          (nodesHandedOut c (XcbEventQueue.new.m_head, XcbEventQueue.new) ops)).length).map
            (fun i => (i + 1) % PoolSize) ∧
      ∃ s l1 l2, applyOps c (XcbEventQueue.new.m_head, XcbEventQueue.new) ops = some s ∧
        WF s.2 l1 l2 ∧
        s.2.m_freeNodes + s.2.m_nodesRestored + poolCount s.2.mem (s.2.m_head :: (l1 ++ l2)) =
          PoolSize ∧
        (∀ a ∈ s.2.m_head :: (l1 ++ l2), (s.2.mem a).fromHeap = decide (PoolSize ≤ a)) ∧
        ∀ ev, (s.2.qMEventNodeFactory ev).1 ∉ s.2.m_head :: (l1 ++ l2) ∧
          (PoolSize ≤ (s.2.qMEventNodeFactory ev).1 ↔
            s.2.m_freeNodes = 0 ∧ s.2.m_nodesRestored = 0) ∧
          ((s.2.qMEventNodeFactory ev).1 < PoolSize →
            (s.2.qMEventNodeFactory ev).1 = s.2.m_poolIndex % PoolSize ∧
            (s.2.qMEventNodeFactory ev).2.m_poolIndex = (s.2.qMEventNodeFactory ev).1 + 1) ∧
          ((s.2.qMEventNodeFactory ev).2.mem (s.2.qMEventNodeFactory ev).1).fromHeap =
            decide (PoolSize ≤ (s.2.qMEventNodeFactory ev).1) := by
  obtain ⟨s, l1, l2, h1, h2, -, h4⟩ :=
    applyOps_inv c ops (XcbEventQueue.new.m_head, XcbEventQueue.new) [] [] new_inv.1 new_inv.2
  refine ⟨rfl, ?_, s, l1, l2, h1, h2.wf, ?_, ?_, ?_⟩
  · refine h4.trans ?_
    apply List.map_congr_left
    intro i _
    show (1 + i) % PoolSize = (i + 1) % PoolSize
    rw [Nat.add_comm]
  · rw [poolCount_eq_poolSlots h2 _ (fun a ha => ha)]
    exact h2.count
  · intro a ha
    by_cases hlt : a < PoolSize
    · rw [h2.poolFromHeap a hlt]
      simp [Nat.not_le.2 hlt]
    · rw [h2.heapFromHeap a ha (Nat.le_of_not_lt hlt)]
      simp [Nat.le_of_not_lt hlt]
  · intro ev
    obtain ⟨f1, -, f3, -, -, -, -, -, -, -, -, f12, f13, -⟩ := factory_facts h2 ev
    exact ⟨f1, f12, f13, f3⟩

theorem takeFirst_dirty (q : XcbEventQueue) (r : xcb_generic_event_t) (q' : XcbEventQueue)
    (h : q.takeFirst = some (some r, q')) : q'.m_peekerIndexCacheDirty = true := by
  unfold takeFirst at h
  by_cases he : q.isEmpty = true
  · simp [he] at h
  · simp only [he, Bool.false_eq_true, if_false] at h
    cases hl : takeFirstLoop q.fuel q with
    | none => simp [hl] at h
    | some v =>
      simp only [hl, Option.some.injEq, Prod.mk.injEq] at h
      rw [← h.2]

/-- Cursors stay linked as long as no callback nests a `peekEventQueue`: every
sequence of the operations of `QueueOp`, whose callbacks do not touch the
queue or call `takeFirst()`, on a freshly constructed queue comes to an end in
a well-formed state in which, unless the cursor cache is marked dirty, every cursor that is
set refers to a node linked between `m_head` and `m_flushedTail`.  The two
mechanisms behind it: `takeFirst()` marks the cache dirty whenever it returns
a record, in any state; and when the cache is marked dirty, `peekEventQueue`
with a registered peeker id reads no stale cursor: whatever the option, it
scans all pending records from `m_head`, clears the dirty mark, and leaves
the cursor of every other peeker unset. -/
theorem cursors_linked_without_nesting (c : XcbConnection) (ops : List QueueOp) :
    (∀ (q : XcbEventQueue) (r : xcb_generic_event_t) (q' : XcbEventQueue),
      q.takeFirst = some (some r, q') → q'.m_peekerIndexCacheDirty = true) ∧
    ∃ s l1 l2, applyOps c (XcbEventQueue.new.m_head, XcbEventQueue.new) ops = some s ∧
      WF s.2 l1 l2 ∧
      (s.2.m_peekerIndexCacheDirty = false →
        ∀ (peekerId : Int) (n : Nat), (peekerId, some n) ∈ s.2.m_peekerToNode →
          n ∈ s.2.m_head :: l1) ∧
      (s.2.m_peekerIndexCacheDirty = true →
        ∀ (p : xcb_generic_event_t → Bool) (option : Nat) (peekerId : Int) (cur : Option Nat),
          peekerId ≠ -1 → s.2.m_peekerToNode.lookup peekerId = some cur →
          ∃ q', s.2.peekEventQueue (purePeeker p) option peekerId =
              some ((eventsOf s.2.mem (s.2.m_head :: (l1 ++ l2))).any p, q') ∧
            q'.m_peekerIndexCacheDirty = false ∧
            ∀ j, j ≠ peekerId → q'.m_peekerToNode.lookup j =
              (s.2.m_peekerToNode.lookup j).map (fun _ => none)) := by
  refine ⟨takeFirst_dirty, ?_⟩
  obtain ⟨s, l1, l2, h1, h2, h3, -⟩ :=
    applyOps_inv c ops (XcbEventQueue.new.m_head, XcbEventQueue.new) [] [] new_inv.1 new_inv.2
  refine ⟨s, l1, l2, h1, h2.wf, ?_, ?_⟩
  · intro hd peekerId n hmem
    exact h3 hd (peekerId, some n) hmem n rfl
  · intro hd p option peekerId cur hid hreg
    obtain ⟨q', g1, -, -, -, -, -, -, g8, g9, -⟩ :=
      peekEventQueue_id_head h2.wf p option peekerId hid cur hreg (Or.inr (Or.inl hd))
    refine ⟨q', g1, g8, ?_⟩
    intro j hj
    rw [g9 j hj, hd]
    simp

theorem reachable_samples :
    nodesHandedOut sampleConnection (XcbEventQueue.new.m_head, XcbEventQueue.new)
        [QueueOp.enqueueEvent (Expose 7), QueueOp.flushBufferedEvents, QueueOp.takeFirst,
          QueueOp.enqueueEvent (DeleteWindow 7), QueueOp.enqueueEvent (Motion 7)] = [1, 2, 3] ∧
      (applyOps sampleConnection (XcbEventQueue.new.m_head, XcbEventQueue.new)
        [QueueOp.generatePeekerId, QueueOp.enqueueEvent (Expose 7),
          QueueOp.peekEventQueue isMotion false PeekOption.PeekFromCachedIndex.toNat 0]).map
        (fun s => (s.2.m_peekerToNode.lookup 0, s.2.m_peekerIndexCacheDirty, s.2.m_head)) =
          some (some (some 1), false, 0) ∧
      (applyOps sampleConnection (XcbEventQueue.new.m_head, XcbEventQueue.new)
        [QueueOp.generatePeekerId, QueueOp.enqueueEvent (Expose 7),
          QueueOp.peekEventQueue isMotion false PeekOption.PeekFromCachedIndex.toNat 0,
          QueueOp.takeFirst]).map
        (fun s => (s.2.m_peekerToNode.lookup 0, s.2.m_peekerIndexCacheDirty, s.2.m_head)) =
          some (some (some 1), true, 1) := by
  decide

/-- C24, the code diverges: the peeker 0 scans a queue that holds Expose
records for the windows 7 and 8 and a pointer-motion record, with a callback
that accepts records of the window 8 and that, on a record of the window 7,
pumps events: it calls `takeFirst()`, which removes the first Expose record,
and then a nested `peekEventQueue` with the peeker id 1.  The nested call
clears `m_queueModified` and the dirty mark, so the outer scan goes on: it
invokes the callback on the next node, answers true, which the callback
answers on the second record only, writes the cursor of the peeker 0 to that
node, and leaves the cursor cache unmarked. -/
theorem C24_nested_peek_resumes_scan :
    ((scanState nestedQueue 0).takeFirst).map (fun r => r.1) = some (some (Expose 7)) ∧
      (fun e : xcb_generic_event_t => e.window == 8) (Expose 7) = false ∧
      (nestedQueue.peekEventQueue
          (nestedPeeker (fun e => e.window == 7) (fun e => e.window == 8) 1)
          PeekOption.PeekDefault.toNat 0).map
        (fun r => (r.1, r.2.m_peekerToNode.lookup 0, r.2.m_peekerIndexCacheDirty,
          r.2.m_queueModified, r.2.m_head)) =
        some (true, some (some 2), false, false, 2) := by
  decide

/-- C28, the code diverges: in the state `nestedScanQueue`, which public
operations reach from a freshly constructed queue, the cursor cache is not
marked dirty and the cursor of the peeker 0 is the node 1, which `takeFirst()`
has unlinked: the list has the nodes 2 and 3.  The callback of the scan called
`takeFirst()` and then a nested `peekEventQueue` with the peeker id 1, which
cleared `m_queueModified` and the dirty mark before the outer call wrote its
cursor. -/
theorem C28_nested_peek_stale_cursor :
    (nestedQueue.peekEventQueue (nestedPeeker (fun _ => true) (fun _ => true) 1)
        PeekOption.PeekDefault.toNat 0).map (fun r => r.1) = some true ∧
      nestedScanQueue.m_peekerIndexCacheDirty = false ∧
      nestedScanQueue.m_peekerToNode.lookup 0 = some (some 1) ∧
      nestedScanQueue.m_peekerToNode.lookup 1 = some (some 3) ∧
      nestedScanQueue.m_head = 2 ∧
      WF nestedScanQueue [3] [] ∧
      1 ∉ nestedScanQueue.m_head :: [3] ∧
      startNode nestedScanQueue PeekOption.PeekFromCachedIndex.toNat 0 =
        (nestedScanQueue.mem 1).next :=
  ⟨by decide, by decide, by decide, by decide, by decide,
    ⟨⟨rfl, rfl⟩, rfl, by decide, by decide⟩, by decide, by decide⟩

end XcbPump
